import Mathlib

/-!
# go-cdsl: flow executor

A shallow embedding of the flow execution engine (`pkg/execution`,
`pkg/context`, `pkg/concurrency`, `pkg/model`, `pkg/types`, `pkg/dsl`,
`pkg/registry`) and theorems about it.

Conventions of the embedding.

* Go `map[string]T` values are association lists (`GoMap`), looked up from the
  front; a missing key reads as the zero value at the call site.
* Pointers to the context and the runtime are replaced by explicit state
  passing: a DSL element is a function on `Mem`, the pair of the context and
  the runtime it is handed. A task is called without arguments and is given by
  what its `RunTask` returns.
* The collaborators behind interfaces (lock provider, context repository) are
  records of functions over an abstract state; the calls the executor makes on
  them and on the auditor are recorded, in order, in a trace of `Event`s.
* A Go panic is an explicit outcome; the step loop takes fuel, and running out
  of fuel is an outcome of its own.
-/

namespace Cdsl

/-! ## Go maps -/

/-- Go `map[string]α` as an association list. -/
abbrev GoMap (α : Type) := List (String × α)

namespace GoMap

/-- The value stored under `k`, if any (`v, ok := m[k]`). -/
def get? {α : Type} : GoMap α → String → Option α
  | [], _ => none
  | (k', v) :: rest, k => if k' = k then some v else get? rest k

/-- Assignment `m[k] = v`: overwrite the binding of `k` or add one. -/
def put {α : Type} : GoMap α → String → α → GoMap α
  | [], k, v => [(k, v)]
  | (k', v') :: rest, k, v => if k' = k then (k, v) :: rest else (k', v') :: put rest k v

/-- Builtin `delete(m, k)`. -/
def erase {α : Type} : GoMap α → String → GoMap α
  | [], _ => []
  | (k', v') :: rest, k => if k' = k then erase rest k else (k', v') :: erase rest k

end GoMap

/-! ## Errors (`pkg/exceptions`, `pkg/types/cdsl_error.go`, `pkg/concurrency`) -/

/-- The error values that occur in the engine. -/
inductive GoError
  /-- The value `exceptions.NewCdslError(message, nil)`. -/
  | cdslError (message : String)
  /-- The value `&types.CdslError` with the given `Message`. -/
  | typesCdslError (message : String)
  /-- The value `concurrency.NewLockRejectedException(resource, owner, message)`. -/
  | lockRejected (resource owner message : String)
  /-- The values of `errors.New(message)` and of `fmt.Errorf`. -/
  | errorsNew (message : String)
  deriving DecidableEq, Repr

/-- The `Error()` method. -/
def GoError.Error : GoError → String
  | .cdslError m => m
  | .typesCdslError m => m
  | .lockRejected r o m => "Lock rejected for resource " ++ r ++ " by owner " ++ o ++ ": " ++ m
  | .errorsNew m => m

/-! ## Attribute models (`interface{}` values handed to DSL elements) -/

/-- The dynamic values that occur as element models. -/
inductive Value
  /-- the nil interface -/
  | null
  /-- a Go string -/
  | str (s : String)
  /-- A `map[string]interface` value. -/
  | map (kvs : List (String × Value))
  /-- A `*dsl.MapModel` with the given `Properties`. -/
  | mapModel (props : List (String × Value))
  /-- a value `encoding/json` refuses to marshal (a func, a channel) -/
  | unsupported (tag : String)

mutual
/-- Whether `json.Marshal` succeeds on the value. -/
def Value.marshals : Value → Bool
  | .null => true
  | .str _ => true
  | .map kvs => Value.marshalsAll kvs
  | .mapModel props => Value.marshalsAll props
  | .unsupported _ => false
/-- Whether `json.Marshal` succeeds on every entry. -/
def Value.marshalsAll : List (String × Value) → Bool
  | [] => true
  | (_, v) :: rest => Value.marshals v && Value.marshalsAll rest
end

mutual
/-- The value `json.Unmarshal(json.Marshal(v), &result)` leaves in `result`,
for a value that marshals: a struct pointer comes back as a plain map keyed
by its field names. -/
def Value.roundTrip : Value → Value
  | .null => .null
  | .str s => .str s
  | .map kvs => .map (Value.roundTripAll kvs)
  | .mapModel props => .map [("Properties", .map (Value.roundTripAll props))]
  | .unsupported t => .unsupported t
/-- Entry-wise round trip. -/
def Value.roundTripAll : List (String × Value) → List (String × Value)
  | [] => []
  | (k, v) :: rest => (k, Value.roundTrip v) :: Value.roundTripAll rest
end

/-- The method `FlowExecutor.intersectModel`: deep copy through JSON, falling back to the
source when marshalling fails. -/
def intersectModel (src : Value) : Value :=
  match src with
  | .null => .null
  | _ => if src.marshals then src.roundTrip else src

/-! ## Events and outputs (`pkg/types/types.go`) -/

/-- The type `types.Action`, a string. -/
abbrev Action := String

def ActionRoute : Action := "Route"
def ActionAwait : Action := "Await"
def ActionEnd : Action := "End"
def ActionReject : Action := "Reject"

/-- The struct `types.CdslInputEvent`. -/
structure CdslInputEvent where
  ContextID : String := ""
  RequestedStep : String := ""
  Payload : GoMap Value := []

/-- The struct `types.CdslOutputEvent`. -/
structure CdslOutputEvent where
  Action : Action := ""
  NextRoute : String := ""
  Payload : GoMap Value := []

/-- The struct `types.CdslFlowOutputEvent`; an output value is represented by
its `Value` field. -/
structure CdslFlowOutputEvent where
  ContextID : String := ""
  ContextState : String := ""
  OutputValues : GoMap Value := []
  Action : Action := ""
  NextRoute : String := ""
  Payload : GoMap Value := []

/-- The constructor `types.NewCdslFlowOutputEvent`. -/
def NewCdslFlowOutputEvent : CdslFlowOutputEvent := {}

/-- The method `CdslFlowOutputEvent.With`. -/
def CdslFlowOutputEvent.With (e : CdslFlowOutputEvent) (output : Option CdslOutputEvent) :
    CdslFlowOutputEvent :=
  match output with
  | some o => { e with Action := o.Action, NextRoute := o.NextRoute, Payload := o.Payload }
  | none => e

/-- The struct `types.DslMetadata`. -/
structure DslMetadata where
  Name : String
  Model : Value

/-! ## Flows (`pkg/model/flow.go`) -/

/-- The struct `model.FlowStep`. -/
structure FlowStep where
  ID : String
  LogicElements : List DslMetadata := []
  FinalElements : List DslMetadata := []

/-- The struct `model.Flow`. -/
structure Flow where
  ID : String
  DefaultStep : String
  ErrorStep : String
  Steps : GoMap FlowStep

/-- The method `Flow.FetchStep`: the step stored under `id`, nil when absent. -/
def Flow.FetchStep (f : Flow) (id : String) : Option FlowStep := GoMap.get? f.Steps id

/-- The method `Flow.PutStep`. -/
def Flow.PutStep (f : Flow) (id : String) (step : FlowStep) : Flow :=
  { f with Steps := GoMap.put f.Steps id step }

/-! ## Context and runtime (`pkg/context`) -/

/-- The type `context.State`, a string. -/
abbrev State := String

def StateUndefined : State := "Undefined"
def StateAlive : State := "Alive"
def StateAwait : State := "Await"
def StateEnd : State := "End"
def StateError : State := "Error"

def MaxTransitionsHistory : Nat := 1000

/-- The struct `context.CdslContext`. The `runtime` back-reference is kept as
the flag "a runtime is attached"; the runtime itself travels next to the
context in `Mem`. -/
structure CdslContext where
  runtime : Bool := false
  ID : String := ""
  State : State := StateUndefined
  CurrentFlow : String := ""
  CurrentStep : String := ""
  TransientVars : GoMap Value := []
  Vars : GoMap String := []
  Transitions : List String := []

/-- The constructor `context.NewCdslContext`. -/
def NewCdslContext : CdslContext := {}

/-- The method `CdslContext.PushTransition`: append, then drop the oldest entry
when the history is longer than `MaxTransitionsHistory`. -/
def CdslContext.PushTransition (c : CdslContext) (s : String) : CdslContext :=
  let ts := c.Transitions ++ [s]
  { c with Transitions := if ts.length > MaxTransitionsHistory then ts.drop 1 else ts }

/-- The method `CdslContext.SetRuntime` with a non-nil runtime. -/
def CdslContext.SetRuntime (c : CdslContext) : CdslContext := { c with runtime := true }

/-- The method `CdslContext.GetVar`. -/
def CdslContext.GetVar (c : CdslContext) (name : String) : String :=
  (GoMap.get? c.Vars name).getD ""

/-- A task handed to `AddPostStepTask` or `AddPostCommitTask`, named by a
number; what running it does is given by the executor's `RunTask`. -/
abbrev TaskId := Nat

/-- The struct `context.CdslRuntime`. The auditor is the trace. -/
structure CdslRuntime where
  transactionID : String := ""
  postCommitTasks : List TaskId := []
  postStepTasks : List TaskId := []
  outputValues : GoMap Value := []

/-- The constructor `context.NewCdslRuntime`. -/
def NewCdslRuntime : CdslRuntime := {}

def CdslRuntime.SetTransactionID (r : CdslRuntime) (id : String) : CdslRuntime :=
  { r with transactionID := id }

def CdslRuntime.GetTransactionID (r : CdslRuntime) : String := r.transactionID

def CdslRuntime.AddPostCommitTask (r : CdslRuntime) (task : TaskId) : CdslRuntime :=
  { r with postCommitTasks := r.postCommitTasks ++ [task] }

def CdslRuntime.GetPostCommitTasks (r : CdslRuntime) : List TaskId := r.postCommitTasks

def CdslRuntime.ClearPostCommitTasks (r : CdslRuntime) : CdslRuntime :=
  { r with postCommitTasks := [] }

def CdslRuntime.AddPostStepTask (r : CdslRuntime) (task : TaskId) : CdslRuntime :=
  { r with postStepTasks := r.postStepTasks ++ [task] }

def CdslRuntime.GetPostStepTasks (r : CdslRuntime) : List TaskId := r.postStepTasks

def CdslRuntime.ClearPostStepTasks (r : CdslRuntime) : CdslRuntime :=
  { r with postStepTasks := [] }

def CdslRuntime.AddOutputValue (r : CdslRuntime) (key : String) (value : Value) : CdslRuntime :=
  { r with outputValues := GoMap.put r.outputValues key value }

def CdslRuntime.GetOutputValueMap (r : CdslRuntime) : GoMap Value := r.outputValues

/-- A call on the `CdslContextAuditor` interface (the context argument is
left out). -/
inductive AuditCall
  | SetVar (key newValue oldValue : String)
  | Transition (flowID stepID : String)
  | Execute (flowID stepID dslName : String)
  | ExecutePostStep (flowID stepID : String) (task : TaskId)
  | ExecutePostCommit (flowID : String) (task : TaskId)
  | Error (flowID stepID dslName : String) (err : GoError)
  deriving DecidableEq, Repr

/-- What code running inside `Execute` can reach: the context and its
runtime. -/
structure Mem where
  ctx : CdslContext
  runtime : CdslRuntime

/-- The method `CdslContext.PutVar`: the error when no runtime is attached,
otherwise one `SetVar` audit call with the old value and the assignment. -/
def CdslContext.PutVar (c : CdslContext) (key value : String) :
    Option GoError × CdslContext × List AuditCall :=
  if c.runtime = false then
    (some (.errorsNew "CdslRuntime not present"), c, [])
  else
    let oldValue := (GoMap.get? c.Vars key).getD ""
    (none, { c with Vars := GoMap.put c.Vars key value }, [.SetVar key value oldValue])

/-! ## Locks (`pkg/concurrency/lock.go`) -/

/-- The struct `concurrency.Lock`; instants are natural numbers. -/
structure Lock where
  ID : String
  Resource : String
  Owner : String
  ExpiresAt : Nat
  deriving DecidableEq, Repr

/-- The interface `concurrency.LockProvider` over a provider state `σ`:
`Obtain` returns a lock or an error, `Release` returns an error or nil. -/
structure LockProvider (σ : Type) where
  Obtain : σ → (owner resource : String) → (duration : Nat) → (retries : Int) →
    (retryMaxDuration : Nat) → Except GoError Lock × σ
  Release : σ → Lock → Option GoError × σ

/-- State of `LockProviderUnitTestSupport`: the lock map and the reading of the
clock. -/
structure TestLocks where
  locks : GoMap Lock := []
  now : Nat := 0

/-- The method `Lock.IsExpired` at clock reading `now`. -/
def Lock.IsExpired (l : Lock) (now : Nat) : Bool := decide (now > l.ExpiresAt)

/-- The constructor `concurrency.NewLock` at clock reading `now`. -/
def NewLock (id resource owner : String) (duration now : Nat) : Lock :=
  { ID := id, Resource := resource, Owner := owner, ExpiresAt := now + duration }

/-- The type `LockProviderUnitTestSupport`. -/
def LockProviderUnitTestSupport : LockProvider TestLocks where
  Obtain := fun p owner resource duration _ _ =>
    match GoMap.get? p.locks resource with
    | some lock =>
      if !lock.IsExpired p.now then
        (.error (.lockRejected resource owner "Resource is already locked"), p)
      else
        let lock := NewLock resource resource owner duration p.now
        (.ok lock, { p with locks := GoMap.put p.locks resource lock })
    | none =>
      let lock := NewLock resource resource owner duration p.now
      (.ok lock, { p with locks := GoMap.put p.locks resource lock })
  Release := fun p lock => (none, { p with locks := GoMap.erase p.locks lock.Resource })

/-! ## Context repository (`pkg/context/cdsl_context_repository.go`) -/

/-- The interface `context.CdslContextRepository` over a repository state `ρ`;
`GetContext` may return a nil context together with a nil error. -/
structure CdslContextRepository (ρ : Type) where
  SaveContext : ρ → (transactionID : String) → CdslContext → Option GoError × ρ
  GetContext : ρ → (transactionID contextID : String) → Except GoError (Option CdslContext) × ρ

/-- The type `CdslContextRepositoryUnitTestSupport`: a map from id to context.
The Go map holds pointers, so the stored context is the live object; here the
stored value is the context as of the last `SaveContext`. -/
def CdslContextRepositoryUnitTestSupport : CdslContextRepository (GoMap CdslContext) where
  SaveContext := fun r _ ctx => (none, GoMap.put r ctx.ID ctx)
  GetContext := fun r _ contextID => (.ok (GoMap.get? r contextID), r)

/-! ## DSL elements (`pkg/dsl/dsl.go`) and tasks -/

/-- What a call of `Dsl.Execute` hands back: the pair `(output, err)`, or a
panic. -/
inductive DslReturn
  | ret (output : Option CdslOutputEvent) (err : Option GoError)
  | panic (v : String)

/-- The effect of one `Dsl.Execute` call: what it returns, the context and
runtime it leaves, and the auditor calls it made (through `PutVar`). -/
structure DslEffect where
  result : DslReturn
  mem : Mem
  audit : List AuditCall := []

/-- The interface `dsl.Dsl`: `Execute(runtime, ctx, model, input)`. -/
abbrev Dsl := Mem → Value → CdslInputEvent → DslEffect

/-- What a call `task.RunTask()` does: it returns nil, returns an error, or
panics. `RunTask` takes no argument, and the embedding gives a task no access
to the context or the runtime. -/
inductive TaskResult
  | ok
  | error (e : GoError)
  | panic (v : String)

/-! ## The executor (`pkg/execution/flow_executor.go`) -/

/-- One observable action of `Execute`, in program order. -/
inductive Event
  /-- A call `LockProvider.Obtain(owner, resource, ...)` and the lock it gave, if any. -/
  | obtain (owner resource : String) (lock : Option Lock)
  /-- A call `LockProvider.Release(lock)`. -/
  | release (lock : Lock)
  /-- A call `ContextRepository.SaveContext(transactionID, ctx)`. -/
  | saveContext (transactionID : String) (ctx : CdslContext)
  /-- A call `ContextRepository.GetContext(transactionID, contextID)`. -/
  | getContext (transactionID contextID : String)
  /-- A call the executor makes on the auditor. -/
  | audit (call : AuditCall)
  /-- A call `dslInstance.Execute(runtime, ctx, model, inputEvent)` of the element `name`. -/
  | dslExecute (name : String) (model : Value)
  /-- An auditor call made from inside a DSL element (through `PutVar`). -/
  | innerAudit (call : AuditCall)
  /-- A call `task.RunTask()`. -/
  | runTask (task : TaskId)

/-- Lock and repository state. -/
structure World (σ ρ : Type) where
  locks : σ
  repo : ρ

/-- The struct `FlowExecutor`: the collaborators and the lock settings.
`RunTask` gives the behaviour of the task objects DSL elements register. -/
structure FlowExecutor (σ ρ : Type) where
  DslInitHelper : DslMetadata → Option Dsl
  LockProvider : LockProvider σ
  ContextRepository : CdslContextRepository ρ
  RunTask : TaskId → TaskResult
  LockRetries : Int
  LockDuration : Nat
  LockRetryMaxDuration : Nat
  MyIdentifier : String

/-- State carried around the step loop: context and runtime, the trace so
far, and the variable `outputEvent`. -/
structure LoopState where
  mem : Mem
  trace : List Event
  outputEvent : Option CdslFlowOutputEvent := none

/-- The method `FlowExecutor.obtainOutputs`: run the elements in order until one
fails to resolve, returns an error, returns an output, or panics. -/
def obtainOutputs (resolve : DslMetadata → Option Dsl) (inputEvent : CdslInputEvent)
    (flow : Flow) (step : FlowStep) :
    List DslMetadata → Mem → List Event → DslReturn × Mem × List Event
  | [], m, tr => (.ret none none, m, tr)
  | dslMeta :: rest, m, tr =>
    let tr1 := tr ++ [Event.audit (.Execute flow.ID step.ID dslMeta.Name)]
    match resolve dslMeta with
    | none => (.ret none (some (.cdslError ("Failed to resolve DSL " ++ dslMeta.Name))), m, tr1)
    | some dslInstance =>
      let model := intersectModel dslMeta.Model
      let eff := dslInstance m model inputEvent
      let tr2 := tr1 ++ [Event.dslExecute dslMeta.Name model] ++ eff.audit.map Event.innerAudit
      match eff.result with
      | .panic v => (.panic v, eff.mem, tr2)
      | .ret _ (some err) => (.ret none (some err), eff.mem, tr2)
      | .ret (some output) none => (.ret (some output) none, eff.mem, tr2)
      | .ret none none => obtainOutputs resolve inputEvent flow step rest eff.mem tr2

/-- The post-step task loop of `Execute`: every task of the list is announced
to the auditor and run; a panic is recovered and audited as an error. -/
def runPostStepTasks (runTask : TaskId → TaskResult) (flow : Flow) (step : FlowStep) :
    List TaskId → List Event → List Event
  | [], tr => tr
  | task :: rest, tr =>
    let tr1 := tr ++ [Event.audit (.ExecutePostStep flow.ID step.ID task), Event.runTask task]
    match runTask task with
    | .panic v =>
      runPostStepTasks runTask flow step rest
        (tr1 ++ [Event.audit (.Error flow.ID step.ID ""
          (.errorsNew ("panic in post step task: " ++ v)))])
    | _ => runPostStepTasks runTask flow step rest tr1

/-- The post-commit task loop of `Execute`: every task is announced to the
auditor and run; a panic is recovered and dropped. -/
def runPostCommitTasks (flow : Flow) : List TaskId → List Event → List Event
  | [], tr => tr
  | task :: rest, tr =>
    runPostCommitTasks flow rest
      (tr ++ [Event.audit (.ExecutePostCommit flow.ID task), Event.runTask task])

/-- How one pass through the body of the step loop ends. -/
inductive Iter
  /-- The body ran to its end or hit `continue`, with this value of `nextStep`. -/
  | next (nextStep : Option FlowStep) (s : LoopState)
  /-- The closure returned `nil, err`. -/
  | fail (err : GoError) (s : LoopState)
  /-- A DSL element panicked. -/
  | panic (v : String) (s : LoopState)

/-- The head of the loop body: the step becomes the current step, its
`flowId/stepId` is pushed on the transition history and the transition is
audited. -/
def enterStep (flow : Flow) (step : FlowStep) (s : LoopState) : LoopState :=
  { s with
    mem := { s.mem with
      ctx := ({ s.mem.ctx with CurrentStep := step.ID }).PushTransition (flow.ID ++ "/" ++ step.ID) },
    trace := s.trace ++ [Event.audit (.Transition flow.ID step.ID)] }

/-- What the two `obtainOutputs` calls of the loop body give. -/
inductive Ran
  /-- Both lists ran without error, with these outputs. -/
  | outputs (generalOutput finalOutput : Option CdslOutputEvent) (s : LoopState)
  /-- An element of the logic list, or else of the final list, gave this error. -/
  | failed (err : GoError) (s : LoopState)
  /-- An element panicked. -/
  | panicked (v : String) (s : LoopState)

/-- The two `obtainOutputs` calls of the loop body: the logic elements, then
(when those gave no error) the final elements. -/
def runElements (resolve : DslMetadata → Option Dsl) (flow : Flow) (inputEvent : CdslInputEvent)
    (step : FlowStep) (s : LoopState) : Ran :=
  match obtainOutputs resolve inputEvent flow step step.LogicElements s.mem s.trace with
  | (.panic v, m1, tr1) => .panicked v { s with mem := m1, trace := tr1 }
  | (.ret _ (some err), m1, tr1) => .failed err { s with mem := m1, trace := tr1 }
  | (.ret generalOutput none, m1, tr1) =>
    match obtainOutputs resolve inputEvent flow step step.FinalElements m1 tr1 with
    | (.panic v, m2, tr2) => .panicked v { s with mem := m2, trace := tr2 }
    | (.ret _ (some err), m2, tr2) => .failed err { s with mem := m2, trace := tr2 }
    | (.ret finalOutput none, m2, tr2) =>
      .outputs generalOutput finalOutput { s with mem := m2, trace := tr2 }

/-- The `if err != nil` block after an `obtainOutputs` call: divert to the
error step when the flow names one, else return the error. -/
def divert (flow : Flow) (step : FlowStep) (err : GoError) (s : LoopState) : Iter :=
  if flow.ErrorStep ≠ "" then
    .next (flow.FetchStep flow.ErrorStep)
      { s with trace := s.trace ++ [Event.audit (.Error flow.ID step.ID "" err)] }
  else
    .fail err s

/-- The block "Determine result": the final output if there is one, else the
general output. -/
def chooseResult (generalOutput finalOutput : Option CdslOutputEvent) : Option CdslOutputEvent :=
  match finalOutput with
  | some f => some f
  | none => generalOutput

/-- The block "Execute post step tasks": run the tasks registered so far, then
clear the list. -/
def drainPostStepTasks (runTask : TaskId → TaskResult) (flow : Flow) (step : FlowStep)
    (s : LoopState) : LoopState :=
  { s with
    mem := { s.mem with runtime := s.mem.runtime.ClearPostStepTasks },
    trace := runPostStepTasks runTask flow step s.mem.runtime.GetPostStepTasks s.trace }

/-- The `if result != nil` block of the loop body: apply the action of the
result and remember the result as the output event. -/
def applyResult (flow : Flow) (result : Option CdslOutputEvent) (s : LoopState) : Iter :=
  match result with
  | none => .next none s
  | some r =>
    if r.Action = ActionRoute then
      let s1 := { s with mem := { s.mem with ctx := { s.mem.ctx with CurrentStep := r.NextRoute } } }
      match flow.FetchStep r.NextRoute with
      | none => .fail (.cdslError ("Invalid Route " ++ r.NextRoute)) s1
      | some nextStep =>
        .next (some nextStep) { s1 with outputEvent := some (NewCdslFlowOutputEvent.With (some r)) }
    else if r.Action = ActionAwait then
      .next none { s with
        mem := { s.mem with ctx := { s.mem.ctx with State := StateAwait, CurrentStep := r.NextRoute } },
        outputEvent := some (NewCdslFlowOutputEvent.With (some r)) }
    else if r.Action = ActionEnd then
      .next none { s with
        mem := { s.mem with ctx := { s.mem.ctx with State := StateEnd } },
        outputEvent := some (NewCdslFlowOutputEvent.With (some r)) }
    else
      .next none { s with outputEvent := some (NewCdslFlowOutputEvent.With (some r)) }

/-- One pass through the body of `for nextStep != nil` with `nextStep = step`. -/
def iterate {σ ρ : Type} (e : FlowExecutor σ ρ) (flow : Flow) (inputEvent : CdslInputEvent)
    (step : FlowStep) (s : LoopState) : Iter :=
  match runElements e.DslInitHelper flow inputEvent step (enterStep flow step s) with
  | .panicked v s1 => .panic v s1
  | .failed err s1 => divert flow step err s1
  | .outputs generalOutput finalOutput s2 =>
    applyResult flow (chooseResult generalOutput finalOutput)
      (drainPostStepTasks e.RunTask flow step s2)

/-- How the step loop ends. -/
inductive LoopExit
  /-- The loop ended with `nextStep == nil`. -/
  | done (s : LoopState)
  /-- The closure returned `nil, err` from inside the loop. -/
  | fail (err : GoError) (s : LoopState)
  /-- A DSL element panicked. -/
  | panic (v : String) (s : LoopState)
  /-- The fuel ran out with a step still to enter. -/
  | outOfFuel (s : LoopState)

/-- The loop `for nextStep != nil`, at most `fuel` passes. -/
def stepLoop {σ ρ : Type} (e : FlowExecutor σ ρ) (flow : Flow) (inputEvent : CdslInputEvent) :
    Nat → Option FlowStep → LoopState → LoopExit
  | _, none, s => .done s
  | 0, some _, s => .outOfFuel s
  | fuel + 1, some step, s =>
    match iterate e flow inputEvent step s with
    | .next nextStep s1 => stepLoop e flow inputEvent fuel nextStep s1
    | .fail err s1 => .fail err s1
    | .panic v s1 => .panic v s1

/-- How `Execute` ends: it returns an output event, returns an error, panics,
or (in the embedding) is cut off by the fuel of the step loop. -/
inductive Outcome
  | ret (out : CdslFlowOutputEvent)
  | err (e : GoError)
  | panic (v : String)
  | outOfFuel

/-- Everything observable after a call of `Execute`. -/
structure ExecResult (σ ρ : Type) where
  outcome : Outcome
  world : World σ ρ
  trace : List Event
  /-- the context object the call worked on, if it got one -/
  ctx : Option CdslContext

/-- How the first block of the closure (create or load the context) ends. -/
inductive Acquired (σ ρ : Type)
  /-- The lock is held and the context is loaded. -/
  | ready (lock : Lock) (ctx : CdslContext) (w : World σ ρ) (tr : List Event)
  /-- The closure returned `nil, err`; `lock` is the value of the variable `lock`. -/
  | fail (lock : Option Lock) (err : GoError) (w : World σ ρ) (tr : List Event)
  /-- The repository returned a nil context and the closure dereferenced it. -/
  | panic (v : String) (w : World σ ρ) (tr : List Event)

def nilDereference : String := "runtime error: invalid memory address or nil pointer dereference"

/-- The block "Create or load context" of `Execute`; `newID` is the value of
`uuid.New().String()`. -/
def acquire {σ ρ : Type} (e : FlowExecutor σ ρ) (newID : String) (inputEvent : CdslInputEvent)
    (w : World σ ρ) : Acquired σ ρ :=
  if inputEvent.ContextID = "" then
    let ctx : CdslContext := { NewCdslContext with ID := newID }
    let resource := "context/" ++ ctx.ID
    match e.LockProvider.Obtain w.locks e.MyIdentifier resource e.LockDuration e.LockRetries
      e.LockRetryMaxDuration with
    | (.error err, l1) =>
      .fail none err { w with locks := l1 } [Event.obtain e.MyIdentifier resource none]
    | (.ok lock, l1) =>
      let tr1 := [Event.obtain e.MyIdentifier resource (some lock), Event.saveContext lock.ID ctx]
      match e.ContextRepository.SaveContext w.repo lock.ID ctx with
      | (some err, r1) => .fail (some lock) err { locks := l1, repo := r1 } tr1
      | (none, r1) =>
        let tr2 := tr1 ++ [Event.getContext lock.ID ctx.ID]
        match e.ContextRepository.GetContext r1 lock.ID ctx.ID with
        | (.error err, r2) => .fail (some lock) err { locks := l1, repo := r2 } tr2
        | (.ok none, r2) => .panic nilDereference { locks := l1, repo := r2 } tr2
        | (.ok (some ctx), r2) => .ready lock ctx { locks := l1, repo := r2 } tr2
  else
    let resource := "context/" ++ inputEvent.ContextID
    match e.LockProvider.Obtain w.locks e.MyIdentifier resource e.LockDuration e.LockRetries
      e.LockRetryMaxDuration with
    | (.error err, l1) =>
      .fail none err { w with locks := l1 } [Event.obtain e.MyIdentifier resource none]
    | (.ok lock, l1) =>
      let tr1 := [Event.obtain e.MyIdentifier resource (some lock),
        Event.getContext lock.ID inputEvent.ContextID]
      match e.ContextRepository.GetContext w.repo lock.ID inputEvent.ContextID with
      | (.error err, r1) => .fail (some lock) err { locks := l1, repo := r1 } tr1
      | (.ok none, r1) => .panic nilDereference { locks := l1, repo := r1 } tr1
      | (.ok (some ctx), r1) =>
        if ctx.State = StateEnd then
          .fail (some lock) (.cdslError ("State of " ++ ctx.ID ++ " is End"))
            { locks := l1, repo := r1 } tr1
        else
          .ready lock ctx { locks := l1, repo := r1 } tr1

/-- The blocks "Get or determine current step" and "Get the step" of `Execute`:
default the current step, attach a fresh runtime stamped with the lock id, and
pick the step to enter first. -/
def selectStep (flow : Flow) (inputEvent : CdslInputEvent) (lock : Lock) (ctx : CdslContext) :
    Mem × Except GoError (Option FlowStep) :=
  let ctx := if ctx.CurrentStep = "" then { ctx with CurrentStep := flow.DefaultStep } else ctx
  let runtime := NewCdslRuntime.SetTransactionID lock.ID
  let ctx := ctx.SetRuntime
  let nextStep := flow.FetchStep ctx.CurrentStep
  if inputEvent.RequestedStep ≠ "" then
    match flow.FetchStep inputEvent.RequestedStep with
    | none =>
      ({ ctx := ctx, runtime := runtime },
        .error (.cdslError ("Requested step " ++ inputEvent.RequestedStep ++ " was not found")))
    | some step =>
      ({ ctx := { ctx with CurrentStep := inputEvent.RequestedStep }, runtime := runtime },
        .ok (some step))
  else
    ({ ctx := ctx, runtime := runtime }, .ok nextStep)

/-- The statements after the closure: release the lock if the variable `lock`
is still set, then return what the closure returned. -/
def ensureReleased {σ ρ : Type} (e : FlowExecutor σ ρ) (lock : Option Lock) (outcome : Outcome)
    (w : World σ ρ) (tr : List Event) (ctx : Option CdslContext) : ExecResult σ ρ :=
  match lock with
  | none => { outcome := outcome, world := w, trace := tr, ctx := ctx }
  | some l =>
    { outcome := outcome, world := { w with locks := (e.LockProvider.Release w.locks l).2 },
      trace := tr ++ [Event.release l], ctx := ctx }

/-- The loop "Copy all variables from context to output": each variable is
written over the output values as a string value. The fold runs from the
right, so the binding `GoMap.get?` reads is the one written last. -/
def copyVars (vars : GoMap String) (outputValues : GoMap Value) : GoMap Value :=
  vars.foldr (fun kv acc => GoMap.put acc kv.1 (Value.str kv.2)) outputValues

/-- The block "Output something" of `Execute`. -/
def buildOutput (outputEvent : Option CdslFlowOutputEvent) (m : Mem) : CdslFlowOutputEvent :=
  let out := outputEvent.getD NewCdslFlowOutputEvent
  { out with
    ContextID := m.ctx.ID,
    ContextState := m.ctx.State,
    OutputValues := copyVars m.ctx.Vars m.runtime.GetOutputValueMap }

/-- The tail of the closure after the step loop: save the context, release
the lock, run the post-commit tasks, build the output; then the statements
after the closure. -/
def commit {σ ρ : Type} (e : FlowExecutor σ ρ) (flow : Flow) (lock : Lock) (w : World σ ρ)
    (s : LoopState) : ExecResult σ ρ :=
  let tr1 := s.trace ++ [Event.saveContext s.mem.runtime.GetTransactionID s.mem.ctx]
  match e.ContextRepository.SaveContext w.repo s.mem.runtime.GetTransactionID s.mem.ctx with
  | (some err, r1) => ensureReleased e (some lock) (.err err) { w with repo := r1 } tr1 (some s.mem.ctx)
  | (none, r1) =>
    let tr2 := tr1 ++ [Event.release lock]
    match e.LockProvider.Release w.locks lock with
    | (some err, l1) =>
      ensureReleased e (some lock) (.err err) { locks := l1, repo := r1 } tr2 (some s.mem.ctx)
    | (none, l1) =>
      let tr3 := runPostCommitTasks flow s.mem.runtime.GetPostCommitTasks tr2
      let m := { s.mem with runtime := s.mem.runtime.ClearPostCommitTasks }
      ensureReleased e none (.ret (buildOutput s.outputEvent m)) { locks := l1, repo := r1 } tr3
        (some m.ctx)

/-- How the closure ends once the step loop is over. -/
def finish {σ ρ : Type} (e : FlowExecutor σ ρ) (flow : Flow) (lock : Lock) (w : World σ ρ) :
    LoopExit → ExecResult σ ρ
  | .done s => commit e flow lock w s
  | .fail err s => ensureReleased e (some lock) (.err err) w s.trace (some s.mem.ctx)
  | .panic v s => { outcome := .panic v, world := w, trace := s.trace, ctx := some s.mem.ctx }
  | .outOfFuel s => { outcome := .outOfFuel, world := w, trace := s.trace, ctx := some s.mem.ctx }

/-- The method `FlowExecutor.Execute` for a non-nil flow. `fuel` bounds the
number of passes of the step loop and `newID` is the identifier minted for a
new context. -/
def Execute {σ ρ : Type} (e : FlowExecutor σ ρ) (fuel : Nat) (newID : String) (flow : Flow)
    (inputEvent : CdslInputEvent) (w : World σ ρ) : ExecResult σ ρ :=
  match acquire e newID inputEvent w with
  | .fail lock err w1 tr => ensureReleased e lock (.err err) w1 tr none
  | .panic v w1 tr => { outcome := .panic v, world := w1, trace := tr, ctx := none }
  | .ready lock ctx w1 tr =>
    match selectStep flow inputEvent lock ctx with
    | (m, .error err) => ensureReleased e (some lock) (.err err) w1 tr (some m.ctx)
    | (m, .ok nextStep) =>
      finish e flow lock w1 (stepLoop e flow inputEvent fuel nextStep { mem := m, trace := tr })

/-- The loop state after `k` full passes through the loop body, when none of
them left the closure. -/
def runIters {σ ρ : Type} (e : FlowExecutor σ ρ) (flow : Flow) (inputEvent : CdslInputEvent) :
    Nat → Option FlowStep → LoopState → Option (Option FlowStep × LoopState)
  | 0, nextStep, s => some (nextStep, s)
  | _ + 1, none, _ => none
  | k + 1, some step, s =>
    match iterate e flow inputEvent step s with
    | .next nextStep s1 => runIters e flow inputEvent k nextStep s1
    | _ => none

/-- A point of a call of `Execute` at the head of the step loop. -/
structure LoopHead (σ ρ : Type) where
  lock : Lock
  world : World σ ρ
  nextStep : Option FlowStep
  state : LoopState

/-- The head of the step loop that `Execute` reaches after `k` passes, if it
gets that far. -/
def loopHead {σ ρ : Type} (e : FlowExecutor σ ρ) (newID : String) (flow : Flow)
    (inputEvent : CdslInputEvent) (w : World σ ρ) (k : Nat) : Option (LoopHead σ ρ) :=
  match acquire e newID inputEvent w with
  | .ready lock ctx w1 tr =>
    match selectStep flow inputEvent lock ctx with
    | (m, .ok nextStep) =>
      match runIters e flow inputEvent k nextStep { mem := m, trace := tr } with
      | some (nextStep, s) => some { lock := lock, world := w1, nextStep := nextStep, state := s }
      | none => none
    | _ => none
  | _ => none

/-! ## The DSL factory map (`pkg/registry/dsl_initialisation_helper.go`) -/

/-- The struct `registry.DslInitialisationHelper`: the factory map. -/
abbrev DslInitialisationHelper := GoMap Dsl

/-- The constructor `registry.NewDslInitialisationHelper`. -/
def NewDslInitialisationHelper : DslInitialisationHelper := []

/-- The method `DslInitialisationHelper.RegisterDsl`. -/
def DslInitialisationHelper.RegisterDsl (h : DslInitialisationHelper) (name : String)
    (factory : Dsl) : DslInitialisationHelper :=
  GoMap.put h name factory

/-- The method `DslInitialisationHelper.Resolve`: nil for an unknown name. -/
def DslInitialisationHelper.Resolve (h : DslInitialisationHelper) (metadata : DslMetadata) :
    Option Dsl :=
  GoMap.get? h metadata.Name

/-! ## Reference DSL elements (`pkg/dsl`) -/

/-- The type assertion `v.(string)`. -/
def Value.asString? : Value → Option String
  | .str s => some s
  | _ => none

/-- The type assertion `v.(map[string]interface)`. -/
def Value.asMap? : Value → Option (GoMap Value)
  | .map kvs => some kvs
  | _ => none

/-- The method `MapModel.Get`, and indexing a `map[string]interface`: nil for a
missing key. -/
def MapModel.Get (props : GoMap Value) (key : String) : Value :=
  (GoMap.get? props key).getD .null

/-- The statement "Remove any trailing quotes": a string of at least two bytes
that ends in a double quote loses that last character. -/
def stripTrailingQuote (s : String) : String :=
  if s.utf8ByteSize ≥ 2 ∧ s.data.getLast? = some '"' then ⟨s.data.dropLast⟩ else s

/-- The switch on the model's type shared by the reference elements: read the
string attribute `key` from a `*MapModel`, from the `Properties` entry of a
plain map, or from the plain map itself; the empty string otherwise. -/
def modelAttribute (model : Value) (key : String) : String :=
  match model with
  | .mapModel props => ((MapModel.Get props key).asString?).getD ""
  | .map m =>
    match (MapModel.Get m "Properties").asMap? with
    | some props => ((MapModel.Get props key).asString?).getD ""
    | none => ((MapModel.Get m key).asString?).getD ""
  | _ => ""

/-- The element `dsl.Await`: only a `*MapModel` with a string `at` makes it
return an `Await` output. -/
def Await : Dsl := fun m model _ =>
  match model with
  | .mapModel props =>
    match MapModel.Get props "at" with
    | .str target => { result := .ret (some { Action := ActionAwait, NextRoute := target }) none, mem := m }
    | _ => { result := .ret none none, mem := m }
  | _ => { result := .ret none none, mem := m }

/-- The element `dsl.RouteTo`. -/
def RouteTo : Dsl := fun m model _ =>
  let target := modelAttribute model "target"
  if target = "" then
    { result := .ret none none, mem := m }
  else
    { result := .ret (some { Action := ActionRoute, NextRoute := stripTrailingQuote target }) none,
      mem := m }

/-- The element `dsl.EndRoute`. -/
def EndRoute : Dsl := fun m _ _ =>
  { result := .ret (some { Action := ActionEnd }) none, mem := m }

/-- The element `dsl.ErrorDsl`. -/
def ErrorDsl : Dsl := fun m _ _ =>
  { result := .ret none (some (.typesCdslError "Simulated error")), mem := m }

/-- The element `dsl.SetState`. -/
def SetState : Dsl := fun m model _ =>
  let val := modelAttribute model "val"
  if val = "" then
    { result := .ret none none, mem := m }
  else
    let val := stripTrailingQuote val
    let ctx := m.ctx
    let ctx :=
      if val = "Undefined" then { ctx with State := StateUndefined }
      else if val = "Alive" then { ctx with State := StateAlive }
      else if val = "Await" then { ctx with State := StateAwait }
      else if val = "End" then { ctx with State := StateEnd }
      else if val = "Error" then { ctx with State := StateError }
      else ctx
    { result := .ret none none, mem := { m with ctx := ctx } }

/-- The element `dsl.SetVar`. -/
def SetVar : Dsl := fun m model _ =>
  let name := modelAttribute model "name"
  let val := modelAttribute model "val"
  if name = "" then
    { result := .ret none none, mem := m }
  else if val = "" then
    { result := .ret none none, mem := m }
  else
    match m.ctx.PutVar (stripTrailingQuote name) (stripTrailingQuote val) with
    | (some err, ctx, calls) =>
      { result := .ret none (some err), mem := { m with ctx := ctx }, audit := calls }
    | (none, ctx, calls) =>
      { result := .ret none none, mem := { m with ctx := ctx }, audit := calls }

/-- The element `dsl.SayHello`. -/
def SayHello : Dsl := fun m model _ =>
  let name := modelAttribute model "name"
  let name := if name = "" then "World" else stripTrailingQuote name
  match m.ctx.PutVar "greeting" ("Hello, " ++ name ++ "!") with
  | (some err, ctx, calls) =>
    { result := .ret none (some err), mem := { m with ctx := ctx }, audit := calls }
  | (none, ctx, calls) =>
    { result := .ret none none, mem := { m with ctx := ctx }, audit := calls }

/-- The constructor `NewFlowExecutor` with the unit-test collaborators wired in
as the tests do; no DSL registers tasks there, so `RunTask` is never reached. -/
def NewFlowExecutor (dslInitHelper : DslInitialisationHelper) :
    FlowExecutor TestLocks (GoMap CdslContext) where
  DslInitHelper := dslInitHelper.Resolve
  LockProvider := LockProviderUnitTestSupport
  ContextRepository := CdslContextRepositoryUnitTestSupport
  RunTask := fun _ => .ok
  LockRetries := 3
  LockDuration := 30000000000
  LockRetryMaxDuration := 1000000000
  MyIdentifier := "<anonymous>"

/-! ## Vocabulary of the statements -/

/-- Whether the call returned to its caller, with an output or with an error
(a panic or a cut-off run did not). -/
def Outcome.returned : Outcome → Bool
  | .ret _ => true
  | .err _ => true
  | .panic _ => false
  | .outOfFuel => false

/-- The resource `Execute` locks: `context/` followed by the input's context
id, or by the new id when the input names no context. -/
def lockResource (newID : String) (inputEvent : CdslInputEvent) : String :=
  "context/" ++ (if inputEvent.ContextID = "" then newID else inputEvent.ContextID)

/-! ## Fixtures of the tests -/

/-- The registrations of `TestFlowExecutor_Execute`. -/
def testDsls : DslInitialisationHelper :=
  ((((NewDslInitialisationHelper.RegisterDsl "setState" SetState).RegisterDsl "setVar" SetVar
    ).RegisterDsl "routeTo" RouteTo).RegisterDsl "endRoute" EndRoute).RegisterDsl "sayHello" SayHello

/-- The flow built by `TestFlowExecutor_Execute`. -/
def testFlow : Flow where
  ID := "testFlow"
  DefaultStep := "init"
  ErrorStep := "error"
  Steps := [
    ("init", { ID := "init", LogicElements := [
      { Name := "setState", Model := .mapModel [("val", .str "Alive")] },
      { Name := "sayHello", Model := .mapModel [("name", .str "Test")] },
      { Name := "setVar", Model := .mapModel [("name", .str "testVar"), ("val", .str "testValue")] },
      { Name := "routeTo", Model := .mapModel [("target", .str "end")] }] }),
    ("end", {
      ID := "end",
      LogicElements := [{ Name := "endRoute", Model := .mapModel [] }],
      FinalElements := [{ Name := "setState", Model := .mapModel [("val", .str "End")] }] })]

/-- A fresh lock provider and repository, as the tests create them. -/
def emptyWorld : World TestLocks (GoMap CdslContext) := { locks := {}, repo := [] }

/-- The steps entered, in order: the `flowID`, `stepID` of the `Transition`
calls the executor made on the auditor (one per pass of the loop body). -/
def enteredSteps : List Event → List (String × String)
  | [] => []
  | Event.audit (.Transition flowID stepID) :: rest => (flowID, stepID) :: enteredSteps rest
  | _ :: rest => enteredSteps rest

/-- The names of the elements whose `Execute` was called, in order. -/
def executedElements : List Event → List String
  | [] => []
  | Event.dslExecute name _ :: rest => name :: executedElements rest
  | _ :: rest => executedElements rest

/-- The state a pass of the loop body ends in. -/
def Iter.state : Iter → LoopState
  | .next _ s => s
  | .fail _ s => s
  | .panic _ s => s

/-- The state the step loop ends in. -/
def LoopExit.state : LoopExit → LoopState
  | .done s => s
  | .fail _ s => s
  | .panic _ s => s
  | .outOfFuel s => s

/-- Reading of "every element returned (nil, nil)": run from memory `m`, each
element of the list, in order, resolves and its `Execute` returns a nil output
and a nil error; the value is the memory and the trace after the last one. -/
def allReturnNil (resolve : DslMetadata → Option Dsl) (inputEvent : CdslInputEvent)
    (flow : Flow) (step : FlowStep) :
    List DslMetadata → Mem → List Event → Option (Mem × List Event)
  | [], m, tr => some (m, tr)
  | dslMeta :: rest, m, tr =>
    match resolve dslMeta with
    | none => none
    | some dslInstance =>
      match (dslInstance m (intersectModel dslMeta.Model) inputEvent).result with
      | .ret none none =>
        allReturnNil resolve inputEvent flow step rest
          (dslInstance m (intersectModel dslMeta.Model) inputEvent).mem
          (tr ++ [Event.audit (.Execute flow.ID step.ID dslMeta.Name)]
            ++ [Event.dslExecute dslMeta.Name (intersectModel dslMeta.Model)]
            ++ (dslInstance m (intersectModel dslMeta.Model) inputEvent).audit.map Event.innerAudit)
      | _ => none

/-- The state the two `obtainOutputs` calls end in. -/
def Ran.state : Ran → LoopState
  | .outputs _ _ s => s
  | .failed _ s => s
  | .panicked _ s => s

/-- Reading of "the first step `Execute` enters": the requested step when the
input names one, otherwise the current step of the loaded context when it is
non-empty, otherwise the flow's default step. -/
def firstStepName (flow : Flow) (inputEvent : CdslInputEvent) (ctx : CdslContext) : String :=
  if inputEvent.RequestedStep ≠ "" then inputEvent.RequestedStep
  else if ctx.CurrentStep ≠ "" then ctx.CurrentStep
  else flow.DefaultStep

/-- The registrations of the tests together with `await` and `errorDsl`. -/
def allDsls : DslInitialisationHelper :=
  (testDsls.RegisterDsl "await" Await).RegisterDsl "errorDsl" ErrorDsl

/-- Scenario "Route-to-missing": the default step routes to `nope`, which is
not a step of the flow. -/
def routeToMissingFlow : Flow where
  ID := "r"
  DefaultStep := "init"
  ErrorStep := ""
  Steps := [
    ("init", { ID := "init", LogicElements := [
      { Name := "routeTo", Model := .mapModel [("target", .str "nope")] }] })]

/-- An element that returns an `Await` output with the given next route. -/
def awaitAt (nextRoute : String) : Dsl := fun m _ _ =>
  { result := .ret (some { Action := ActionAwait, NextRoute := nextRoute }) none, mem := m }

/-- A flow with default step `init`, whose element pauses with an empty next
route, and a step stored under the empty name. -/
def emptyRouteFlow : Flow where
  ID := "p"
  DefaultStep := "init"
  ErrorStep := ""
  Steps := [
    ("init", { ID := "init", LogicElements := [{ Name := "pause", Model := .null }] }),
    ("", { ID := "" })]

/-- A flow whose default step `init` pauses at step `wait`. -/
def pauseFlow : Flow where
  ID := "p"
  DefaultStep := "init"
  ErrorStep := ""
  Steps := [
    ("init", { ID := "init", LogicElements := [{ Name := "pause", Model := .null }] }),
    ("wait", { ID := "wait" })]

/-- Scenario "Error diversion": step `init` holds an element that returns an
error and the flow names the error step `error`, which records the failure
and ends the flow. -/
def errorDiversionFlow : Flow where
  ID := "k"
  DefaultStep := "init"
  ErrorStep := "error"
  Steps := [
    ("init", { ID := "init", LogicElements := [{ Name := "errorDsl", Model := .null }] }),
    ("error", { ID := "error", LogicElements := [
      { Name := "setVar", Model := .mapModel [("name", .str "status"), ("val", .str "error")] },
      { Name := "endRoute", Model := .mapModel [] }] })]

/-- As `errorDiversionFlow`, but the error step routes to `nope`, which is not
a step of the flow. -/
def errorStepRoutesAwayFlow : Flow where
  ID := "k"
  DefaultStep := "init"
  ErrorStep := "error"
  Steps := [
    ("init", { ID := "init", LogicElements := [{ Name := "errorDsl", Model := .null }] }),
    ("error", { ID := "error", LogicElements := [
      { Name := "routeTo", Model := .mapModel [("target", .str "nope")] }] })]

/-- As `errorDiversionFlow`, but the error step itself holds the element that
returns an error. -/
def errorStepFailsFlow : Flow where
  ID := "k"
  DefaultStep := "init"
  ErrorStep := "error"
  Steps := [
    ("init", { ID := "init", LogicElements := [{ Name := "errorDsl", Model := .null }] }),
    ("error", { ID := "error", LogicElements := [{ Name := "errorDsl", Model := .null }] })]

/-- Scenario "Await resume": step `init` issues `await` with attribute
`at=wait`, its model a `MapModel` as `RegistryLoader.buildModel` builds it,
and the flow has a step `wait`. -/
def awaitFlow : Flow where
  ID := "a"
  DefaultStep := "init"
  ErrorStep := ""
  Steps := [
    ("init", { ID := "init", LogicElements := [
      { Name := "await", Model := .mapModel [("at", .str "wait")] }] }),
    ("wait", { ID := "wait" })]

/-- A world in which the context `c1` is stored and its resource is locked by
another owner. -/
def lockedByOther : World TestLocks (GoMap CdslContext) where
  locks := { locks := [("context/c1", NewLock "context/c1" "context/c1" "other" 30 0)] }
  repo := [("c1", { ID := "c1" })]

/-- The events the step loop and the task loops add to the trace: auditor
calls, element executions and task runs (no lock or repository call). -/
def Event.isLoopEvent : Event → Bool
  | .audit _ => true
  | .dslExecute _ _ => true
  | .innerAudit _ => true
  | .runTask _ => true
  | _ => false

/-- One step of the scan of a trace for the lock discipline on `resource`:
a successful `Obtain` on the resource makes its lock the held one, a `Release`
of the held lock ends the holding, and a `SaveContext`, or a `GetContext` of
the context the resource names, is allowed only while a lock is held. The
value is the lock held afterwards, or `none` for a violation. -/
def lockScanStep (resource : String) (held : Option Lock) : Event → Option (Option Lock)
  | .obtain _ r (some l) => some (if r = resource then some l else held)
  | .release l => some (if held = some l then none else held)
  | .saveContext _ _ => if held.isSome then some held else none
  | .getContext _ contextID =>
    if held.isSome ∧ "context/" ++ contextID = resource then some held else none
  | _ => some held

/-- Scan of a whole trace for the lock discipline, from the lock held at its
start. -/
def lockScan (resource : String) : Option Lock → List Event → Option (Option Lock)
  | held, [] => some held
  | held, ev :: rest =>
    match lockScanStep resource held ev with
    | none => none
    | some held1 => lockScan resource held1 rest

/-- The trace `b` is the trace `a` followed by events of the loops only. -/
def LoopExtends (a b : List Event) : Prop :=
  ∃ ext, b = a ++ ext ∧ ∀ ev ∈ ext, Event.isLoopEvent ev = true

/-- A flow whose step `init` holds, after `sayHello`, an element under a name
no factory is registered for; `errorStep` is the flow's error step, and the
step `error` records the failure and ends the flow. -/
def unknownElementFlow (errorStep : String) : Flow where
  ID := "u"
  DefaultStep := "init"
  ErrorStep := errorStep
  Steps := [
    ("init", { ID := "init", LogicElements := [
      { Name := "sayHello", Model := .mapModel [("name", .str "Test")] },
      { Name := "noSuchDsl", Model := .null },
      { Name := "endRoute", Model := .mapModel [] }] }),
    ("error", { ID := "error", LogicElements := [
      { Name := "setVar", Model := .mapModel [("name", .str "status"), ("val", .str "error")] },
      { Name := "endRoute", Model := .mapModel [] }] })]

/-- The tasks that were run, in order: the `RunTask` calls of the trace. -/
def tasksRun : List Event → List TaskId
  | [] => []
  | Event.runTask task :: rest => task :: tasksRun rest
  | _ :: rest => tasksRun rest

/-- An element that registers `task` with `runtime.AddPostStepTask` and
returns a nil output and a nil error. -/
def registerPostStep (task : TaskId) : Dsl := fun m _ _ =>
  { result := .ret none none, mem := { m with runtime := m.runtime.AddPostStepTask task } }

/-- The registrations of `allDsls` together with two elements that register
the post-step tasks 1 and 2. -/
def taskDsls : DslInitialisationHelper :=
  (allDsls.RegisterDsl "registerOne" (registerPostStep 1)).RegisterDsl "registerTwo"
    (registerPostStep 2)

/-- A flow whose step `init` registers the post-step tasks 1 and 2 and routes
to the step `end`. -/
def twoTasksFlow : Flow where
  ID := "t"
  DefaultStep := "init"
  ErrorStep := ""
  Steps := [
    ("init", { ID := "init", LogicElements := [
      { Name := "registerOne", Model := .null },
      { Name := "registerTwo", Model := .null },
      { Name := "routeTo", Model := .mapModel [("target", .str "end")] }] }),
    ("end", { ID := "end", LogicElements := [{ Name := "endRoute", Model := .mapModel [] }] })]

/-- A flow whose step `init` registers the post-step task 1 and then holds an
element that returns an error; `errorStep` is the flow's error step, and the
step `error` ends the flow. -/
def taskThenErrorFlow (errorStep : String) : Flow where
  ID := "t"
  DefaultStep := "init"
  ErrorStep := errorStep
  Steps := [
    ("init", { ID := "init", LogicElements := [
      { Name := "registerOne", Model := .null },
      { Name := "errorDsl", Model := .null }] }),
    ("error", { ID := "error", LogicElements := [{ Name := "endRoute", Model := .mapModel [] }] })]

/-- The post-commit tasks that were run, in order: the `ExecutePostCommit`
calls on the auditor, each of which announces the run of its task. -/
def postCommitRuns : List Event → List TaskId
  | [] => []
  | Event.audit (.ExecutePostCommit _ task) :: rest => task :: postCommitRuns rest
  | _ :: rest => postCommitRuns rest

/-- An element that registers `task` with `runtime.AddPostCommitTask` and
returns a nil output and a nil error. -/
def registerPostCommit (task : TaskId) : Dsl := fun m _ _ =>
  { result := .ret none none, mem := { m with runtime := m.runtime.AddPostCommitTask task } }

/-- The registrations of `taskDsls` together with two elements that register
the post-commit tasks 3 and 4. -/
def commitTaskDsls : DslInitialisationHelper :=
  (taskDsls.RegisterDsl "commitThree" (registerPostCommit 3)).RegisterDsl "commitFour"
    (registerPostCommit 4)

/-- A flow whose step `init` registers the post-commit tasks 3 and 4 and the
post-step task 1, and ends the flow. -/
def commitTasksFlow : Flow where
  ID := "t"
  DefaultStep := "init"
  ErrorStep := ""
  Steps := [
    ("init", { ID := "init", LogicElements := [
      { Name := "commitThree", Model := .null },
      { Name := "registerOne", Model := .null },
      { Name := "commitFour", Model := .null },
      { Name := "endRoute", Model := .mapModel [] }] })]

/-- Whether the event is an `Error` call the executor makes on the auditor. -/
def Event.isErrorAudit : Event → Bool
  | .audit (.Error _ _ _ _) => true
  | _ => false

/-- The trace without the executor's `Error` calls on the auditor. -/
def quietTrace (tr : List Event) : List Event :=
  tr.filter (fun ev => !ev.isErrorAudit)

/-- The loop state with the quiet trace. -/
def LoopState.quiet (s : LoopState) : LoopState := { s with trace := quietTrace s.trace }

/-- The result of the element lists, with the quiet trace. -/
def Ran.quiet : Ran → Ran
  | .outputs g f s => .outputs g f s.quiet
  | .failed err s => .failed err s.quiet
  | .panicked v s => .panicked v s.quiet

/-- The result of a pass of the loop body, with the quiet trace. -/
def Iter.quiet : Iter → Iter
  | .next nextStep s => .next nextStep s.quiet
  | .fail err s => .fail err s.quiet
  | .panic v s => .panic v s.quiet

/-- The result of the step loop, with the quiet trace. -/
def LoopExit.quiet : LoopExit → LoopExit
  | .done s => .done s.quiet
  | .fail err s => .fail err s.quiet
  | .panic v s => .panic v s.quiet
  | .outOfFuel s => .outOfFuel s.quiet

/-- A task behaviour under which every task panics. -/
def everyTaskPanics : TaskId → TaskResult := fun _ => .panic "boom"

/-- A flow whose step `init` registers the post-commit task 3 and ends the
flow. -/
def commitOnlyFlow : Flow where
  ID := "t"
  DefaultStep := "init"
  ErrorStep := ""
  Steps := [
    ("init", { ID := "init", LogicElements := [
      { Name := "commitThree", Model := .null },
      { Name := "endRoute", Model := .mapModel [] }] })]

/-- A flow whose step `init` sets the state to `End` and then to `Alive`. -/
def leavesEndFlow : Flow where
  ID := "x"
  DefaultStep := "init"
  ErrorStep := ""
  Steps := [
    ("init", { ID := "init", LogicElements := [
      { Name := "setState", Model := .mapModel [("val", .str "End")] },
      { Name := "setState", Model := .mapModel [("val", .str "Alive")] }] })]

/-- A flow whose step `init` sets the state to `End` and then pauses at the
step `wait`. -/
def endThenAwaitFlow : Flow where
  ID := "x"
  DefaultStep := "init"
  ErrorStep := ""
  Steps := [
    ("init", { ID := "init", LogicElements := [
      { Name := "setState", Model := .mapModel [("val", .str "End")] },
      { Name := "pause", Model := .null }] }),
    ("wait", { ID := "wait" })]

/-- The registrations of `allDsls` together with `pause`, an element that
returns an `Await` output at `wait`. -/
def pauseDsls : DslInitialisationHelper := allDsls.RegisterDsl "pause" (awaitAt "wait")

/-! ## Definition documents (`pkg/definitionsource/definitions.go`) -/

/-- The struct `definitionsource.ElementDefinition`. -/
structure ElementDefinition where
  Name : String := ""
  Attributes : GoMap String := []
  Elements : GoMap Value := []
  Content : String := ""

/-- The struct `definitionsource.StepDefinition`. -/
structure StepDefinition where
  ID : String := ""
  Elements : List ElementDefinition := []
  Finally : List ElementDefinition := []

/-- The struct `definitionsource.FlowDefinition`; `StepsList` is the list the
XML decoder fills, `Steps` the map built from it. -/
structure FlowDefinition where
  ID : String := ""
  DefaultStep : String := ""
  ErrorStep : String := ""
  Steps : GoMap StepDefinition := []
  StepsList : List StepDefinition := []

/-- The struct `definitionsource.DocumentDefinition`. -/
structure DocumentDefinition where
  Flows : GoMap FlowDefinition := []

/-! ## The flow registry and its loader (`pkg/registry`) -/

/-- The constructor `model.NewFlow`. -/
def NewFlow : Flow := { ID := "", DefaultStep := "", ErrorStep := "", Steps := [] }

/-- The method `Flow.From`. -/
def Flow.From (f : Flow) (d : FlowDefinition) : Flow :=
  { f with ID := d.ID, DefaultStep := d.DefaultStep, ErrorStep := d.ErrorStep }

/-- The constructor `model.NewFlowStep`. -/
def NewFlowStep (id : String) : FlowStep := { ID := id, LogicElements := [], FinalElements := [] }

/-- The interface `registry.FlowRegistry` over a registry state `ρ`. -/
structure FlowRegistry (ρ : Type) where
  RegisterFlow : ρ → Flow → Option GoError × ρ
  GetFlow : ρ → String → Except GoError (Option Flow)

/-- The struct `registry.InMemoryFlowRegistry`: the map `flows`. -/
abbrev InMemoryFlows := GoMap Flow

/-- The methods of `InMemoryFlowRegistry`. -/
def InMemoryFlowRegistry : FlowRegistry InMemoryFlows where
  RegisterFlow := fun r flow => (none, GoMap.put r flow.ID flow)
  GetFlow := fun r id => .ok (GoMap.get? r id)

/-- The struct `registry.RegistryLoader`. -/
structure RegistryLoader (ρ : Type) where
  flowRegistry : FlowRegistry ρ
  dslInitHelper : DslInitialisationHelper

/-- The method `MapModel.Set`. -/
def MapModel.Set (props : GoMap Value) (key : String) (value : Value) : GoMap Value :=
  GoMap.put props key value

/-- The method `RegistryLoader.buildModel`: a `*MapModel` holding the
attributes, then the nested elements, then the content under `content` when
it is not empty; a later `Set` overwrites an earlier one under the same key. -/
def RegistryLoader.buildModel (elemDef : ElementDefinition) : Value :=
  let model : GoMap Value := []
  let model := elemDef.Attributes.foldl (fun m kv => MapModel.Set m kv.1 (.str kv.2)) model
  let model := elemDef.Elements.foldl (fun m kv => MapModel.Set m kv.1 kv.2) model
  let model :=
    if elemDef.Content ≠ "" then MapModel.Set model "content" (.str elemDef.Content) else model
  .mapModel model

/-- The two `append` loops of `LoadDocument` over the elements of a step. -/
def RegistryLoader.buildElements (elems : List ElementDefinition) (start : List DslMetadata) :
    List DslMetadata :=
  elems.foldl (fun acc elemDef =>
    acc ++ [{ Name := elemDef.Name, Model := RegistryLoader.buildModel elemDef }]) start

/-- The body of the loop over `flowDef.Steps` in `LoadDocument`. -/
def RegistryLoader.buildStep (stepID : String) (stepDef : StepDefinition) : FlowStep :=
  let step := NewFlowStep stepID
  let step :=
    { step with LogicElements := RegistryLoader.buildElements stepDef.Elements step.LogicElements }
  { step with FinalElements := RegistryLoader.buildElements stepDef.Finally step.FinalElements }

/-- The flow `LoadDocument` builds from a flow definition before it registers
it. -/
def RegistryLoader.buildFlow (flowDef : FlowDefinition) : Flow :=
  flowDef.Steps.foldl
    (fun flow kv => flow.PutStep kv.1 (RegistryLoader.buildStep kv.1 kv.2))
    (NewFlow.From flowDef)

/-- The loop of `LoadDocument` over the flows of the document, in the order
of the list: the first error of `RegisterFlow` ends it. -/
def RegistryLoader.loadFlows {ρ : Type} (l : RegistryLoader ρ) :
    ρ → List (String × FlowDefinition) → Option GoError × ρ
  | r, [] => (none, r)
  | r, (_, flowDef) :: rest =>
    match l.flowRegistry.RegisterFlow r (RegistryLoader.buildFlow flowDef) with
    | (some err, r1) => (some err, r1)
    | (none, r1) => RegistryLoader.loadFlows l r1 rest

/-- The method `RegistryLoader.LoadDocument`. -/
def RegistryLoader.LoadDocument {ρ : Type} (l : RegistryLoader ρ) (r : ρ)
    (doc : DocumentDefinition) : Option GoError × ρ :=
  RegistryLoader.loadFlows l r doc.Flows

/-! ## The validator (`pkg/registry/registry_validator.go`) -/

/-- An `error` the validator returns: a `*exceptions.CdslValidationError` with
its message and cause, or the error a DSL's `Validate` returned. -/
inductive ValidatorError
  | validation (message : String) (cause : Option ValidatorError)
  | dsl (err : GoError)

/-- The struct `registry.RegistryValidator`. `validating` lists, by registered
name, the factories whose instances implement `dsl.ValidatingDsl`, with the
value their `Validate()` returns. -/
structure RegistryValidator where
  dslInitHelper : DslInitialisationHelper
  validating : GoMap (Option GoError) := []

/-- The method `RegistryValidator.validateDslElement`. -/
def RegistryValidator.validateDslElement (v : RegistryValidator) (elemMeta : DslMetadata) :
    Option ValidatorError :=
  if elemMeta.Name = "" then
    some (.validation "DSL element must have a name" none)
  else
    match v.dslInitHelper.Resolve elemMeta with
    | none => some (.validation ("DSL " ++ elemMeta.Name ++ " could not be resolved") none)
    | some _ =>
      match GoMap.get? v.validating elemMeta.Name with
      | some (some err) => some (.dsl err)
      | _ => none

/-- The loops over the logic and the final elements of a step in
`ValidateFlow`; `kind` is `logic` or `final`. -/
def RegistryValidator.validateElements (v : RegistryValidator) (flow : Flow) (step : FlowStep)
    (kind : String) : List DslMetadata → Option ValidatorError
  | [] => none
  | elemMeta :: rest =>
    match v.validateDslElement elemMeta with
    | some err =>
      some (.validation ("Invalid " ++ kind ++ " element " ++ elemMeta.Name ++ " in step "
        ++ step.ID ++ " of flow " ++ flow.ID) (some err))
    | none => RegistryValidator.validateElements v flow step kind rest

/-- The body of the loop over `flow.Steps` in `ValidateFlow`. -/
def RegistryValidator.validateStep (v : RegistryValidator) (flow : Flow) (stepID : String)
    (step : FlowStep) : Option ValidatorError :=
  if step.ID = "" then
    some (.validation ("Step in flow " ++ flow.ID ++ " must have an ID") none)
  else if step.ID ≠ stepID then
    some (.validation ("Step ID " ++ step.ID ++ " does not match key " ++ stepID ++ " in flow "
      ++ flow.ID) none)
  else
    match v.validateElements flow step "logic" step.LogicElements with
    | some err => some err
    | none => v.validateElements flow step "final" step.FinalElements

/-- The loop over `flow.Steps` in `ValidateFlow`, in the order of the list. -/
def RegistryValidator.validateSteps (v : RegistryValidator) (flow : Flow) :
    List (String × FlowStep) → Option ValidatorError
  | [] => none
  | (stepID, step) :: rest =>
    match v.validateStep flow stepID step with
    | some err => some err
    | none => RegistryValidator.validateSteps v flow rest

/-- The method `RegistryValidator.ValidateFlow`: nil when the flow passes. -/
def RegistryValidator.ValidateFlow (v : RegistryValidator) (flow : Flow) :
    Option ValidatorError :=
  if flow.ID = "" then
    some (.validation "Flow must have an ID" none)
  else if flow.DefaultStep = "" then
    some (.validation ("Flow " ++ flow.ID ++ " must have a default step") none)
  else if (flow.FetchStep flow.DefaultStep).isNone then
    some (.validation ("Flow " ++ flow.ID ++ " default step " ++ flow.DefaultStep
      ++ " does not exist") none)
  else if flow.ErrorStep ≠ "" ∧ (flow.FetchStep flow.ErrorStep).isNone then
    some (.validation ("Flow " ++ flow.ID ++ " error step " ++ flow.ErrorStep
      ++ " does not exist") none)
  else
    v.validateSteps flow flow.Steps

/-- A loader over the in-memory flow registry. -/
def inMemoryLoader (dslInitHelper : DslInitialisationHelper) : RegistryLoader InMemoryFlows where
  flowRegistry := InMemoryFlowRegistry
  dslInitHelper := dslInitHelper

/-- A document with one flow, whose default step `missing` is not a step of
the flow and whose step `init` holds an element no factory is registered
for. -/
def invalidDocument : DocumentDefinition where
  Flows := [
    ("bad", {
      ID := "bad",
      DefaultStep := "missing",
      Steps := [("init", { ID := "init", Elements := [{ Name := "noSuchDsl" }] })] })]

/-- A document with one flow `hello`, as the XML source gives it: the step
`init` holds `sayHello` and `routeTo`, the step `end` holds `endRoute` and,
under `finally`, `setState`. -/
def helloDocument : DocumentDefinition where
  Flows := [
    ("hello", {
      ID := "hello",
      DefaultStep := "init",
      Steps := [
        ("init", { ID := "init", Elements := [
          { Name := "sayHello", Attributes := [("name", "Test")] },
          { Name := "routeTo", Attributes := [("target", "end")] }] }),
        ("end", {
          ID := "end",
          Elements := [{ Name := "endRoute" }],
          Finally := [{ Name := "setState", Attributes := [("val", "End")] }] })] })]

/-- A document in which two flow definitions, stored under different keys,
carry the same id. -/
def sameIdDocument : DocumentDefinition where
  Flows := [
    ("one", { ID := "f", DefaultStep := "first" }),
    ("two", { ID := "f", DefaultStep := "second" })]

/-! ## The XML definition source (`pkg/definitionsource/xml_dom_definition_source.go`)

Go strings are modelled as lists of characters. The functions below search
for ASCII delimiters only, so on ASCII text offsets in bytes and offsets in
characters coincide. -/

/-- The function `strings.Index(s, substr)`: the offset of the first
occurrence of `substr` in `s`, or `none` for -1. -/
def stringsIndex : List Char → List Char → Option Nat
  | [], substr => if substr = [] then some 0 else none
  | c :: rest, substr =>
    if substr.isPrefixOf (c :: rest) then some 0
    else (stringsIndex rest substr).map (fun i => i + 1)

/-- The function `strings.IndexAny(s, chars)`: the offset of the first
character of `s` that is in `chars`, or `none` for -1. -/
def stringsIndexAny : List Char → List Char → Option Nat
  | [], _ => none
  | c :: rest, chars =>
    if chars.contains c then some 0 else (stringsIndexAny rest chars).map (fun i => i + 1)

/-- The function `strings.HasPrefix`. -/
def stringsHasPrefix (s pre : List Char) : Bool := pre.isPrefixOf s

/-- The function `unicode.IsSpace`. -/
def unicodeIsSpace (c : Char) : Bool :=
  c = '\t' || c = '\n' || c.toNat = 11 || c.toNat = 12 || c = '\r' || c = ' ' ||
  c.toNat = 0x85 || c.toNat = 0xA0 || c.toNat = 0x1680 ||
  (0x2000 ≤ c.toNat && c.toNat ≤ 0x200a) || c.toNat = 0x2028 || c.toNat = 0x2029 ||
  c.toNat = 0x202f || c.toNat = 0x205f || c.toNat = 0x3000

/-- The function `strings.Fields`: the maximal runs of non-space characters;
`cur` is the run being read, in reverse. -/
def stringsFieldsFrom : List Char → List Char → List (List Char)
  | [], cur => if cur = [] then [] else [cur.reverse]
  | c :: rest, cur =>
    if unicodeIsSpace c then
      if cur = [] then stringsFieldsFrom rest [] else cur.reverse :: stringsFieldsFrom rest []
    else stringsFieldsFrom rest (c :: cur)

/-- The function `strings.Fields`. -/
def stringsFields (s : List Char) : List (List Char) := stringsFieldsFrom s []

/-- The function `strings.TrimSpace`. -/
def stringsTrimSpace (s : List Char) : List Char :=
  ((s.dropWhile unicodeIsSpace).reverse.dropWhile unicodeIsSpace).reverse

/-- The slice expression `s[lo:hi]`. -/
def slice (s : List Char) (lo hi : Nat) : List Char := (s.take hi).drop lo

/-- The body of the loop of `extractAttributes` for one field of the
attribute text: a field `name=value` sets the attribute, the value losing its
first and its last character when it has at least two and begins with a
quote. -/
def extractAttribute (part : List Char) (attributes : GoMap String) : GoMap String :=
  let part := stringsTrimSpace part
  if part = [] ∨ part = ['/'] then attributes
  else
    match stringsIndex part ['='] with
    | none => attributes
    | some eqIdx =>
      let name := stringsTrimSpace (slice part 0 eqIdx)
      let value := stringsTrimSpace (part.drop (eqIdx + 1))
      let value :=
        if value.length ≥ 2 ∧ (value.head? = some '"' ∨ value.head? = some '\'') then
          slice value 1 (value.length - 1)
        else value
      GoMap.put attributes (String.mk name) (String.mk value)

/-- The method `XmlDomDefinitionSource.extractAttributes`. -/
def extractAttributes (attrStr : List Char) (elem : ElementDefinition) : ElementDefinition :=
  { elem with
    Attributes := (stringsFields attrStr).foldl (fun acc part => extractAttribute part acc)
      elem.Attributes }

/-- The loop of `extractElements` from `startIdx` on, with the elements found
so far; `fuel` bounds the number of passes. The index expression
`xml[tagStart+1]` panics when `<` is the last character of the text. -/
def extractElementsFrom (xml : List Char) :
    Nat → Nat → List ElementDefinition → Except String (List ElementDefinition)
  | 0, _, elements => .ok elements
  | fuel + 1, startIdx, elements =>
    match stringsIndex (xml.drop startIdx) ['<'] with
    | none => .ok elements
    | some found =>
      let tagStart := found + startIdx
      match xml.get? (tagStart + 1) with
      | none => .error "index out of range"
      | some next =>
        if next = '/' ∨ stringsHasPrefix (xml.drop tagStart) "<step".data = true ∨
            stringsHasPrefix (xml.drop tagStart) "<finally".data = true ∨
            stringsHasPrefix (xml.drop tagStart) "</finally".data = true then
          extractElementsFrom xml fuel (tagStart + 1) elements
        else
          match stringsIndexAny (xml.drop (tagStart + 1)) " />".data with
          | none => extractElementsFrom xml fuel (tagStart + 1) elements
          | some nameOffset =>
            let nameEnd := nameOffset + (tagStart + 1)
            let tagName := slice xml (tagStart + 1) nameEnd
            match stringsIndex (xml.drop tagStart) ['>'] with
            | none => extractElementsFrom xml fuel (tagStart + 1) elements
            | some endOffset =>
              let tagEnd := endOffset + tagStart
              let elem : ElementDefinition := { Name := String.mk tagName }
              let attrStr := slice xml nameEnd tagEnd
              let elem := extractAttributes attrStr elem
              extractElementsFrom xml fuel (tagEnd + 1) (elements ++ [elem])

/-- The method `XmlDomDefinitionSource.extractElements`. Every pass of the
loop moves `startIdx` forward, so the length of the text bounds the passes. -/
def extractElements (xml : String) : Except String (List ElementDefinition) :=
  extractElementsFrom xml.data (xml.data.length + 1) 0 []

/-- The method `XmlDomDefinitionSource.parseStepElements`: the text before
`<finally>` gives the elements, the text from `<finally>` on the final
elements. -/
def parseStepElements (stepXml : String) (step : StepDefinition) :
    Except String StepDefinition :=
  let regularXml : List Char :=
    match stringsIndex stepXml.data "<finally>".data with
    | some finallyIdx => slice stepXml.data 0 finallyIdx
    | none => stepXml.data
  let finallyXml : List Char :=
    match stringsIndex stepXml.data "<finally>".data with
    | some finallyIdx => stepXml.data.drop finallyIdx
    | none => []
  match extractElements (String.mk regularXml) with
  | .error p => .error p
  | .ok elements =>
    let step := { step with Elements := elements }
    if finallyXml ≠ [] then
      match extractElements (String.mk finallyXml) with
      | .error p => .error p
      | .ok final => .ok { step with Finally := final }
    else .ok step

/-! ## Element models as objects: what `intersectModel` shares

A `Value` is what a model holds; an `Obj` also says where it is stored: each
map, each `*MapModel` and each unsupported value carries the address of its
storage, and two occurrences of an address are the same Go object. -/

/-- An element model with the addresses of its objects. -/
inductive Obj
  | null
  | str (s : String)
  | map (addr : Nat) (kvs : List (String × Obj))
  | mapModel (addr : Nat) (props : List (String × Obj))
  | unsupported (addr : Nat) (tag : String)

mutual
/-- The value the object graph holds. -/
def Obj.value : Obj → Value
  | .null => .null
  | .str s => .str s
  | .map _ kvs => .map (Obj.valueAll kvs)
  | .mapModel _ props => .mapModel (Obj.valueAll props)
  | .unsupported _ t => .unsupported t
/-- Entry-wise values. -/
def Obj.valueAll : List (String × Obj) → List (String × Value)
  | [] => []
  | (k, v) :: rest => (k, Obj.value v) :: Obj.valueAll rest
end

mutual
/-- The addresses of the objects of the graph. -/
def Obj.addrs : Obj → List Nat
  | .null => []
  | .str _ => []
  | .map a kvs => a :: Obj.addrsAll kvs
  | .mapModel a props => a :: Obj.addrsAll props
  | .unsupported a _ => [a]
/-- The addresses of the objects of the entries. -/
def Obj.addrsAll : List (String × Obj) → List Nat
  | [] => []
  | (_, v) :: rest => Obj.addrs v ++ Obj.addrsAll rest
end

mutual
/-- The assignment `m[key] = v` (for a `*MapModel`, `m.Set(key, v)`) made
through a reference to the object at address `a`, as the graph shows it:
every occurrence of that object holds the new entry. -/
def Obj.store (a : Nat) (key : String) (v : Obj) : Obj → Obj
  | .null => .null
  | .str s => .str s
  | .map b kvs =>
    if b = a then .map b (GoMap.put kvs key v) else .map b (Obj.storeAll a key v kvs)
  | .mapModel b props =>
    if b = a then .mapModel b (GoMap.put props key v)
    else .mapModel b (Obj.storeAll a key v props)
  | .unsupported b t => .unsupported b t
/-- Entry-wise assignment. -/
def Obj.storeAll (a : Nat) (key : String) (v : Obj) :
    List (String × Obj) → List (String × Obj)
  | [] => []
  | (k, o) :: rest => (k, Obj.store a key v o) :: Obj.storeAll a key v rest
end

mutual
/-- The object graph `json.Unmarshal` builds for a document: every map is a
new object, at the addresses from `next` on; the first component is the next
free address afterwards. Only nil, strings and maps occur in a document. -/
def Value.allocate (next : Nat) : Value → Nat × Obj
  | .null => (next, .null)
  | .str s => (next, .str s)
  | .map kvs => ((Value.allocateAll (next + 1) kvs).1, .map next (Value.allocateAll (next + 1) kvs).2)
  | .mapModel props =>
    ((Value.allocateAll (next + 1) props).1, .mapModel next (Value.allocateAll (next + 1) props).2)
  | .unsupported t => (next + 1, .unsupported next t)
/-- Entry-wise allocation, left to right. -/
def Value.allocateAll (next : Nat) : List (String × Value) → Nat × List (String × Obj)
  | [] => (next, [])
  | (k, v) :: rest =>
    ((Value.allocateAll (Value.allocate next v).1 rest).1,
      (k, (Value.allocate next v).2) :: (Value.allocateAll (Value.allocate next v).1 rest).2)
end

/-- The method `FlowExecutor.intersectModel` on objects, with `next` the next
free address: the round trip through JSON builds new objects, and the
fallback hands over the source object itself. -/
def intersectModelAt (next : Nat) (src : Obj) : Nat × Obj :=
  match src with
  | .null => (next, .null)
  | _ => if src.value.marshals then src.value.roundTrip.allocate next else (next, src)

/-- A model that holds a callback next to its attribute: a value
`encoding/json` refuses to marshal. -/
def modelWithCallback : Obj :=
  .map 0 [("val", .str "x"), ("hook", .unsupported 1 "func")]

/-- A flow whose error step `nowhere` is not a step of the flow, and whose
step `init` sets a variable and then holds an element that returns an
error. -/
def danglingErrorStepFlow : Flow where
  ID := "d"
  DefaultStep := "init"
  ErrorStep := "nowhere"
  Steps := [
    ("init", { ID := "init", LogicElements := [
      { Name := "setVar", Model := .mapModel [("name", .str "seen"), ("val", .str "yes")] },
      { Name := "errorDsl", Model := .null }] })]

/-! ## The document parser (`XmlDomDefinitionSource.parseDocument`) -/

/-- The method `XmlDomDefinitionSource.extractStepXml`: the text from the
first occurrence of `<step id="stepID">` in the whole document up to the next
`</step>`, or the empty text when either is missing. -/
def extractStepXml (data : String) (stepID : String) : String :=
  let stepStart := ("<step id=\"" ++ stepID ++ "\">").data
  let stepEnd := "</step>".data
  match stringsIndex data.data stepStart with
  | none => ""
  | some startIdx =>
    match stringsIndex (data.data.drop startIdx) stepEnd with
    | none => ""
    | some endIdx => String.mk (slice data.data startIdx (startIdx + endIdx + stepEnd.length))

/-- The loop of `parseDocument` over `flow.StepsList`: each step whose text
`extractStepXml` finds has its elements parsed again from that text. -/
def parseSteps (data : String) : List StepDefinition → Except String (List StepDefinition)
  | [] => .ok []
  | step :: rest =>
    let stepXml := extractStepXml data step.ID
    match (if stepXml ≠ "" then parseStepElements stepXml step else .ok step) with
    | .error p => .error p
    | .ok step1 =>
      match parseSteps data rest with
      | .error p => .error p
      | .ok rest1 => .ok (step1 :: rest1)

/-- The loop of `parseDocument` over `doc.Flows`, with the result built so
far. `flow.Steps` holds pointers to the entries of `flow.StepsList`, so it
shows the parsed steps. -/
def parseFlows (data : String) :
    List FlowDefinition → GoMap FlowDefinition → Except String (GoMap FlowDefinition)
  | [], flows => .ok flows
  | flow :: rest, flows =>
    match parseSteps data flow.StepsList with
    | .error p => .error p
    | .ok steps =>
      let flow := { flow with
        StepsList := steps
        Steps := steps.foldl (fun m step => GoMap.put m step.ID step) [] }
      parseFlows data rest (GoMap.put flows flow.ID flow)

/-- The method `XmlDomDefinitionSource.parseDocument` after `xml.Unmarshal`
has succeeded: `decoded` is the list `doc.Flows` the decoder filled from the
text `data`. A panic of the element scan is the error of the result. -/
def parseDocument (data : String) (decoded : List FlowDefinition) :
    Except String DocumentDefinition :=
  match parseFlows data decoded [] with
  | .error p => .error p
  | .ok flows => .ok { Flows := flows }

/-- A document with two flows that each declare a step `init`: flow `a` says
hello in it, flow `b` ends the route. -/
def twoInitDocument : String :=
  "<cdsl><flow id=\"a\" defaultStep=\"init\"><step id=\"init\"><sayHello name=\"A\" /></step></flow><flow id=\"b\" defaultStep=\"init\"><step id=\"init\"><endRoute /></step></flow></cdsl>"

/-- The flows the decoder reads from `twoInitDocument`: identifiers and
attributes of the flows and their steps, with one unnamed element per child
of a step. -/
def twoInitDecoded : List FlowDefinition :=
  [{ ID := "a", DefaultStep := "init", StepsList := [{ ID := "init", Elements := [{}] }] },
   { ID := "b", DefaultStep := "init", StepsList := [{ ID := "init", Elements := [{}] }] }]

/-! ## The risk assessment element (`pkg/dsl/risk_assessment.go`) -/

/-- The digit a byte `c` stands for: `c - '0'`. -/
def digitValue (c : Char) : Nat := c.toNat - 48

/-- The largest `uint64`. -/
def maxUint64 : Nat := 2 ^ 64 - 1

/-- What the loop of `strconv.ParseUint` ends with: a value, a syntax error
(value 0) or a range error (value `maxUint64`). -/
inductive UintParse
  | value (n : Nat)
  | invalid
  | outOfRange
  deriving DecidableEq, Repr

/-- The loop of `strconv.ParseUint(s, 10, 64)` of the Go standard library
over the bytes of `s`, with `n` the number read so far: a byte that is not a
decimal digit is a syntax error, and a number above `maxUint64` a range
error, whichever the scan meets first. -/
def parseUintLoop : List Char → Nat → UintParse
  | [], n => .value n
  | c :: rest, n =>
    if ¬ ('0' ≤ c ∧ c ≤ '9') then .invalid
    else if n ≥ maxUint64 / 10 + 1 then .outOfRange
    else if n * 10 + digitValue c > maxUint64 then .outOfRange
    else parseUintLoop rest (n * 10 + digitValue c)

/-- The function `strconv.ParseUint(s, 10, 64)`. -/
def strconvParseUint (s : List Char) : UintParse :=
  if s = [] then .invalid else parseUintLoop s 0

/-- The value `strconv.Atoi(s)` returns on a 64-bit platform, its error left
out as `RiskAssessment` ignores it. `Atoi` is `ParseInt(s, 10, 0)` converted
to `int` (its fast path for short texts computes the same number): an
optional sign, then `ParseUint`; 0 on a syntax error, the nearest `int64` when
the number is out of range. -/
def strconvAtoi (s : String) : Int :=
  if s = "" then 0
  else
    let neg : Bool := s.data.head? = some '-'
    let rest : List Char :=
      if s.data.head? = some '+' ∨ s.data.head? = some '-' then s.data.tail else s.data
    match strconvParseUint rest with
    | .invalid => 0
    | .outOfRange => if neg then -(2 ^ 63) else 2 ^ 63 - 1
    | .value un =>
      if ¬ neg ∧ un ≥ 2 ^ 63 then 2 ^ 63 - 1
      else if neg ∧ un > 2 ^ 63 then -(2 ^ 63)
      else if neg then -(un : Int) else (un : Int)

/-- The map `highRiskCountries` of `RiskAssessment.Execute`. -/
def highRiskCountries : GoMap Bool :=
  [("AF", true), ("IR", true), ("KP", true), ("SY", true)]

/-- The element `dsl.RiskAssessment`. -/
def RiskAssessment : Dsl := fun m model _ =>
  let customerAge := stripTrailingQuote (modelAttribute model "customerAge")
  let transactionValue := stripTrailingQuote (modelAttribute model "transactionValue")
  let countryCode := stripTrailingQuote (modelAttribute model "countryCode")
  let customerAge := if customerAge = "" then "30" else customerAge
  let transactionValue := if transactionValue = "" then "1000" else transactionValue
  let countryCode := if countryCode = "" then "US" else countryCode
  let age := strconvAtoi customerAge
  let value := strconvAtoi transactionValue
  let riskLevel :=
    if (GoMap.get? highRiskCountries countryCode).getD false = true then "high"
    else if value > 10000 then "high"
    else if value > 5000 ∨ age < 25 then "medium"
    else "low"
  match m.ctx.PutVar "riskLevel" riskLevel with
  | (some err, ctx, calls) =>
    { result := .ret none (some err), mem := { m with ctx := ctx }, audit := calls }
  | (none, ctx, calls) =>
    match ctx.PutVar "riskFactors"
        ("age=" ++ customerAge ++ ",value=" ++ transactionValue ++ ",country=" ++ countryCode) with
    | (some err, ctx, calls2) =>
      { result := .ret none (some err), mem := { m with ctx := ctx }, audit := calls ++ calls2 }
    | (none, ctx, calls2) =>
      { result := .ret none none, mem := { m with ctx := ctx }, audit := calls ++ calls2 }

/-- The digits of a decimal integer: the text after its sign, when it has
one. -/
def decimalDigits (s : String) : List Char :=
  if s.data.head? = some '+' ∨ s.data.head? = some '-' then s.data.tail else s.data

/-- Whether `s` is a decimal integer: an optional sign followed by one or
more decimal digits. -/
def isDecimalInteger (s : String) : Bool :=
  !(decimalDigits s).isEmpty && (decimalDigits s).all Char.isDigit

/-- The integer a decimal integer `s` denotes, read off its digits with
`Nat.ofDigits`: the side of the specification in C33. -/
def decimalValue (s : String) : Int :=
  if s.data.head? = some '-' then
    -((Nat.ofDigits 10 ((decimalDigits s).reverse.map digitValue) : Nat) : Int)
  else ((Nat.ofDigits 10 ((decimalDigits s).reverse.map digitValue) : Nat) : Int)

/-- The risk level the specification assigns to an age, a transaction value
and a country code. -/
def specRiskLevel (a v : Int) (c : String) : String :=
  if c = "AF" ∨ c = "IR" ∨ c = "KP" ∨ c = "SY" ∨ v > 10000 then "high"
  else if v > 5000 ∨ a < 25 then "medium"
  else "low"

/-- The model of the element `riskAssessment` in the high-risk test. -/
def highRiskModel : Value :=
  .mapModel [("customerAge", .str "22"), ("transactionValue", .str "15000"),
    ("countryCode", .str "IR")]

/-- The hello flow of the specification, with the name `N` given to
`sayHello` and the variable `K` and value `V` given to `setVar`: the flow of
`TestFlowExecutor_Execute` for `N = Test`, `K = testVar`, `V = testValue`. -/
def helloFlow (N K V : String) : Flow where
  ID := "h"
  DefaultStep := "init"
  ErrorStep := "error"
  Steps := [
    ("init", { ID := "init", LogicElements := [
      { Name := "setState", Model := .mapModel [("val", .str "Alive")] },
      { Name := "sayHello", Model := .mapModel [("name", .str N)] },
      { Name := "setVar", Model := .mapModel [("name", .str K), ("val", .str V)] },
      { Name := "routeTo", Model := .mapModel [("target", .str "end")] }] }),
    ("end", {
      ID := "end",
      LogicElements := [{ Name := "endRoute", Model := .mapModel [] }],
      FinalElements := [{ Name := "setState", Model := .mapModel [("val", .str "End")] }] })]

/-- The value of the variable `result` in the pass of the loop body that
enters `step` in state `s`: the output chosen after both element lists ran
without error; nil when the pass left through an `if err != nil` block or a
panic. -/
def passResult {σ ρ : Type} (e : FlowExecutor σ ρ) (flow : Flow) (inputEvent : CdslInputEvent)
    (step : FlowStep) (s : LoopState) : Option CdslOutputEvent :=
  match runElements e.DslInitHelper flow inputEvent step (enterStep flow step s) with
  | .outputs generalOutput finalOutput _ => chooseResult generalOutput finalOutput
  | _ => none

/-- A flow whose default step `init` routes to `second`, a step that sets a
variable and returns no output. -/
def routeThenQuietFlow : Flow where
  ID := "q"
  DefaultStep := "init"
  ErrorStep := ""
  Steps := [
    ("init", { ID := "init", LogicElements := [
      { Name := "routeTo", Model := .mapModel [("target", .str "second")] }] }),
    ("second", { ID := "second", LogicElements := [
      { Name := "setVar", Model := .mapModel [("name", .str "x"), ("val", .str "y")] }] })]

/-! ## Published output values -/

/-- The calls `AddOutputValue(key, value)` for the pairs of `pubs`, in order. -/
def CdslRuntime.publishAll (r : CdslRuntime) (pubs : List (String × Value)) : CdslRuntime :=
  pubs.foldl (fun r kv => r.AddOutputValue kv.1 kv.2) r

/-- The value published last under `key` in a list of published pairs, if
any was. -/
def lastPublished : List (String × Value) → String → Option Value
  | [], _ => none
  | kv :: rest, key =>
    match lastPublished rest key with
    | some v => some v
    | none => if kv.1 = key then some kv.2 else none

/-- What the element calls `calls` published, in order: each call is an
element with the state it was called in, and `pubs` gives the pairs a call
publishes (the element is handed the copy of its model). -/
def publishedBy (pubs : DslMetadata → Mem → Value → List (String × Value)) :
    List (DslMetadata × Mem) → List (String × Value)
  | [] => []
  | c :: rest => pubs c.1 c.2 (intersectModel c.1.Model) ++ publishedBy pubs rest

/-- An element that publishes `value` under `key` with `AddOutputValue` and
returns no output. -/
def publishValue (key : String) (value : Value) : Dsl := fun m _ _ =>
  { result := .ret none none, mem := { m with runtime := m.runtime.AddOutputValue key value } }

/-- The registrations of the tests together with `publishScore`, which
publishes the score 720, and `publishDraft`, which publishes a draft under
the key `greeting`. -/
def publishDsls : DslInitialisationHelper :=
  (testDsls.RegisterDsl "publishScore" (publishValue "score" (.str "720"))).RegisterDsl
    "publishDraft" (publishValue "greeting" (.str "draft"))

/-- A flow whose step `init` publishes a score and a draft greeting, then
sets the variable `greeting` with `sayHello` and ends. -/
def publishFlow : Flow where
  ID := "v"
  DefaultStep := "init"
  ErrorStep := ""
  Steps := [
    ("init", { ID := "init", LogicElements := [
      { Name := "publishScore", Model := .null },
      { Name := "publishDraft", Model := .null },
      { Name := "sayHello", Model := .mapModel [("name", .str "Test")] },
      { Name := "endRoute", Model := .mapModel [] }] })]

/-- What the elements of `publishDsls` publish in a call. -/
def publishDslsPubs (dslMeta : DslMetadata) (_ : Mem) (_ : Value) : List (String × Value) :=
  if dslMeta.Name = "publishScore" then [("score", .str "720")]
  else if dslMeta.Name = "publishDraft" then [("greeting", .str "draft")]
  else []

/-! # Theorems -/

/-! ## Basic facts -/

theorem GoMap.get?_erase_self {α : Type} (m : GoMap α) (k : String) :
    GoMap.get? (GoMap.erase m k) k = none := by
  induction m with
  | nil => rfl
  | cons kv rest ih =>
    obtain ⟨k', v⟩ := kv
    by_cases h : k' = k
    · simp [GoMap.erase, h, ih]
    · simp [GoMap.erase, GoMap.get?, h, ih]

theorem runPostCommitTasks_trace (flow : Flow) (tasks : List TaskId) (tr : List Event) :
    ∃ ext, runPostCommitTasks flow tasks tr = tr ++ ext := by
  induction tasks generalizing tr with
  | nil => exact ⟨[], by simp [runPostCommitTasks]⟩
  | cons t rest ih =>
    obtain ⟨ext, h⟩ := ih (tr ++ [Event.audit (.ExecutePostCommit flow.ID t), Event.runTask t])
    refine ⟨[Event.audit (.ExecutePostCommit flow.ID t), Event.runTask t] ++ ext, ?_⟩
    simp only [runPostCommitTasks]
    rw [h]
    simp

/-! ## The lock is released on every return -/

theorem ensureReleased_some {σ ρ : Type} (e : FlowExecutor σ ρ) (lock : Lock) (o : Outcome)
    (w : World σ ρ) (tr : List Event) (c : Option CdslContext) :
    Event.release lock ∈ (ensureReleased e (some lock) o w tr c).trace ∧
      ∀ P : σ → Prop, (∀ s, P (e.LockProvider.Release s lock).2) →
        P (ensureReleased e (some lock) o w tr c).world.locks := by
  refine ⟨by simp [ensureReleased], fun P hP => ?_⟩
  simpa [ensureReleased] using hP w.locks

theorem commit_releases {σ ρ : Type} (e : FlowExecutor σ ρ) (flow : Flow) (lock : Lock)
    (w : World σ ρ) (s : LoopState) :
    Event.release lock ∈ (commit e flow lock w s).trace ∧
      ∀ P : σ → Prop, (∀ s, P (e.LockProvider.Release s lock).2) →
        P (commit e flow lock w s).world.locks := by
  unfold commit
  rcases hs : e.ContextRepository.SaveContext w.repo s.mem.runtime.GetTransactionID s.mem.ctx
    with ⟨_ | err, r1⟩
  · rcases hr : e.LockProvider.Release w.locks lock with ⟨_ | err, l1⟩
    · simp only [hs, hr]
      obtain ⟨ext, hext⟩ := runPostCommitTasks_trace flow
        s.mem.runtime.GetPostCommitTasks
        (s.trace ++ [Event.saveContext s.mem.runtime.GetTransactionID s.mem.ctx]
          ++ [Event.release lock])
      refine ⟨?_, fun P hP => ?_⟩
      · simp only [List.append_assoc, List.singleton_append] at hext
        simp [ensureReleased, hext]
      · have := hP w.locks
        rw [hr] at this
        simpa [ensureReleased] using this
    · simp only [hs, hr]
      exact ensureReleased_some e lock _ _ _ _
  · simp only [hs]
    exact ensureReleased_some e lock _ _ _ _

theorem finish_releases {σ ρ : Type} (e : FlowExecutor σ ρ) (flow : Flow) (lock : Lock)
    (w : World σ ρ) (x : LoopExit) (hret : (finish e flow lock w x).outcome.returned = true) :
    Event.release lock ∈ (finish e flow lock w x).trace ∧
      ∀ P : σ → Prop, (∀ s, P (e.LockProvider.Release s lock).2) →
        P (finish e flow lock w x).world.locks := by
  cases x with
  | done s => exact commit_releases e flow lock w s
  | fail err s => exact ensureReleased_some e lock _ _ _ _
  | panic v s => simp [finish, Outcome.returned] at hret
  | outOfFuel s => simp [finish, Outcome.returned] at hret

theorem execute_releases {σ ρ : Type} (e : FlowExecutor σ ρ) (fuel : Nat) (newID : String)
    (flow : Flow) (inputEvent : CdslInputEvent) (w : World σ ρ) (lock : Lock) (l1 : σ)
    (hobtain : e.LockProvider.Obtain w.locks e.MyIdentifier (lockResource newID inputEvent)
      e.LockDuration e.LockRetries e.LockRetryMaxDuration = (.ok lock, l1))
    (hret : (Execute e fuel newID flow inputEvent w).outcome.returned = true) :
    Event.release lock ∈ (Execute e fuel newID flow inputEvent w).trace ∧
      ∀ P : σ → Prop, (∀ s, P (e.LockProvider.Release s lock).2) →
        P (Execute e fuel newID flow inputEvent w).world.locks := by
  unfold Execute at hret ⊢
  unfold acquire at hret ⊢
  unfold lockResource at hobtain
  by_cases hid : inputEvent.ContextID = ""
  · simp only [hid, if_true] at hobtain hret ⊢
    simp only [NewCdslContext] at hret ⊢
    simp only [hobtain] at hret ⊢
    rcases hs : e.ContextRepository.SaveContext w.repo lock.ID { ID := newID } with ⟨_ | err, r1⟩
    · simp only [hs] at hret ⊢
      rcases hg : e.ContextRepository.GetContext r1 lock.ID newID with ⟨err | _ | ctx, r2⟩
      · simp only [hg] at hret ⊢
        exact ensureReleased_some e lock _ _ _ _
      · simp [hg, Outcome.returned] at hret
      · simp only [hg] at hret ⊢
        rcases hsel : selectStep flow inputEvent lock ctx with ⟨m, err | nextStep⟩
        · simp only [hsel] at hret ⊢
          exact ensureReleased_some e lock _ _ _ _
        · simp only [hsel] at hret ⊢
          exact finish_releases e flow lock _ _ hret
    · simp only [hs] at hret ⊢
      exact ensureReleased_some e lock _ _ _ _
  · simp only [hid, if_false] at hobtain hret ⊢
    simp only [hobtain] at hret ⊢
    rcases hg : e.ContextRepository.GetContext w.repo lock.ID inputEvent.ContextID
      with ⟨err | _ | ctx, r2⟩
    · simp only [hg] at hret ⊢
      exact ensureReleased_some e lock _ _ _ _
    · simp [hg, Outcome.returned] at hret
    · simp only [hg] at hret ⊢
      by_cases hend : ctx.State = StateEnd
      · simp only [hend, if_true] at hret ⊢
        exact ensureReleased_some e lock _ _ _ _
      · simp only [hend, if_false] at hret ⊢
        rcases hsel : selectStep flow inputEvent lock ctx with ⟨m, err | nextStep⟩
        · simp only [hsel] at hret ⊢
          exact ensureReleased_some e lock _ _ _ _
        · simp only [hsel] at hret ⊢
          exact finish_releases e flow lock _ _ hret

theorem testLocks_obtain_resource (p : TestLocks) (owner resource : String) (d : Nat) (r : Int)
    (m : Nat) (lock : Lock) (p1 : TestLocks)
    (h : LockProviderUnitTestSupport.Obtain p owner resource d r m = (.ok lock, p1)) :
    lock.Resource = resource := by
  simp only [LockProviderUnitTestSupport] at h
  split at h
  · split at h
    · simp at h
    · simp only [Prod.mk.injEq, Except.ok.injEq] at h
      rw [← h.1]; rfl
  · simp only [Prod.mk.injEq, Except.ok.injEq] at h
    rw [← h.1]; rfl

/-! ## Steps entered and elements executed, read off the trace -/

theorem enteredSteps_append (a b : List Event) :
    enteredSteps (a ++ b) = enteredSteps a ++ enteredSteps b := by
  induction a with
  | nil => rfl
  | cons x rest ih =>
    cases x with
    | audit call => cases call <;> simp [enteredSteps, ih]
    | _ => simp [enteredSteps, ih]

theorem executedElements_append (a b : List Event) :
    executedElements (a ++ b) = executedElements a ++ executedElements b := by
  induction a with
  | nil => rfl
  | cons x rest ih => cases x <;> simp [executedElements, ih]

theorem enteredSteps_innerAudit (calls : List AuditCall) :
    enteredSteps (calls.map Event.innerAudit) = [] := by
  induction calls with
  | nil => rfl
  | cons c rest ih => simpa [enteredSteps] using ih

theorem executedElements_innerAudit (calls : List AuditCall) :
    executedElements (calls.map Event.innerAudit) = [] := by
  induction calls with
  | nil => rfl
  | cons c rest ih => simpa [executedElements] using ih

theorem obtainOutputs_entered (resolve : DslMetadata → Option Dsl) (inputEvent : CdslInputEvent)
    (flow : Flow) (step : FlowStep) (elements : List DslMetadata) (m : Mem) (tr : List Event) :
    enteredSteps (obtainOutputs resolve inputEvent flow step elements m tr).2.2
      = enteredSteps tr := by
  induction elements generalizing m tr with
  | nil => rfl
  | cons d rest ih =>
    simp only [obtainOutputs]
    cases hres : resolve d with
    | none => simp [enteredSteps_append, enteredSteps]
    | some dslInstance =>
      simp only []
      cases hr : (dslInstance m (intersectModel d.Model) inputEvent).result with
      | panic v => simp [enteredSteps_append, enteredSteps, enteredSteps_innerAudit]
      | ret output err =>
        cases err with
        | some err => simp [enteredSteps_append, enteredSteps, enteredSteps_innerAudit]
        | none =>
          cases output with
          | some o => simp [enteredSteps_append, enteredSteps, enteredSteps_innerAudit]
          | none =>
            simp only []
            rw [ih]
            simp [enteredSteps_append, enteredSteps, enteredSteps_innerAudit]

theorem runPostStepTasks_entered (runTask : TaskId → TaskResult) (flow : Flow) (step : FlowStep)
    (tasks : List TaskId) (tr : List Event) :
    enteredSteps (runPostStepTasks runTask flow step tasks tr) = enteredSteps tr := by
  induction tasks generalizing tr with
  | nil => rfl
  | cons t rest ih =>
    simp only [runPostStepTasks]
    cases runTask t <;> simp [ih, enteredSteps_append, enteredSteps]

theorem runPostCommitTasks_entered (flow : Flow) (tasks : List TaskId) (tr : List Event) :
    enteredSteps (runPostCommitTasks flow tasks tr) = enteredSteps tr := by
  induction tasks generalizing tr with
  | nil => rfl
  | cons t rest ih => simp [runPostCommitTasks, ih, enteredSteps_append, enteredSteps]

theorem runElements_entered (resolve : DslMetadata → Option Dsl) (flow : Flow)
    (inputEvent : CdslInputEvent) (step : FlowStep) (s : LoopState) :
    enteredSteps (runElements resolve flow inputEvent step s).state.trace
      = enteredSteps s.trace := by
  have h1 := obtainOutputs_entered resolve inputEvent flow step step.LogicElements s.mem s.trace
  unfold runElements
  rcases hl : obtainOutputs resolve inputEvent flow step step.LogicElements s.mem s.trace
    with ⟨r1, m1, tr1⟩
  rw [hl] at h1
  simp only at h1
  have h2 := obtainOutputs_entered resolve inputEvent flow step step.FinalElements m1 tr1
  rcases hf : obtainOutputs resolve inputEvent flow step step.FinalElements m1 tr1
    with ⟨r2, m2, tr2⟩
  rw [hf] at h2
  simp only at h2
  rcases r1 with ⟨g, _ | err1⟩ | v
  · rcases r2 with ⟨f, _ | err2⟩ | v
    · simp [Ran.state, hf, h1, h2]
    · simp [Ran.state, hf, h1, h2]
    · simp [Ran.state, hf, h1, h2]
  · simp [Ran.state, h1]
  · simp [Ran.state, h1]

theorem applyResult_trace (flow : Flow) (result : Option CdslOutputEvent) (s : LoopState) :
    (applyResult flow result s).state.trace = s.trace := by
  unfold applyResult
  cases result with
  | none => rfl
  | some r =>
    simp only
    split
    · split <;> rfl
    · split
      · rfl
      · split <;> rfl

theorem iterate_entered {σ ρ : Type} (e : FlowExecutor σ ρ) (flow : Flow)
    (inputEvent : CdslInputEvent) (step : FlowStep) (s : LoopState) :
    enteredSteps (iterate e flow inputEvent step s).state.trace
      = enteredSteps s.trace ++ [(flow.ID, step.ID)] := by
  have h := runElements_entered e.DslInitHelper flow inputEvent step (enterStep flow step s)
  have h0 : enteredSteps (enterStep flow step s).trace
      = enteredSteps s.trace ++ [(flow.ID, step.ID)] := by
    simp [enterStep, enteredSteps_append, enteredSteps]
  rw [h0] at h
  unfold iterate
  cases hr : runElements e.DslInitHelper flow inputEvent step (enterStep flow step s) with
  | panicked v s1 =>
    rw [hr] at h
    simpa [Iter.state, Ran.state] using h
  | failed err s1 =>
    rw [hr] at h
    simp only [Ran.state] at h
    simp only [divert]
    split
    · simp [Iter.state, enteredSteps_append, enteredSteps, h]
    · simpa [Iter.state] using h
  | outputs g f s2 =>
    rw [hr] at h
    simp only [Ran.state] at h
    simp only [applyResult_trace, drainPostStepTasks, runPostStepTasks_entered, h]

theorem stepLoop_entered {σ ρ : Type} (e : FlowExecutor σ ρ) (flow : Flow)
    (inputEvent : CdslInputEvent) (fuel : Nat) (nextStep : Option FlowStep) (s : LoopState) :
    ∃ ext, enteredSteps (stepLoop e flow inputEvent fuel nextStep s).state.trace
      = enteredSteps s.trace ++ ext := by
  induction fuel generalizing nextStep s with
  | zero =>
    cases nextStep <;> exact ⟨[], by simp [stepLoop, LoopExit.state]⟩
  | succ n ih =>
    cases nextStep with
    | none => exact ⟨[], by simp [stepLoop, LoopExit.state]⟩
    | some step =>
      have hi := iterate_entered e flow inputEvent step s
      simp only [stepLoop]
      cases hit : iterate e flow inputEvent step s with
      | next ns s1 =>
        rw [hit] at hi
        simp only [Iter.state] at hi
        obtain ⟨ext, hext⟩ := ih ns s1
        exact ⟨(flow.ID, step.ID) :: ext, by simp [hext, hi]⟩
      | fail err s1 =>
        rw [hit] at hi
        exact ⟨[(flow.ID, step.ID)], by simpa [LoopExit.state, Iter.state] using hi⟩
      | panic v s1 =>
        rw [hit] at hi
        exact ⟨[(flow.ID, step.ID)], by simpa [LoopExit.state, Iter.state] using hi⟩

theorem stepLoop_entered_first {σ ρ : Type} (e : FlowExecutor σ ρ) (flow : Flow)
    (inputEvent : CdslInputEvent) (fuel : Nat) (step : FlowStep) (s : LoopState) :
    ∃ ext, enteredSteps (stepLoop e flow inputEvent (fuel + 1) (some step) s).state.trace
      = enteredSteps s.trace ++ (flow.ID, step.ID) :: ext := by
  have hi := iterate_entered e flow inputEvent step s
  simp only [stepLoop]
  cases hit : iterate e flow inputEvent step s with
  | next ns s1 =>
    rw [hit] at hi
    simp only [Iter.state] at hi
    obtain ⟨ext, hext⟩ := stepLoop_entered e flow inputEvent fuel ns s1
    exact ⟨ext, by simp [hext, hi]⟩
  | fail err s1 =>
    rw [hit] at hi
    exact ⟨[], by simpa [LoopExit.state, Iter.state] using hi⟩
  | panic v s1 =>
    rw [hit] at hi
    exact ⟨[], by simpa [LoopExit.state, Iter.state] using hi⟩

theorem commit_entered {σ ρ : Type} (e : FlowExecutor σ ρ) (flow : Flow) (lock : Lock)
    (w : World σ ρ) (s : LoopState) :
    enteredSteps (commit e flow lock w s).trace = enteredSteps s.trace := by
  unfold commit
  rcases e.ContextRepository.SaveContext w.repo s.mem.runtime.GetTransactionID s.mem.ctx
    with ⟨_ | err, r1⟩
  · rcases e.LockProvider.Release w.locks lock with ⟨_ | err, l1⟩
    · simp [ensureReleased, runPostCommitTasks_entered, enteredSteps_append, enteredSteps]
    · simp [ensureReleased, enteredSteps_append, enteredSteps]
  · simp [ensureReleased, enteredSteps_append, enteredSteps]

theorem finish_entered {σ ρ : Type} (e : FlowExecutor σ ρ) (flow : Flow) (lock : Lock)
    (w : World σ ρ) (x : LoopExit) :
    enteredSteps (finish e flow lock w x).trace = enteredSteps x.state.trace := by
  cases x with
  | done s => simpa [finish, LoopExit.state] using commit_entered e flow lock w s
  | fail err s => simp [finish, LoopExit.state, ensureReleased, enteredSteps_append, enteredSteps]
  | panic v s => rfl
  | outOfFuel s => rfl

theorem acquire_ready_entered {σ ρ : Type} (e : FlowExecutor σ ρ) (newID : String)
    (inputEvent : CdslInputEvent) (w : World σ ρ) (lock : Lock) (ctx : CdslContext)
    (w1 : World σ ρ) (tr : List Event)
    (h : acquire e newID inputEvent w = .ready lock ctx w1 tr) : enteredSteps tr = [] := by
  unfold acquire at h
  split at h
  · dsimp only at h
    split at h
    · simp at h
    · split at h
      · simp at h
      · split at h
        · simp at h
        · simp at h
        · simp only [Acquired.ready.injEq] at h
          rw [← h.2.2.2]
          rfl
  · dsimp only at h
    split at h
    · simp at h
    · split at h
      · simp at h
      · simp at h
      · split at h
        · simp at h
        · simp only [Acquired.ready.injEq] at h
          rw [← h.2.2.2]
          rfl

/-! ## From a point of the run to the result of `Execute` -/

theorem stepLoop_runIters {σ ρ : Type} (e : FlowExecutor σ ρ) (flow : Flow)
    (inputEvent : CdslInputEvent) (k n : Nat) (nextStep nextStep1 : Option FlowStep)
    (s s1 : LoopState)
    (h : runIters e flow inputEvent k nextStep s = some (nextStep1, s1)) :
    stepLoop e flow inputEvent (k + n) nextStep s = stepLoop e flow inputEvent n nextStep1 s1 := by
  induction k generalizing nextStep s with
  | zero =>
    simp only [runIters, Option.some.injEq, Prod.mk.injEq] at h
    rw [h.1, h.2, Nat.zero_add]
  | succ k ih =>
    cases nextStep with
    | none => simp [runIters] at h
    | some step =>
      simp only [runIters] at h
      rw [Nat.succ_add]
      simp only [stepLoop]
      cases hit : iterate e flow inputEvent step s with
      | next ns s2 =>
        rw [hit] at h
        exact ih ns s2 h
      | fail err s2 => rw [hit] at h; simp at h
      | panic v s2 => rw [hit] at h; simp at h

theorem execute_of_loopHead {σ ρ : Type} (e : FlowExecutor σ ρ) (newID : String) (flow : Flow)
    (inputEvent : CdslInputEvent) (w : World σ ρ) (k n : Nat) (h : LoopHead σ ρ)
    (hh : loopHead e newID flow inputEvent w k = some h) :
    Execute e (k + n) newID flow inputEvent w
      = finish e flow h.lock h.world (stepLoop e flow inputEvent n h.nextStep h.state) := by
  unfold loopHead at hh
  unfold Execute
  cases ha : acquire e newID inputEvent w with
  | fail lock err w1 tr => rw [ha] at hh; simp at hh
  | panic v w1 tr => rw [ha] at hh; simp at hh
  | ready lock ctx w1 tr =>
    rw [ha] at hh
    simp only at hh ⊢
    rcases hsel : selectStep flow inputEvent lock ctx with ⟨m, err | nextStep⟩
    · rw [hsel] at hh; simp at hh
    · rw [hsel] at hh
      simp only at hh ⊢
      cases hr : runIters e flow inputEvent k nextStep { mem := m, trace := tr } with
      | none => rw [hr] at hh; simp at hh
      | some p =>
        obtain ⟨ns1, s1⟩ := p
        rw [hr] at hh
        simp only [Option.some.injEq] at hh
        rw [← hh]
        simp only
        rw [stepLoop_runIters e flow inputEvent k n nextStep ns1 _ s1 hr]

/-! ## Element lists -/

theorem obtainOutputs_append_of_allReturnNil (resolve : DslMetadata → Option Dsl)
    (inputEvent : CdslInputEvent) (flow : Flow) (step : FlowStep)
    (pre rest : List DslMetadata) (m : Mem) (tr : List Event) (m1 : Mem) (tr1 : List Event)
    (h : allReturnNil resolve inputEvent flow step pre m tr = some (m1, tr1)) :
    obtainOutputs resolve inputEvent flow step (pre ++ rest) m tr
      = obtainOutputs resolve inputEvent flow step rest m1 tr1 := by
  induction pre generalizing m tr with
  | nil =>
    simp only [allReturnNil, Option.some.injEq, Prod.mk.injEq] at h
    rw [h.1, h.2]
    rfl
  | cons p pre ih =>
    simp only [allReturnNil] at h
    simp only [List.cons_append, obtainOutputs]
    cases hres : resolve p with
    | none => rw [hres] at h; simp at h
    | some d =>
      rw [hres] at h
      simp only at h ⊢
      rcases hr : (d m (intersectModel p.Model) inputEvent).result with ⟨_ | o, _ | err⟩ | v
      · rw [hr] at h
        simp only at h ⊢
        exact ih _ _ h
      · rw [hr] at h; simp at h
      · rw [hr] at h; simp at h
      · rw [hr] at h; simp at h
      · rw [hr] at h; simp at h

theorem allReturnNil_executed (resolve : DslMetadata → Option Dsl)
    (inputEvent : CdslInputEvent) (flow : Flow) (step : FlowStep)
    (pre : List DslMetadata) (m : Mem) (tr : List Event) (m1 : Mem) (tr1 : List Event)
    (h : allReturnNil resolve inputEvent flow step pre m tr = some (m1, tr1)) :
    executedElements tr1 = executedElements tr ++ pre.map (fun d => d.Name) := by
  induction pre generalizing m tr with
  | nil =>
    simp only [allReturnNil, Option.some.injEq, Prod.mk.injEq] at h
    simp [h.2]
  | cons p pre ih =>
    simp only [allReturnNil] at h
    cases hres : resolve p with
    | none => rw [hres] at h; simp at h
    | some d =>
      rw [hres] at h
      simp only at h
      rcases hr : (d m (intersectModel p.Model) inputEvent).result with ⟨_ | o, _ | err⟩ | v
      · rw [hr] at h
        simp only at h
        rw [ih _ _ h]
        simp [executedElements_append, executedElements, executedElements_innerAudit]
      · rw [hr] at h; simp at h
      · rw [hr] at h; simp at h
      · rw [hr] at h; simp at h
      · rw [hr] at h; simp at h

theorem allReturnNil_of_obtainOutputs (resolve : DslMetadata → Option Dsl)
    (inputEvent : CdslInputEvent) (flow : Flow) (step : FlowStep)
    (elements : List DslMetadata) (m : Mem) (tr : List Event) (m1 : Mem) (tr1 : List Event)
    (h : obtainOutputs resolve inputEvent flow step elements m tr = (.ret none none, m1, tr1)) :
    allReturnNil resolve inputEvent flow step elements m tr = some (m1, tr1) := by
  induction elements generalizing m tr with
  | nil =>
    simp only [obtainOutputs, Prod.mk.injEq, true_and] at h
    simp [allReturnNil, h.1, h.2]
  | cons p rest ih =>
    simp only [obtainOutputs] at h
    simp only [allReturnNil]
    cases hres : resolve p with
    | none => rw [hres] at h; simp at h
    | some d =>
      rw [hres] at h
      simp only at h ⊢
      rcases hr : (d m (intersectModel p.Model) inputEvent).result with ⟨_ | o, _ | err⟩ | v
      · rw [hr] at h
        simp only at h ⊢
        exact ih _ _ h
      · rw [hr] at h; simp at h
      · rw [hr] at h; simp at h
      · rw [hr] at h; simp at h
      · rw [hr] at h; simp at h

/-! ## Step selection -/

theorem selectStep_requested_missing (flow : Flow) (inputEvent : CdslInputEvent) (lock : Lock)
    (ctx : CdslContext) (hreq : inputEvent.RequestedStep ≠ "")
    (hmiss : flow.FetchStep inputEvent.RequestedStep = none) :
    (selectStep flow inputEvent lock ctx).2
      = .error (.cdslError ("Requested step " ++ inputEvent.RequestedStep ++ " was not found")) := by
  simp [selectStep, hreq, hmiss]

theorem selectStep_found (flow : Flow) (inputEvent : CdslInputEvent) (lock : Lock)
    (ctx : CdslContext)
    (h : inputEvent.RequestedStep = "" ∨ flow.FetchStep inputEvent.RequestedStep ≠ none) :
    (selectStep flow inputEvent lock ctx).2
      = .ok (flow.FetchStep (firstStepName flow inputEvent ctx)) := by
  by_cases hreq : inputEvent.RequestedStep = ""
  · by_cases hcur : ctx.CurrentStep = ""
    · simp [selectStep, firstStepName, hreq, hcur, CdslContext.SetRuntime]
    · simp [selectStep, firstStepName, hreq, hcur, CdslContext.SetRuntime]
  · rcases h with h | h
    · exact absurd h hreq
    · cases hf : flow.FetchStep inputEvent.RequestedStep with
      | none => exact absurd hf h
      | some step => simp [selectStep, firstStepName, hreq, hf]

/-! ## One pass of the loop body, by what the elements gave -/

theorem iterate_of_outputs {σ ρ : Type} (e : FlowExecutor σ ρ) (flow : Flow)
    (inputEvent : CdslInputEvent) (step : FlowStep) (s : LoopState)
    (g f : Option CdslOutputEvent) (s2 : LoopState)
    (h : runElements e.DslInitHelper flow inputEvent step (enterStep flow step s)
      = .outputs g f s2) :
    iterate e flow inputEvent step s
      = applyResult flow (chooseResult g f) (drainPostStepTasks e.RunTask flow step s2) := by
  simp [iterate, h]

theorem iterate_of_failed {σ ρ : Type} (e : FlowExecutor σ ρ) (flow : Flow)
    (inputEvent : CdslInputEvent) (step : FlowStep) (s : LoopState)
    (err : GoError) (s1 : LoopState)
    (h : runElements e.DslInitHelper flow inputEvent step (enterStep flow step s)
      = .failed err s1) :
    iterate e flow inputEvent step s = divert flow step err s1 := by
  simp [iterate, h]

theorem execute_at_step {σ ρ : Type} (e : FlowExecutor σ ρ) (newID : String) (flow : Flow)
    (inputEvent : CdslInputEvent) (w : World σ ρ) (k n : Nat) (h : LoopHead σ ρ)
    (step : FlowStep)
    (hh : loopHead e newID flow inputEvent w k = some h) (hstep : h.nextStep = some step) :
    Execute e (k + (n + 1)) newID flow inputEvent w
      = finish e flow h.lock h.world
          (match iterate e flow inputEvent step h.state with
          | .next nextStep s1 => stepLoop e flow inputEvent n nextStep s1
          | .fail err s1 => .fail err s1
          | .panic v s1 => .panic v s1) := by
  rw [execute_of_loopHead e newID flow inputEvent w k (n + 1) h hh, hstep]
  rfl

/-! ## Commit -/

theorem commit_saves {σ ρ : Type} (e : FlowExecutor σ ρ) (flow : Flow) (lock : Lock)
    (w : World σ ρ) (s : LoopState) :
    Event.saveContext s.mem.runtime.GetTransactionID s.mem.ctx
      ∈ (commit e flow lock w s).trace := by
  unfold commit
  rcases e.ContextRepository.SaveContext w.repo s.mem.runtime.GetTransactionID s.mem.ctx
    with ⟨_ | err, r1⟩
  · rcases e.LockProvider.Release w.locks lock with ⟨_ | err, l1⟩
    · obtain ⟨ext, hext⟩ := runPostCommitTasks_trace flow s.mem.runtime.GetPostCommitTasks
        (s.trace ++ [Event.saveContext s.mem.runtime.GetTransactionID s.mem.ctx]
          ++ [Event.release lock])
      simp only [ensureReleased, hext]
      simp
    · simp [ensureReleased]
  · simp [ensureReleased]

theorem commit_success {σ ρ : Type} (e : FlowExecutor σ ρ) (flow : Flow) (lock : Lock)
    (w : World σ ρ) (s : LoopState) (r1 : ρ) (l1 : σ)
    (hsave : e.ContextRepository.SaveContext w.repo s.mem.runtime.GetTransactionID s.mem.ctx
      = (none, r1))
    (hrel : e.LockProvider.Release w.locks lock = (none, l1)) :
    (commit e flow lock w s).outcome
        = .ret (buildOutput s.outputEvent
            { s.mem with runtime := s.mem.runtime.ClearPostCommitTasks }) ∧
      (commit e flow lock w s).world = { locks := l1, repo := r1 } ∧
      (commit e flow lock w s).ctx = some s.mem.ctx := by
  simp [commit, hsave, hrel, ensureReleased]

/-! ## The trace only grows -/

theorem obtainOutputs_grows (resolve : DslMetadata → Option Dsl) (inputEvent : CdslInputEvent)
    (flow : Flow) (step : FlowStep) (elements : List DslMetadata) (m : Mem) (tr : List Event) :
    tr <+: (obtainOutputs resolve inputEvent flow step elements m tr).2.2 := by
  induction elements generalizing m tr with
  | nil => exact List.prefix_refl _
  | cons d rest ih =>
    simp only [obtainOutputs]
    cases hres : resolve d with
    | none => exact List.prefix_append _ _
    | some dslInstance =>
      simp only []
      rcases hr : (dslInstance m (intersectModel d.Model) inputEvent).result
        with ⟨_ | o, _ | err⟩ | v
      · simp only []
        refine List.IsPrefix.trans ?_ (ih _ _)
        simp only [List.append_assoc]
        exact List.prefix_append _ _
      · simp only [List.append_assoc]; exact List.prefix_append _ _
      · simp only [List.append_assoc]; exact List.prefix_append _ _
      · simp only [List.append_assoc]; exact List.prefix_append _ _
      · simp only [List.append_assoc]; exact List.prefix_append _ _

theorem runPostStepTasks_grows (runTask : TaskId → TaskResult) (flow : Flow) (step : FlowStep)
    (tasks : List TaskId) (tr : List Event) :
    tr <+: runPostStepTasks runTask flow step tasks tr := by
  induction tasks generalizing tr with
  | nil => exact List.prefix_refl _
  | cons t rest ih =>
    simp only [runPostStepTasks]
    cases runTask t with
    | panic v =>
      refine List.IsPrefix.trans ?_ (ih _)
      simp only [List.append_assoc]
      exact List.prefix_append _ _
    | ok => exact List.IsPrefix.trans (List.prefix_append _ _) (ih _)
    | error err => exact List.IsPrefix.trans (List.prefix_append _ _) (ih _)

theorem runElements_grows (resolve : DslMetadata → Option Dsl) (flow : Flow)
    (inputEvent : CdslInputEvent) (step : FlowStep) (s : LoopState) :
    s.trace <+: (runElements resolve flow inputEvent step s).state.trace := by
  have h1 := obtainOutputs_grows resolve inputEvent flow step step.LogicElements s.mem s.trace
  unfold runElements
  rcases hl : obtainOutputs resolve inputEvent flow step step.LogicElements s.mem s.trace
    with ⟨r1, m1, tr1⟩
  rw [hl] at h1
  simp only at h1
  have h2 := obtainOutputs_grows resolve inputEvent flow step step.FinalElements m1 tr1
  rcases hf : obtainOutputs resolve inputEvent flow step step.FinalElements m1 tr1
    with ⟨r2, m2, tr2⟩
  rw [hf] at h2
  simp only at h2
  rcases r1 with ⟨g, _ | err1⟩ | v
  · rcases r2 with ⟨f, _ | err2⟩ | v
    · simpa [Ran.state, hf] using h1.trans h2
    · simpa [Ran.state, hf] using h1.trans h2
    · simpa [Ran.state, hf] using h1.trans h2
  · simpa [Ran.state] using h1
  · simpa [Ran.state] using h1

theorem iterate_grows {σ ρ : Type} (e : FlowExecutor σ ρ) (flow : Flow)
    (inputEvent : CdslInputEvent) (step : FlowStep) (s : LoopState) :
    s.trace <+: (iterate e flow inputEvent step s).state.trace := by
  have h := runElements_grows e.DslInitHelper flow inputEvent step (enterStep flow step s)
  have h0 : s.trace <+: (enterStep flow step s).trace := by
    simp only [enterStep]
    exact List.prefix_append _ _
  unfold iterate
  cases hr : runElements e.DslInitHelper flow inputEvent step (enterStep flow step s) with
  | panicked v s1 =>
    rw [hr] at h
    exact h0.trans h
  | failed err s1 =>
    rw [hr] at h
    simp only [Ran.state] at h
    simp only [divert]
    split
    · exact (h0.trans h).trans (List.prefix_append _ _)
    · exact h0.trans h
  | outputs g f s2 =>
    rw [hr] at h
    simp only [Ran.state] at h
    simp only [applyResult_trace, drainPostStepTasks]
    exact (h0.trans h).trans (runPostStepTasks_grows _ _ _ _ _)

theorem stepLoop_grows {σ ρ : Type} (e : FlowExecutor σ ρ) (flow : Flow)
    (inputEvent : CdslInputEvent) (fuel : Nat) (nextStep : Option FlowStep) (s : LoopState) :
    s.trace <+: (stepLoop e flow inputEvent fuel nextStep s).state.trace := by
  induction fuel generalizing nextStep s with
  | zero => cases nextStep <;> exact List.prefix_refl _
  | succ n ih =>
    cases nextStep with
    | none => exact List.prefix_refl _
    | some step =>
      have hi := iterate_grows e flow inputEvent step s
      simp only [stepLoop]
      cases hit : iterate e flow inputEvent step s with
      | next ns s1 =>
        rw [hit] at hi
        exact hi.trans (ih ns s1)
      | fail err s1 => rw [hit] at hi; exact hi
      | panic v s1 => rw [hit] at hi; exact hi

theorem runPostCommitTasks_grows (flow : Flow) (tasks : List TaskId) (tr : List Event) :
    tr <+: runPostCommitTasks flow tasks tr := by
  obtain ⟨ext, h⟩ := runPostCommitTasks_trace flow tasks tr
  exact ⟨ext, h.symm⟩

theorem finish_grows {σ ρ : Type} (e : FlowExecutor σ ρ) (flow : Flow) (lock : Lock)
    (w : World σ ρ) (x : LoopExit) :
    x.state.trace <+: (finish e flow lock w x).trace := by
  cases x with
  | done s =>
    simp only [finish, LoopExit.state, commit]
    rcases e.ContextRepository.SaveContext w.repo s.mem.runtime.GetTransactionID s.mem.ctx
      with ⟨_ | err, r1⟩
    · rcases e.LockProvider.Release w.locks lock with ⟨_ | err, l1⟩
      · simp only [ensureReleased]
        refine List.IsPrefix.trans ?_ (runPostCommitTasks_grows _ _ _)
        simp only [List.append_assoc]
        exact List.prefix_append _ _
      · simp only [ensureReleased, List.append_assoc]
        exact List.prefix_append _ _
    · simp only [ensureReleased, List.append_assoc]
      exact List.prefix_append _ _
  | fail err s =>
    simp only [finish, LoopExit.state, ensureReleased]
    exact List.prefix_append _ _
  | panic v s => exact List.prefix_refl _
  | outOfFuel s => exact List.prefix_refl _

theorem pushTransition_last (c : CdslContext) (a : String) :
    ∃ older, (c.PushTransition a).Transitions = older ++ [a] := by
  simp only [CdslContext.PushTransition]
  split
  · rename_i hlen
    cases hT : c.Transitions with
    | nil => simp [hT, MaxTransitionsHistory] at hlen
    | cons x rest => exact ⟨rest, by simp⟩
  · exact ⟨c.Transitions, rfl⟩

theorem pushTransition_after (c : CdslContext) (a b : String) (before : List String)
    (hT : c.Transitions = before ++ [a]) :
    ∃ older, (c.PushTransition b).Transitions = older ++ [a, b] := by
  simp only [CdslContext.PushTransition]
  rw [hT]
  split
  · rename_i hlen
    cases before with
    | nil => simp [MaxTransitionsHistory] at hlen
    | cons x rest => exact ⟨rest, by simp⟩
  · exact ⟨before, by simp⟩

/-! ## An error step whose own elements fail -/

theorem stepLoop_failing_error_step {σ ρ : Type} (e : FlowExecutor σ ρ) (flow : Flow)
    (inputEvent : CdslInputEvent) (errorStep : FlowStep)
    (hne : flow.ErrorStep ≠ "") (hfetch : flow.FetchStep flow.ErrorStep = some errorStep)
    (hfail : ∀ s : LoopState, ∃ err s1,
      runElements e.DslInitHelper flow inputEvent errorStep (enterStep flow errorStep s)
        = .failed err s1)
    (n : Nat) (s : LoopState) :
    ∃ s1, stepLoop e flow inputEvent n (some errorStep) s = .outOfFuel s1 ∧
      enteredSteps s1.trace
        = enteredSteps s.trace ++ List.replicate n (flow.ID, errorStep.ID) := by
  induction n generalizing s with
  | zero => exact ⟨s, rfl, by simp⟩
  | succ n ih =>
    obtain ⟨err, s1, hrun⟩ := hfail s
    have hit := iterate_of_failed e flow inputEvent errorStep s err s1 hrun
    have hnext : iterate e flow inputEvent errorStep s
        = .next (some errorStep)
            { s1 with trace := s1.trace ++ [Event.audit (.Error flow.ID errorStep.ID "" err)] } := by
      rw [hit]
      simp [divert, hne, hfetch]
    have hent := iterate_entered e flow inputEvent errorStep s
    rw [hnext] at hent
    simp only [Iter.state] at hent
    obtain ⟨s2, hloop, htr⟩ := ih
      { s1 with trace := s1.trace ++ [Event.audit (.Error flow.ID errorStep.ID "" err)] }
    refine ⟨s2, ?_, ?_⟩
    · simp only [stepLoop, hnext]
      exact hloop
    · rw [htr, hent, List.replicate_succ]
      simp

/-! ## Map lookups after an assignment -/

theorem GoMap.get?_put_self {α : Type} (m : GoMap α) (k : String) (v : α) :
    GoMap.get? (GoMap.put m k v) k = some v := by
  induction m with
  | nil => simp [GoMap.put, GoMap.get?]
  | cons kv rest ih =>
    obtain ⟨k', v'⟩ := kv
    by_cases h : k' = k
    · simp [GoMap.put, GoMap.get?, h]
    · simp [GoMap.put, GoMap.get?, h, ih]

theorem GoMap.get?_put_of_ne {α : Type} (m : GoMap α) (k k1 : String) (v : α) (h : k1 ≠ k) :
    GoMap.get? (GoMap.put m k v) k1 = GoMap.get? m k1 := by
  have h' : ¬ k = k1 := fun e => h e.symm
  induction m with
  | nil => simp [GoMap.put, GoMap.get?, h']
  | cons kv rest ih =>
    obtain ⟨k', v'⟩ := kv
    by_cases hk : k' = k
    · subst hk
      simp [GoMap.put, GoMap.get?, h']
    · by_cases hk1 : k' = k1
      · subst hk1
        simp [GoMap.put, GoMap.get?, hk]
      · simp [GoMap.put, GoMap.get?, hk, hk1, ih]

/-! ## A successful call, read back to the end of its step loop -/

theorem stepLoop_done_runIters {σ ρ : Type} (e : FlowExecutor σ ρ) (flow : Flow)
    (inputEvent : CdslInputEvent) (fuel : Nat) (nextStep : Option FlowStep) (s0 s : LoopState)
    (h : stepLoop e flow inputEvent fuel nextStep s0 = .done s) :
    ∃ k, k ≤ fuel ∧ runIters e flow inputEvent k nextStep s0 = some (none, s) := by
  induction fuel generalizing nextStep s0 with
  | zero =>
    cases nextStep with
    | none =>
      simp only [stepLoop, LoopExit.done.injEq] at h
      exact ⟨0, Nat.le_refl _, by simp [runIters, h]⟩
    | some step => simp [stepLoop] at h
  | succ n ih =>
    cases nextStep with
    | none =>
      simp only [stepLoop, LoopExit.done.injEq] at h
      exact ⟨0, Nat.zero_le _, by simp [runIters, h]⟩
    | some step =>
      simp only [stepLoop] at h
      cases hit : iterate e flow inputEvent step s0 with
      | next ns s1 =>
        rw [hit] at h
        obtain ⟨k, hk, hrun⟩ := ih ns s1 h
        exact ⟨k + 1, by omega, by simp [runIters, hit, hrun]⟩
      | fail err s1 => rw [hit] at h; simp at h
      | panic v s1 => rw [hit] at h; simp at h

theorem commit_ret {σ ρ : Type} (e : FlowExecutor σ ρ) (flow : Flow) (lock : Lock)
    (w : World σ ρ) (s : LoopState) (out : CdslFlowOutputEvent)
    (h : (commit e flow lock w s).outcome = .ret out) :
    ∃ r1 l1,
      e.ContextRepository.SaveContext w.repo s.mem.runtime.GetTransactionID s.mem.ctx
        = (none, r1) ∧
      e.LockProvider.Release w.locks lock = (none, l1) ∧
      commit e flow lock w s
        = { outcome := .ret (buildOutput s.outputEvent
              { s.mem with runtime := s.mem.runtime.ClearPostCommitTasks }),
            world := { locks := l1, repo := r1 },
            trace := runPostCommitTasks flow s.mem.runtime.GetPostCommitTasks
              (s.trace ++ [Event.saveContext s.mem.runtime.GetTransactionID s.mem.ctx]
                ++ [Event.release lock]),
            ctx := some s.mem.ctx } := by
  unfold commit at h ⊢
  rcases hs : e.ContextRepository.SaveContext w.repo s.mem.runtime.GetTransactionID s.mem.ctx
    with ⟨_ | err, r1⟩
  · rcases hr : e.LockProvider.Release w.locks lock with ⟨_ | err, l1⟩
    · exact ⟨r1, l1, rfl, rfl, by simp [ensureReleased]⟩
    · rw [hs, hr] at h
      simp [ensureReleased] at h
  · rw [hs] at h
    simp [ensureReleased] at h

theorem execute_ret_loopHead {σ ρ : Type} (e : FlowExecutor σ ρ) (fuel : Nat) (newID : String)
    (flow : Flow) (inputEvent : CdslInputEvent) (w : World σ ρ) (out : CdslFlowOutputEvent)
    (h : (Execute e fuel newID flow inputEvent w).outcome = .ret out) :
    ∃ k hd r1 l1, k ≤ fuel ∧
      loopHead e newID flow inputEvent w k = some hd ∧ hd.nextStep = none ∧
      e.ContextRepository.SaveContext hd.world.repo hd.state.mem.runtime.GetTransactionID
        hd.state.mem.ctx = (none, r1) ∧
      e.LockProvider.Release hd.world.locks hd.lock = (none, l1) ∧
      Execute e fuel newID flow inputEvent w
        = { outcome := .ret (buildOutput hd.state.outputEvent
              { hd.state.mem with runtime := hd.state.mem.runtime.ClearPostCommitTasks }),
            world := { locks := l1, repo := r1 },
            trace := runPostCommitTasks flow hd.state.mem.runtime.GetPostCommitTasks
              (hd.state.trace
                ++ [Event.saveContext hd.state.mem.runtime.GetTransactionID hd.state.mem.ctx]
                ++ [Event.release hd.lock]),
            ctx := some hd.state.mem.ctx } := by
  unfold Execute at h ⊢
  cases ha : acquire e newID inputEvent w with
  | fail lock err w1 tr =>
    rw [ha] at h
    cases lock <;> simp [ensureReleased] at h
  | panic v w1 tr => rw [ha] at h; simp at h
  | ready lock ctx w1 tr =>
    rw [ha] at h
    simp only at h ⊢
    rcases hsel : selectStep flow inputEvent lock ctx with ⟨m, err | first⟩
    · rw [hsel] at h; simp [ensureReleased] at h
    · rw [hsel] at h
      simp only at h ⊢
      cases hloop : stepLoop e flow inputEvent fuel first { mem := m, trace := tr } with
      | fail err s => rw [hloop] at h; simp [finish, ensureReleased] at h
      | panic v s => rw [hloop] at h; simp [finish] at h
      | outOfFuel s => rw [hloop] at h; simp [finish] at h
      | done s =>
        rw [hloop] at h
        simp only [finish] at h ⊢
        obtain ⟨k, hk, hrun⟩ := stepLoop_done_runIters e flow inputEvent fuel first _ s hloop
        obtain ⟨r1, l1, hsave, hrel, hc⟩ := commit_ret e flow lock w1 s out h
        refine ⟨k, { lock := lock, world := w1, nextStep := none, state := s }, r1, l1, hk,
          ?_, rfl, hsave, hrel, hc⟩
        simp [loopHead, ha, hsel, hrun]

/-! ## The output values -/

theorem copyVars_get_of_var (vars : GoMap String) (outputValues : GoMap Value)
    (key v : String) (h : GoMap.get? vars key = some v) :
    GoMap.get? (copyVars vars outputValues) key = some (.str v) := by
  induction vars with
  | nil => simp [GoMap.get?] at h
  | cons kv rest ih =>
    obtain ⟨k', v'⟩ := kv
    by_cases hk : k' = key
    · subst hk
      simp only [GoMap.get?, if_true, Option.some.injEq] at h
      subst h
      simp only [copyVars, List.foldr_cons]
      exact GoMap.get?_put_self _ _ _
    · simp only [GoMap.get?, hk, if_false] at h
      simp only [copyVars, List.foldr_cons]
      rw [GoMap.get?_put_of_ne _ _ _ _ (fun e => hk e.symm)]
      exact ih h

theorem copyVars_get_of_not_var (vars : GoMap String) (outputValues : GoMap Value)
    (key : String) (h : GoMap.get? vars key = none) :
    GoMap.get? (copyVars vars outputValues) key = GoMap.get? outputValues key := by
  induction vars with
  | nil => rfl
  | cons kv rest ih =>
    obtain ⟨k', v'⟩ := kv
    by_cases hk : k' = key
    · simp [GoMap.get?, hk] at h
    · simp only [GoMap.get?, hk, if_false] at h
      simp only [copyVars, List.foldr_cons]
      rw [GoMap.get?_put_of_ne _ _ _ _ (fun e => hk e.symm)]
      exact ih h

/-! ## What the loops add to the trace -/

theorem obtainOutputs_ext (resolve : DslMetadata → Option Dsl) (inputEvent : CdslInputEvent)
    (flow : Flow) (step : FlowStep) (elements : List DslMetadata) (m : Mem) (tr : List Event) :
    ∃ ext, (obtainOutputs resolve inputEvent flow step elements m tr).2.2 = tr ++ ext ∧
      ∀ ev ∈ ext, Event.isLoopEvent ev = true := by
  induction elements generalizing m tr with
  | nil => exact ⟨[], by simp [obtainOutputs], by simp⟩
  | cons d rest ih =>
    simp only [obtainOutputs]
    have hinner : ∀ calls : List AuditCall, ∀ ev ∈ calls.map Event.innerAudit,
        Event.isLoopEvent ev = true := by
      intro calls ev hev
      obtain ⟨c, _, rfl⟩ := List.mem_map.mp hev
      rfl
    cases hres : resolve d with
    | none =>
      refine ⟨[Event.audit (.Execute flow.ID step.ID d.Name)], rfl, ?_⟩
      intro ev hev
      simp only [List.mem_singleton] at hev
      rw [hev]; rfl
    | some dslInstance =>
      simp only []
      have hhead : ∀ ev ∈ [Event.audit (.Execute flow.ID step.ID d.Name)]
          ++ [Event.dslExecute d.Name (intersectModel d.Model)]
          ++ (dslInstance m (intersectModel d.Model) inputEvent).audit.map Event.innerAudit,
          Event.isLoopEvent ev = true := by
        intro ev hev
        simp only [List.mem_append, List.mem_singleton] at hev
        rcases hev with (hev | hev) | hev
        · rw [hev]; rfl
        · rw [hev]; rfl
        · exact hinner _ ev hev
      rcases hr : (dslInstance m (intersectModel d.Model) inputEvent).result
        with ⟨_ | o, _ | err⟩ | v
      · simp only []
        obtain ⟨ext, hext, hall⟩ := ih (dslInstance m (intersectModel d.Model) inputEvent).mem
          (tr ++ [Event.audit (.Execute flow.ID step.ID d.Name)]
            ++ [Event.dslExecute d.Name (intersectModel d.Model)]
            ++ (dslInstance m (intersectModel d.Model) inputEvent).audit.map Event.innerAudit)
        refine ⟨[Event.audit (.Execute flow.ID step.ID d.Name)]
          ++ [Event.dslExecute d.Name (intersectModel d.Model)]
          ++ (dslInstance m (intersectModel d.Model) inputEvent).audit.map Event.innerAudit
          ++ ext, ?_, ?_⟩
        · rw [hext]; simp only [List.append_assoc]
        · intro ev hev
          rcases List.mem_append.mp hev with hev | hev
          · exact hhead ev hev
          · exact hall ev hev
      · exact ⟨_, by simp only [List.append_assoc], hhead⟩
      · exact ⟨_, by simp only [List.append_assoc], hhead⟩
      · exact ⟨_, by simp only [List.append_assoc], hhead⟩
      · exact ⟨_, by simp only [List.append_assoc], hhead⟩

theorem runPostStepTasks_ext (runTask : TaskId → TaskResult) (flow : Flow) (step : FlowStep)
    (tasks : List TaskId) (tr : List Event) :
    ∃ ext, runPostStepTasks runTask flow step tasks tr = tr ++ ext ∧
      ∀ ev ∈ ext, Event.isLoopEvent ev = true := by
  induction tasks generalizing tr with
  | nil => exact ⟨[], by simp [runPostStepTasks], by simp⟩
  | cons t rest ih =>
    simp only [runPostStepTasks]
    cases runTask t with
    | panic v =>
      obtain ⟨ext, hext, hall⟩ := ih
        (tr ++ [Event.audit (.ExecutePostStep flow.ID step.ID t), Event.runTask t]
          ++ [Event.audit (.Error flow.ID step.ID ""
            (.errorsNew ("panic in post step task: " ++ v)))])
      refine ⟨[Event.audit (.ExecutePostStep flow.ID step.ID t), Event.runTask t]
        ++ [Event.audit (.Error flow.ID step.ID ""
          (.errorsNew ("panic in post step task: " ++ v)))] ++ ext, ?_, ?_⟩
      · simp only []; rw [hext]; simp only [List.append_assoc]
      · intro ev hev
        simp only [List.mem_append, List.mem_cons, List.mem_singleton, List.not_mem_nil,
          or_false] at hev
        rcases hev with ((hev | hev) | hev) | hev
        · rw [hev]; rfl
        · rw [hev]; rfl
        · rw [hev]; rfl
        · exact hall ev hev
    | ok =>
      obtain ⟨ext, hext, hall⟩ := ih
        (tr ++ [Event.audit (.ExecutePostStep flow.ID step.ID t), Event.runTask t])
      refine ⟨[Event.audit (.ExecutePostStep flow.ID step.ID t), Event.runTask t] ++ ext,
        ?_, ?_⟩
      · simp only []; rw [hext]; simp only [List.append_assoc]
      · intro ev hev
        simp only [List.mem_append, List.mem_cons, List.mem_singleton, List.not_mem_nil,
          or_false] at hev
        rcases hev with (hev | hev) | hev
        · rw [hev]; rfl
        · rw [hev]; rfl
        · exact hall ev hev
    | error err =>
      obtain ⟨ext, hext, hall⟩ := ih
        (tr ++ [Event.audit (.ExecutePostStep flow.ID step.ID t), Event.runTask t])
      refine ⟨[Event.audit (.ExecutePostStep flow.ID step.ID t), Event.runTask t] ++ ext,
        ?_, ?_⟩
      · simp only []; rw [hext]; simp only [List.append_assoc]
      · intro ev hev
        simp only [List.mem_append, List.mem_cons, List.mem_singleton, List.not_mem_nil,
          or_false] at hev
        rcases hev with (hev | hev) | hev
        · rw [hev]; rfl
        · rw [hev]; rfl
        · exact hall ev hev

theorem runPostCommitTasks_ext (flow : Flow) (tasks : List TaskId) (tr : List Event) :
    ∃ ext, runPostCommitTasks flow tasks tr = tr ++ ext ∧
      ∀ ev ∈ ext, Event.isLoopEvent ev = true := by
  induction tasks generalizing tr with
  | nil => exact ⟨[], by simp [runPostCommitTasks], by simp⟩
  | cons t rest ih =>
    simp only [runPostCommitTasks]
    obtain ⟨ext, hext, hall⟩ := ih
      (tr ++ [Event.audit (.ExecutePostCommit flow.ID t), Event.runTask t])
    refine ⟨[Event.audit (.ExecutePostCommit flow.ID t), Event.runTask t] ++ ext, ?_, ?_⟩
    · rw [hext]; simp only [List.append_assoc]
    · intro ev hev
      simp only [List.mem_append, List.mem_cons, List.mem_singleton, List.not_mem_nil,
        or_false] at hev
      rcases hev with (hev | hev) | hev
      · rw [hev]; rfl
      · rw [hev]; rfl
      · exact hall ev hev

theorem LoopExtends.refl (a : List Event) : LoopExtends a a :=
  ⟨[], by simp, by simp⟩

theorem LoopExtends.trans {a b c : List Event} (h1 : LoopExtends a b) (h2 : LoopExtends b c) :
    LoopExtends a c := by
  obtain ⟨e1, rfl, ha1⟩ := h1
  obtain ⟨e2, rfl, ha2⟩ := h2
  refine ⟨e1 ++ e2, by simp, ?_⟩
  intro ev hev
  rcases List.mem_append.mp hev with hev | hev
  · exact ha1 ev hev
  · exact ha2 ev hev

theorem LoopExtends.snoc (a : List Event) (ev : Event) (h : Event.isLoopEvent ev = true) :
    LoopExtends a (a ++ [ev]) :=
  ⟨[ev], rfl, by intro x hx; simp only [List.mem_singleton] at hx; rw [hx]; exact h⟩

theorem runElements_ext (resolve : DslMetadata → Option Dsl) (flow : Flow)
    (inputEvent : CdslInputEvent) (step : FlowStep) (s : LoopState) :
    LoopExtends s.trace (runElements resolve flow inputEvent step s).state.trace := by
  have h1 : LoopExtends s.trace
      (obtainOutputs resolve inputEvent flow step step.LogicElements s.mem s.trace).2.2 :=
    obtainOutputs_ext resolve inputEvent flow step step.LogicElements s.mem s.trace
  unfold runElements
  rcases hl : obtainOutputs resolve inputEvent flow step step.LogicElements s.mem s.trace
    with ⟨r1, m1, tr1⟩
  rw [hl] at h1
  simp only at h1
  have h2 : LoopExtends tr1
      (obtainOutputs resolve inputEvent flow step step.FinalElements m1 tr1).2.2 :=
    obtainOutputs_ext resolve inputEvent flow step step.FinalElements m1 tr1
  rcases hf : obtainOutputs resolve inputEvent flow step step.FinalElements m1 tr1
    with ⟨r2, m2, tr2⟩
  rw [hf] at h2
  simp only at h2
  rcases r1 with ⟨g, _ | err1⟩ | v
  · rcases r2 with ⟨f, _ | err2⟩ | v
    · simpa [Ran.state, hf] using h1.trans h2
    · simpa [Ran.state, hf] using h1.trans h2
    · simpa [Ran.state, hf] using h1.trans h2
  · simpa [Ran.state] using h1
  · simpa [Ran.state] using h1

theorem iterate_ext {σ ρ : Type} (e : FlowExecutor σ ρ) (flow : Flow)
    (inputEvent : CdslInputEvent) (step : FlowStep) (s : LoopState) :
    LoopExtends s.trace (iterate e flow inputEvent step s).state.trace := by
  have h := runElements_ext e.DslInitHelper flow inputEvent step (enterStep flow step s)
  have h0 : LoopExtends s.trace (enterStep flow step s).trace := by
    simp only [enterStep]
    exact LoopExtends.snoc _ _ rfl
  unfold iterate
  cases hr : runElements e.DslInitHelper flow inputEvent step (enterStep flow step s) with
  | panicked v s1 =>
    rw [hr] at h
    exact h0.trans h
  | failed err s1 =>
    rw [hr] at h
    simp only [Ran.state] at h
    simp only [divert]
    split
    · exact (h0.trans h).trans (LoopExtends.snoc _ _ rfl)
    · exact h0.trans h
  | outputs g f s2 =>
    rw [hr] at h
    simp only [Ran.state] at h
    simp only [applyResult_trace, drainPostStepTasks]
    exact (h0.trans h).trans (runPostStepTasks_ext _ _ _ _ _)

theorem stepLoop_ext {σ ρ : Type} (e : FlowExecutor σ ρ) (flow : Flow)
    (inputEvent : CdslInputEvent) (fuel : Nat) (nextStep : Option FlowStep) (s : LoopState) :
    LoopExtends s.trace (stepLoop e flow inputEvent fuel nextStep s).state.trace := by
  induction fuel generalizing nextStep s with
  | zero => cases nextStep <;> exact LoopExtends.refl _
  | succ n ih =>
    cases nextStep with
    | none => exact LoopExtends.refl _
    | some step =>
      have hi := iterate_ext e flow inputEvent step s
      simp only [stepLoop]
      cases hit : iterate e flow inputEvent step s with
      | next ns s1 =>
        rw [hit] at hi
        exact hi.trans (ih ns s1)
      | fail err s1 => rw [hit] at hi; exact hi
      | panic v s1 => rw [hit] at hi; exact hi

/-! ## The lock discipline, scanned along the trace -/

theorem lockScan_append (resource : String) (held : Option Lock) (a b : List Event) :
    lockScan resource held (a ++ b)
      = (lockScan resource held a).bind (fun held1 => lockScan resource held1 b) := by
  induction a generalizing held with
  | nil => rfl
  | cons ev rest ih =>
    simp only [List.cons_append, lockScan]
    cases lockScanStep resource held ev with
    | none => rfl
    | some h1 => exact ih h1

theorem lockScan_loopEvents (resource : String) (held : Option Lock) (ext : List Event)
    (h : ∀ ev ∈ ext, Event.isLoopEvent ev = true) :
    lockScan resource held ext = some held := by
  induction ext with
  | nil => rfl
  | cons ev rest ih =>
    have hev : Event.isLoopEvent ev = true := h ev (List.mem_cons_self _ _)
    have hrest := ih (fun x hx => h x (List.mem_cons_of_mem _ hx))
    cases ev <;> simp [Event.isLoopEvent] at hev <;> simpa [lockScan, lockScanStep] using hrest

theorem lockScan_of_loopExtends (resource : String) (held held1 : Option Lock)
    (a b : List Event) (hab : LoopExtends a b) (ha : lockScan resource held a = some held1) :
    lockScan resource held b = some held1 := by
  obtain ⟨ext, rfl, hall⟩ := hab
  rw [lockScan_append, ha]
  exact lockScan_loopEvents resource held1 ext hall

theorem acquire_scan {σ ρ : Type} (e : FlowExecutor σ ρ) (newID : String)
    (inputEvent : CdslInputEvent) (w : World σ ρ) :
    match acquire e newID inputEvent w with
    | .ready lock _ _ tr =>
      lockScan (lockResource newID inputEvent) none tr = some (some lock)
    | .fail lock _ _ tr => lockScan (lockResource newID inputEvent) none tr = some lock
    | .panic _ _ tr => ∃ l, lockScan (lockResource newID inputEvent) none tr = some (some l) := by
  unfold acquire lockResource
  by_cases hid : inputEvent.ContextID = ""
  · simp only [hid, if_true, NewCdslContext]
    rcases e.LockProvider.Obtain w.locks e.MyIdentifier ("context/" ++ newID) e.LockDuration
      e.LockRetries e.LockRetryMaxDuration with ⟨err | lock, l1⟩
    · simp [lockScan, lockScanStep]
    · simp only
      rcases e.ContextRepository.SaveContext w.repo lock.ID { ID := newID } with ⟨_ | err, r1⟩
      · simp only
        rcases e.ContextRepository.GetContext r1 lock.ID newID with ⟨err | _ | ctx, r2⟩
        · simp [lockScan, lockScanStep]
        · simp [lockScan, lockScanStep]
        · simp [lockScan, lockScanStep]
      · simp [lockScan, lockScanStep]
  · simp only [hid, if_false]
    rcases e.LockProvider.Obtain w.locks e.MyIdentifier ("context/" ++ inputEvent.ContextID)
      e.LockDuration e.LockRetries e.LockRetryMaxDuration with ⟨err | lock, l1⟩
    · simp [lockScan, lockScanStep]
    · simp only
      rcases e.ContextRepository.GetContext w.repo lock.ID inputEvent.ContextID
        with ⟨err | _ | ctx, r2⟩
      · simp [lockScan, lockScanStep]
      · simp [lockScan, lockScanStep]
      · simp only
        by_cases hend : ctx.State = StateEnd
        · simp [hend, lockScan, lockScanStep]
        · simp [hend, lockScan, lockScanStep]

theorem commit_scan {σ ρ : Type} (e : FlowExecutor σ ρ) (flow : Flow) (lock : Lock)
    (w : World σ ρ) (s : LoopState) (resource : String)
    (h : lockScan resource none s.trace = some (some lock)) :
    lockScan resource none (commit e flow lock w s).trace = some none := by
  unfold commit
  rcases e.ContextRepository.SaveContext w.repo s.mem.runtime.GetTransactionID s.mem.ctx
    with ⟨_ | err, r1⟩
  · rcases e.LockProvider.Release w.locks lock with ⟨_ | err, l1⟩
    · simp only [ensureReleased]
      apply lockScan_of_loopExtends resource none none _ _
        (runPostCommitTasks_ext flow _ _)
      rw [lockScan_append, lockScan_append, h]
      simp [lockScan, lockScanStep]
    · simp only [ensureReleased]
      rw [lockScan_append, lockScan_append, lockScan_append, h]
      simp [lockScan, lockScanStep]
  · simp only [ensureReleased]
    rw [lockScan_append, lockScan_append, h]
    simp [lockScan, lockScanStep]

/-! ## What the elements leave alone -/

theorem obtainOutputs_keeps {α : Type} (f : Mem → α) (resolve : DslMetadata → Option Dsl)
    (inputEvent : CdslInputEvent)
    (hdsl : ∀ dslMeta d, resolve dslMeta = some d →
      ∀ m model, f (d m model inputEvent).mem = f m)
    (flow : Flow) (step : FlowStep) (elements : List DslMetadata) (m : Mem) (tr : List Event) :
    f (obtainOutputs resolve inputEvent flow step elements m tr).2.1 = f m := by
  induction elements generalizing m tr with
  | nil => simp [obtainOutputs]
  | cons x rest ih =>
    simp only [obtainOutputs]
    cases hres : resolve x with
    | none => simp
    | some d =>
      have hk := hdsl x d hres m (intersectModel x.Model)
      simp only
      rcases hr : (d m (intersectModel x.Model) inputEvent).result with
        ⟨_ | output, _ | err⟩ | v
      · simp only
        rw [ih]
        exact hk
      · simpa using hk
      · simpa using hk
      · simpa using hk
      · simpa using hk

theorem runElements_keeps {α : Type} (f : Mem → α) (resolve : DslMetadata → Option Dsl)
    (inputEvent : CdslInputEvent)
    (hdsl : ∀ dslMeta d, resolve dslMeta = some d →
      ∀ m model, f (d m model inputEvent).mem = f m)
    (flow : Flow) (step : FlowStep) (s : LoopState) :
    f (runElements resolve flow inputEvent step s).state.mem = f s.mem := by
  have h1 := obtainOutputs_keeps f resolve inputEvent hdsl flow step step.LogicElements
    s.mem s.trace
  unfold runElements
  rcases ho : obtainOutputs resolve inputEvent flow step step.LogicElements s.mem s.trace with
    ⟨⟨g, _ | err⟩ | v, m1, tr1⟩
  · rw [ho] at h1
    simp only at h1 ⊢
    have h2 := obtainOutputs_keeps f resolve inputEvent hdsl flow step step.FinalElements m1 tr1
    rcases ho2 : obtainOutputs resolve inputEvent flow step step.FinalElements m1 tr1 with
      ⟨⟨g2, _ | err2⟩ | v2, m2, tr2⟩
    · rw [ho2] at h2; simpa [Ran.state, h1] using h2
    · rw [ho2] at h2; simpa [Ran.state, h1] using h2
    · rw [ho2] at h2; simpa [Ran.state, h1] using h2
  · rw [ho] at h1; simpa [Ran.state] using h1
  · rw [ho] at h1; simpa [Ran.state] using h1

theorem applyResult_transactionID (flow : Flow) (result : Option CdslOutputEvent)
    (s : LoopState) :
    (applyResult flow result s).state.mem.runtime.transactionID
      = s.mem.runtime.transactionID := by
  unfold applyResult
  cases result with
  | none => rfl
  | some r =>
    simp only
    split
    · split <;> rfl
    · split
      · rfl
      · split <;> rfl

theorem iterate_transactionID {σ ρ : Type} (e : FlowExecutor σ ρ) (flow : Flow)
    (inputEvent : CdslInputEvent)
    (hdsl : ∀ dslMeta d, e.DslInitHelper dslMeta = some d →
      ∀ m model, (d m model inputEvent).mem.runtime.transactionID = m.runtime.transactionID)
    (step : FlowStep) (s : LoopState) :
    (iterate e flow inputEvent step s).state.mem.runtime.transactionID
      = s.mem.runtime.transactionID := by
  have h := runElements_keeps (fun m => m.runtime.transactionID) e.DslInitHelper inputEvent
    hdsl flow step (enterStep flow step s)
  unfold iterate
  cases hr : runElements e.DslInitHelper flow inputEvent step (enterStep flow step s) with
  | panicked v s1 =>
    rw [hr] at h
    simpa [Iter.state, Ran.state, enterStep] using h
  | failed err s1 =>
    rw [hr] at h
    simp only [Ran.state, enterStep] at h
    simp only [divert]
    split
    · simpa [Iter.state] using h
    · simpa [Iter.state] using h
  | outputs g fo s2 =>
    rw [hr] at h
    simp only [Ran.state, enterStep] at h
    simp only [applyResult_transactionID, drainPostStepTasks, CdslRuntime.ClearPostStepTasks]
    exact h

theorem runIters_transactionID {σ ρ : Type} (e : FlowExecutor σ ρ) (flow : Flow)
    (inputEvent : CdslInputEvent)
    (hdsl : ∀ dslMeta d, e.DslInitHelper dslMeta = some d →
      ∀ m model, (d m model inputEvent).mem.runtime.transactionID = m.runtime.transactionID)
    (k : Nat) (nextStep nextStep1 : Option FlowStep) (s s1 : LoopState)
    (h : runIters e flow inputEvent k nextStep s = some (nextStep1, s1)) :
    s1.mem.runtime.transactionID = s.mem.runtime.transactionID := by
  induction k generalizing nextStep s with
  | zero =>
    simp only [runIters, Option.some.injEq, Prod.mk.injEq] at h
    rw [h.2]
  | succ k ih =>
    cases nextStep with
    | none => simp [runIters] at h
    | some step =>
      simp only [runIters] at h
      have hi := iterate_transactionID e flow inputEvent hdsl step s
      cases hit : iterate e flow inputEvent step s with
      | next ns s2 =>
        rw [hit] at h hi
        rw [ih ns s2 h]
        exact hi
      | fail err s2 => rw [hit] at h; simp at h
      | panic v s2 => rw [hit] at h; simp at h

/-! ## The lock and the transaction id -/

theorem acquire_ready_obtain {σ ρ : Type} (e : FlowExecutor σ ρ) (newID : String)
    (inputEvent : CdslInputEvent) (w : World σ ρ) (lock : Lock) (ctx : CdslContext)
    (w1 : World σ ρ) (tr : List Event)
    (h : acquire e newID inputEvent w = .ready lock ctx w1 tr) :
    (e.LockProvider.Obtain w.locks e.MyIdentifier (lockResource newID inputEvent)
        e.LockDuration e.LockRetries e.LockRetryMaxDuration).1 = .ok lock ∧
      ∃ rest, tr = Event.obtain e.MyIdentifier (lockResource newID inputEvent) (some lock)
        :: rest := by
  unfold acquire at h
  by_cases hid : inputEvent.ContextID = ""
  · simp only [hid, if_true, NewCdslContext] at h
    have hres : lockResource newID inputEvent = "context/" ++ newID := by
      simp [lockResource, hid]
    rw [hres]
    rcases ho : e.LockProvider.Obtain w.locks e.MyIdentifier ("context/" ++ newID)
      e.LockDuration e.LockRetries e.LockRetryMaxDuration with ⟨err | l, l1⟩
    · rw [ho] at h; simp at h
    · rw [ho] at h
      simp only at h
      split at h
      · simp at h
      · split at h
        · simp at h
        · simp at h
        · simp only [Acquired.ready.injEq] at h
          refine ⟨by rw [h.1], ?_⟩
          rw [← h.2.2.2, h.1]
          exact ⟨_, rfl⟩
  · simp only [hid, if_false] at h
    have hres : lockResource newID inputEvent = "context/" ++ inputEvent.ContextID := by
      simp [lockResource, hid]
    rw [hres]
    rcases ho : e.LockProvider.Obtain w.locks e.MyIdentifier
      ("context/" ++ inputEvent.ContextID)
      e.LockDuration e.LockRetries e.LockRetryMaxDuration with ⟨err | l, l1⟩
    · rw [ho] at h; simp at h
    · rw [ho] at h
      simp only at h
      split at h
      · simp at h
      · simp at h
      · split at h
        · simp at h
        · simp only [Acquired.ready.injEq] at h
          refine ⟨by rw [h.1], ?_⟩
          rw [← h.2.2.2, h.1]
          exact ⟨_, rfl⟩

theorem selectStep_transactionID (flow : Flow) (inputEvent : CdslInputEvent) (lock : Lock)
    (ctx : CdslContext) :
    (selectStep flow inputEvent lock ctx).1.runtime.GetTransactionID = lock.ID := by
  unfold selectStep
  dsimp only
  split
  · split <;> rfl
  · rfl

theorem loopHead_transactionID {σ ρ : Type} (e : FlowExecutor σ ρ) (newID : String)
    (flow : Flow) (inputEvent : CdslInputEvent) (w : World σ ρ)
    (hdsl : ∀ dslMeta d, e.DslInitHelper dslMeta = some d →
      ∀ m model, (d m model inputEvent).mem.runtime.transactionID = m.runtime.transactionID)
    (k : Nat) (hd : LoopHead σ ρ) (h : loopHead e newID flow inputEvent w k = some hd) :
    (e.LockProvider.Obtain w.locks e.MyIdentifier (lockResource newID inputEvent)
        e.LockDuration e.LockRetries e.LockRetryMaxDuration).1 = .ok hd.lock ∧
      hd.state.mem.runtime.GetTransactionID = hd.lock.ID := by
  unfold loopHead at h
  cases ha : acquire e newID inputEvent w with
  | fail lock err w1 tr => rw [ha] at h; simp at h
  | panic v w1 tr => rw [ha] at h; simp at h
  | ready lock ctx w1 tr =>
    rw [ha] at h
    simp only at h
    have hsid := selectStep_transactionID flow inputEvent lock ctx
    rcases hsel : selectStep flow inputEvent lock ctx with ⟨m, err | first⟩
    · rw [hsel] at h; simp at h
    · rw [hsel] at h hsid
      simp only at h hsid
      cases hr : runIters e flow inputEvent k first { mem := m, trace := tr } with
      | none => rw [hr] at h; simp at h
      | some p =>
        obtain ⟨ns1, s1⟩ := p
        rw [hr] at h
        simp only [Option.some.injEq] at h
        rw [← h]
        refine ⟨(acquire_ready_obtain e newID inputEvent w lock ctx w1 tr ha).1, ?_⟩
        have := runIters_transactionID e flow inputEvent hdsl k first ns1 _ s1 hr
        simp only [CdslRuntime.GetTransactionID] at hsid ⊢
        rw [this]
        exact hsid

/-! ## The reference elements leave the runtime and the history alone -/

theorem putVar_keeps (c : CdslContext) (key value : String) :
    (c.PutVar key value).2.1.Transitions = c.Transitions := by
  unfold CdslContext.PutVar
  split <;> rfl

theorem SetState_keeps (m : Mem) (model : Value) (ev : CdslInputEvent) :
    (SetState m model ev).mem.runtime = m.runtime ∧
      (SetState m model ev).mem.ctx.Transitions = m.ctx.Transitions := by
  unfold SetState
  dsimp only
  split
  · exact ⟨rfl, rfl⟩
  · refine ⟨rfl, ?_⟩
    dsimp only
    repeat (first | rfl | split)

theorem SetVar_keeps (m : Mem) (model : Value) (ev : CdslInputEvent) :
    (SetVar m model ev).mem.runtime = m.runtime ∧
      (SetVar m model ev).mem.ctx.Transitions = m.ctx.Transitions := by
  unfold SetVar
  dsimp only
  split
  · exact ⟨rfl, rfl⟩
  · split
    · exact ⟨rfl, rfl⟩
    · have hk := putVar_keeps m.ctx (stripTrailingQuote (modelAttribute model "name"))
        (stripTrailingQuote (modelAttribute model "val"))
      rcases hp : m.ctx.PutVar (stripTrailingQuote (modelAttribute model "name"))
        (stripTrailingQuote (modelAttribute model "val")) with ⟨_ | err, ctx, calls⟩
      · rw [hp] at hk; exact ⟨rfl, hk⟩
      · rw [hp] at hk; exact ⟨rfl, hk⟩

theorem SayHello_keeps (m : Mem) (model : Value) (ev : CdslInputEvent) :
    (SayHello m model ev).mem.runtime = m.runtime ∧
      (SayHello m model ev).mem.ctx.Transitions = m.ctx.Transitions := by
  unfold SayHello
  dsimp only
  generalize (if modelAttribute model "name" = "" then "World"
    else stripTrailingQuote (modelAttribute model "name")) = name
  have hk := putVar_keeps m.ctx "greeting" ("Hello, " ++ name ++ "!")
  rcases hp : m.ctx.PutVar "greeting" ("Hello, " ++ name ++ "!") with ⟨_ | err, ctx, calls⟩
  · rw [hp] at hk; exact ⟨rfl, hk⟩
  · rw [hp] at hk; exact ⟨rfl, hk⟩

theorem RouteTo_keeps (m : Mem) (model : Value) (ev : CdslInputEvent) :
    (RouteTo m model ev).mem = m := by
  unfold RouteTo
  dsimp only
  split <;> rfl

theorem testDsls_keep (dslMeta : DslMetadata) (d : Dsl)
    (h : testDsls.Resolve dslMeta = some d) (m : Mem) (model : Value) (ev : CdslInputEvent) :
    (d m model ev).mem.runtime = m.runtime ∧
      (d m model ev).mem.ctx.Transitions = m.ctx.Transitions := by
  have ht : testDsls = [("setState", SetState), ("setVar", SetVar), ("routeTo", RouteTo),
      ("endRoute", EndRoute), ("sayHello", SayHello)] := rfl
  rw [ht] at h
  simp only [DslInitialisationHelper.Resolve, GoMap.get?] at h
  split at h
  · simp only [Option.some.injEq] at h; rw [← h]; exact SetState_keeps m model ev
  · split at h
    · simp only [Option.some.injEq] at h; rw [← h]; exact SetVar_keeps m model ev
    · split at h
      · simp only [Option.some.injEq] at h; rw [← h, RouteTo_keeps]; exact ⟨rfl, rfl⟩
      · split at h
        · simp only [Option.some.injEq] at h; rw [← h]; exact ⟨rfl, rfl⟩
        · split at h
          · simp only [Option.some.injEq] at h; rw [← h]; exact SayHello_keeps m model ev
          · simp at h

/-! ## The transition history -/

theorem pushTransition_congr (c1 c2 : CdslContext) (s : String)
    (h : c1.Transitions = c2.Transitions) :
    (c1.PushTransition s).Transitions = (c2.PushTransition s).Transitions := by
  simp only [CdslContext.PushTransition, h]

theorem foldl_pushTransition_congr (entries : List String) (c1 c2 : CdslContext)
    (h : c1.Transitions = c2.Transitions) :
    (entries.foldl CdslContext.PushTransition c1).Transitions
      = (entries.foldl CdslContext.PushTransition c2).Transitions := by
  induction entries generalizing c1 c2 with
  | nil => exact h
  | cons x rest ih => exact ih _ _ (pushTransition_congr c1 c2 x h)

theorem foldl_pushTransition_drop (entries : List String) (c : CdslContext) :
    ∃ d, d ≤ entries.length ∧
      (entries.foldl CdslContext.PushTransition c).Transitions
        = (c.Transitions ++ entries).drop d ∧
      (c.Transitions.length + entries.length ≤ MaxTransitionsHistory → d = 0) := by
  induction entries generalizing c with
  | nil => exact ⟨0, Nat.le_refl _, by simp, fun _ => rfl⟩
  | cons x rest ih =>
    obtain ⟨d, hd, heq, hzero⟩ := ih (c.PushTransition x)
    simp only [List.foldl_cons]
    by_cases hover : (c.Transitions ++ [x]).length > MaxTransitionsHistory
    · have hp : (c.PushTransition x).Transitions = (c.Transitions ++ [x]).drop 1 := by
        simp only [CdslContext.PushTransition, hover, if_true]
      refine ⟨1 + d, by simp only [List.length_cons]; omega, ?_, ?_⟩
      · rw [heq, hp]
        have h1 : (c.Transitions ++ [x]).drop 1 ++ rest
            = (c.Transitions ++ [x] ++ rest).drop 1 := by
          cases hts : c.Transitions with
          | nil =>
            rw [hts] at hover
            simp [MaxTransitionsHistory] at hover
          | cons t ts => simp
        rw [h1, List.drop_drop]
        simp [List.append_assoc]
      · intro hle
        simp only [List.length_append, List.length_cons, List.length_nil] at hover hle
        omega
    · have hp : (c.PushTransition x).Transitions = c.Transitions ++ [x] := by
        simp only [CdslContext.PushTransition, hover, if_false]
      refine ⟨d, by simp only [List.length_cons]; omega, ?_, ?_⟩
      · rw [heq, hp]
        simp [List.append_assoc]
      · intro hle
        apply hzero
        rw [hp]
        simp only [List.length_append, List.length_cons, List.length_nil] at hle ⊢
        omega

theorem applyResult_transitions (flow : Flow) (result : Option CdslOutputEvent)
    (s : LoopState) :
    (applyResult flow result s).state.mem.ctx.Transitions = s.mem.ctx.Transitions := by
  unfold applyResult
  cases result with
  | none => rfl
  | some r =>
    simp only
    split
    · split <;> rfl
    · split
      · rfl
      · split <;> rfl

theorem iterate_transitions {σ ρ : Type} (e : FlowExecutor σ ρ) (flow : Flow)
    (inputEvent : CdslInputEvent)
    (hdsl : ∀ dslMeta d, e.DslInitHelper dslMeta = some d →
      ∀ m model, (d m model inputEvent).mem.ctx.Transitions = m.ctx.Transitions)
    (step : FlowStep) (s : LoopState) :
    (iterate e flow inputEvent step s).state.mem.ctx.Transitions
      = (s.mem.ctx.PushTransition (flow.ID ++ "/" ++ step.ID)).Transitions := by
  have h := runElements_keeps (fun m => m.ctx.Transitions) e.DslInitHelper inputEvent
    hdsl flow step (enterStep flow step s)
  have h0 : (enterStep flow step s).mem.ctx.Transitions
      = (s.mem.ctx.PushTransition (flow.ID ++ "/" ++ step.ID)).Transitions := rfl
  simp only [h0] at h
  unfold iterate
  cases hr : runElements e.DslInitHelper flow inputEvent step (enterStep flow step s) with
  | panicked v s1 =>
    rw [hr] at h
    simpa [Iter.state, Ran.state] using h
  | failed err s1 =>
    rw [hr] at h
    simp only [Ran.state] at h
    simp only [divert]
    split
    · simpa [Iter.state] using h
    · simpa [Iter.state] using h
  | outputs g fo s2 =>
    rw [hr] at h
    simp only [Ran.state] at h
    simp only [applyResult_transitions, drainPostStepTasks]
    exact h

theorem stepLoop_transitions {σ ρ : Type} (e : FlowExecutor σ ρ) (flow : Flow)
    (inputEvent : CdslInputEvent)
    (hdsl : ∀ dslMeta d, e.DslInitHelper dslMeta = some d →
      ∀ m model, (d m model inputEvent).mem.ctx.Transitions = m.ctx.Transitions)
    (fuel : Nat) (nextStep : Option FlowStep) (s : LoopState) :
    ∃ ids : List String,
      enteredSteps (stepLoop e flow inputEvent fuel nextStep s).state.trace
        = enteredSteps s.trace ++ ids.map (fun id => (flow.ID, id)) ∧
      (stepLoop e flow inputEvent fuel nextStep s).state.mem.ctx.Transitions
        = ((ids.map (fun id => flow.ID ++ "/" ++ id)).foldl CdslContext.PushTransition
            s.mem.ctx).Transitions := by
  induction fuel generalizing nextStep s with
  | zero =>
    cases nextStep <;> exact ⟨[], by simp [stepLoop, LoopExit.state], rfl⟩
  | succ n ih =>
    cases nextStep with
    | none => exact ⟨[], by simp [stepLoop, LoopExit.state], rfl⟩
    | some step =>
      have hi := iterate_entered e flow inputEvent step s
      have ht := iterate_transitions e flow inputEvent hdsl step s
      simp only [stepLoop]
      cases hit : iterate e flow inputEvent step s with
      | next ns s1 =>
        rw [hit] at hi ht
        simp only [Iter.state] at hi ht
        obtain ⟨ids, hent, htr⟩ := ih ns s1
        refine ⟨step.ID :: ids, by simp [hent, hi], ?_⟩
        rw [htr]
        simp only [List.map_cons, List.foldl_cons]
        exact foldl_pushTransition_congr _ _ _ ht
      | fail err s1 =>
        rw [hit] at hi ht
        exact ⟨[step.ID], by simpa [LoopExit.state, Iter.state] using hi,
          by simpa [LoopExit.state, Iter.state] using ht⟩
      | panic v s1 =>
        rw [hit] at hi ht
        exact ⟨[step.ID], by simpa [LoopExit.state, Iter.state] using hi,
          by simpa [LoopExit.state, Iter.state] using ht⟩

theorem runIters_transitions {σ ρ : Type} (e : FlowExecutor σ ρ) (flow : Flow)
    (inputEvent : CdslInputEvent)
    (hdsl : ∀ dslMeta d, e.DslInitHelper dslMeta = some d →
      ∀ m model, (d m model inputEvent).mem.ctx.Transitions = m.ctx.Transitions)
    (k : Nat) (nextStep nextStep1 : Option FlowStep) (s s1 : LoopState)
    (h : runIters e flow inputEvent k nextStep s = some (nextStep1, s1)) :
    ∃ ids : List String,
      enteredSteps s1.trace = enteredSteps s.trace ++ ids.map (fun id => (flow.ID, id)) ∧
      s1.mem.ctx.Transitions
        = ((ids.map (fun id => flow.ID ++ "/" ++ id)).foldl CdslContext.PushTransition
            s.mem.ctx).Transitions := by
  induction k generalizing nextStep s with
  | zero =>
    simp only [runIters, Option.some.injEq, Prod.mk.injEq] at h
    rw [← h.2]
    exact ⟨[], by simp, rfl⟩
  | succ k ih =>
    cases nextStep with
    | none => simp [runIters] at h
    | some step =>
      simp only [runIters] at h
      have hi := iterate_entered e flow inputEvent step s
      have ht := iterate_transitions e flow inputEvent hdsl step s
      cases hit : iterate e flow inputEvent step s with
      | next ns s2 =>
        rw [hit] at h hi ht
        simp only [Iter.state] at hi ht
        obtain ⟨ids, hent, htr⟩ := ih ns s2 h
        refine ⟨step.ID :: ids, by simp [hent, hi], ?_⟩
        rw [htr]
        simp only [List.map_cons, List.foldl_cons]
        exact foldl_pushTransition_congr _ _ _ ht
      | fail err s2 => rw [hit] at h; simp at h
      | panic v s2 => rw [hit] at h; simp at h

theorem selectStep_transitions (flow : Flow) (inputEvent : CdslInputEvent) (lock : Lock)
    (ctx : CdslContext) :
    (selectStep flow inputEvent lock ctx).1.ctx.Transitions = ctx.Transitions := by
  unfold selectStep
  dsimp only
  split
  · split <;> (simp only [CdslContext.SetRuntime]; split <;> rfl)
  · simp only [CdslContext.SetRuntime]; split <;> rfl

theorem finish_ctx {σ ρ : Type} (e : FlowExecutor σ ρ) (flow : Flow) (lock : Lock)
    (w : World σ ρ) (x : LoopExit) :
    (finish e flow lock w x).ctx = some x.state.mem.ctx := by
  cases x with
  | done s =>
    simp only [finish, LoopExit.state, commit]
    rcases e.ContextRepository.SaveContext w.repo s.mem.runtime.GetTransactionID s.mem.ctx
      with ⟨_ | err, r1⟩
    · rcases e.LockProvider.Release w.locks lock with ⟨_ | err, l1⟩ <;> simp [ensureReleased]
    · simp [ensureReleased]
  | fail err s => simp [finish, LoopExit.state, ensureReleased]
  | panic v s => rfl
  | outOfFuel s => rfl

/-! ## An element without a registered factory -/

theorem obtainOutputs_unresolved (resolve : DslMetadata → Option Dsl)
    (inputEvent : CdslInputEvent) (flow : Flow) (step : FlowStep)
    (pre post : List DslMetadata) (x : DslMetadata) (m : Mem) (tr : List Event)
    (m1 : Mem) (tr1 : List Event)
    (hpre : allReturnNil resolve inputEvent flow step pre m tr = some (m1, tr1))
    (hres : resolve x = none) :
    obtainOutputs resolve inputEvent flow step (pre ++ x :: post) m tr
      = (.ret none (some (.cdslError ("Failed to resolve DSL " ++ x.Name))), m1,
          tr1 ++ [Event.audit (.Execute flow.ID step.ID x.Name)]) := by
  rw [obtainOutputs_append_of_allReturnNil resolve inputEvent flow step pre (x :: post) m tr
    m1 tr1 hpre]
  simp [obtainOutputs, hres]

/-! ## Post-step tasks -/

theorem tasksRun_append (a b : List Event) : tasksRun (a ++ b) = tasksRun a ++ tasksRun b := by
  induction a with
  | nil => rfl
  | cons x rest ih => cases x <;> simp [tasksRun, ih]

theorem runPostStepTasks_runs (runTask : TaskId → TaskResult) (flow : Flow) (step : FlowStep)
    (tasks : List TaskId) (tr : List Event) :
    ∃ ext, runPostStepTasks runTask flow step tasks tr = tr ++ ext ∧
      tasksRun ext = tasks ∧ enteredSteps ext = [] ∧ executedElements ext = [] := by
  induction tasks generalizing tr with
  | nil => exact ⟨[], by simp [runPostStepTasks], rfl, rfl, rfl⟩
  | cons t rest ih =>
    simp only [runPostStepTasks]
    cases runTask t with
    | panic v =>
      obtain ⟨ext, hext, htasks, hent, hexe⟩ := ih
        (tr ++ [Event.audit (.ExecutePostStep flow.ID step.ID t), Event.runTask t]
          ++ [Event.audit (.Error flow.ID step.ID ""
            (.errorsNew ("panic in post step task: " ++ v)))])
      refine ⟨[Event.audit (.ExecutePostStep flow.ID step.ID t), Event.runTask t,
        Event.audit (.Error flow.ID step.ID ""
          (.errorsNew ("panic in post step task: " ++ v)))] ++ ext, ?_, ?_, ?_, ?_⟩
      · simp only [hext]; simp [List.append_assoc]
      · simp [tasksRun_append, tasksRun, htasks]
      · simp [enteredSteps_append, enteredSteps, hent]
      · simp [executedElements_append, executedElements, hexe]
    | ok =>
      obtain ⟨ext, hext, htasks, hent, hexe⟩ := ih
        (tr ++ [Event.audit (.ExecutePostStep flow.ID step.ID t), Event.runTask t])
      refine ⟨[Event.audit (.ExecutePostStep flow.ID step.ID t), Event.runTask t] ++ ext,
        ?_, ?_, ?_, ?_⟩
      · simp only [hext]; simp [List.append_assoc]
      · simp [tasksRun_append, tasksRun, htasks]
      · simp [enteredSteps_append, enteredSteps, hent]
      · simp [executedElements_append, executedElements, hexe]
    | error err =>
      obtain ⟨ext, hext, htasks, hent, hexe⟩ := ih
        (tr ++ [Event.audit (.ExecutePostStep flow.ID step.ID t), Event.runTask t])
      refine ⟨[Event.audit (.ExecutePostStep flow.ID step.ID t), Event.runTask t] ++ ext,
        ?_, ?_, ?_, ?_⟩
      · simp only [hext]; simp [List.append_assoc]
      · simp [tasksRun_append, tasksRun, htasks]
      · simp [enteredSteps_append, enteredSteps, hent]
      · simp [executedElements_append, executedElements, hexe]

theorem applyResult_postStepTasks (flow : Flow) (result : Option CdslOutputEvent)
    (s : LoopState) :
    (applyResult flow result s).state.mem.runtime = s.mem.runtime := by
  unfold applyResult
  cases result with
  | none => rfl
  | some r =>
    simp only
    split
    · split <;> rfl
    · split
      · rfl
      · split <;> rfl

theorem runIters_snoc {σ ρ : Type} (e : FlowExecutor σ ρ) (flow : Flow)
    (inputEvent : CdslInputEvent) (k : Nat) (nextStep : Option FlowStep) (s : LoopState)
    (step : FlowStep) (s1 : LoopState)
    (h : runIters e flow inputEvent k nextStep s = some (some step, s1)) :
    runIters e flow inputEvent (k + 1) nextStep s
      = match iterate e flow inputEvent step s1 with
        | .next nextStep2 s2 => some (nextStep2, s2)
        | _ => none := by
  induction k generalizing nextStep s with
  | zero =>
    simp only [runIters, Option.some.injEq, Prod.mk.injEq] at h
    rw [h.1, h.2]
    simp only [runIters]
  | succ k ih =>
    cases nextStep with
    | none => simp [runIters] at h
    | some st =>
      simp only [runIters] at h
      rw [runIters]
      cases hit : iterate e flow inputEvent st s with
      | next ns s2 =>
        rw [hit] at h
        simp only
        exact ih ns s2 h
      | fail err s2 => rw [hit] at h; simp at h
      | panic v s2 => rw [hit] at h; simp at h

theorem loopHead_succ {σ ρ : Type} (e : FlowExecutor σ ρ) (newID : String) (flow : Flow)
    (inputEvent : CdslInputEvent) (w : World σ ρ) (k : Nat) (h h1 : LoopHead σ ρ)
    (step : FlowStep)
    (hh : loopHead e newID flow inputEvent w k = some h) (hstep : h.nextStep = some step)
    (hh1 : loopHead e newID flow inputEvent w (k + 1) = some h1) :
    h1.state = (iterate e flow inputEvent step h.state).state ∧
      iterate e flow inputEvent step h.state = .next h1.nextStep h1.state := by
  unfold loopHead at hh hh1
  cases ha : acquire e newID inputEvent w with
  | fail lock err w1 tr => rw [ha] at hh; simp at hh
  | panic v w1 tr => rw [ha] at hh; simp at hh
  | ready lock ctx w1 tr =>
    rw [ha] at hh hh1
    simp only at hh hh1
    rcases hsel : selectStep flow inputEvent lock ctx with ⟨m, err | first⟩
    · rw [hsel] at hh; simp at hh
    · rw [hsel] at hh hh1
      simp only at hh hh1
      cases hr : runIters e flow inputEvent k first { mem := m, trace := tr } with
      | none => rw [hr] at hh; simp at hh
      | some p =>
        obtain ⟨ns1, s1⟩ := p
        rw [hr] at hh
        simp only [Option.some.injEq] at hh
        rw [← hh] at hstep ⊢
        simp only at hstep ⊢
        rw [hstep] at hr
        rw [runIters_snoc e flow inputEvent k first _ step s1 hr] at hh1
        cases hit : iterate e flow inputEvent step s1 with
        | next ns2 s2 =>
          rw [hit] at hh1
          simp only [Option.some.injEq] at hh1
          rw [← hh1]
          exact ⟨rfl, rfl⟩
        | fail err s2 => rw [hit] at hh1; simp at hh1
        | panic v s2 => rw [hit] at hh1; simp at hh1

/-! ## Post-commit tasks -/

theorem postCommitRuns_append (a b : List Event) :
    postCommitRuns (a ++ b) = postCommitRuns a ++ postCommitRuns b := by
  induction a with
  | nil => rfl
  | cons x rest ih =>
    cases x with
    | audit call => cases call <;> simp [postCommitRuns, ih]
    | _ => simp [postCommitRuns, ih]

theorem postCommitRuns_innerAudit (calls : List AuditCall) :
    postCommitRuns (calls.map Event.innerAudit) = [] := by
  induction calls with
  | nil => rfl
  | cons c rest ih => simpa [postCommitRuns] using ih

theorem obtainOutputs_postCommitRuns (resolve : DslMetadata → Option Dsl)
    (inputEvent : CdslInputEvent) (flow : Flow) (step : FlowStep)
    (elements : List DslMetadata) (m : Mem) (tr : List Event) :
    postCommitRuns (obtainOutputs resolve inputEvent flow step elements m tr).2.2
      = postCommitRuns tr := by
  induction elements generalizing m tr with
  | nil => rfl
  | cons d rest ih =>
    simp only [obtainOutputs]
    cases hres : resolve d with
    | none => simp [postCommitRuns_append, postCommitRuns]
    | some dslInstance =>
      simp only []
      cases hr : (dslInstance m (intersectModel d.Model) inputEvent).result with
      | panic v => simp [postCommitRuns_append, postCommitRuns, postCommitRuns_innerAudit]
      | ret output err =>
        cases err with
        | some err => simp [postCommitRuns_append, postCommitRuns, postCommitRuns_innerAudit]
        | none =>
          cases output with
          | some o => simp [postCommitRuns_append, postCommitRuns, postCommitRuns_innerAudit]
          | none =>
            simp only []
            rw [ih]
            simp [postCommitRuns_append, postCommitRuns, postCommitRuns_innerAudit]

theorem runPostStepTasks_postCommitRuns (runTask : TaskId → TaskResult) (flow : Flow)
    (step : FlowStep) (tasks : List TaskId) (tr : List Event) :
    postCommitRuns (runPostStepTasks runTask flow step tasks tr) = postCommitRuns tr := by
  induction tasks generalizing tr with
  | nil => rfl
  | cons t rest ih =>
    simp only [runPostStepTasks]
    cases runTask t <;> simp [ih, postCommitRuns_append, postCommitRuns]

theorem runPostCommitTasks_postCommitRuns (flow : Flow) (tasks : List TaskId)
    (tr : List Event) :
    postCommitRuns (runPostCommitTasks flow tasks tr) = postCommitRuns tr ++ tasks := by
  induction tasks generalizing tr with
  | nil => simp [runPostCommitTasks]
  | cons t rest ih => simp [runPostCommitTasks, ih, postCommitRuns_append, postCommitRuns]

theorem runElements_postCommitRuns (resolve : DslMetadata → Option Dsl) (flow : Flow)
    (inputEvent : CdslInputEvent) (step : FlowStep) (s : LoopState) :
    postCommitRuns (runElements resolve flow inputEvent step s).state.trace
      = postCommitRuns s.trace := by
  have h1 := obtainOutputs_postCommitRuns resolve inputEvent flow step step.LogicElements
    s.mem s.trace
  unfold runElements
  rcases hl : obtainOutputs resolve inputEvent flow step step.LogicElements s.mem s.trace
    with ⟨r1, m1, tr1⟩
  rw [hl] at h1
  simp only at h1
  have h2 := obtainOutputs_postCommitRuns resolve inputEvent flow step step.FinalElements m1 tr1
  rcases hf : obtainOutputs resolve inputEvent flow step step.FinalElements m1 tr1
    with ⟨r2, m2, tr2⟩
  rw [hf] at h2
  simp only at h2
  rcases r1 with ⟨g, _ | err1⟩ | v
  · rcases r2 with ⟨f, _ | err2⟩ | v
    · simp [Ran.state, hf, h1, h2]
    · simp [Ran.state, hf, h1, h2]
    · simp [Ran.state, hf, h1, h2]
  · simp [Ran.state, h1]
  · simp [Ran.state, h1]

theorem iterate_postCommitRuns {σ ρ : Type} (e : FlowExecutor σ ρ) (flow : Flow)
    (inputEvent : CdslInputEvent) (step : FlowStep) (s : LoopState) :
    postCommitRuns (iterate e flow inputEvent step s).state.trace = postCommitRuns s.trace := by
  have h := runElements_postCommitRuns e.DslInitHelper flow inputEvent step
    (enterStep flow step s)
  have h0 : postCommitRuns (enterStep flow step s).trace = postCommitRuns s.trace := by
    simp [enterStep, postCommitRuns_append, postCommitRuns]
  rw [h0] at h
  unfold iterate
  cases hr : runElements e.DslInitHelper flow inputEvent step (enterStep flow step s) with
  | panicked v s1 =>
    rw [hr] at h
    simpa [Iter.state, Ran.state] using h
  | failed err s1 =>
    rw [hr] at h
    simp only [Ran.state] at h
    simp only [divert]
    split
    · simp [Iter.state, postCommitRuns_append, postCommitRuns, h]
    · simpa [Iter.state] using h
  | outputs g f s2 =>
    rw [hr] at h
    simp only [Ran.state] at h
    simp only [applyResult_trace, drainPostStepTasks, runPostStepTasks_postCommitRuns, h]

theorem stepLoop_postCommitRuns {σ ρ : Type} (e : FlowExecutor σ ρ) (flow : Flow)
    (inputEvent : CdslInputEvent) (fuel : Nat) (nextStep : Option FlowStep) (s : LoopState) :
    postCommitRuns (stepLoop e flow inputEvent fuel nextStep s).state.trace
      = postCommitRuns s.trace := by
  induction fuel generalizing nextStep s with
  | zero => cases nextStep <;> rfl
  | succ n ih =>
    cases nextStep with
    | none => rfl
    | some step =>
      have hi := iterate_postCommitRuns e flow inputEvent step s
      simp only [stepLoop]
      cases hit : iterate e flow inputEvent step s with
      | next ns s1 =>
        rw [hit] at hi
        simp only [Iter.state] at hi
        rw [ih ns s1, hi]
      | fail err s1 => rw [hit] at hi; simpa [LoopExit.state, Iter.state] using hi
      | panic v s1 => rw [hit] at hi; simpa [LoopExit.state, Iter.state] using hi

theorem acquire_postCommitRuns {σ ρ : Type} (e : FlowExecutor σ ρ) (newID : String)
    (inputEvent : CdslInputEvent) (w : World σ ρ) :
    match acquire e newID inputEvent w with
    | .ready _ _ _ tr => postCommitRuns tr = []
    | .fail _ _ _ tr => postCommitRuns tr = []
    | .panic _ _ tr => postCommitRuns tr = [] := by
  unfold acquire
  by_cases hid : inputEvent.ContextID = ""
  · simp only [hid, if_true]
    rcases e.LockProvider.Obtain w.locks e.MyIdentifier _ e.LockDuration e.LockRetries
      e.LockRetryMaxDuration with ⟨err | l, l1⟩
    · rfl
    · simp only
      rcases e.ContextRepository.SaveContext w.repo l.ID _ with ⟨_ | err, r1⟩
      · simp only
        rcases e.ContextRepository.GetContext r1 l.ID _ with ⟨err | _ | ctx, r2⟩ <;> rfl
      · rfl
  · simp only [hid, if_false]
    rcases e.LockProvider.Obtain w.locks e.MyIdentifier _ e.LockDuration e.LockRetries
      e.LockRetryMaxDuration with ⟨err | l, l1⟩
    · rfl
    · simp only
      rcases e.ContextRepository.GetContext w.repo l.ID _ with ⟨err | _ | ctx, r2⟩
      · rfl
      · rfl
      · simp only
        by_cases hend : ctx.State = StateEnd
        · simp [hend]; rfl
        · simp [hend]; rfl

theorem runPostCommitTasks_runs (flow : Flow) (tasks : List TaskId) (tr : List Event) :
    ∃ post, runPostCommitTasks flow tasks tr = tr ++ post ∧
      postCommitRuns post = tasks ∧ tasksRun post = tasks := by
  induction tasks generalizing tr with
  | nil => exact ⟨[], by simp [runPostCommitTasks], rfl, rfl⟩
  | cons t rest ih =>
    simp only [runPostCommitTasks]
    obtain ⟨post, hpost, hpc, hrun⟩ := ih
      (tr ++ [Event.audit (.ExecutePostCommit flow.ID t), Event.runTask t])
    refine ⟨[Event.audit (.ExecutePostCommit flow.ID t), Event.runTask t] ++ post, ?_, ?_, ?_⟩
    · rw [hpost]; simp only [List.append_assoc]
    · simp [postCommitRuns_append, postCommitRuns, hpc]
    · simp [tasksRun_append, tasksRun, hrun]

/-! ## Tasks that panic or fail -/

theorem quietTrace_append (a b : List Event) :
    quietTrace (a ++ b) = quietTrace a ++ quietTrace b := by
  simp [quietTrace]

theorem quietTrace_snoc_congr (a b ext : List Event) (h : quietTrace a = quietTrace b) :
    quietTrace (a ++ ext) = quietTrace (b ++ ext) := by
  rw [quietTrace_append, quietTrace_append, h]

theorem tasksRun_quietTrace (tr : List Event) : tasksRun (quietTrace tr) = tasksRun tr := by
  induction tr with
  | nil => rfl
  | cons x rest ih =>
    cases x with
    | audit call =>
      cases call <;> simp [quietTrace, Event.isErrorAudit, tasksRun] <;>
        simpa [quietTrace] using ih
    | runTask t =>
      simp only [quietTrace, Event.isErrorAudit, List.filter, tasksRun, Bool.not_false]
      simpa [quietTrace] using ih
    | _ =>
      simp only [quietTrace, Event.isErrorAudit, List.filter, tasksRun, Bool.not_false]
      simpa [quietTrace] using ih

theorem LoopState.quiet_eq_iff (s s1 : LoopState) :
    s.quiet = s1.quiet ↔
      s.mem = s1.mem ∧ s.outputEvent = s1.outputEvent ∧
        quietTrace s.trace = quietTrace s1.trace := by
  cases s; cases s1
  simp only [LoopState.quiet, LoopState.mk.injEq]
  tauto

theorem obtainOutputs_quiet (resolve : DslMetadata → Option Dsl) (inputEvent : CdslInputEvent)
    (flow : Flow) (step : FlowStep) (elements : List DslMetadata) (m : Mem)
    (tr tr1 : List Event) (h : quietTrace tr = quietTrace tr1) :
    (obtainOutputs resolve inputEvent flow step elements m tr).1
        = (obtainOutputs resolve inputEvent flow step elements m tr1).1 ∧
      (obtainOutputs resolve inputEvent flow step elements m tr).2.1
        = (obtainOutputs resolve inputEvent flow step elements m tr1).2.1 ∧
      quietTrace (obtainOutputs resolve inputEvent flow step elements m tr).2.2
        = quietTrace (obtainOutputs resolve inputEvent flow step elements m tr1).2.2 := by
  induction elements generalizing m tr tr1 with
  | nil => exact ⟨rfl, rfl, h⟩
  | cons d rest ih =>
    simp only [obtainOutputs]
    cases hres : resolve d with
    | none => exact ⟨rfl, rfl, quietTrace_snoc_congr _ _ _ h⟩
    | some dslInstance =>
      simp only []
      have h2 : quietTrace (tr ++ [Event.audit (.Execute flow.ID step.ID d.Name)]
            ++ [Event.dslExecute d.Name (intersectModel d.Model)]
            ++ (dslInstance m (intersectModel d.Model) inputEvent).audit.map Event.innerAudit)
          = quietTrace (tr1 ++ [Event.audit (.Execute flow.ID step.ID d.Name)]
            ++ [Event.dslExecute d.Name (intersectModel d.Model)]
            ++ (dslInstance m (intersectModel d.Model) inputEvent).audit.map
              Event.innerAudit) :=
        quietTrace_snoc_congr _ _ _ (quietTrace_snoc_congr _ _ _
          (quietTrace_snoc_congr _ _ _ h))
      rcases hr : (dslInstance m (intersectModel d.Model) inputEvent).result
        with ⟨_ | o, _ | err⟩ | v
      · exact ih _ _ _ h2
      · exact ⟨rfl, rfl, h2⟩
      · exact ⟨rfl, rfl, h2⟩
      · exact ⟨rfl, rfl, h2⟩
      · exact ⟨rfl, rfl, h2⟩

theorem runPostStepTasks_quiet (runTask runTask1 : TaskId → TaskResult) (flow : Flow)
    (step : FlowStep) (tasks : List TaskId) (tr tr1 : List Event)
    (h : quietTrace tr = quietTrace tr1) :
    quietTrace (runPostStepTasks runTask flow step tasks tr)
      = quietTrace (runPostStepTasks runTask1 flow step tasks tr1) := by
  induction tasks generalizing tr tr1 with
  | nil => exact h
  | cons t rest ih =>
    simp only [runPostStepTasks]
    have h1 : quietTrace
          (tr ++ [Event.audit (.ExecutePostStep flow.ID step.ID t), Event.runTask t])
        = quietTrace
          (tr1 ++ [Event.audit (.ExecutePostStep flow.ID step.ID t), Event.runTask t]) :=
      quietTrace_snoc_congr _ _ _ h
    have hdrop : ∀ (a : List Event) (err : GoError),
        quietTrace (a ++ [Event.audit (.Error flow.ID step.ID "" err)]) = quietTrace a := by
      intro a err
      simp [quietTrace, Event.isErrorAudit]
    cases runTask t <;> cases runTask1 t <;> apply ih <;>
      (try simp only [hdrop]) <;> exact h1

theorem runElements_quiet (resolve : DslMetadata → Option Dsl) (flow : Flow)
    (inputEvent : CdslInputEvent) (step : FlowStep) (s s1 : LoopState)
    (h : s.quiet = s1.quiet) :
    (runElements resolve flow inputEvent step s).quiet
      = (runElements resolve flow inputEvent step s1).quiet := by
  obtain ⟨hm, ho, ht⟩ := (LoopState.quiet_eq_iff s s1).mp h
  obtain ⟨h1, h2, h3⟩ := obtainOutputs_quiet resolve inputEvent flow step step.LogicElements
    s.mem s.trace s1.trace ht
  unfold runElements
  rw [← hm]
  rcases hl : obtainOutputs resolve inputEvent flow step step.LogicElements s.mem s.trace
    with ⟨r, m1, tr1⟩
  rcases hl1 : obtainOutputs resolve inputEvent flow step step.LogicElements s.mem s1.trace
    with ⟨r1, m11, tr11⟩
  rw [hl, hl1] at h1 h2 h3
  simp only at h1 h2 h3
  subst h1 h2
  rcases r with ⟨g, _ | err⟩ | v
  · simp only
    obtain ⟨k1, k2, k3⟩ := obtainOutputs_quiet resolve inputEvent flow step step.FinalElements
      m1 tr1 tr11 h3
    rcases hf : obtainOutputs resolve inputEvent flow step step.FinalElements m1 tr1
      with ⟨r2, m2, tr2⟩
    rcases hf1 : obtainOutputs resolve inputEvent flow step step.FinalElements m1 tr11
      with ⟨r21, m21, tr21⟩
    rw [hf, hf1] at k1 k2 k3
    simp only at k1 k2 k3
    subst k1 k2
    rcases r2 with ⟨f, _ | err2⟩ | v2 <;>
      simp [Ran.quiet, LoopState.quiet, k3, ho]
  · simp [Ran.quiet, LoopState.quiet, h3, ho]
  · simp [Ran.quiet, LoopState.quiet, h3, ho]

theorem applyResult_quiet (flow : Flow) (result : Option CdslOutputEvent) (s s1 : LoopState)
    (h : s.quiet = s1.quiet) :
    (applyResult flow result s).quiet = (applyResult flow result s1).quiet := by
  obtain ⟨hm, ho, ht⟩ := (LoopState.quiet_eq_iff s s1).mp h
  unfold applyResult
  cases result with
  | none => simpa [Iter.quiet] using h
  | some r =>
    simp only
    split
    · split <;> simp [Iter.quiet, LoopState.quiet, hm, ht, ho]
    · split
      · simp [Iter.quiet, LoopState.quiet, hm, ht]
      · split <;> simp [Iter.quiet, LoopState.quiet, hm, ht]

theorem iterate_quiet {σ ρ : Type} (e : FlowExecutor σ ρ) (runTask : TaskId → TaskResult)
    (flow : Flow) (inputEvent : CdslInputEvent) (step : FlowStep) (s s1 : LoopState)
    (h : s.quiet = s1.quiet) :
    (iterate { e with RunTask := runTask } flow inputEvent step s).quiet
      = (iterate e flow inputEvent step s1).quiet := by
  obtain ⟨hm, ho, ht⟩ := (LoopState.quiet_eq_iff s s1).mp h
  have henter : (enterStep flow step s).quiet = (enterStep flow step s1).quiet := by
    rw [LoopState.quiet_eq_iff]
    exact ⟨by simp [enterStep, hm], by simp [enterStep, ho],
      by simp only [enterStep]; exact quietTrace_snoc_congr _ _ _ ht⟩
  have hrun := runElements_quiet e.DslInitHelper flow inputEvent step _ _ henter
  unfold iterate
  simp only
  cases hr : runElements e.DslInitHelper flow inputEvent step (enterStep flow step s) with
  | panicked v s2 =>
    cases hr1 : runElements e.DslInitHelper flow inputEvent step (enterStep flow step s1) with
    | panicked v1 s21 =>
      rw [hr, hr1] at hrun
      simp only [Ran.quiet, Ran.panicked.injEq] at hrun
      simp [Iter.quiet, hrun.1, hrun.2]
    | failed err1 s21 => rw [hr, hr1] at hrun; simp [Ran.quiet] at hrun
    | outputs g1 f1 s21 => rw [hr, hr1] at hrun; simp [Ran.quiet] at hrun
  | failed err s2 =>
    cases hr1 : runElements e.DslInitHelper flow inputEvent step (enterStep flow step s1) with
    | panicked v1 s21 => rw [hr, hr1] at hrun; simp [Ran.quiet] at hrun
    | failed err1 s21 =>
      rw [hr, hr1] at hrun
      simp only [Ran.quiet, Ran.failed.injEq] at hrun
      obtain ⟨herr, hs⟩ := hrun
      obtain ⟨km, ko, kt⟩ := (LoopState.quiet_eq_iff s2 s21).mp hs
      subst herr
      simp only [divert]
      split
      · simp only [Iter.quiet, Iter.next.injEq, true_and]
        rw [LoopState.quiet_eq_iff]
        exact ⟨km, ko, quietTrace_snoc_congr _ _ _ kt⟩
      · simp [Iter.quiet, hs]
    | outputs g1 f1 s21 => rw [hr, hr1] at hrun; simp [Ran.quiet] at hrun
  | outputs g f s2 =>
    cases hr1 : runElements e.DslInitHelper flow inputEvent step (enterStep flow step s1) with
    | panicked v1 s21 => rw [hr, hr1] at hrun; simp [Ran.quiet] at hrun
    | failed err1 s21 => rw [hr, hr1] at hrun; simp [Ran.quiet] at hrun
    | outputs g1 f1 s21 =>
      rw [hr, hr1] at hrun
      simp only [Ran.quiet, Ran.outputs.injEq] at hrun
      obtain ⟨hg, hf, hs⟩ := hrun
      obtain ⟨km, ko, kt⟩ := (LoopState.quiet_eq_iff s2 s21).mp hs
      subst hg hf
      simp only
      apply applyResult_quiet
      rw [LoopState.quiet_eq_iff]
      refine ⟨by simp [drainPostStepTasks, km], by simp [drainPostStepTasks, ko], ?_⟩
      simp only [drainPostStepTasks, km]
      exact runPostStepTasks_quiet _ _ _ _ _ _ _ kt

theorem stepLoop_quiet {σ ρ : Type} (e : FlowExecutor σ ρ) (runTask : TaskId → TaskResult)
    (flow : Flow) (inputEvent : CdslInputEvent) (fuel : Nat) (nextStep : Option FlowStep)
    (s s1 : LoopState) (h : s.quiet = s1.quiet) :
    (stepLoop { e with RunTask := runTask } flow inputEvent fuel nextStep s).quiet
      = (stepLoop e flow inputEvent fuel nextStep s1).quiet := by
  induction fuel generalizing nextStep s s1 with
  | zero => cases nextStep <;> simp [stepLoop, LoopExit.quiet, h]
  | succ n ih =>
    cases nextStep with
    | none => simp [stepLoop, LoopExit.quiet, h]
    | some step =>
      have hi := iterate_quiet e runTask flow inputEvent step s s1 h
      simp only [stepLoop]
      cases hit : iterate { e with RunTask := runTask } flow inputEvent step s with
      | next ns s2 =>
        cases hit1 : iterate e flow inputEvent step s1 with
        | next ns1 s21 =>
          rw [hit, hit1] at hi
          simp only [Iter.quiet, Iter.next.injEq] at hi
          rw [hi.1]
          exact ih ns1 s2 s21 hi.2
        | fail err1 s21 => rw [hit, hit1] at hi; simp [Iter.quiet] at hi
        | panic v1 s21 => rw [hit, hit1] at hi; simp [Iter.quiet] at hi
      | fail err s2 =>
        cases hit1 : iterate e flow inputEvent step s1 with
        | next ns1 s21 => rw [hit, hit1] at hi; simp [Iter.quiet] at hi
        | fail err1 s21 =>
          rw [hit, hit1] at hi
          simp only [Iter.quiet, Iter.fail.injEq] at hi
          simp [LoopExit.quiet, hi.1, hi.2]
        | panic v1 s21 => rw [hit, hit1] at hi; simp [Iter.quiet] at hi
      | panic v s2 =>
        cases hit1 : iterate e flow inputEvent step s1 with
        | next ns1 s21 => rw [hit, hit1] at hi; simp [Iter.quiet] at hi
        | fail err1 s21 => rw [hit, hit1] at hi; simp [Iter.quiet] at hi
        | panic v1 s21 =>
          rw [hit, hit1] at hi
          simp only [Iter.quiet, Iter.panic.injEq] at hi
          simp [LoopExit.quiet, hi.1, hi.2]

theorem runPostCommitTasks_quiet (flow : Flow) (tasks : List TaskId) (tr tr1 : List Event)
    (h : quietTrace tr = quietTrace tr1) :
    quietTrace (runPostCommitTasks flow tasks tr)
      = quietTrace (runPostCommitTasks flow tasks tr1) := by
  induction tasks generalizing tr tr1 with
  | nil => exact h
  | cons t rest ih =>
    simp only [runPostCommitTasks]
    exact ih _ _ (quietTrace_snoc_congr _ _ _ h)

theorem commit_quiet {σ ρ : Type} (e : FlowExecutor σ ρ) (runTask : TaskId → TaskResult)
    (flow : Flow) (lock : Lock) (w : World σ ρ) (s s1 : LoopState) (h : s.quiet = s1.quiet) :
    (commit { e with RunTask := runTask } flow lock w s).outcome
        = (commit e flow lock w s1).outcome ∧
      (commit { e with RunTask := runTask } flow lock w s).world
        = (commit e flow lock w s1).world ∧
      (commit { e with RunTask := runTask } flow lock w s).ctx
        = (commit e flow lock w s1).ctx ∧
      quietTrace (commit { e with RunTask := runTask } flow lock w s).trace
        = quietTrace (commit e flow lock w s1).trace := by
  obtain ⟨hm, ho, ht⟩ := (LoopState.quiet_eq_iff s s1).mp h
  unfold commit
  simp only [hm, ho]
  rcases e.ContextRepository.SaveContext w.repo s1.mem.runtime.GetTransactionID s1.mem.ctx
    with ⟨_ | err, r1⟩
  · simp only
    rcases e.LockProvider.Release w.locks lock with ⟨_ | err, l1⟩
    · refine ⟨rfl, rfl, rfl, ?_⟩
      simp only [ensureReleased]
      exact runPostCommitTasks_quiet _ _ _ _
        (quietTrace_snoc_congr _ _ _ (quietTrace_snoc_congr _ _ _ ht))
    · refine ⟨rfl, rfl, rfl, ?_⟩
      simp only [ensureReleased]
      exact quietTrace_snoc_congr _ _ _
        (quietTrace_snoc_congr _ _ _ (quietTrace_snoc_congr _ _ _ ht))
  · refine ⟨rfl, rfl, rfl, ?_⟩
    simp only [ensureReleased]
    exact quietTrace_snoc_congr _ _ _ (quietTrace_snoc_congr _ _ _ ht)

theorem finish_quiet {σ ρ : Type} (e : FlowExecutor σ ρ) (runTask : TaskId → TaskResult)
    (flow : Flow) (lock : Lock) (w : World σ ρ) (x x1 : LoopExit) (h : x.quiet = x1.quiet) :
    (finish { e with RunTask := runTask } flow lock w x).outcome
        = (finish e flow lock w x1).outcome ∧
      (finish { e with RunTask := runTask } flow lock w x).world
        = (finish e flow lock w x1).world ∧
      (finish { e with RunTask := runTask } flow lock w x).ctx
        = (finish e flow lock w x1).ctx ∧
      quietTrace (finish { e with RunTask := runTask } flow lock w x).trace
        = quietTrace (finish e flow lock w x1).trace := by
  cases x with
  | done s =>
    cases x1 with
    | done s1 =>
      simp only [LoopExit.quiet, LoopExit.done.injEq] at h
      exact commit_quiet e runTask flow lock w s s1 h
    | fail err1 s1 => simp [LoopExit.quiet] at h
    | panic v1 s1 => simp [LoopExit.quiet] at h
    | outOfFuel s1 => simp [LoopExit.quiet] at h
  | fail err s =>
    cases x1 with
    | done s1 => simp [LoopExit.quiet] at h
    | fail err1 s1 =>
      simp only [LoopExit.quiet, LoopExit.fail.injEq] at h
      obtain ⟨herr, hs⟩ := h
      obtain ⟨hm, ho, ht⟩ := (LoopState.quiet_eq_iff s s1).mp hs
      refine ⟨by simp [finish, ensureReleased, herr], by simp [finish, ensureReleased],
        by simp [finish, ensureReleased, hm], ?_⟩
      simp only [finish, ensureReleased]
      exact quietTrace_snoc_congr _ _ _ ht
    | panic v1 s1 => simp [LoopExit.quiet] at h
    | outOfFuel s1 => simp [LoopExit.quiet] at h
  | panic v s =>
    cases x1 with
    | done s1 => simp [LoopExit.quiet] at h
    | fail err1 s1 => simp [LoopExit.quiet] at h
    | panic v1 s1 =>
      simp only [LoopExit.quiet, LoopExit.panic.injEq] at h
      obtain ⟨hv, hs⟩ := h
      obtain ⟨hm, ho, ht⟩ := (LoopState.quiet_eq_iff s s1).mp hs
      exact ⟨by simp [finish, hv], by simp [finish], by simp [finish, hm],
        by simpa [finish] using ht⟩
    | outOfFuel s1 => simp [LoopExit.quiet] at h
  | outOfFuel s =>
    cases x1 with
    | done s1 => simp [LoopExit.quiet] at h
    | fail err1 s1 => simp [LoopExit.quiet] at h
    | panic v1 s1 => simp [LoopExit.quiet] at h
    | outOfFuel s1 =>
      simp only [LoopExit.quiet, LoopExit.outOfFuel.injEq] at h
      obtain ⟨hm, ho, ht⟩ := (LoopState.quiet_eq_iff s s1).mp h
      exact ⟨by simp [finish], by simp [finish], by simp [finish, hm],
        by simpa [finish] using ht⟩

theorem runPostStepTasks_panic_audited (runTask : TaskId → TaskResult) (flow : Flow)
    (step : FlowStep) (pre post : List TaskId) (t : TaskId) (v : String) (tr : List Event)
    (hpanic : runTask t = .panic v) :
    [Event.audit (.ExecutePostStep flow.ID step.ID t), Event.runTask t,
        Event.audit (.Error flow.ID step.ID "" (.errorsNew ("panic in post step task: " ++ v)))]
      <:+: runPostStepTasks runTask flow step (pre ++ t :: post) tr := by
  induction pre generalizing tr with
  | nil =>
    simp only [List.nil_append, runPostStepTasks, hpanic]
    obtain ⟨ext, hext⟩ := runPostStepTasks_grows runTask flow step post
      (tr ++ [Event.audit (.ExecutePostStep flow.ID step.ID t), Event.runTask t]
        ++ [Event.audit (.Error flow.ID step.ID ""
          (.errorsNew ("panic in post step task: " ++ v)))])
    exact ⟨tr, ext, by rw [← hext]; simp [List.append_assoc]⟩
  | cons p pre ih =>
    simp only [List.cons_append, runPostStepTasks]
    cases runTask p <;> exact ih _

/-! ## The validator -/

theorem validateDslElement_eq_none_iff (v : RegistryValidator) (elemMeta : DslMetadata) :
    v.validateDslElement elemMeta = none ↔
      elemMeta.Name ≠ "" ∧ (v.dslInitHelper.Resolve elemMeta).isSome = true ∧
        (GoMap.get? v.validating elemMeta.Name = none ∨
          GoMap.get? v.validating elemMeta.Name = some none) := by
  unfold RegistryValidator.validateDslElement
  by_cases hname : elemMeta.Name = ""
  · simp [hname]
  · simp only [hname, if_false, ne_eq, not_false_eq_true, true_and]
    cases hres : v.dslInitHelper.Resolve elemMeta with
    | none => simp
    | some d =>
      simp only [Option.isSome_some, true_and]
      rcases hval : GoMap.get? v.validating elemMeta.Name with _ | _ | err <;> simp

theorem validateElements_eq_none_iff (v : RegistryValidator) (flow : Flow) (step : FlowStep)
    (kind : String) (elems : List DslMetadata) :
    v.validateElements flow step kind elems = none ↔
      ∀ el ∈ elems, v.validateDslElement el = none := by
  induction elems with
  | nil => simp [RegistryValidator.validateElements]
  | cons x rest ih =>
    simp only [RegistryValidator.validateElements, List.mem_cons, forall_eq_or_imp]
    cases hx : v.validateDslElement x with
    | none => simpa using ih
    | some err => simp

theorem validateStep_eq_none_iff (v : RegistryValidator) (flow : Flow) (stepID : String)
    (step : FlowStep) :
    v.validateStep flow stepID step = none ↔
      step.ID ≠ "" ∧ step.ID = stepID ∧
        ∀ el ∈ step.LogicElements ++ step.FinalElements, v.validateDslElement el = none := by
  unfold RegistryValidator.validateStep
  by_cases hid : step.ID = ""
  · simp [hid]
  · by_cases hkey : step.ID = stepID
    · have hkey1 : ¬ step.ID ≠ stepID := fun hne => hne hkey
      rw [if_neg hid, if_neg hkey1]
      cases hl : v.validateElements flow step "logic" step.LogicElements with
      | none =>
        simp only
        rw [validateElements_eq_none_iff] at hl ⊢
        constructor
        · intro hf
          refine ⟨hid, hkey, ?_⟩
          intro el hel
          rcases List.mem_append.mp hel with hel | hel
          · exact hl el hel
          · exact hf el hel
        · intro hall el hel
          exact hall.2.2 el (List.mem_append.mpr (Or.inr hel))
      | some err =>
        simp only
        constructor
        · intro hf
          cases hf
        · intro hall
          have : v.validateElements flow step "logic" step.LogicElements = none :=
            (validateElements_eq_none_iff v flow step "logic" _).mpr
              (fun el hel => hall.2.2 el (List.mem_append.mpr (Or.inl hel)))
          rw [this] at hl
          cases hl
    · rw [if_neg hid, if_pos hkey]
      simp [hkey]

theorem validateSteps_eq_none_iff (v : RegistryValidator) (flow : Flow)
    (steps : List (String × FlowStep)) :
    v.validateSteps flow steps = none ↔
      ∀ kv ∈ steps, v.validateStep flow kv.1 kv.2 = none := by
  induction steps with
  | nil => simp [RegistryValidator.validateSteps]
  | cons x rest ih =>
    obtain ⟨k, step⟩ := x
    simp only [RegistryValidator.validateSteps, List.mem_cons, forall_eq_or_imp]
    cases hx : v.validateStep flow k step with
    | none => simpa using ih
    | some err => simp

theorem validateElements_is_validation (v : RegistryValidator) (flow : Flow) (step : FlowStep)
    (kind : String) (elems : List DslMetadata) (err : ValidatorError)
    (h : v.validateElements flow step kind elems = some err) :
    ∃ message cause, err = .validation message cause := by
  induction elems with
  | nil => simp [RegistryValidator.validateElements] at h
  | cons x rest ih =>
    simp only [RegistryValidator.validateElements] at h
    cases hx : v.validateDslElement x with
    | none => rw [hx] at h; exact ih h
    | some e1 =>
      rw [hx] at h
      simp only [Option.some.injEq] at h
      exact ⟨_, _, h.symm⟩

theorem validateSteps_is_validation (v : RegistryValidator) (flow : Flow)
    (steps : List (String × FlowStep)) (err : ValidatorError)
    (h : v.validateSteps flow steps = some err) :
    ∃ message cause, err = .validation message cause := by
  induction steps with
  | nil => simp [RegistryValidator.validateSteps] at h
  | cons x rest ih =>
    obtain ⟨k, step⟩ := x
    simp only [RegistryValidator.validateSteps] at h
    cases hx : v.validateStep flow k step with
    | none => rw [hx] at h; exact ih h
    | some e1 =>
      rw [hx] at h
      simp only [Option.some.injEq] at h
      subst h
      unfold RegistryValidator.validateStep at hx
      split at hx
      · simp only [Option.some.injEq] at hx; exact ⟨_, _, hx.symm⟩
      · split at hx
        · simp only [Option.some.injEq] at hx; exact ⟨_, _, hx.symm⟩
        · cases hl : v.validateElements flow step "logic" step.LogicElements with
          | none =>
            rw [hl] at hx
            exact validateElements_is_validation v flow step "final" _ _ hx
          | some e2 =>
            rw [hl] at hx
            simp only [Option.some.injEq] at hx
            subst hx
            exact validateElements_is_validation v flow step "logic" _ _ hl

/-! ## The loader -/

theorem loadFlows_inMemory (dslInitHelper : DslInitialisationHelper) (r : InMemoryFlows)
    (flows : List (String × FlowDefinition)) :
    RegistryLoader.loadFlows (inMemoryLoader dslInitHelper) r flows
      = (none, flows.foldl
          (fun acc kv => GoMap.put acc kv.2.ID (RegistryLoader.buildFlow kv.2)) r) := by
  induction flows generalizing r with
  | nil => rfl
  | cons x rest ih =>
    obtain ⟨k, flowDef⟩ := x
    simp only [RegistryLoader.loadFlows, inMemoryLoader, InMemoryFlowRegistry, List.foldl_cons]
    have hid : (RegistryLoader.buildFlow flowDef).ID = flowDef.ID := by
      unfold RegistryLoader.buildFlow
      generalize hf0 : NewFlow.From flowDef = f0
      have h0 : f0.ID = flowDef.ID := by rw [← hf0]; rfl
      clear hf0
      induction flowDef.Steps generalizing f0 with
      | nil => exact h0
      | cons s ss ihs => exact ihs _ (by simpa [Flow.PutStep] using h0)
    rw [hid]
    exact ih _

theorem GoMap.get?_foldl_put_of_not_mem {α β : Type} (key : β → String) (val : β → α)
    (l : List β) (m : GoMap α) (k : String) (hk : k ∉ l.map key) :
    GoMap.get? (l.foldl (fun acc b => GoMap.put acc (key b) (val b)) m) k = GoMap.get? m k := by
  induction l generalizing m with
  | nil => rfl
  | cons b rest ih =>
    simp only [List.map_cons, List.mem_cons, not_or] at hk
    simp only [List.foldl_cons]
    rw [ih _ hk.2]
    exact GoMap.get?_put_of_ne m (key b) k (val b) hk.1

theorem GoMap.get?_foldl_put_of_mem {α β : Type} (key : β → String) (val : β → α)
    (l : List β) (m : GoMap α) (hnd : (l.map key).Nodup) (x : β) (hx : x ∈ l) :
    GoMap.get? (l.foldl (fun acc b => GoMap.put acc (key b) (val b)) m) (key x)
      = some (val x) := by
  induction l generalizing m with
  | nil => simp at hx
  | cons b rest ih =>
    simp only [List.map_cons, List.nodup_cons] at hnd
    simp only [List.foldl_cons]
    rcases List.mem_cons.mp hx with rfl | hrest
    · rw [GoMap.get?_foldl_put_of_not_mem key val rest _ _ hnd.1]
      exact GoMap.get?_put_self m (key x) (val x)
    · exact ih _ hnd.2 hrest

theorem buildElements_eq (elems : List ElementDefinition) (start : List DslMetadata) :
    RegistryLoader.buildElements elems start
      = start ++ elems.map (fun d => { Name := d.Name, Model := RegistryLoader.buildModel d }) := by
  unfold RegistryLoader.buildElements
  induction elems generalizing start with
  | nil => simp
  | cons x rest ih => simp [List.foldl_cons, ih]

theorem foldl_putStep (steps : List (String × StepDefinition)) (f : Flow) :
    steps.foldl (fun flow kv => flow.PutStep kv.1 (RegistryLoader.buildStep kv.1 kv.2)) f
      = Flow.mk f.ID f.DefaultStep f.ErrorStep
          (steps.foldl (fun acc kv => GoMap.put acc kv.1 (RegistryLoader.buildStep kv.1 kv.2))
            f.Steps) := by
  induction steps generalizing f with
  | nil => rfl
  | cons s ss ih =>
    simp only [List.foldl_cons]
    rw [ih]
    rfl

theorem buildFlow_eq (flowDef : FlowDefinition) :
    RegistryLoader.buildFlow flowDef
      = Flow.mk flowDef.ID flowDef.DefaultStep flowDef.ErrorStep
          (flowDef.Steps.foldl
            (fun acc kv => GoMap.put acc kv.1 (RegistryLoader.buildStep kv.1 kv.2)) []) := by
  unfold RegistryLoader.buildFlow
  rw [foldl_putStep]
  rfl

theorem buildModel_attribute (elemDef : ElementDefinition) (k v : String)
    (hnd : (elemDef.Attributes.map Prod.fst).Nodup)
    (hmem : (k, v) ∈ elemDef.Attributes)
    (hel : k ∉ elemDef.Elements.map Prod.fst)
    (hcontent : k = "content" → elemDef.Content = "") :
    ∃ props, RegistryLoader.buildModel elemDef = .mapModel props ∧
      MapModel.Get props k = .str v := by
  unfold RegistryLoader.buildModel
  have h1 : GoMap.get? (elemDef.Attributes.foldl
      (fun m kv => MapModel.Set m kv.1 (.str kv.2)) []) k = some (.str v) :=
    GoMap.get?_foldl_put_of_mem (fun kv : String × String => kv.1)
      (fun kv => Value.str kv.2) elemDef.Attributes [] hnd (k, v) hmem
  have h2 : GoMap.get? (elemDef.Elements.foldl (fun m kv => MapModel.Set m kv.1 kv.2)
      (elemDef.Attributes.foldl (fun m kv => MapModel.Set m kv.1 (.str kv.2)) [])) k
      = some (.str v) := by
    rw [← h1]
    exact GoMap.get?_foldl_put_of_not_mem (fun kv : String × Value => kv.1)
      (fun kv => kv.2) elemDef.Elements _ k hel
  by_cases hc : elemDef.Content = ""
  · refine ⟨_, rfl, ?_⟩
    simp only [hc, ne_eq, not_true_eq_false, if_false, MapModel.Get]
    rw [h2]
    rfl
  · refine ⟨_, rfl, ?_⟩
    have hk : k ≠ "content" := fun hk => hc (hcontent hk)
    simp only [ne_eq, hc, not_false_eq_true, if_true, MapModel.Get, MapModel.Set]
    rw [GoMap.get?_put_of_ne _ "content" k _ hk]
    simp only [MapModel.Set] at h2
    rw [h2]
    rfl

/-! ## The deep copy of the element models -/

mutual
theorem allocate_value : ∀ (v : Value) (next : Nat), (Value.allocate next v).2.value = v
  | .null, _ => rfl
  | .str _, _ => rfl
  | .map kvs, next => by
    simp only [Value.allocate, Obj.value, allocateAll_value kvs (next + 1)]
  | .mapModel props, next => by
    simp only [Value.allocate, Obj.value, allocateAll_value props (next + 1)]
  | .unsupported _, _ => rfl
theorem allocateAll_value : ∀ (kvs : List (String × Value)) (next : Nat),
    Obj.valueAll (Value.allocateAll next kvs).2 = kvs
  | [], _ => rfl
  | (k, v) :: rest, next => by
    simp only [Value.allocateAll, Obj.valueAll, allocate_value v next,
      allocateAll_value rest (Value.allocate next v).1]
end

mutual
theorem allocate_addrs : ∀ (v : Value) (next : Nat),
    next ≤ (Value.allocate next v).1 ∧
      ∀ a ∈ (Value.allocate next v).2.addrs, next ≤ a ∧ a < (Value.allocate next v).1
  | .null, next => ⟨Nat.le_refl _, by simp [Value.allocate, Obj.addrs]⟩
  | .str _, next => ⟨Nat.le_refl _, by simp [Value.allocate, Obj.addrs]⟩
  | .map kvs, next => by
    obtain ⟨h1, h2⟩ := allocateAll_addrs kvs (next + 1)
    simp only [Value.allocate, Obj.addrs, List.mem_cons]
    refine ⟨by omega, ?_⟩
    intro a ha
    rcases ha with rfl | ha
    · omega
    · have := h2 a ha
      omega
  | .mapModel props, next => by
    obtain ⟨h1, h2⟩ := allocateAll_addrs props (next + 1)
    simp only [Value.allocate, Obj.addrs, List.mem_cons]
    refine ⟨by omega, ?_⟩
    intro a ha
    rcases ha with rfl | ha
    · omega
    · have := h2 a ha
      omega
  | .unsupported _, next => by
    simp only [Value.allocate, Obj.addrs, List.mem_singleton]
    refine ⟨by omega, ?_⟩
    intro a ha
    omega
theorem allocateAll_addrs : ∀ (kvs : List (String × Value)) (next : Nat),
    next ≤ (Value.allocateAll next kvs).1 ∧
      ∀ a ∈ Obj.addrsAll (Value.allocateAll next kvs).2,
        next ≤ a ∧ a < (Value.allocateAll next kvs).1
  | [], next => ⟨Nat.le_refl _, by simp [Value.allocateAll, Obj.addrsAll]⟩
  | (k, v) :: rest, next => by
    obtain ⟨h1, h2⟩ := allocate_addrs v next
    obtain ⟨h3, h4⟩ := allocateAll_addrs rest (Value.allocate next v).1
    simp only [Value.allocateAll, Obj.addrsAll, List.mem_append]
    refine ⟨by omega, ?_⟩
    intro a ha
    rcases ha with ha | ha
    · have := h2 a ha
      omega
    · have := h4 a ha
      omega
end

mutual
theorem store_of_not_mem (a : Nat) (key : String) (v : Obj) :
    ∀ o : Obj, a ∉ o.addrs → Obj.store a key v o = o
  | .null, _ => rfl
  | .str _, _ => rfl
  | .map b kvs, h => by
    simp only [Obj.addrs, List.mem_cons, not_or] at h
    have hb : ¬ b = a := fun e => h.1 e.symm
    simp only [Obj.store, hb, if_false, storeAll_of_not_mem a key v kvs h.2]
  | .mapModel b props, h => by
    simp only [Obj.addrs, List.mem_cons, not_or] at h
    have hb : ¬ b = a := fun e => h.1 e.symm
    simp only [Obj.store, hb, if_false, storeAll_of_not_mem a key v props h.2]
  | .unsupported _ _, _ => rfl
theorem storeAll_of_not_mem (a : Nat) (key : String) (v : Obj) :
    ∀ kvs : List (String × Obj), a ∉ Obj.addrsAll kvs → Obj.storeAll a key v kvs = kvs
  | [], _ => rfl
  | (k, o) :: rest, h => by
    simp only [Obj.addrsAll, List.mem_append, not_or] at h
    simp only [Obj.storeAll, store_of_not_mem a key v o h.1,
      storeAll_of_not_mem a key v rest h.2]
end

theorem get?_roundTripAll (props : List (String × Value)) (key : String) :
    GoMap.get? (Value.roundTripAll props) key = (GoMap.get? props key).map Value.roundTrip := by
  induction props with
  | nil => rfl
  | cons kv rest ih =>
    obtain ⟨k, v⟩ := kv
    simp only [Value.roundTripAll, GoMap.get?]
    split
    · rfl
    · exact ih

theorem asString?_roundTrip (v : Value) : v.roundTrip.asString? = v.asString? := by
  cases v <;> simp [Value.roundTrip, Value.asString?]

theorem modelAttribute_roundTrip_mapModel (props : List (String × Value)) (key : String) :
    modelAttribute (Value.roundTrip (.mapModel props)) key
      = modelAttribute (.mapModel props) key := by
  simp only [Value.roundTrip, modelAttribute, MapModel.Get, GoMap.get?, if_true,
    Option.getD_some, Value.asMap?]
  rw [get?_roundTripAll]
  cases GoMap.get? props key with
  | none => rfl
  | some v => simp [asString?_roundTrip]

/-! ## Decimal integers and `strconv.Atoi` -/

theorem foldl_digits_ge (ds : List Char) (n : Nat) :
    n ≤ ds.foldl (fun n c => n * 10 + digitValue c) n := by
  induction ds generalizing n with
  | nil => exact Nat.le_refl _
  | cons c rest ih =>
    simp only [List.foldl_cons]
    have := ih (n * 10 + digitValue c)
    omega

theorem foldl_digits_eq_ofDigits (ds : List Char) (n : Nat) :
    ds.foldl (fun n c => n * 10 + digitValue c) n
      = n * 10 ^ ds.length + Nat.ofDigits 10 (ds.reverse.map digitValue) := by
  induction ds generalizing n with
  | nil => simp
  | cons c rest ih =>
    simp only [List.foldl_cons, ih, List.reverse_cons, List.map_append, List.map_cons,
      List.map_nil, Nat.ofDigits_append, Nat.ofDigits_singleton, List.length_map,
      List.length_reverse, List.length_cons]
    ring

theorem parseUintLoop_digits (ds : List Char) (n : Nat)
    (hds : ∀ c ∈ ds, c.isDigit = true) (hn : n ≤ maxUint64) :
    parseUintLoop ds n =
      if ds.foldl (fun n c => n * 10 + digitValue c) n ≤ maxUint64 then
        .value (ds.foldl (fun n c => n * 10 + digitValue c) n)
      else .outOfRange := by
  induction ds generalizing n with
  | nil => simp [parseUintLoop, hn]
  | cons c rest ih =>
    have hc : '0' ≤ c ∧ c ≤ '9' := by
      have := hds c (List.mem_cons_self _ _)
      simp only [Char.isDigit, Bool.and_eq_true, decide_eq_true_eq] at this
      exact ⟨this.1, this.2⟩
    have hrest : ∀ c ∈ rest, c.isDigit = true := fun c h => hds c (List.mem_cons_of_mem _ h)
    have hge := foldl_digits_ge rest (n * 10 + digitValue c)
    simp only [parseUintLoop, hc, and_self, not_true_eq_false, if_false, List.foldl_cons]
    by_cases h1 : n ≥ maxUint64 / 10 + 1
    · have hbig : ¬ rest.foldl (fun n c => n * 10 + digitValue c) (n * 10 + digitValue c)
          ≤ maxUint64 := by
        simp only [maxUint64] at h1 ⊢
        omega
      simp only [h1, if_true, hbig, if_false]
    · by_cases h2 : n * 10 + digitValue c > maxUint64
      · have hbig : ¬ rest.foldl (fun n c => n * 10 + digitValue c) (n * 10 + digitValue c)
            ≤ maxUint64 := by omega
        simp only [h1, if_false, h2, if_true, hbig]
      · simp only [h1, if_false, h2]
        exact ih (n * 10 + digitValue c) hrest (by omega)

/-- On a decimal integer `strconv.Atoi` gives the integer it denotes, or the
nearest `int64` when that is out of range. -/
theorem strconvAtoi_of_decimal (s : String) (h : isDecimalInteger s = true) :
    strconvAtoi s = max (-(2 ^ 63)) (min (decimalValue s) (2 ^ 63 - 1)) := by
  simp only [isDecimalInteger, Bool.and_eq_true, Bool.not_eq_true_eq_eq_false, List.all_eq_true,
    Bool.not_eq_eq_eq_not, Bool.not_true, List.isEmpty_eq_false] at h
  obtain ⟨hne, hdig⟩ := h
  have hs : s ≠ "" := by
    intro e
    subst e
    exact hne rfl
  have hrest : (if s.data.head? = some '+' ∨ s.data.head? = some '-' then s.data.tail
      else s.data) = decimalDigits s := rfl
  have hparse := parseUintLoop_digits (decimalDigits s) 0 hdig (by simp [maxUint64])
  rw [foldl_digits_eq_ofDigits] at hparse
  simp only [Nat.zero_mul, Nat.zero_add] at hparse
  simp only [strconvAtoi, hs, if_false, hrest, strconvParseUint, hne, hparse, decimalValue]
  generalize Nat.ofDigits 10 ((decimalDigits s).reverse.map digitValue) = V
  have e63 : (2 : Int) ^ 63 = 9223372036854775808 := by norm_num
  have e64 : maxUint64 = 18446744073709551615 := by norm_num [maxUint64]
  rw [e63, e64, max_def, min_def]
  by_cases hneg : s.data.head? = some '-'
  · simp only [hneg, decide_True, if_true]
    by_cases hV : V ≤ 18446744073709551615
    · simp only [hV, if_true]
      simp only [not_true_eq_false, false_and, true_and, if_false]
      split_ifs <;> omega
    · simp only [hV, if_false]
      split_ifs <;> omega
  · simp only [hneg, decide_False, if_false]
    by_cases hV : V ≤ 18446744073709551615
    · simp only [hV, if_true]
      simp only [Bool.false_eq_true, not_false_eq_true, false_and, true_and, if_false]
      split_ifs <;> omega
    · simp only [hV, if_false]
      simp only [Bool.false_eq_true, not_false_eq_true, false_and, true_and, if_false]
      split_ifs <;> omega

theorem decimal_ne_empty (s : String) (h : isDecimalInteger s = true) : s ≠ "" := by
  intro e
  subst e
  simp [isDecimalInteger, decimalDigits] at h

theorem stripTrailingQuote_of_decimal (s : String) (h : isDecimalInteger s = true) :
    stripTrailingQuote s = s := by
  simp only [isDecimalInteger, Bool.and_eq_true, Bool.not_eq_true_eq_eq_false, List.all_eq_true,
    Bool.not_eq_eq_eq_not, Bool.not_true, List.isEmpty_eq_false] at h
  obtain ⟨hne, hdig⟩ := h
  have hlast : s.data.getLast? ≠ some '"' := by
    intro hq
    have hmem : '"' ∈ decimalDigits s := by
      unfold decimalDigits at hne ⊢
      cases hd : s.data with
      | nil => simp [hd] at hq
      | cons c rest =>
        rw [hd] at hq hne
        simp only [List.head?_cons, Option.some.injEq, List.tail_cons] at hne ⊢
        split
        · rename_i hsign
          rw [if_pos hsign] at hne
          cases rest with
          | nil => exact absurd rfl hne
          | cons d rest2 =>
            rw [List.getLast?_cons_cons] at hq
            exact List.mem_of_getLast?_eq_some hq
        · exact List.mem_of_getLast?_eq_some hq
    have := hdig _ hmem
    simp [Char.isDigit] at this
  unfold stripTrailingQuote
  rw [if_neg]
  intro hh
  exact hlast hh.2

/-! ## The run of the hello flow -/

theorem sayHello_effect (m : Mem) (ev : CdslInputEvent) (N : String) (hN : N ≠ "")
    (hNq : stripTrailingQuote N = N) (hr : m.ctx.runtime = true) :
    SayHello m (intersectModel (.mapModel [("name", .str N)])) ev
      = { result := .ret none none,
          mem := { m with ctx := { m.ctx with
            Vars := GoMap.put m.ctx.Vars "greeting" ("Hello, " ++ N ++ "!") } },
          audit := [.SetVar "greeting" ("Hello, " ++ N ++ "!")
            ((GoMap.get? m.ctx.Vars "greeting").getD "")] } := by
  have hattr : modelAttribute (intersectModel (.mapModel [("name", .str N)])) "name" = N := rfl
  simp only [SayHello, hattr, hN, if_false, hNq, CdslContext.PutVar, hr, Bool.true_eq_false]

theorem setVar_effect (m : Mem) (ev : CdslInputEvent) (K V : String) (hK : K ≠ "") (hV : V ≠ "")
    (hKq : stripTrailingQuote K = K) (hVq : stripTrailingQuote V = V)
    (hr : m.ctx.runtime = true) :
    SetVar m (intersectModel (.mapModel [("name", .str K), ("val", .str V)])) ev
      = { result := .ret none none,
          mem := { m with ctx := { m.ctx with Vars := GoMap.put m.ctx.Vars K V } },
          audit := [.SetVar K V ((GoMap.get? m.ctx.Vars K).getD "")] } := by
  have h1 : modelAttribute (intersectModel (.mapModel [("name", .str K), ("val", .str V)]))
      "name" = K := rfl
  have h2 : modelAttribute (intersectModel (.mapModel [("name", .str K), ("val", .str V)]))
      "val" = V := rfl
  simp only [SetVar, h1, h2, hK, hV, if_false, hKq, hVq, CdslContext.PutVar, hr,
    Bool.true_eq_false]

theorem setState_alive_effect (m : Mem) (ev : CdslInputEvent) :
    SetState m (intersectModel (.mapModel [("val", .str "Alive")])) ev
      = { result := .ret none none, mem := { m with ctx := { m.ctx with State := StateAlive } } } :=
  rfl

theorem setState_end_effect (m : Mem) (ev : CdslInputEvent) :
    SetState m (intersectModel (.mapModel [("val", .str "End")])) ev
      = { result := .ret none none, mem := { m with ctx := { m.ctx with State := StateEnd } } } :=
  rfl

theorem routeTo_end_effect (m : Mem) (ev : CdslInputEvent) :
    RouteTo m (intersectModel (.mapModel [("target", .str "end")])) ev
      = { result := .ret (some { Action := ActionRoute, NextRoute := "end" }) none, mem := m } :=
  rfl

theorem endRoute_effect (m : Mem) (model : Value) (ev : CdslInputEvent) :
    EndRoute m model ev = { result := .ret (some { Action := ActionEnd }) none, mem := m } :=
  rfl

theorem testDsls_setState (model : Value) :
    testDsls.Resolve { Name := "setState", Model := model } = some SetState := rfl
theorem testDsls_sayHello (model : Value) :
    testDsls.Resolve { Name := "sayHello", Model := model } = some SayHello := rfl
theorem testDsls_setVar (model : Value) :
    testDsls.Resolve { Name := "setVar", Model := model } = some SetVar := rfl
theorem testDsls_routeTo (model : Value) :
    testDsls.Resolve { Name := "routeTo", Model := model } = some RouteTo := rfl
theorem testDsls_endRoute (model : Value) :
    testDsls.Resolve { Name := "endRoute", Model := model } = some EndRoute := rfl

theorem hello_init (N K V : String) (s : LoopState) (step : FlowStep)
    (hstep : (helloFlow N K V).FetchStep "init" = some step)
    (hN : N ≠ "") (hK : K ≠ "") (hV : V ≠ "")
    (hNq : stripTrailingQuote N = N) (hKq : stripTrailingQuote K = K)
    (hVq : stripTrailingQuote V = V) (hr : s.mem.ctx.runtime = true) :
    ∃ s1 step1, iterate (NewFlowExecutor testDsls) (helloFlow N K V) {} step s
        = .next (some step1) s1 ∧
      (helloFlow N K V).FetchStep "end" = some step1 ∧
      s1.mem.ctx.runtime = true ∧ s1.mem.ctx.ID = s.mem.ctx.ID ∧
      s1.mem.runtime.outputValues = s.mem.runtime.outputValues ∧
      s1.mem.ctx.Vars
        = GoMap.put (GoMap.put s.mem.ctx.Vars "greeting" ("Hello, " ++ N ++ "!")) K V := by
  have hs : step = { ID := "init", LogicElements := [
      { Name := "setState", Model := .mapModel [("val", .str "Alive")] },
      { Name := "sayHello", Model := .mapModel [("name", .str N)] },
      { Name := "setVar", Model := .mapModel [("name", .str K), ("val", .str V)] },
      { Name := "routeTo", Model := .mapModel [("target", .str "end")] }] } := by
    have : (helloFlow N K V).FetchStep "init" = some _ := rfl
    rw [this] at hstep
    exact (Option.some.inj hstep).symm
  subst hs
  simp only [iterate, runElements, enterStep, obtainOutputs, NewFlowExecutor,
    testDsls_setState, testDsls_sayHello, testDsls_setVar, testDsls_routeTo,
    setState_alive_effect]
  rw [sayHello_effect _ _ N hN hNq (by simpa [CdslContext.PushTransition] using hr)]
  simp only []
  rw [setVar_effect _ _ K V hK hV hKq hVq (by simpa [CdslContext.PushTransition] using hr)]
  simp only [routeTo_end_effect]
  have hend : (helloFlow N K V).FetchStep "end" = some {
      ID := "end",
      LogicElements := [{ Name := "endRoute", Model := .mapModel [] }],
      FinalElements := [{ Name := "setState", Model := .mapModel [("val", .str "End")] }] } := rfl
  simp only [chooseResult, drainPostStepTasks, applyResult, if_true, hend]
  exact ⟨_, _, rfl, rfl, by simpa [CdslContext.PushTransition] using hr,
    by simp [CdslContext.PushTransition], rfl, by simp [CdslContext.PushTransition]⟩

theorem hello_end (N K V : String) (s : LoopState) (step : FlowStep)
    (hstep : (helloFlow N K V).FetchStep "end" = some step) :
    ∃ s1, iterate (NewFlowExecutor testDsls) (helloFlow N K V) {} step s = .next none s1 ∧
      s1.mem.ctx.ID = s.mem.ctx.ID ∧ s1.mem.ctx.State = StateEnd ∧
      s1.mem.runtime.outputValues = s.mem.runtime.outputValues ∧
      s1.mem.ctx.Vars = s.mem.ctx.Vars := by
  have hs : step = {
      ID := "end",
      LogicElements := [{ Name := "endRoute", Model := .mapModel [] }],
      FinalElements := [{ Name := "setState", Model := .mapModel [("val", .str "End")] }] } := by
    have : (helloFlow N K V).FetchStep "end" = some _ := rfl
    rw [this] at hstep
    exact (Option.some.inj hstep).symm
  subst hs
  simp only [iterate, runElements, enterStep, obtainOutputs, NewFlowExecutor,
    testDsls_setState, testDsls_endRoute, endRoute_effect, setState_end_effect,
    chooseResult, drainPostStepTasks, applyResult]
  have h1 : ¬ ActionEnd = ActionRoute := by decide
  have h2 : ¬ ActionEnd = ActionAwait := by decide
  simp only [h1, h2, if_false, if_true]
  exact ⟨_, rfl, by simp [CdslContext.PushTransition], rfl, rfl,
    by simp [CdslContext.PushTransition]⟩

theorem hello_acquire (newID : String) :
    acquire (NewFlowExecutor testDsls) newID {} emptyWorld
      = .ready (NewLock ("context/" ++ newID) ("context/" ++ newID) "<anonymous>" 30000000000 0)
          { NewCdslContext with ID := newID }
          { locks := { locks := [("context/" ++ newID,
              NewLock ("context/" ++ newID) ("context/" ++ newID) "<anonymous>" 30000000000 0)] },
            repo := [(newID, { NewCdslContext with ID := newID })] }
          [Event.obtain "<anonymous>" ("context/" ++ newID)
            (some (NewLock ("context/" ++ newID) ("context/" ++ newID) "<anonymous>"
              30000000000 0)),
           Event.saveContext ("context/" ++ newID) { NewCdslContext with ID := newID },
           Event.getContext ("context/" ++ newID) newID] := by
  simp [acquire, NewFlowExecutor, LockProviderUnitTestSupport,
    CdslContextRepositoryUnitTestSupport, emptyWorld, GoMap.get?, GoMap.put, NewCdslContext,
    NewLock]

/-! ## The variable `outputEvent` along the step loop -/

theorem runElements_outputEvent (resolve : DslMetadata → Option Dsl) (flow : Flow)
    (inputEvent : CdslInputEvent) (step : FlowStep) (s : LoopState) :
    (runElements resolve flow inputEvent step s).state.outputEvent = s.outputEvent := by
  unfold runElements
  rcases obtainOutputs resolve inputEvent flow step step.LogicElements s.mem s.trace with
    ⟨⟨g, _ | err⟩ | v, m1, tr1⟩
  · simp only
    rcases obtainOutputs resolve inputEvent flow step step.FinalElements m1 tr1 with
      ⟨⟨g2, _ | err2⟩ | v2, m2, tr2⟩ <;> rfl
  · rfl
  · rfl

theorem iterate_outputEvent {σ ρ : Type} (e : FlowExecutor σ ρ) (flow : Flow)
    (inputEvent : CdslInputEvent) (step : FlowStep) (s s1 : LoopState)
    (nextStep : Option FlowStep)
    (h : iterate e flow inputEvent step s = .next nextStep s1) :
    s1.outputEvent =
      match passResult e flow inputEvent step s with
      | some r => some (NewCdslFlowOutputEvent.With (some r))
      | none => s.outputEvent := by
  have hkeep := runElements_outputEvent e.DslInitHelper flow inputEvent step
    (enterStep flow step s)
  unfold iterate at h
  unfold passResult
  cases hrun : runElements e.DslInitHelper flow inputEvent step (enterStep flow step s) with
  | panicked v s2 => rw [hrun] at h; simp at h
  | failed err s2 =>
    rw [hrun] at h hkeep
    simp only [Ran.state, enterStep] at hkeep
    simp only [divert] at h
    split at h
    · simp only [Iter.next.injEq] at h
      rw [← h.2]
      exact hkeep
    · simp at h
  | outputs g f s2 =>
    rw [hrun] at h hkeep
    simp only [Ran.state, enterStep] at hkeep
    simp only at h ⊢
    cases hres : chooseResult g f with
    | none =>
      rw [hres] at h
      simp only [applyResult, Iter.next.injEq] at h
      rw [← h.2]
      simpa [drainPostStepTasks] using hkeep
    | some r =>
      rw [hres] at h
      simp only [applyResult] at h
      split at h
      · split at h
        · simp at h
        · simp only [Iter.next.injEq] at h
          rw [← h.2]
      · split at h
        · simp only [Iter.next.injEq] at h
          rw [← h.2]
        · split at h
          · simp only [Iter.next.injEq] at h
            rw [← h.2]
          · simp only [Iter.next.injEq] at h
            rw [← h.2]

theorem runIters_pred {σ ρ : Type} (e : FlowExecutor σ ρ) (flow : Flow)
    (inputEvent : CdslInputEvent) (k : Nat) (nextStep : Option FlowStep) (s : LoopState)
    (p : Option FlowStep × LoopState)
    (h : runIters e flow inputEvent (k + 1) nextStep s = some p) :
    ∃ step s1, runIters e flow inputEvent k nextStep s = some (some step, s1) := by
  induction k generalizing nextStep s with
  | zero =>
    cases nextStep with
    | none => simp [runIters] at h
    | some step => exact ⟨step, s, rfl⟩
  | succ k ih =>
    cases nextStep with
    | none => simp [runIters] at h
    | some step =>
      simp only [runIters] at h ⊢
      cases hit : iterate e flow inputEvent step s with
      | next ns s2 =>
        rw [hit] at h
        simp only at h ⊢
        exact ih ns s2 h
      | fail err s2 => rw [hit] at h; simp at h
      | panic v s2 => rw [hit] at h; simp at h

theorem loopHead_pred {σ ρ : Type} (e : FlowExecutor σ ρ) (newID : String) (flow : Flow)
    (inputEvent : CdslInputEvent) (w : World σ ρ) (k : Nat) (h1 : LoopHead σ ρ)
    (hh1 : loopHead e newID flow inputEvent w (k + 1) = some h1) :
    ∃ h step, loopHead e newID flow inputEvent w k = some h ∧ h.nextStep = some step := by
  unfold loopHead at hh1 ⊢
  cases ha : acquire e newID inputEvent w with
  | fail lock err w1 tr => rw [ha] at hh1; simp at hh1
  | panic v w1 tr => rw [ha] at hh1; simp at hh1
  | ready lock ctx w1 tr =>
    rw [ha] at hh1
    simp only at hh1 ⊢
    rcases hsel : selectStep flow inputEvent lock ctx with ⟨m, err | first⟩
    · rw [hsel] at hh1; simp at hh1
    · rw [hsel] at hh1
      simp only at hh1 ⊢
      cases hr : runIters e flow inputEvent (k + 1) first { mem := m, trace := tr } with
      | none => rw [hr] at hh1; simp at hh1
      | some p =>
        obtain ⟨step, s1, hk⟩ := runIters_pred e flow inputEvent k first _ p hr
        rw [hk]
        exact ⟨_, step, rfl, rfl⟩

theorem loopHead_zero_outputEvent {σ ρ : Type} (e : FlowExecutor σ ρ) (newID : String)
    (flow : Flow) (inputEvent : CdslInputEvent) (w : World σ ρ) (h : LoopHead σ ρ)
    (hh : loopHead e newID flow inputEvent w 0 = some h) :
    h.state.outputEvent = none := by
  unfold loopHead at hh
  cases ha : acquire e newID inputEvent w with
  | fail lock err w1 tr => rw [ha] at hh; simp at hh
  | panic v w1 tr => rw [ha] at hh; simp at hh
  | ready lock ctx w1 tr =>
    rw [ha] at hh
    simp only at hh
    rcases hsel : selectStep flow inputEvent lock ctx with ⟨m, err | first⟩
    · rw [hsel] at hh; simp at hh
    · rw [hsel] at hh
      simp only [runIters, Option.some.injEq] at hh
      rw [← hh]

/-- The heads of the step loop before a head the run reaches: each is reached
and enters a step. -/
theorem loopHead_before {σ ρ : Type} (e : FlowExecutor σ ρ) (newID : String) (flow : Flow)
    (inputEvent : CdslInputEvent) (w : World σ ρ) (n : Nat) (hn : LoopHead σ ρ)
    (hh : loopHead e newID flow inputEvent w n = some hn) (k : Nat) (hk : k < n) :
    ∃ h step, loopHead e newID flow inputEvent w k = some h ∧ h.nextStep = some step := by
  induction n generalizing hn with
  | zero => omega
  | succ n ih =>
    obtain ⟨h, step, hh0, hstep⟩ := loopHead_pred e newID flow inputEvent w n hn hh
    by_cases hkn : k = n
    · subst hkn
      exact ⟨h, step, hh0, hstep⟩
    · exact ih h hh0 (by omega)

/-- A head of the step loop that enters a step comes before the head at
which the loop ended. -/
theorem loopHead_lt_last {σ ρ : Type} (e : FlowExecutor σ ρ) (newID : String) (flow : Flow)
    (inputEvent : CdslInputEvent) (w : World σ ρ) (n : Nat) (hn : LoopHead σ ρ)
    (hh : loopHead e newID flow inputEvent w n = some hn) (hend : hn.nextStep = none)
    (k : Nat) (h : LoopHead σ ρ) (step : FlowStep)
    (hk : loopHead e newID flow inputEvent w k = some h) (hstep : h.nextStep = some step) :
    k < n := by
  by_contra hlt
  by_cases heq : k = n
  · subst heq
    rw [hk] at hh
    simp only [Option.some.injEq] at hh
    rw [hh, hend] at hstep
    simp at hstep
  · obtain ⟨h1, step1, hh1, hstep1⟩ :=
      loopHead_before e newID flow inputEvent w k h hk n (by omega)
    rw [hh] at hh1
    simp only [Option.some.injEq] at hh1
    rw [← hh1, hend] at hstep1
    simp at hstep1

/-- The variable `outputEvent` one pass later. -/
theorem loopHead_outputEvent_succ {σ ρ : Type} (e : FlowExecutor σ ρ) (newID : String)
    (flow : Flow) (inputEvent : CdslInputEvent) (w : World σ ρ) (k : Nat)
    (h h1 : LoopHead σ ρ) (step : FlowStep)
    (hh : loopHead e newID flow inputEvent w k = some h) (hstep : h.nextStep = some step)
    (hh1 : loopHead e newID flow inputEvent w (k + 1) = some h1) :
    h1.state.outputEvent =
      match passResult e flow inputEvent step h.state with
      | some r => some (NewCdslFlowOutputEvent.With (some r))
      | none => h.state.outputEvent :=
  iterate_outputEvent e flow inputEvent step h.state h1.state h1.nextStep
    (loopHead_succ e newID flow inputEvent w k h h1 step hh hstep hh1).2

/-- At every head of the step loop, `outputEvent` is nil when no pass before
it had a result, and else holds the result of the last pass that had one. -/
theorem loopHead_outputEvent {σ ρ : Type} (e : FlowExecutor σ ρ) (newID : String)
    (flow : Flow) (inputEvent : CdslInputEvent) (w : World σ ρ) (n : Nat) (hn : LoopHead σ ρ)
    (hh : loopHead e newID flow inputEvent w n = some hn) :
    (hn.state.outputEvent = none ∧
      ∀ k h step, k < n → loopHead e newID flow inputEvent w k = some h →
        h.nextStep = some step → passResult e flow inputEvent step h.state = none) ∨
    (∃ k h step r, k < n ∧ loopHead e newID flow inputEvent w k = some h ∧
      h.nextStep = some step ∧ passResult e flow inputEvent step h.state = some r ∧
      (∀ j h1 step1, k < j → j < n → loopHead e newID flow inputEvent w j = some h1 →
        h1.nextStep = some step1 → passResult e flow inputEvent step1 h1.state = none) ∧
      hn.state.outputEvent = some (NewCdslFlowOutputEvent.With (some r))) := by
  induction n generalizing hn with
  | zero =>
    left
    exact ⟨loopHead_zero_outputEvent e newID flow inputEvent w hn hh,
      fun k h step hk => by omega⟩
  | succ n ih =>
    obtain ⟨h, step, hh0, hstep⟩ := loopHead_pred e newID flow inputEvent w n hn hh
    have hsucc := loopHead_outputEvent_succ e newID flow inputEvent w n h hn step hh0 hstep hh
    cases hres : passResult e flow inputEvent step h.state with
    | some r =>
      rw [hres] at hsucc
      right
      exact ⟨n, h, step, r, by omega, hh0, hstep, hres, fun j h1 step1 h1j h2j => by omega,
        hsucc⟩
    | none =>
      rw [hres] at hsucc
      simp only at hsucc
      rcases ih h hh0 with ⟨hnone, hall⟩ | ⟨k, hk0, stepk, r, hkn, hhk, hstepk, hresk, hlater, hev⟩
      · left
        refine ⟨by rw [hsucc, hnone], ?_⟩
        intro k hk stepk hkn hhk hstepk
        by_cases heq : k = n
        · subst heq
          rw [hh0] at hhk
          simp only [Option.some.injEq] at hhk
          subst hhk
          rw [hstep] at hstepk
          simp only [Option.some.injEq] at hstepk
          subst hstepk
          exact hres
        · exact hall k hk stepk (by omega) hhk hstepk
      · right
        refine ⟨k, hk0, stepk, r, by omega, hhk, hstepk, hresk, ?_, by rw [hsucc, hev]⟩
        intro j h1 step1 hkj hjn hhj hstepj
        by_cases heq : j = n
        · subst heq
          rw [hh0] at hhj
          simp only [Option.some.injEq] at hhj
          subst hhj
          rw [hstep] at hstepj
          simp only [Option.some.injEq] at hstepj
          subst hstepj
          exact hres
        · exact hlater j h1 step1 hkj (by omega) hhj hstepj

/-! ## The published output values along the run -/

theorem publishAll_map (r : CdslRuntime) (pubs : List (String × Value)) :
    (r.publishAll pubs).GetOutputValueMap
      = pubs.foldl (fun m kv => GoMap.put m kv.1 kv.2) r.GetOutputValueMap := by
  induction pubs generalizing r with
  | nil => rfl
  | cons kv rest ih =>
    simp only [CdslRuntime.publishAll, List.foldl_cons] at ih ⊢
    rw [ih]
    rfl

theorem get?_foldl_put (pubs : List (String × Value)) (m : GoMap Value) (key : String) :
    GoMap.get? (pubs.foldl (fun m kv => GoMap.put m kv.1 kv.2) m) key
      = match lastPublished pubs key with
        | some v => some v
        | none => GoMap.get? m key := by
  induction pubs generalizing m with
  | nil => rfl
  | cons kv rest ih =>
    simp only [List.foldl_cons, lastPublished]
    rw [ih]
    cases lastPublished rest key with
    | some v => rfl
    | none =>
      simp only
      by_cases hk : kv.1 = key
      · subst hk
        simp only [if_true]
        exact GoMap.get?_put_self _ _ _
      · simp only [hk, if_false]
        exact GoMap.get?_put_of_ne _ _ _ _ (fun e => hk e.symm)

theorem publishedBy_append (pubs : DslMetadata → Mem → Value → List (String × Value))
    (a b : List (DslMetadata × Mem)) :
    publishedBy pubs (a ++ b) = publishedBy pubs a ++ publishedBy pubs b := by
  induction a with
  | nil => rfl
  | cons c rest ih =>
    show pubs c.1 c.2 (intersectModel c.1.Model) ++ publishedBy pubs (rest ++ b)
      = pubs c.1 c.2 (intersectModel c.1.Model) ++ publishedBy pubs rest ++ publishedBy pubs b
    rw [ih, List.append_assoc]

theorem obtainOutputs_published (pubs : DslMetadata → Mem → Value → List (String × Value))
    (resolve : DslMetadata → Option Dsl) (inputEvent : CdslInputEvent)
    (hpub : ∀ dslMeta d, resolve dslMeta = some d → ∀ m model,
      (d m model inputEvent).mem.runtime.GetOutputValueMap
        = (m.runtime.publishAll (pubs dslMeta m model)).GetOutputValueMap)
    (flow : Flow) (step : FlowStep) (elements : List DslMetadata) (m : Mem) (tr : List Event) :
    ∃ calls : List (DslMetadata × Mem),
      (obtainOutputs resolve inputEvent flow step elements m tr).2.1.runtime.GetOutputValueMap
        = (publishedBy pubs calls).foldl (fun m kv => GoMap.put m kv.1 kv.2)
            m.runtime.GetOutputValueMap ∧
      executedElements (obtainOutputs resolve inputEvent flow step elements m tr).2.2
        = executedElements tr ++ calls.map (fun c => c.1.Name) := by
  induction elements generalizing m tr with
  | nil => exact ⟨[], rfl, by simp [obtainOutputs]⟩
  | cons x rest ih =>
    simp only [obtainOutputs]
    cases hres : resolve x with
    | none => exact ⟨[], rfl, by simp [executedElements_append, executedElements]⟩
    | some d =>
      have hk := hpub x d hres m (intersectModel x.Model)
      rw [publishAll_map] at hk
      have hone : publishedBy pubs [(x, m)] = pubs x m (intersectModel x.Model) := by
        simp [publishedBy]
      have htr : executedElements (tr ++ [Event.audit (.Execute flow.ID step.ID x.Name)]
          ++ [Event.dslExecute x.Name (intersectModel x.Model)]
          ++ (d m (intersectModel x.Model) inputEvent).audit.map Event.innerAudit)
          = executedElements tr ++ [x.Name] := by
        simp [executedElements_append, executedElements, executedElements_innerAudit]
      simp only
      rcases hr : (d m (intersectModel x.Model) inputEvent).result with
        ⟨_ | output, _ | err⟩ | v
      · simp only
        obtain ⟨calls, hmap, hexec⟩ := ih (d m (intersectModel x.Model) inputEvent).mem
          (tr ++ [Event.audit (.Execute flow.ID step.ID x.Name)]
            ++ [Event.dslExecute x.Name (intersectModel x.Model)]
            ++ (d m (intersectModel x.Model) inputEvent).audit.map Event.innerAudit)
        refine ⟨(x, m) :: calls, ?_, ?_⟩
        · rw [hmap, hk]
          simp only [publishedBy, List.foldl_append]
        · rw [hexec, htr]
          simp
      · exact ⟨[(x, m)], by simp only [hone]; exact hk, by simpa using htr⟩
      · exact ⟨[(x, m)], by simp only [hone]; exact hk, by simpa using htr⟩
      · exact ⟨[(x, m)], by simp only [hone]; exact hk, by simpa using htr⟩
      · exact ⟨[(x, m)], by simp only [hone]; exact hk, by simpa using htr⟩

theorem runElements_published (pubs : DslMetadata → Mem → Value → List (String × Value))
    (resolve : DslMetadata → Option Dsl) (inputEvent : CdslInputEvent)
    (hpub : ∀ dslMeta d, resolve dslMeta = some d → ∀ m model,
      (d m model inputEvent).mem.runtime.GetOutputValueMap
        = (m.runtime.publishAll (pubs dslMeta m model)).GetOutputValueMap)
    (flow : Flow) (step : FlowStep) (s : LoopState) :
    ∃ calls : List (DslMetadata × Mem),
      (runElements resolve flow inputEvent step s).state.mem.runtime.GetOutputValueMap
        = (publishedBy pubs calls).foldl (fun m kv => GoMap.put m kv.1 kv.2)
            s.mem.runtime.GetOutputValueMap ∧
      executedElements (runElements resolve flow inputEvent step s).state.trace
        = executedElements s.trace ++ calls.map (fun c => c.1.Name) := by
  obtain ⟨calls1, hmap1, hexec1⟩ := obtainOutputs_published pubs resolve inputEvent hpub flow
    step step.LogicElements s.mem s.trace
  unfold runElements
  rcases ho : obtainOutputs resolve inputEvent flow step step.LogicElements s.mem s.trace with
    ⟨⟨g, _ | err⟩ | v, m1, tr1⟩
  · rw [ho] at hmap1 hexec1
    simp only at hmap1 hexec1 ⊢
    obtain ⟨calls2, hmap2, hexec2⟩ := obtainOutputs_published pubs resolve inputEvent hpub flow
      step step.FinalElements m1 tr1
    have hboth : ∀ (m2 : Mem) (tr2 : List Event),
        m2.runtime.GetOutputValueMap
          = (publishedBy pubs calls2).foldl (fun m kv => GoMap.put m kv.1 kv.2)
              m1.runtime.GetOutputValueMap →
        executedElements tr2 = executedElements tr1 ++ calls2.map (fun c => c.1.Name) →
        m2.runtime.GetOutputValueMap
          = (publishedBy pubs (calls1 ++ calls2)).foldl (fun m kv => GoMap.put m kv.1 kv.2)
              s.mem.runtime.GetOutputValueMap ∧
        executedElements tr2
          = executedElements s.trace ++ (calls1 ++ calls2).map (fun c => c.1.Name) := by
      intro m2 tr2 h1 h2
      refine ⟨?_, ?_⟩
      · rw [h1, hmap1, publishedBy_append, List.foldl_append]
      · rw [h2, hexec1, List.map_append, List.append_assoc]
    rcases ho2 : obtainOutputs resolve inputEvent flow step step.FinalElements m1 tr1 with
      ⟨⟨g2, _ | err2⟩ | v2, m2, tr2⟩
    · rw [ho2] at hmap2 hexec2
      exact ⟨calls1 ++ calls2, hboth m2 tr2 hmap2 hexec2⟩
    · rw [ho2] at hmap2 hexec2
      exact ⟨calls1 ++ calls2, hboth m2 tr2 hmap2 hexec2⟩
    · rw [ho2] at hmap2 hexec2
      exact ⟨calls1 ++ calls2, hboth m2 tr2 hmap2 hexec2⟩
  · rw [ho] at hmap1 hexec1
    exact ⟨calls1, hmap1, hexec1⟩
  · rw [ho] at hmap1 hexec1
    exact ⟨calls1, hmap1, hexec1⟩

theorem runPostStepTasks_executed (runTask : TaskId → TaskResult) (flow : Flow) (step : FlowStep)
    (tasks : List TaskId) (tr : List Event) :
    executedElements (runPostStepTasks runTask flow step tasks tr) = executedElements tr := by
  induction tasks generalizing tr with
  | nil => rfl
  | cons t rest ih =>
    simp only [runPostStepTasks]
    cases runTask t <;> simp [ih, executedElements_append, executedElements]

theorem applyResult_outputValues (flow : Flow) (result : Option CdslOutputEvent)
    (s : LoopState) :
    (applyResult flow result s).state.mem.runtime = s.mem.runtime := by
  unfold applyResult
  cases result with
  | none => rfl
  | some r =>
    simp only
    split
    · split <;> rfl
    · split
      · rfl
      · split <;> rfl

theorem iterate_published {σ ρ : Type} (e : FlowExecutor σ ρ)
    (pubs : DslMetadata → Mem → Value → List (String × Value)) (inputEvent : CdslInputEvent)
    (hpub : ∀ dslMeta d, e.DslInitHelper dslMeta = some d → ∀ m model,
      (d m model inputEvent).mem.runtime.GetOutputValueMap
        = (m.runtime.publishAll (pubs dslMeta m model)).GetOutputValueMap)
    (flow : Flow) (step : FlowStep) (s : LoopState) :
    ∃ calls : List (DslMetadata × Mem),
      (iterate e flow inputEvent step s).state.mem.runtime.GetOutputValueMap
        = (publishedBy pubs calls).foldl (fun m kv => GoMap.put m kv.1 kv.2)
            s.mem.runtime.GetOutputValueMap ∧
      executedElements (iterate e flow inputEvent step s).state.trace
        = executedElements s.trace ++ calls.map (fun c => c.1.Name) := by
  obtain ⟨calls, hmap, hexec⟩ := runElements_published pubs e.DslInitHelper inputEvent hpub
    flow step (enterStep flow step s)
  have h0 : executedElements (enterStep flow step s).trace = executedElements s.trace := by
    simp [enterStep, executedElements_append, executedElements]
  have h1 : (enterStep flow step s).mem.runtime = s.mem.runtime := rfl
  rw [h0] at hexec
  rw [h1] at hmap
  refine ⟨calls, ?_, ?_⟩
  · unfold iterate
    cases hr : runElements e.DslInitHelper flow inputEvent step (enterStep flow step s) with
    | panicked v s1 =>
      rw [hr] at hmap
      simpa [Iter.state, Ran.state] using hmap
    | failed err s1 =>
      rw [hr] at hmap
      simp only [Ran.state] at hmap
      simp only [divert]
      split
      · simpa [Iter.state] using hmap
      · simpa [Iter.state] using hmap
    | outputs g f s2 =>
      rw [hr] at hmap
      simp only [Ran.state] at hmap
      simp only [applyResult_outputValues, drainPostStepTasks]
      exact hmap
  · unfold iterate
    cases hr : runElements e.DslInitHelper flow inputEvent step (enterStep flow step s) with
    | panicked v s1 =>
      rw [hr] at hexec
      simpa [Iter.state, Ran.state] using hexec
    | failed err s1 =>
      rw [hr] at hexec
      simp only [Ran.state] at hexec
      simp only [divert]
      split
      · simp [Iter.state, executedElements_append, executedElements, hexec]
      · simpa [Iter.state] using hexec
    | outputs g f s2 =>
      rw [hr] at hexec
      simp only [Ran.state] at hexec
      simp only [applyResult_trace, drainPostStepTasks, runPostStepTasks_executed, hexec]

theorem acquire_ready_executed {σ ρ : Type} (e : FlowExecutor σ ρ) (newID : String)
    (inputEvent : CdslInputEvent) (w : World σ ρ) (lock : Lock) (ctx : CdslContext)
    (w1 : World σ ρ) (tr : List Event)
    (h : acquire e newID inputEvent w = .ready lock ctx w1 tr) : executedElements tr = [] := by
  unfold acquire at h
  split at h
  · dsimp only at h
    split at h
    · simp at h
    · split at h
      · simp at h
      · split at h
        · simp at h
        · simp at h
        · simp only [Acquired.ready.injEq] at h
          rw [← h.2.2.2]
          rfl
  · dsimp only at h
    split at h
    · simp at h
    · split at h
      · simp at h
      · simp at h
      · split at h
        · simp at h
        · simp only [Acquired.ready.injEq] at h
          rw [← h.2.2.2]
          rfl

theorem loopHead_zero_published {σ ρ : Type} (e : FlowExecutor σ ρ) (newID : String)
    (flow : Flow) (inputEvent : CdslInputEvent) (w : World σ ρ) (h : LoopHead σ ρ)
    (hh : loopHead e newID flow inputEvent w 0 = some h) :
    h.state.mem.runtime.GetOutputValueMap = NewCdslRuntime.GetOutputValueMap ∧
      executedElements h.state.trace = [] := by
  unfold loopHead at hh
  cases ha : acquire e newID inputEvent w with
  | fail lock err w1 tr => rw [ha] at hh; simp at hh
  | panic v w1 tr => rw [ha] at hh; simp at hh
  | ready lock ctx w1 tr =>
    have hex := acquire_ready_executed e newID inputEvent w lock ctx w1 tr ha
    rw [ha] at hh
    simp only at hh
    rcases hsel : selectStep flow inputEvent lock ctx with ⟨m, err | first⟩
    · rw [hsel] at hh; simp at hh
    · rw [hsel] at hh
      simp only [runIters, Option.some.injEq] at hh
      rw [← hh]
      refine ⟨?_, hex⟩
      have hm : m = (selectStep flow inputEvent lock ctx).1 := by rw [hsel]
      rw [hm]
      unfold selectStep
      simp only
      split
      · split <;> rfl
      · rfl

/-- At every head of the step loop the runtime holds what the element calls
so far published, over the empty map of the new runtime. -/
theorem loopHead_published {σ ρ : Type} (e : FlowExecutor σ ρ)
    (pubs : DslMetadata → Mem → Value → List (String × Value)) (newID : String) (flow : Flow)
    (inputEvent : CdslInputEvent) (w : World σ ρ)
    (hpub : ∀ dslMeta d, e.DslInitHelper dslMeta = some d → ∀ m model,
      (d m model inputEvent).mem.runtime.GetOutputValueMap
        = (m.runtime.publishAll (pubs dslMeta m model)).GetOutputValueMap)
    (n : Nat) (hn : LoopHead σ ρ)
    (hh : loopHead e newID flow inputEvent w n = some hn) :
    ∃ calls : List (DslMetadata × Mem),
      hn.state.mem.runtime.GetOutputValueMap
        = (NewCdslRuntime.publishAll (publishedBy pubs calls)).GetOutputValueMap ∧
      executedElements hn.state.trace = calls.map (fun c => c.1.Name) := by
  induction n generalizing hn with
  | zero =>
    obtain ⟨h1, h2⟩ := loopHead_zero_published e newID flow inputEvent w hn hh
    exact ⟨[], by rw [h1]; rfl, by rw [h2]; rfl⟩
  | succ n ih =>
    obtain ⟨h, step, hh0, hstep⟩ := loopHead_pred e newID flow inputEvent w n hn hh
    obtain ⟨calls, hmap, hexec⟩ := ih h hh0
    obtain ⟨hstate, _⟩ := loopHead_succ e newID flow inputEvent w n h hn step hh0 hstep hh
    obtain ⟨calls1, hmap1, hexec1⟩ := iterate_published e pubs inputEvent hpub flow step h.state
    rw [← hstate] at hmap1 hexec1
    refine ⟨calls ++ calls1, ?_, ?_⟩
    · rw [hmap1, hmap, publishAll_map, publishAll_map, publishedBy_append, List.foldl_append]
    · rw [hexec1, hexec, List.map_append]

theorem runPostCommitTasks_executed (flow : Flow) (tasks : List TaskId) (tr : List Event) :
    executedElements (runPostCommitTasks flow tasks tr) = executedElements tr := by
  induction tasks generalizing tr with
  | nil => rfl
  | cons t rest ih => simp [runPostCommitTasks, ih, executedElements_append, executedElements]

theorem lastPublished_eq_none (pubs : List (String × Value)) (key : String)
    (h : ∀ kv ∈ pubs, kv.1 ≠ key) : lastPublished pubs key = none := by
  induction pubs with
  | nil => rfl
  | cons kv rest ih =>
    simp only [lastPublished]
    rw [ih (fun kv1 h1 => h kv1 (List.mem_cons_of_mem _ h1))]
    simp only [h kv (List.mem_cons_self _ _), if_false]

theorem lastPublished_mem (pubs : List (String × Value)) (key : String) (v : Value)
    (h : lastPublished pubs key = some v) : (key, v) ∈ pubs := by
  induction pubs with
  | nil => simp [lastPublished] at h
  | cons kv rest ih =>
    simp only [lastPublished] at h
    cases hrest : lastPublished rest key with
    | some v1 =>
      rw [hrest] at h
      simp only [Option.some.injEq] at h
      subst h
      exact List.mem_cons_of_mem _ (ih hrest)
    | none =>
      rw [hrest] at h
      simp only at h
      split at h
      · rename_i hk
        simp only [Option.some.injEq] at h
        subst h
        subst hk
        exact List.mem_cons_self _ _
      · simp at h

/-- The elements of `publishDsls` change the published values only through
the calls of `AddOutputValue` that `publishDslsPubs` lists. -/
theorem publishDsls_publish (dslMeta : DslMetadata) (d : Dsl)
    (h : publishDsls.Resolve dslMeta = some d) (m : Mem) (model : Value) (ev : CdslInputEvent) :
    (d m model ev).mem.runtime.GetOutputValueMap
      = (m.runtime.publishAll (publishDslsPubs dslMeta m model)).GetOutputValueMap := by
  have ht : publishDsls = [("setState", SetState), ("setVar", SetVar), ("routeTo", RouteTo),
      ("endRoute", EndRoute), ("sayHello", SayHello),
      ("publishScore", publishValue "score" (.str "720")),
      ("publishDraft", publishValue "greeting" (.str "draft"))] := rfl
  rw [ht] at h
  simp only [DslInitialisationHelper.Resolve, GoMap.get?] at h
  split at h
  · rename_i hn
    simp only [Option.some.injEq] at h
    rw [← h, (SetState_keeps m model ev).1]
    simp [publishDslsPubs, ← hn, CdslRuntime.publishAll]
  · split at h
    · rename_i hn
      simp only [Option.some.injEq] at h
      rw [← h, (SetVar_keeps m model ev).1]
      simp [publishDslsPubs, ← hn, CdslRuntime.publishAll]
    · split at h
      · rename_i hn
        simp only [Option.some.injEq] at h
        rw [← h, RouteTo_keeps]
        simp [publishDslsPubs, ← hn, CdslRuntime.publishAll]
      · split at h
        · rename_i hn
          simp only [Option.some.injEq] at h
          rw [← h]
          simp [publishDslsPubs, ← hn, CdslRuntime.publishAll, EndRoute]
        · split at h
          · rename_i hn
            simp only [Option.some.injEq] at h
            rw [← h, (SayHello_keeps m model ev).1]
            simp [publishDslsPubs, ← hn, CdslRuntime.publishAll]
          · split at h
            · rename_i hn
              simp only [Option.some.injEq] at h
              rw [← h]
              simp [publishDslsPubs, ← hn, CdslRuntime.publishAll, publishValue]
            · split at h
              · rename_i hn
                simp only [Option.some.injEq] at h
                rw [← h]
                simp [publishDslsPubs, ← hn, CdslRuntime.publishAll, publishValue]
              · simp at h

/-! ## Claims -/

/-- C1: when the input names a stored context whose state is `End` (the lock
is obtained and the repository returns that context), `Execute` returns the
error with message `State of <id> is End`; its whole trace is the `Obtain`
call, the `GetContext` call and the release of the lock, so no step is
entered, no element runs and `SaveContext` is never called; the repository is
left as `GetContext` left it. -/
theorem execute_rejects_end_context {σ ρ : Type} (e : FlowExecutor σ ρ) (fuel : Nat)
    (newID : String) (flow : Flow) (inputEvent : CdslInputEvent) (w : World σ ρ)
    (lock : Lock) (l1 : σ) (ctx : CdslContext) (r1 : ρ)
    (hid : inputEvent.ContextID ≠ "")
    (hobtain : e.LockProvider.Obtain w.locks e.MyIdentifier ("context/" ++ inputEvent.ContextID)
      e.LockDuration e.LockRetries e.LockRetryMaxDuration = (.ok lock, l1))
    (hget : e.ContextRepository.GetContext w.repo lock.ID inputEvent.ContextID
      = (.ok (some ctx), r1))
    (hend : ctx.State = StateEnd) :
    (Execute e fuel newID flow inputEvent w).outcome
        = .err (.cdslError ("State of " ++ ctx.ID ++ " is End")) ∧
      GoError.Error (.cdslError ("State of " ++ ctx.ID ++ " is End"))
        = "State of " ++ ctx.ID ++ " is End" ∧
      (Execute e fuel newID flow inputEvent w).trace
        = [Event.obtain e.MyIdentifier ("context/" ++ inputEvent.ContextID) (some lock),
           Event.getContext lock.ID inputEvent.ContextID, Event.release lock] ∧
      (Execute e fuel newID flow inputEvent w).world.repo = r1 := by
  simp [Execute, acquire, hid, hobtain, hget, hend, ensureReleased, GoError.Error]

/-- C1 at the second call of `TestFlowExecutor_Execute`: the stored context
`c1` is in state `End`. -/
theorem execute_rejects_end_context_witness :
    (Execute (NewFlowExecutor testDsls) 8 "c2" testFlow { ContextID := "c1" }
        { locks := {}, repo := [("c1", { ID := "c1", State := StateEnd })] }).outcome
      = .err (.cdslError "State of c1 is End") :=
  (execute_rejects_end_context (NewFlowExecutor testDsls) 8 "c2" testFlow { ContextID := "c1" }
    { locks := {}, repo := [("c1", { ID := "c1", State := StateEnd })] }
    (NewLock "context/c1" "context/c1" "<anonymous>" 30000000000 0)
    { locks := [("context/c1", NewLock "context/c1" "context/c1" "<anonymous>" 30000000000 0)] }
    { ID := "c1", State := StateEnd } [("c1", { ID := "c1", State := StateEnd })]
    (by decide) rfl rfl rfl).1

/-- C2: if `Obtain` succeeds and `Execute` returns (an output or any error),
`Release` has been called on the obtained lock; and with the in-memory lock
provider the locked resource is then absent from the lock map. -/
theorem execute_returns_with_lock_released :
    (∀ {σ ρ : Type} (e : FlowExecutor σ ρ) (fuel : Nat) (newID : String) (flow : Flow)
        (inputEvent : CdslInputEvent) (w : World σ ρ) (lock : Lock) (l1 : σ),
      e.LockProvider.Obtain w.locks e.MyIdentifier (lockResource newID inputEvent)
          e.LockDuration e.LockRetries e.LockRetryMaxDuration = (.ok lock, l1) →
      (Execute e fuel newID flow inputEvent w).outcome.returned = true →
      Event.release lock ∈ (Execute e fuel newID flow inputEvent w).trace) ∧
    (∀ {ρ : Type} (e : FlowExecutor TestLocks ρ) (fuel : Nat) (newID : String) (flow : Flow)
        (inputEvent : CdslInputEvent) (w : World TestLocks ρ) (lock : Lock) (l1 : TestLocks),
      e.LockProvider = LockProviderUnitTestSupport →
      e.LockProvider.Obtain w.locks e.MyIdentifier (lockResource newID inputEvent)
          e.LockDuration e.LockRetries e.LockRetryMaxDuration = (.ok lock, l1) →
      (Execute e fuel newID flow inputEvent w).outcome.returned = true →
      GoMap.get? (Execute e fuel newID flow inputEvent w).world.locks.locks
          (lockResource newID inputEvent) = none) := by
  constructor
  · intro σ ρ e fuel newID flow inputEvent w lock l1 hobtain hret
    exact (execute_releases e fuel newID flow inputEvent w lock l1 hobtain hret).1
  · intro ρ e fuel newID flow inputEvent w lock l1 hprov hobtain hret
    have hres : lock.Resource = lockResource newID inputEvent := by
      rw [hprov] at hobtain
      exact testLocks_obtain_resource _ _ _ _ _ _ _ _ hobtain
    refine (execute_releases e fuel newID flow inputEvent w lock l1 hobtain hret).2
      (fun s => GoMap.get? s.locks (lockResource newID inputEvent) = none) ?_
    intro s
    rw [hprov, ← hres]
    exact GoMap.get?_erase_self _ _

/-- C2 at the first call of `TestFlowExecutor_Execute`: a new context `c1`
runs to `End` and its resource is not in the lock map afterwards. -/
theorem execute_returns_with_lock_released_witness :
    GoMap.get? (Execute (NewFlowExecutor testDsls) 8 "c1" testFlow {} emptyWorld).world.locks.locks
      "context/c1" = none :=
  execute_returns_with_lock_released.2 (NewFlowExecutor testDsls) 8 "c1" testFlow {} emptyWorld
    (NewLock "context/c1" "context/c1" "<anonymous>" 30000000000 0)
    { locks := [("context/c1", NewLock "context/c1" "context/c1" "<anonymous>" 30000000000 0)] }
    rfl rfl (by decide)

/-- C6: `obtainOutputs` runs the elements in declaration order and stops at
the first one that returns a non-nil output or an error. If the elements
`pre` before `x` all return (nil, nil) and `x` returns an output or an error,
the call returns that error, or else that output, with the memory `x` left;
the elements executed are exactly `pre` then `x`, in order, whatever follows
`x` in the list. And the call returns (nil, nil) exactly when every element
returned (nil, nil). -/
theorem obtainOutputs_stops_at_first_result :
    (∀ (resolve : DslMetadata → Option Dsl) (inputEvent : CdslInputEvent) (flow : Flow)
        (step : FlowStep) (pre : List DslMetadata) (x : DslMetadata) (post : List DslMetadata)
        (m : Mem) (tr : List Event) (m1 : Mem) (tr1 : List Event) (d : Dsl)
        (output : Option CdslOutputEvent) (err : Option GoError),
      allReturnNil resolve inputEvent flow step pre m tr = some (m1, tr1) →
      resolve x = some d →
      (d m1 (intersectModel x.Model) inputEvent).result = .ret output err →
      (output ≠ none ∨ err ≠ none) →
      (obtainOutputs resolve inputEvent flow step (pre ++ x :: post) m tr).1
          = (match err with
            | some _ => .ret none err
            | none => .ret output none) ∧
        (obtainOutputs resolve inputEvent flow step (pre ++ x :: post) m tr).2.1
          = (d m1 (intersectModel x.Model) inputEvent).mem ∧
        executedElements (obtainOutputs resolve inputEvent flow step (pre ++ x :: post) m tr).2.2
          = executedElements tr ++ (pre ++ [x]).map (fun el => el.Name)) ∧
    (∀ (resolve : DslMetadata → Option Dsl) (inputEvent : CdslInputEvent) (flow : Flow)
        (step : FlowStep) (elements : List DslMetadata) (m : Mem) (tr : List Event)
        (m1 : Mem) (tr1 : List Event),
      obtainOutputs resolve inputEvent flow step elements m tr = (.ret none none, m1, tr1) ↔
        allReturnNil resolve inputEvent flow step elements m tr = some (m1, tr1)) := by
  constructor
  · intro resolve inputEvent flow step pre x post m tr m1 tr1 d output err hpre hres hret hstop
    rw [obtainOutputs_append_of_allReturnNil resolve inputEvent flow step pre (x :: post)
      m tr m1 tr1 hpre]
    have hex := allReturnNil_executed resolve inputEvent flow step pre m tr m1 tr1 hpre
    simp only [obtainOutputs, hres, hret]
    cases err with
    | some e =>
      simp [executedElements_append, executedElements, executedElements_innerAudit, hex]
    | none =>
      cases output with
      | none => simp at hstop
      | some o =>
        simp [executedElements_append, executedElements, executedElements_innerAudit, hex]
  · intro resolve inputEvent flow step elements m tr m1 tr1
    constructor
    · exact allReturnNil_of_obtainOutputs resolve inputEvent flow step elements m tr m1 tr1
    · intro h
      have := obtainOutputs_append_of_allReturnNil resolve inputEvent flow step elements []
        m tr m1 tr1 h
      simpa [obtainOutputs] using this

/-- C6 on the logic list of step `init` of the test flow: the three elements
before `routeTo` return (nil, nil), `routeTo` returns a `Route` output, and an
element placed after it is not executed. -/
theorem obtainOutputs_stops_at_first_result_witness :
    executedElements (obtainOutputs testDsls.Resolve {} testFlow { ID := "init" }
        ([{ Name := "setState", Model := .mapModel [("val", .str "Alive")] },
          { Name := "sayHello", Model := .mapModel [("name", .str "Test")] }]
          ++ { Name := "routeTo", Model := .mapModel [("target", .str "end")] }
          :: [{ Name := "endRoute", Model := .null }])
        { ctx := { runtime := true }, runtime := {} } []).2.2
      = ["setState", "sayHello", "routeTo"] :=
  (obtainOutputs_stops_at_first_result.1 testDsls.Resolve {} testFlow { ID := "init" }
    [{ Name := "setState", Model := .mapModel [("val", .str "Alive")] },
      { Name := "sayHello", Model := .mapModel [("name", .str "Test")] }]
    { Name := "routeTo", Model := .mapModel [("target", .str "end")] }
    [{ Name := "endRoute", Model := .null }]
    { ctx := { runtime := true }, runtime := {} } []
    _ _ RouteTo (some { Action := ActionRoute, NextRoute := "end" }) none
    rfl rfl rfl (Or.inl (by simp))).2.2

/-- C5: in a pass through the loop body whose logic list yields the non-nil
output `g`, the action applied after the step is that of the final list's
output `f` whenever the final list yields one (`g` plays no part then), and it
is that of `g` only when the final list yields no output. -/
theorem final_output_takes_precedence {σ ρ : Type} (e : FlowExecutor σ ρ) (flow : Flow)
    (inputEvent : CdslInputEvent) (step : FlowStep) (s : LoopState) (g : CdslOutputEvent) :
    (∀ (f : CdslOutputEvent) (s2 : LoopState),
        runElements e.DslInitHelper flow inputEvent step (enterStep flow step s)
          = .outputs (some g) (some f) s2 →
        iterate e flow inputEvent step s
          = applyResult flow (some f) (drainPostStepTasks e.RunTask flow step s2)) ∧
      (∀ s2 : LoopState,
        runElements e.DslInitHelper flow inputEvent step (enterStep flow step s)
          = .outputs (some g) none s2 →
        iterate e flow inputEvent step s
          = applyResult flow (some g) (drainPostStepTasks e.RunTask flow step s2)) := by
  constructor
  · intro f s2 h
    simp [iterate, h, chooseResult]
  · intro s2 h
    simp [iterate, h, chooseResult]

/-- C5 on a step whose logic list routes to `end` and whose final list ends
the flow: the pass ends the flow (state `End`, no next step). -/
theorem final_output_takes_precedence_witness :
    iterate (NewFlowExecutor testDsls) testFlow {}
        { ID := "both",
          LogicElements := [{ Name := "routeTo", Model := .mapModel [("target", .str "end")] }],
          FinalElements := [{ Name := "endRoute", Model := .null }] }
        { mem := { ctx := {}, runtime := {} }, trace := [] }
      = .next none
        { mem := { ctx := { State := StateEnd, CurrentStep := "both",
                            Transitions := ["testFlow/both"] }, runtime := {} },
          trace := [Event.audit (.Transition "testFlow" "both"),
            Event.audit (.Execute "testFlow" "both" "routeTo"),
            Event.dslExecute "routeTo" (.map [("Properties", .map [("target", .str "end")])]),
            Event.audit (.Execute "testFlow" "both" "endRoute"),
            Event.dslExecute "endRoute" .null],
          outputEvent := some { Action := ActionEnd } } :=
  ((final_output_takes_precedence (NewFlowExecutor testDsls) testFlow {}
    { ID := "both",
      LogicElements := [{ Name := "routeTo", Model := .mapModel [("target", .str "end")] }],
      FinalElements := [{ Name := "endRoute", Model := .null }] }
    { mem := { ctx := {}, runtime := {} }, trace := [] }
    { Action := ActionRoute, NextRoute := "end" }).1 { Action := ActionEnd } _ rfl).trans rfl

/-- C7: once the lock is held and the context `ctx` is loaded, the first step
`Execute` enters is the one stored under the requested step when the input
names one, otherwise under the context's current step when that is non-empty,
otherwise under the flow's default step; a requested step that is not in the
flow makes `Execute` return `Requested step <s> was not found` with no step
entered. -/
theorem first_step_entered {σ ρ : Type} (e : FlowExecutor σ ρ) (fuel : Nat) (newID : String)
    (flow : Flow) (inputEvent : CdslInputEvent) (w : World σ ρ) (lock : Lock)
    (ctx : CdslContext) (w1 : World σ ρ) (tr : List Event)
    (hacq : acquire e newID inputEvent w = .ready lock ctx w1 tr) :
    (inputEvent.RequestedStep ≠ "" → flow.FetchStep inputEvent.RequestedStep = none →
        (Execute e fuel newID flow inputEvent w).outcome
            = .err (.cdslError
                ("Requested step " ++ inputEvent.RequestedStep ++ " was not found")) ∧
          enteredSteps (Execute e fuel newID flow inputEvent w).trace = []) ∧
      (∀ step : FlowStep,
        flow.FetchStep (firstStepName flow inputEvent ctx) = some step →
        (enteredSteps (Execute e (fuel + 1) newID flow inputEvent w).trace).head?
          = some (flow.ID, step.ID)) ∧
      (inputEvent.RequestedStep = "" →
        flow.FetchStep (firstStepName flow inputEvent ctx) = none →
        enteredSteps (Execute e fuel newID flow inputEvent w).trace = []) := by
  have htr := acquire_ready_entered e newID inputEvent w lock ctx w1 tr hacq
  refine ⟨?_, ?_, ?_⟩
  · intro hreq hmiss
    have hsel := selectStep_requested_missing flow inputEvent lock ctx hreq hmiss
    rcases hs : selectStep flow inputEvent lock ctx with ⟨m, r⟩
    rw [hs] at hsel
    simp only at hsel
    subst hsel
    unfold Execute
    simp only [hacq, hs]
    simp [ensureReleased, enteredSteps_append, enteredSteps, htr]
  · intro step hfetch
    have hreq : inputEvent.RequestedStep = "" ∨ flow.FetchStep inputEvent.RequestedStep ≠ none := by
      by_cases h : inputEvent.RequestedStep = ""
      · exact Or.inl h
      · right
        simp only [firstStepName, ne_eq, h, not_false_eq_true, if_true] at hfetch
        rw [hfetch]
        simp
    have hsel := selectStep_found flow inputEvent lock ctx hreq
    rcases hs : selectStep flow inputEvent lock ctx with ⟨m, r⟩
    rw [hs] at hsel
    simp only at hsel
    subst hsel
    unfold Execute
    simp only [hacq, hs]
    simp only [hfetch]
    rw [finish_entered]
    obtain ⟨ext, hext⟩ := stepLoop_entered_first e flow inputEvent fuel step
      { mem := m, trace := tr }
    rw [hext]
    simp [htr]
  · intro hreq hmiss
    have hsel := selectStep_found flow inputEvent lock ctx (Or.inl hreq)
    rcases hs : selectStep flow inputEvent lock ctx with ⟨m, r⟩
    rw [hs] at hsel
    simp only at hsel
    subst hsel
    unfold Execute
    simp only [hacq, hs]
    simp only [hmiss]
    rw [finish_entered]
    cases fuel <;> simpa [stepLoop, LoopExit.state] using htr

/-- C7 on the first call of `TestFlowExecutor_Execute`: a new context and no
requested step, so the default step `init` is entered first. -/
theorem first_step_entered_witness :
    (enteredSteps (Execute (NewFlowExecutor testDsls) 1 "c1" testFlow {} emptyWorld).trace).head?
      = some ("testFlow", "init") :=
  (first_step_entered (NewFlowExecutor testDsls) 0 "c1" testFlow {} emptyWorld
    (NewLock "context/c1" "context/c1" "<anonymous>" 30000000000 0) { ID := "c1" }
    { locks := { locks := [("context/c1",
        NewLock "context/c1" "context/c1" "<anonymous>" 30000000000 0)] },
      repo := [("c1", { ID := "c1" })] }
    [Event.obtain "<anonymous>" "context/c1"
        (some (NewLock "context/c1" "context/c1" "<anonymous>" 30000000000 0)),
      Event.saveContext "context/c1" { ID := "c1" },
      Event.getContext "context/c1" "c1"]
    rfl).2.1 { ID := "init", LogicElements := [
      { Name := "setState", Model := .mapModel [("val", .str "Alive")] },
      { Name := "sayHello", Model := .mapModel [("name", .str "Test")] },
      { Name := "setVar", Model := .mapModel [("name", .str "testVar"), ("val", .str "testValue")] },
      { Name := "routeTo", Model := .mapModel [("target", .str "end")] }] } rfl

/-- C8: when `Execute` is at the head of the step loop about to enter `step`
and the result of that step has action `Route` with next route `t`: if `t` is
not a step of the flow, `Execute` returns the error `Invalid Route <t>` and
the lock has been released; if `t` is a step of the flow, it is the step
entered next. -/
theorem route_result_enters_target_or_fails {σ ρ : Type} (e : FlowExecutor σ ρ)
    (newID : String) (flow : Flow) (inputEvent : CdslInputEvent) (w : World σ ρ) (k : Nat)
    (h : LoopHead σ ρ) (step : FlowStep) (g f : Option CdslOutputEvent) (s2 : LoopState)
    (r : CdslOutputEvent)
    (hh : loopHead e newID flow inputEvent w k = some h)
    (hstep : h.nextStep = some step)
    (hrun : runElements e.DslInitHelper flow inputEvent step (enterStep flow step h.state)
      = .outputs g f s2)
    (hres : chooseResult g f = some r)
    (hroute : r.Action = ActionRoute) :
    (flow.FetchStep r.NextRoute = none → ∀ n : Nat,
        (Execute e (k + (n + 1)) newID flow inputEvent w).outcome
            = .err (.cdslError ("Invalid Route " ++ r.NextRoute)) ∧
          GoError.Error (.cdslError ("Invalid Route " ++ r.NextRoute))
            = "Invalid Route " ++ r.NextRoute ∧
          Event.release h.lock ∈ (Execute e (k + (n + 1)) newID flow inputEvent w).trace ∧
          ∀ P : σ → Prop, (∀ s, P (e.LockProvider.Release s h.lock).2) →
            P (Execute e (k + (n + 1)) newID flow inputEvent w).world.locks) ∧
      (∀ target : FlowStep, flow.FetchStep r.NextRoute = some target → ∀ n : Nat,
        ∃ ext, enteredSteps (Execute e (k + (n + 2)) newID flow inputEvent w).trace
          = enteredSteps h.state.trace ++ (flow.ID, step.ID) :: (flow.ID, target.ID) :: ext) := by
  have hit := iterate_of_outputs e flow inputEvent step h.state g f s2 hrun
  rw [hres] at hit
  have hent := iterate_entered e flow inputEvent step h.state
  constructor
  · intro hmiss n
    have hfail : iterate e flow inputEvent step h.state
        = .fail (.cdslError ("Invalid Route " ++ r.NextRoute))
            { drainPostStepTasks e.RunTask flow step s2 with
              mem := { (drainPostStepTasks e.RunTask flow step s2).mem with
                ctx := { (drainPostStepTasks e.RunTask flow step s2).mem.ctx with
                  CurrentStep := r.NextRoute } } } := by
      rw [hit]
      simp [applyResult, hroute, hmiss]
    rw [execute_at_step e newID flow inputEvent w k n h step hh hstep, hfail]
    refine ⟨rfl, rfl, ?_⟩
    exact ensureReleased_some e h.lock _ _ _ _
  · intro target hfound n
    have hnext : iterate e flow inputEvent step h.state
        = .next (some target)
            { drainPostStepTasks e.RunTask flow step s2 with
              mem := { (drainPostStepTasks e.RunTask flow step s2).mem with
                ctx := { (drainPostStepTasks e.RunTask flow step s2).mem.ctx with
                  CurrentStep := r.NextRoute } },
              outputEvent := some (NewCdslFlowOutputEvent.With (some r)) } := by
      rw [hit]
      simp [applyResult, hroute, hfound]
    rw [hnext] at hent
    simp only [Iter.state] at hent
    rw [execute_at_step e newID flow inputEvent w k (n + 1) h step hh hstep, hnext]
    simp only
    rw [finish_entered]
    obtain ⟨ext, hext⟩ := stepLoop_entered_first e flow inputEvent n target
      { drainPostStepTasks e.RunTask flow step s2 with
        mem := { (drainPostStepTasks e.RunTask flow step s2).mem with
          ctx := { (drainPostStepTasks e.RunTask flow step s2).mem.ctx with
            CurrentStep := r.NextRoute } },
        outputEvent := some (NewCdslFlowOutputEvent.With (some r)) }
    refine ⟨ext, ?_⟩
    rw [hext, hent]
    simp

/-- C8 on scenario "Route-to-missing": the call fails with
`Invalid Route nope`. -/
theorem route_result_enters_target_or_fails_witness :
    (Execute (NewFlowExecutor allDsls) 1 "c1" routeToMissingFlow {} emptyWorld).outcome
      = .err (.cdslError "Invalid Route nope") :=
  ((route_result_enters_target_or_fails (NewFlowExecutor allDsls) "c1" routeToMissingFlow {}
    emptyWorld 0 _ _ _ _ _ { Action := ActionRoute, NextRoute := "nope" }
    rfl rfl rfl rfl rfl).1 rfl 0).1

/-- C9 (amended): when `Execute` is at the head of the step loop about to
enter `step` and the result of that step has action `Await` with next route
`t`: the pass leaves the loop with the context in state `Await` and current
step `t`; no further step is entered; `SaveContext` is called with that
context and, when it and `Release` succeed, `Execute` returns context state
`Await`. A later `Execute` that loads a context with current step `t` and has
no requested step enters the step stored under `t` first, provided `t` is
non-empty and a step of the flow. -/
theorem await_result_pauses_and_resumes {σ ρ : Type} (e : FlowExecutor σ ρ)
    (newID : String) (flow : Flow) (inputEvent : CdslInputEvent) (w : World σ ρ) (k : Nat)
    (h : LoopHead σ ρ) (step : FlowStep) (g f : Option CdslOutputEvent) (s2 : LoopState)
    (r : CdslOutputEvent)
    (hh : loopHead e newID flow inputEvent w k = some h)
    (hstep : h.nextStep = some step)
    (hrun : runElements e.DslInitHelper flow inputEvent step (enterStep flow step h.state)
      = .outputs g f s2)
    (hres : chooseResult g f = some r)
    (hawait : r.Action = ActionAwait) :
    (∀ n : Nat,
        enteredSteps (Execute e (k + (n + 1)) newID flow inputEvent w).trace
            = enteredSteps h.state.trace ++ [(flow.ID, step.ID)] ∧
          Event.saveContext s2.mem.runtime.GetTransactionID
              { s2.mem.ctx with State := StateAwait, CurrentStep := r.NextRoute }
            ∈ (Execute e (k + (n + 1)) newID flow inputEvent w).trace ∧
          ∀ (r1 : ρ) (l1 : σ),
            e.ContextRepository.SaveContext h.world.repo s2.mem.runtime.GetTransactionID
                { s2.mem.ctx with State := StateAwait, CurrentStep := r.NextRoute }
              = (none, r1) →
            e.LockProvider.Release h.world.locks h.lock = (none, l1) →
            ∃ out, (Execute e (k + (n + 1)) newID flow inputEvent w).outcome = .ret out ∧
              out.ContextState = "Await" ∧
              (Execute e (k + (n + 1)) newID flow inputEvent w).world.repo = r1) ∧
      (∀ (e2 : FlowExecutor σ ρ) (fuel : Nat) (newID2 : String) (inputEvent2 : CdslInputEvent)
          (w2 : World σ ρ) (lock2 : Lock) (ctx2 : CdslContext) (w3 : World σ ρ)
          (tr2 : List Event) (target : FlowStep),
        acquire e2 newID2 inputEvent2 w2 = .ready lock2 ctx2 w3 tr2 →
        ctx2.CurrentStep = r.NextRoute →
        inputEvent2.RequestedStep = "" →
        r.NextRoute ≠ "" →
        flow.FetchStep r.NextRoute = some target →
        (enteredSteps (Execute e2 (fuel + 1) newID2 flow inputEvent2 w2).trace).head?
          = some (flow.ID, target.ID)) := by
  have hit := iterate_of_outputs e flow inputEvent step h.state g f s2 hrun
  rw [hres] at hit
  have hne : ¬ ActionAwait = ActionRoute := by decide
  have hnext : iterate e flow inputEvent step h.state
      = .next none
          { mem := { ctx := { s2.mem.ctx with State := StateAwait, CurrentStep := r.NextRoute },
                     runtime := s2.mem.runtime.ClearPostStepTasks },
            trace := runPostStepTasks e.RunTask flow step s2.mem.runtime.GetPostStepTasks s2.trace,
            outputEvent := some (NewCdslFlowOutputEvent.With (some r)) } := by
    rw [hit]
    simp [applyResult, hawait, hne, drainPostStepTasks]
  have hent := iterate_entered e flow inputEvent step h.state
  rw [hnext] at hent
  simp only [Iter.state] at hent
  constructor
  · intro n
    rw [execute_at_step e newID flow inputEvent w k n h step hh hstep, hnext]
    simp only [stepLoop, finish]
    refine ⟨?_, ?_, ?_⟩
    · rw [commit_entered]
      exact hent
    · exact commit_saves e flow h.lock h.world _
    · intro r1 l1 hsave hrel
      have hc := commit_success e flow h.lock h.world
        { mem := { ctx := { s2.mem.ctx with State := StateAwait, CurrentStep := r.NextRoute },
                   runtime := s2.mem.runtime.ClearPostStepTasks },
          trace := runPostStepTasks e.RunTask flow step s2.mem.runtime.GetPostStepTasks s2.trace,
          outputEvent := some (NewCdslFlowOutputEvent.With (some r)) } r1 l1 hsave hrel
      refine ⟨_, hc.1, ?_, ?_⟩
      · rfl
      · rw [hc.2.1]
  · intro e2 fuel newID2 inputEvent2 w2 lock2 ctx2 w3 tr2 target hacq hcur hreq hnonempty hfound
    have hname : firstStepName flow inputEvent2 ctx2 = r.NextRoute := by
      simp [firstStepName, hreq, hcur, hnonempty]
    have htr := acquire_ready_entered e2 newID2 inputEvent2 w2 lock2 ctx2 w3 tr2 hacq
    have hsel := selectStep_found flow inputEvent2 lock2 ctx2 (Or.inl hreq)
    rw [hname, hfound] at hsel
    rcases hs : selectStep flow inputEvent2 lock2 ctx2 with ⟨m, res⟩
    rw [hs] at hsel
    simp only at hsel
    subst hsel
    unfold Execute
    simp only [hacq, hs]
    rw [finish_entered]
    obtain ⟨ext, hext⟩ := stepLoop_entered_first e2 flow inputEvent2 fuel target
      { mem := m, trace := tr2 }
    rw [hext]
    simp [htr]

/-- C9 (amended) on a flow whose default step pauses at step `wait`: the call
on a new context returns context state `Await` and the saved context has
current step `wait`. -/
theorem await_result_pauses_and_resumes_witness :
    ∃ out, (Execute (NewFlowExecutor (NewDslInitialisationHelper.RegisterDsl "pause"
          (awaitAt "wait"))) 1 "c1" pauseFlow {} emptyWorld).outcome = .ret out ∧
      out.ContextState = "Await" ∧
      (Execute (NewFlowExecutor (NewDslInitialisationHelper.RegisterDsl "pause"
          (awaitAt "wait"))) 1 "c1" pauseFlow {} emptyWorld).world.repo
        = [("c1", { runtime := true, ID := "c1", State := StateAwait, CurrentStep := "wait",
                    Transitions := ["p/init"] })] :=
  ((await_result_pauses_and_resumes
    (NewFlowExecutor (NewDslInitialisationHelper.RegisterDsl "pause" (awaitAt "wait")))
    "c1" pauseFlow {} emptyWorld 0 _ _ _ _ _ { Action := ActionAwait, NextRoute := "wait" }
    rfl rfl rfl rfl rfl).1 0).2.2 _ _ rfl rfl

/-- C9 as stated fails for an empty next route: the step of `emptyRouteFlow`
pauses with next route `""`, which is a step of the flow, yet the later call
on the same context enters the default step `init`, not the step stored under
`""`. -/
theorem await_empty_route_resumes_at_default :
    emptyRouteFlow.FetchStep "" = some { ID := "" } ∧
      (Execute (NewFlowExecutor (NewDslInitialisationHelper.RegisterDsl "pause" (awaitAt "")))
          1 "c1" emptyRouteFlow {} emptyWorld).world.repo
        = [("c1", { runtime := true, ID := "c1", State := StateAwait, CurrentStep := "",
                    Transitions := ["p/init"] })] ∧
      enteredSteps (Execute
          (NewFlowExecutor (NewDslInitialisationHelper.RegisterDsl "pause" (awaitAt "")))
          1 "c2" emptyRouteFlow { ContextID := "c1" }
          (Execute (NewFlowExecutor (NewDslInitialisationHelper.RegisterDsl "pause" (awaitAt "")))
            1 "c1" emptyRouteFlow {} emptyWorld).world).trace
        = [("p", "init")] :=
  ⟨rfl, rfl, rfl⟩

/-- C3 (amended): when `Execute` is at the head of the step loop about to
enter `step` and an element of that step (logic or final list) returns the
error `err`: if the flow's error step is empty, `Execute` returns `err`; if
it names a step of the flow, the error is audited, the error step is the step
entered next (its entry follows the failing step's in the transition history
when the elements left the history alone), and `Execute` ends as the run
continued from the error step ends: when the pass through the error step
leaves the loop and the commit goes through, `Execute` returns its output
without error. -/
theorem dsl_error_diverts_to_error_step {σ ρ : Type} (e : FlowExecutor σ ρ)
    (newID : String) (flow : Flow) (inputEvent : CdslInputEvent) (w : World σ ρ) (k : Nat)
    (h : LoopHead σ ρ) (step : FlowStep) (err : GoError) (s1 : LoopState)
    (hh : loopHead e newID flow inputEvent w k = some h)
    (hstep : h.nextStep = some step)
    (hrun : runElements e.DslInitHelper flow inputEvent step (enterStep flow step h.state)
      = .failed err s1) :
    (flow.ErrorStep = "" → ∀ n : Nat,
        (Execute e (k + (n + 1)) newID flow inputEvent w).outcome = .err err) ∧
      (∀ errorStep : FlowStep, flow.ErrorStep ≠ "" →
        flow.FetchStep flow.ErrorStep = some errorStep →
        (∀ n : Nat, Event.audit (.Error flow.ID step.ID "" err)
          ∈ (Execute e (k + (n + 1)) newID flow inputEvent w).trace) ∧
        (∀ n : Nat, ∃ ext,
          enteredSteps (Execute e (k + (n + 2)) newID flow inputEvent w).trace
            = enteredSteps h.state.trace
              ++ (flow.ID, step.ID) :: (flow.ID, errorStep.ID) :: ext) ∧
        (s1.mem.ctx.Transitions = (enterStep flow step h.state).mem.ctx.Transitions →
          ∃ older,
            (enterStep flow errorStep
              { s1 with trace := s1.trace ++ [Event.audit (.Error flow.ID step.ID "" err)] }
              ).mem.ctx.Transitions
              = older ++ [flow.ID ++ "/" ++ step.ID, flow.ID ++ "/" ++ errorStep.ID]) ∧
        (∀ n : Nat, Execute e (k + (n + 1)) newID flow inputEvent w
          = finish e flow h.lock h.world
              (stepLoop e flow inputEvent n (some errorStep)
                { s1 with trace := s1.trace ++ [Event.audit (.Error flow.ID step.ID "" err)] })) ∧
        (∀ (s3 : LoopState) (r1 : ρ) (l1 : σ),
          iterate e flow inputEvent errorStep
              { s1 with trace := s1.trace ++ [Event.audit (.Error flow.ID step.ID "" err)] }
            = .next none s3 →
          e.ContextRepository.SaveContext h.world.repo s3.mem.runtime.GetTransactionID s3.mem.ctx
            = (none, r1) →
          e.LockProvider.Release h.world.locks h.lock = (none, l1) →
          ∀ n : Nat, (Execute e (k + (n + 2)) newID flow inputEvent w).outcome
            = .ret (buildOutput s3.outputEvent
                { s3.mem with runtime := s3.mem.runtime.ClearPostCommitTasks }))) := by
  have hit := iterate_of_failed e flow inputEvent step h.state err s1 hrun
  constructor
  · intro hempty n
    rw [execute_at_step e newID flow inputEvent w k n h step hh hstep, hit]
    simp [divert, hempty, finish, ensureReleased]
  · intro errorStep hne hfetch
    have hnext : iterate e flow inputEvent step h.state
        = .next (some errorStep)
            { s1 with trace := s1.trace ++ [Event.audit (.Error flow.ID step.ID "" err)] } := by
      rw [hit]
      simp [divert, hne, hfetch]
    have hexec : ∀ n : Nat, Execute e (k + (n + 1)) newID flow inputEvent w
        = finish e flow h.lock h.world
            (stepLoop e flow inputEvent n (some errorStep)
              { s1 with trace := s1.trace ++ [Event.audit (.Error flow.ID step.ID "" err)] }) := by
      intro n
      rw [execute_at_step e newID flow inputEvent w k n h step hh hstep, hnext]
    have hent := iterate_entered e flow inputEvent step h.state
    rw [hnext] at hent
    simp only [Iter.state] at hent
    refine ⟨?_, ?_, ?_, hexec, ?_⟩
    · intro n
      rw [hexec n]
      apply (finish_grows e flow h.lock h.world _).subset
      apply (stepLoop_grows e flow inputEvent n (some errorStep) _).subset
      simp
    · intro n
      rw [hexec (n + 1), finish_entered]
      obtain ⟨ext, hext⟩ := stepLoop_entered_first e flow inputEvent n errorStep
        { s1 with trace := s1.trace ++ [Event.audit (.Error flow.ID step.ID "" err)] }
      refine ⟨ext, ?_⟩
      rw [hext, hent]
      simp
    · intro hkeep
      obtain ⟨before, hbefore⟩ := pushTransition_last
        { h.state.mem.ctx with CurrentStep := step.ID } (flow.ID ++ "/" ++ step.ID)
      simp only [enterStep] at hkeep ⊢
      rw [hbefore] at hkeep
      exact pushTransition_after { s1.mem.ctx with CurrentStep := errorStep.ID }
        (flow.ID ++ "/" ++ step.ID) (flow.ID ++ "/" ++ errorStep.ID) before hkeep
    · intro s3 r1 l1 hdone hsave hrel n
      rw [hexec (n + 1)]
      simp only [stepLoop, hdone, finish]
      exact (commit_success e flow h.lock h.world s3 r1 l1 hsave hrel).1

/-- C3 (amended) on scenario "Error diversion": the element of `init` fails,
the step `error` is entered next and the call returns its output, with the
variable `status` set to `error`, without error. -/
theorem dsl_error_diverts_to_error_step_witness :
    (Execute (NewFlowExecutor allDsls) 2 "c1" errorDiversionFlow {} emptyWorld).outcome
      = .ret { ContextID := "c1", ContextState := "End", Action := ActionEnd,
               OutputValues := [("status", .str "error")] } :=
  ((dsl_error_diverts_to_error_step (NewFlowExecutor allDsls) "c1" errorDiversionFlow {}
    emptyWorld 0 _ _ (.typesCdslError "Simulated error") _ rfl rfl rfl).2 _ (by decide) rfl
    ).2.2.2.2 _ _ _ rfl rfl rfl 0

/-- C3 as stated fails when the error step does not end the run: in
`errorStepRoutesAwayFlow` the element of `init` fails, the step `error` is
entered next, and `Execute` returns the error `Invalid Route nope`. -/
theorem error_step_outcome_can_be_an_error :
    (Execute (NewFlowExecutor allDsls) 2 "c1" errorStepRoutesAwayFlow {} emptyWorld).outcome
        = .err (.cdslError "Invalid Route nope") ∧
      enteredSteps (Execute (NewFlowExecutor allDsls) 2 "c1" errorStepRoutesAwayFlow {}
          emptyWorld).trace
        = [("k", "init"), ("k", "error")] :=
  ⟨rfl, rfl⟩

/-- C4 fails on the code: in `errorStepFailsFlow` the element of the error
step returns an error, and `Execute` never returns it. Whatever the number of
passes allowed, the run is still inside the step loop, having entered `init`
once and the error step on every pass after it. -/
theorem error_in_error_step_never_returns (fuel : Nat) :
    (Execute (NewFlowExecutor allDsls) fuel "c1" errorStepFailsFlow {} emptyWorld).outcome
        = .outOfFuel ∧
      enteredSteps (Execute (NewFlowExecutor allDsls) (fuel + 1) "c1" errorStepFailsFlow {}
          emptyWorld).trace
        = ("k", "init") :: List.replicate fuel ("k", "error") := by
  obtain ⟨hd, hhead, hnext, hent⟩ : ∃ hd : LoopHead TestLocks (GoMap CdslContext),
      loopHead (NewFlowExecutor allDsls) "c1" errorStepFailsFlow {} emptyWorld 1 = some hd ∧
      hd.nextStep
        = some { ID := "error", LogicElements := [{ Name := "errorDsl", Model := .null }] } ∧
      enteredSteps hd.state.trace = [("k", "init")] := ⟨_, rfl, rfl, rfl⟩
  have hrun : ∀ n : Nat, ∃ s1,
      Execute (NewFlowExecutor allDsls) (n + 1) "c1" errorStepFailsFlow {} emptyWorld
          = finish (NewFlowExecutor allDsls) errorStepFailsFlow hd.lock hd.world (.outOfFuel s1) ∧
        enteredSteps s1.trace = ("k", "init") :: List.replicate n ("k", "error") := by
    intro n
    obtain ⟨s1, hloop, htr⟩ := stepLoop_failing_error_step (NewFlowExecutor allDsls)
      errorStepFailsFlow {}
      { ID := "error", LogicElements := [{ Name := "errorDsl", Model := .null }] }
      (by decide) rfl (fun s => ⟨_, _, rfl⟩) n hd.state
    refine ⟨s1, ?_, ?_⟩
    · rw [Nat.add_comm n 1, execute_of_loopHead (NewFlowExecutor allDsls) "c1"
        errorStepFailsFlow {} emptyWorld 1 n hd hhead, hnext, hloop]
    · rw [htr, hent]
      rfl
  constructor
  · cases fuel with
    | zero => rfl
    | succ n =>
      obtain ⟨s1, hexec, _⟩ := hrun n
      rw [hexec]
      rfl
  · obtain ⟨s1, hexec, htr⟩ := hrun fuel
    rw [hexec]
    exact htr

/-- C10 fails on the code: on `awaitFlow` the call on a new context returns
context state `Undefined` and saves the context with current step `init`.
The executor hands `await` the deep copy of its model, a plain map with the
key `Properties`, and `Await.Execute` answers only to a `*MapModel`: given
the model as the loader built it, the same element returns the `Await`
output. -/
theorem await_element_does_not_pause :
    (Execute (NewFlowExecutor allDsls) 2 "c1" awaitFlow {} emptyWorld).outcome
        = .ret { ContextID := "c1", ContextState := "Undefined" } ∧
      (Execute (NewFlowExecutor allDsls) 2 "c1" awaitFlow {} emptyWorld).world.repo
        = [("c1", { runtime := true, ID := "c1", State := StateUndefined,
                    CurrentStep := "init", Transitions := ["a/init"] })] ∧
      executedElements (Execute (NewFlowExecutor allDsls) 2 "c1" awaitFlow {} emptyWorld).trace
        = ["await"] ∧
      intersectModel (.mapModel [("at", .str "wait")])
        = .map [("Properties", .map [("at", .str "wait")])] ∧
      (Await { ctx := {}, runtime := {} }
          (.map [("Properties", .map [("at", .str "wait")])]) {}).result
        = .ret none none ∧
      (Await { ctx := {}, runtime := {} } (.mapModel [("at", .str "wait")]) {}).result
        = .ret (some { Action := ActionAwait, NextRoute := "wait" }) none :=
  ⟨rfl, rfl, rfl, rfl, rfl, rfl⟩

/-- C17: for a context whose transition list has length `n ≤ 1000`, after
`PushTransition(s)` the list has length `min (n + 1) 1000`, its last element
is `s`, it is the old list followed by `s` when `n < 1000` and the old list
without its first element followed by `s` when `n = 1000`; so its length is
again at most 1000. -/
theorem pushTransition_bounded_fifo (c : CdslContext) (s : String)
    (hlen : c.Transitions.length ≤ MaxTransitionsHistory) :
    (c.PushTransition s).Transitions.length = min (c.Transitions.length + 1) 1000 ∧
      (c.PushTransition s).Transitions.getLast? = some s ∧
      (c.Transitions.length < 1000 →
        (c.PushTransition s).Transitions = c.Transitions ++ [s]) ∧
      (c.Transitions.length = 1000 →
        (c.PushTransition s).Transitions = c.Transitions.drop 1 ++ [s]) ∧
      (c.PushTransition s).Transitions.length ≤ MaxTransitionsHistory := by
  simp only [MaxTransitionsHistory] at hlen ⊢
  by_cases hfull : c.Transitions.length = 1000
  · have hpush : (c.PushTransition s).Transitions = c.Transitions.drop 1 ++ [s] := by
      simp only [CdslContext.PushTransition, MaxTransitionsHistory]
      rw [if_pos (by simp [hfull])]
      rw [List.drop_append_of_le_length (by omega)]
    refine ⟨?_, ?_, ?_, fun _ => hpush, ?_⟩
    · rw [hpush]; simp [hfull]
    · rw [hpush]; simp
    · intro h; omega
    · rw [hpush]; simp [hfull]
  · have hlt : c.Transitions.length < 1000 := by omega
    have hpush : (c.PushTransition s).Transitions = c.Transitions ++ [s] := by
      simp only [CdslContext.PushTransition, MaxTransitionsHistory]
      rw [if_neg (by simp; omega)]
    refine ⟨?_, ?_, fun _ => hpush, fun h => absurd h hfull, ?_⟩
    · rw [hpush]; simp; omega
    · rw [hpush]; simp
    · rw [hpush]; simp; omega

/-- C17 on a history of two entries. -/
theorem pushTransition_bounded_fifo_witness :
    (({ Transitions := ["f/a", "f/b"] } : CdslContext).PushTransition "f/c").Transitions
      = ["f/a", "f/b", "f/c"] :=
  (pushTransition_bounded_fifo { Transitions := ["f/a", "f/b"] } "f/c"
    (by decide)).2.2.1 (by decide)

/-- C18: on a context with no runtime attached, `PutVar(k, v)` returns the
error `CdslRuntime not present`, leaves the context (and so its vars) as it
was and makes no auditor call. -/
theorem putVar_without_runtime (c : CdslContext) (k v : String) (h : c.runtime = false) :
    (c.PutVar k v).1 = some (.errorsNew "CdslRuntime not present") ∧
      GoError.Error (.errorsNew "CdslRuntime not present") = "CdslRuntime not present" ∧
      (c.PutVar k v).2.1 = c ∧
      (c.PutVar k v).2.2 = [] := by
  simp [CdslContext.PutVar, h, GoError.Error]

/-- C18 on a fresh context, which has no runtime. -/
theorem putVar_without_runtime_witness :
    (NewCdslContext.PutVar "k" "v").2.1 = NewCdslContext :=
  (putVar_without_runtime NewCdslContext "k" "v" rfl).2.2.1

/-- C19: on a context with a runtime attached, `PutVar(k, v)` returns nil and
makes exactly one auditor call, `SetVar(k, v, old)` with `old` the previous
value of `k` (the empty string when absent); afterwards `GetVar(k) = v`, every
other key reads as before, and nothing but `Vars` has changed. -/
theorem putVar_with_runtime (c : CdslContext) (k v : String) (h : c.runtime = true) :
    (c.PutVar k v).1 = none ∧
      (c.PutVar k v).2.2 = [.SetVar k v (c.GetVar k)] ∧
      (c.PutVar k v).2.1.GetVar k = v ∧
      (∀ k1 : String, k1 ≠ k →
        GoMap.get? (c.PutVar k v).2.1.Vars k1 = GoMap.get? c.Vars k1 ∧
          (c.PutVar k v).2.1.GetVar k1 = c.GetVar k1) ∧
      (c.PutVar k v).2.1 = { c with Vars := GoMap.put c.Vars k v } := by
  refine ⟨?_, ?_, ?_, ?_, ?_⟩
  · simp [CdslContext.PutVar, h]
  · simp [CdslContext.PutVar, h, CdslContext.GetVar]
  · simp [CdslContext.PutVar, h, CdslContext.GetVar, GoMap.get?_put_self]
  · intro k1 hne
    simp [CdslContext.PutVar, h, CdslContext.GetVar, GoMap.get?_put_of_ne _ _ _ _ hne]
  · simp [CdslContext.PutVar, h]

/-- C19 on a context that already binds `k`. -/
theorem putVar_with_runtime_witness :
    (({ runtime := true, Vars := [("k", "old")] } : CdslContext).PutVar "k" "new").2.2
      = [.SetVar "k" "new" "old"] :=
  (putVar_with_runtime { runtime := true, Vars := [("k", "old")] } "k" "new" rfl).2.1

/-- C14: if `Obtain` returns an error, `Execute` returns exactly that error;
its whole trace is the `Obtain` call, so it makes no `SaveContext` or
`GetContext` call, enters no step and does not call `Release`; the repository
is untouched. With the in-memory lock provider, a lock held and not expired on
the resource makes `Obtain` fail and the lock map is left as it was. -/
theorem obtain_error_is_returned :
    (∀ {σ ρ : Type} (e : FlowExecutor σ ρ) (fuel : Nat) (newID : String) (flow : Flow)
        (inputEvent : CdslInputEvent) (w : World σ ρ) (err : GoError) (l1 : σ),
      e.LockProvider.Obtain w.locks e.MyIdentifier (lockResource newID inputEvent)
          e.LockDuration e.LockRetries e.LockRetryMaxDuration = (.error err, l1) →
      Execute e fuel newID flow inputEvent w
        = { outcome := .err err, world := { locks := l1, repo := w.repo },
            trace := [Event.obtain e.MyIdentifier (lockResource newID inputEvent) none],
            ctx := none }) ∧
    (∀ {ρ : Type} (e : FlowExecutor TestLocks ρ) (fuel : Nat) (newID : String) (flow : Flow)
        (inputEvent : CdslInputEvent) (w : World TestLocks ρ) (held : Lock),
      e.LockProvider = LockProviderUnitTestSupport →
      GoMap.get? w.locks.locks (lockResource newID inputEvent) = some held →
      held.IsExpired w.locks.now = false →
      Execute e fuel newID flow inputEvent w
        = { outcome := .err (.lockRejected (lockResource newID inputEvent) e.MyIdentifier
              "Resource is already locked"),
            world := w,
            trace := [Event.obtain e.MyIdentifier (lockResource newID inputEvent) none],
            ctx := none }) := by
  have hgen : ∀ {σ ρ : Type} (e : FlowExecutor σ ρ) (fuel : Nat) (newID : String) (flow : Flow)
      (inputEvent : CdslInputEvent) (w : World σ ρ) (err : GoError) (l1 : σ),
      e.LockProvider.Obtain w.locks e.MyIdentifier (lockResource newID inputEvent)
          e.LockDuration e.LockRetries e.LockRetryMaxDuration = (.error err, l1) →
      Execute e fuel newID flow inputEvent w
        = { outcome := .err err, world := { locks := l1, repo := w.repo },
            trace := [Event.obtain e.MyIdentifier (lockResource newID inputEvent) none],
            ctx := none } := by
    intro σ ρ e fuel newID flow inputEvent w err l1 hobtain
    unfold lockResource at hobtain ⊢
    by_cases hid : inputEvent.ContextID = ""
    · simp only [hid, if_true] at hobtain ⊢
      simp [Execute, acquire, hid, NewCdslContext, hobtain, ensureReleased]
    · simp only [hid, if_false] at hobtain ⊢
      simp [Execute, acquire, hid, hobtain, ensureReleased]
  refine ⟨hgen, ?_⟩
  intro ρ e fuel newID flow inputEvent w held hprov hheld hfresh
  have hobtain : e.LockProvider.Obtain w.locks e.MyIdentifier (lockResource newID inputEvent)
      e.LockDuration e.LockRetries e.LockRetryMaxDuration
      = (.error (.lockRejected (lockResource newID inputEvent) e.MyIdentifier
          "Resource is already locked"), w.locks) := by
    rw [hprov]
    simp [LockProviderUnitTestSupport, hheld, hfresh]
  rw [hgen e fuel newID flow inputEvent w _ _ hobtain]

/-- C14 on a context whose resource is locked by another owner: the call is
rejected and the other owner's lock is still in the lock map. -/
theorem obtain_error_is_returned_witness :
    Execute (NewFlowExecutor testDsls) 8 "c2" testFlow { ContextID := "c1" } lockedByOther
      = { outcome := .err (.lockRejected "context/c1" "<anonymous>" "Resource is already locked"),
          world := lockedByOther,
          trace := [Event.obtain "<anonymous>" "context/c1" none],
          ctx := none } :=
  obtain_error_is_returned.2 (NewFlowExecutor testDsls) 8 "c2" testFlow { ContextID := "c1" }
    lockedByOther (NewLock "context/c1" "context/c1" "other" 30 0) rfl rfl rfl

/-- C12: for every successful `Execute` whose elements change the published
output values only through `AddOutputValue` (a call of an element publishes
the pairs `pubs` lists for it), with `calls` the element calls of the run in
order: the runtime of the final context holds what those calls published
over the empty map of the new runtime; in the returned output values every
key of the final `Vars` maps to the string value of that variable, also when
a value was published under the same key; every other key maps to the value
published last under it; and a key that is no variable and was never
published has no entry. -/
theorem output_values_merge_vars {σ ρ : Type} (e : FlowExecutor σ ρ) (fuel : Nat)
    (newID : String) (flow : Flow) (inputEvent : CdslInputEvent) (w : World σ ρ)
    (out : CdslFlowOutputEvent)
    (pubs : DslMetadata → Mem → Value → List (String × Value))
    (hpub : ∀ dslMeta d, e.DslInitHelper dslMeta = some d → ∀ m model,
      (d m model inputEvent).mem.runtime.GetOutputValueMap
        = (m.runtime.publishAll (pubs dslMeta m model)).GetOutputValueMap)
    (hret : (Execute e fuel newID flow inputEvent w).outcome = .ret out) :
    ∃ (k : Nat) (hd : LoopHead σ ρ) (calls : List (DslMetadata × Mem)),
      loopHead e newID flow inputEvent w k = some hd ∧ hd.nextStep = none ∧
      (Execute e fuel newID flow inputEvent w).ctx = some hd.state.mem.ctx ∧
      executedElements (Execute e fuel newID flow inputEvent w).trace
        = calls.map (fun c => c.1.Name) ∧
      hd.state.mem.runtime.GetOutputValueMap
        = (NewCdslRuntime.publishAll (publishedBy pubs calls)).GetOutputValueMap ∧
      (∀ key v : String, GoMap.get? hd.state.mem.ctx.Vars key = some v →
        GoMap.get? out.OutputValues key = some (.str v)) ∧
      (∀ key : String, GoMap.get? hd.state.mem.ctx.Vars key = none →
        GoMap.get? out.OutputValues key
          = GoMap.get? hd.state.mem.runtime.GetOutputValueMap key) ∧
      (∀ key : String, GoMap.get? hd.state.mem.ctx.Vars key = none →
        GoMap.get? out.OutputValues key = lastPublished (publishedBy pubs calls) key) ∧
      (∀ key : String, GoMap.get? hd.state.mem.ctx.Vars key = none →
        (∀ kv ∈ publishedBy pubs calls, kv.1 ≠ key) →
        GoMap.get? out.OutputValues key = none) := by
  obtain ⟨k, hd, r1, l1, _, hhead, hend, _, _, hexec⟩ :=
    execute_ret_loopHead e fuel newID flow inputEvent w out hret
  obtain ⟨calls, hmap, hcalls⟩ :=
    loopHead_published e pubs newID flow inputEvent w hpub k hd hhead
  rw [hexec] at hret
  simp only [Outcome.ret.injEq] at hret
  have hother : ∀ key : String, GoMap.get? hd.state.mem.ctx.Vars key = none →
      GoMap.get? out.OutputValues key
        = GoMap.get? hd.state.mem.runtime.GetOutputValueMap key := by
    intro key hv
    rw [← hret]
    exact copyVars_get_of_not_var _ _ key hv
  have hlast : ∀ key : String,
      GoMap.get? hd.state.mem.runtime.GetOutputValueMap key
        = lastPublished (publishedBy pubs calls) key := by
    intro key
    rw [hmap, publishAll_map, get?_foldl_put]
    cases lastPublished (publishedBy pubs calls) key <;> rfl
  refine ⟨k, hd, calls, hhead, hend, by rw [hexec], ?_, hmap, ?_, hother, ?_, ?_⟩
  · rw [hexec]
    simp only [runPostCommitTasks_executed, executedElements_append, executedElements,
      List.append_nil]
    exact hcalls
  · intro key v hv
    rw [← hret]
    exact copyVars_get_of_var _ _ key v hv
  · intro key hv
    rw [hother key hv, hlast key]
  · intro key hv hnever
    rw [hother key hv, hlast key]
    exact lastPublished_eq_none _ key hnever

/-- C12 on a call whose step publishes a score and a draft greeting and then
sets the variable `greeting`: the returned output values are the published
score and the greeting of the variable, which wins over the published draft,
and nothing else. -/
theorem output_values_merge_vars_witness :
    (Execute (NewFlowExecutor publishDsls) 8 "c1" publishFlow {} emptyWorld).outcome
      = .ret { ContextID := "c1", ContextState := "End", Action := ActionEnd,
               OutputValues := [("score", .str "720"), ("greeting", .str "Hello, Test!")] } ∧
      ∃ (k : Nat) (hd : LoopHead TestLocks (GoMap CdslContext)) (calls : List (DslMetadata × Mem)),
        loopHead (NewFlowExecutor publishDsls) "c1" publishFlow {} emptyWorld k = some hd ∧
        hd.nextStep = none ∧
        (Execute (NewFlowExecutor publishDsls) 8 "c1" publishFlow {} emptyWorld).ctx
          = some hd.state.mem.ctx ∧
        executedElements (Execute (NewFlowExecutor publishDsls) 8 "c1" publishFlow {}
            emptyWorld).trace = calls.map (fun c => c.1.Name) ∧
        hd.state.mem.runtime.GetOutputValueMap
          = (NewCdslRuntime.publishAll (publishedBy publishDslsPubs calls)).GetOutputValueMap ∧
        (∀ key v : String, GoMap.get? hd.state.mem.ctx.Vars key = some v →
          GoMap.get? ([("score", .str "720"), ("greeting", .str "Hello, Test!")]
            : GoMap Value) key = some (.str v)) ∧
        (∀ key : String, GoMap.get? hd.state.mem.ctx.Vars key = none →
          GoMap.get? ([("score", .str "720"), ("greeting", .str "Hello, Test!")]
            : GoMap Value) key = GoMap.get? hd.state.mem.runtime.GetOutputValueMap key) ∧
        (∀ key : String, GoMap.get? hd.state.mem.ctx.Vars key = none →
          GoMap.get? ([("score", .str "720"), ("greeting", .str "Hello, Test!")]
            : GoMap Value) key = lastPublished (publishedBy publishDslsPubs calls) key) ∧
        (∀ key : String, GoMap.get? hd.state.mem.ctx.Vars key = none →
          (∀ kv ∈ publishedBy publishDslsPubs calls, kv.1 ≠ key) →
          GoMap.get? ([("score", .str "720"), ("greeting", .str "Hello, Test!")]
            : GoMap Value) key = none) :=
  ⟨rfl, output_values_merge_vars (NewFlowExecutor publishDsls) 8 "c1" publishFlow {} emptyWorld
    { ContextID := "c1", ContextState := "End", Action := ActionEnd,
      OutputValues := [("score", .str "720"), ("greeting", .str "Hello, Test!")] }
    publishDslsPubs (fun dslMeta d h m model => publishDsls_publish dslMeta d h m model {}) rfl⟩

/-- C15: in every call of `Execute`, whatever its outcome, the trace passes
the scan for the lock discipline on the resource `context/<contextId>` of the
target context: every `SaveContext` call, and every `GetContext` call (which
is for that context), comes after the successful `Obtain` on the resource and
before the `Release` of the lock it gave; and when the call returns, no lock
is held any more. -/
theorem repository_calls_under_lock {σ ρ : Type} (e : FlowExecutor σ ρ) (fuel : Nat)
    (newID : String) (flow : Flow) (inputEvent : CdslInputEvent) (w : World σ ρ) :
    ∃ held, lockScan (lockResource newID inputEvent) none
        (Execute e fuel newID flow inputEvent w).trace = some held ∧
      ((Execute e fuel newID flow inputEvent w).outcome.returned = true → held = none) := by
  have hacq := acquire_scan e newID inputEvent w
  unfold Execute
  cases ha : acquire e newID inputEvent w with
  | fail lock err w1 tr =>
    rw [ha] at hacq
    simp only at hacq ⊢
    cases lock with
    | none => exact ⟨none, by simpa [ensureReleased] using hacq, fun _ => rfl⟩
    | some l =>
      refine ⟨none, ?_, fun _ => rfl⟩
      simp only [ensureReleased]
      rw [lockScan_append, hacq]
      simp [lockScan, lockScanStep]
  | panic v w1 tr =>
    rw [ha] at hacq
    obtain ⟨l, hl⟩ := hacq
    exact ⟨some l, hl, by simp [Outcome.returned]⟩
  | ready lock ctx w1 tr =>
    rw [ha] at hacq
    simp only at hacq ⊢
    rcases hsel : selectStep flow inputEvent lock ctx with ⟨m, err | first⟩
    · refine ⟨none, ?_, fun _ => rfl⟩
      simp only [ensureReleased]
      rw [lockScan_append, hacq]
      simp [lockScan, lockScanStep]
    · simp only
      have hloop := lockScan_of_loopExtends (lockResource newID inputEvent) none (some lock)
        _ _ (stepLoop_ext e flow inputEvent fuel first { mem := m, trace := tr }) hacq
      cases hx : stepLoop e flow inputEvent fuel first { mem := m, trace := tr } with
      | done s =>
        rw [hx] at hloop
        exact ⟨none, commit_scan e flow lock w1 s _ hloop, fun _ => rfl⟩
      | fail err s =>
        rw [hx] at hloop
        simp only [LoopExit.state] at hloop
        refine ⟨none, ?_, fun _ => rfl⟩
        simp only [finish, ensureReleased]
        rw [lockScan_append, hloop]
        simp [lockScan, lockScanStep]
      | panic v s =>
        rw [hx] at hloop
        exact ⟨some lock, hloop, by simp [finish, Outcome.returned]⟩
      | outOfFuel s =>
        rw [hx] at hloop
        exact ⟨some lock, hloop, by simp [finish, Outcome.returned]⟩

/-- C15 on the first call of `TestFlowExecutor_Execute`: the trace passes the
scan and ends with no lock held. -/
theorem repository_calls_under_lock_witness :
    lockScan "context/c1" none
        (Execute (NewFlowExecutor testDsls) 8 "c1" testFlow {} emptyWorld).trace
      = some none := by
  obtain ⟨held, hscan, hret⟩ :=
    repository_calls_under_lock (NewFlowExecutor testDsls) 8 "c1" testFlow {} emptyWorld
  have hnone := hret rfl
  rw [hnone] at hscan
  exact hscan

/-- C11: on every successful `Execute` whose elements leave the runtime's
transaction id alone, the trace is the trace of the loop end, then one
`SaveContext` call with the id of the lock that `Obtain` gave this call and
the final context, then the `Release` of that lock, then only events of the
post-commit tasks (no further `SaveContext`); and at every head of the step
loop the runtime's transaction id is the id of that lock. -/
theorem context_saved_once_with_lock_id {σ ρ : Type} (e : FlowExecutor σ ρ) (fuel : Nat)
    (newID : String) (flow : Flow) (inputEvent : CdslInputEvent) (w : World σ ρ)
    (out : CdslFlowOutputEvent)
    (hdsl : ∀ dslMeta d, e.DslInitHelper dslMeta = some d →
      ∀ m model, (d m model inputEvent).mem.runtime.transactionID = m.runtime.transactionID)
    (hret : (Execute e fuel newID flow inputEvent w).outcome = .ret out) :
    ∃ lock ctx loopTrace post,
      (e.LockProvider.Obtain w.locks e.MyIdentifier (lockResource newID inputEvent)
        e.LockDuration e.LockRetries e.LockRetryMaxDuration).1 = .ok lock ∧
      (Execute e fuel newID flow inputEvent w).ctx = some ctx ∧
      (Execute e fuel newID flow inputEvent w).trace
        = loopTrace ++ [Event.saveContext lock.ID ctx, Event.release lock] ++ post ∧
      (∀ ev ∈ post, Event.isLoopEvent ev = true) ∧
      (∃ k hd, loopHead e newID flow inputEvent w k = some hd ∧ hd.nextStep = none ∧
        hd.state.trace = loopTrace ∧ hd.state.mem.ctx = ctx) ∧
      (∀ k hd, loopHead e newID flow inputEvent w k = some hd →
        hd.state.mem.runtime.GetTransactionID = lock.ID) := by
  obtain ⟨k, hd, r1, l1, _, hhead, hend, _, _, hexec⟩ :=
    execute_ret_loopHead e fuel newID flow inputEvent w out hret
  obtain ⟨hobt, htx⟩ := loopHead_transactionID e newID flow inputEvent w hdsl k hd hhead
  obtain ⟨post, hpost, hloop⟩ := runPostCommitTasks_ext flow
    hd.state.mem.runtime.GetPostCommitTasks
    (hd.state.trace
      ++ [Event.saveContext hd.state.mem.runtime.GetTransactionID hd.state.mem.ctx]
      ++ [Event.release hd.lock])
  refine ⟨hd.lock, hd.state.mem.ctx, hd.state.trace, post, hobt, by rw [hexec], ?_, hloop,
    ⟨k, hd, hhead, hend, rfl, rfl⟩, ?_⟩
  · rw [hexec]
    simp only
    rw [hpost, htx]
    simp [List.append_assoc]
  · intro k1 hd1 hh1
    obtain ⟨hobt1, htx1⟩ := loopHead_transactionID e newID flow inputEvent w hdsl k1 hd1 hh1
    rw [hobt] at hobt1
    simp only [Except.ok.injEq] at hobt1
    rw [htx1, hobt1]

/-- C11 on the first call of `TestFlowExecutor_Execute`: the reference
elements leave the transaction id alone and the call succeeds, so its trace
ends with the one save under the lock id, the release, and nothing else. -/
theorem context_saved_once_with_lock_id_witness :
    (Execute (NewFlowExecutor testDsls) 8 "c1" testFlow {} emptyWorld).outcome
      = .ret { ContextID := "c1", ContextState := "End", Action := ActionEnd,
               OutputValues := [("testVar", .str "testValue"),
                 ("greeting", .str "Hello, Test!")] } ∧
      ∃ lock ctx loopTrace post,
        ((NewFlowExecutor testDsls).LockProvider.Obtain emptyWorld.locks "<anonymous>"
          "context/c1" 30000000000 3 1000000000).1 = .ok lock ∧
        (Execute (NewFlowExecutor testDsls) 8 "c1" testFlow {} emptyWorld).ctx = some ctx ∧
        (Execute (NewFlowExecutor testDsls) 8 "c1" testFlow {} emptyWorld).trace
          = loopTrace ++ [Event.saveContext lock.ID ctx, Event.release lock] ++ post ∧
        (∀ ev ∈ post, Event.isLoopEvent ev = true) ∧
        (∃ k hd, loopHead (NewFlowExecutor testDsls) "c1" testFlow {} emptyWorld k = some hd ∧
          hd.nextStep = none ∧ hd.state.trace = loopTrace ∧ hd.state.mem.ctx = ctx) ∧
        (∀ k hd, loopHead (NewFlowExecutor testDsls) "c1" testFlow {} emptyWorld k = some hd →
          hd.state.mem.runtime.GetTransactionID = lock.ID) :=
  ⟨rfl, context_saved_once_with_lock_id (NewFlowExecutor testDsls) 8 "c1" testFlow {}
    emptyWorld
    { ContextID := "c1", ContextState := "End", Action := ActionEnd,
      OutputValues := [("testVar", .str "testValue"), ("greeting", .str "Hello, Test!")] }
    (fun dslMeta d h m model => by rw [(testDsls_keep dslMeta d h m model {}).1]) rfl⟩

/-- C16: for every `Execute` call that loaded its context `ctx0` and whose
elements leave the transition history alone, with `ids` the ids of the steps
entered, in entry order: the history of the final context is what
`PushTransition` makes of the loaded history and the strings
`flowId/stepId` of `ids`, one push per step entry in that order, which is the
loaded history followed by exactly those strings, less `d` oldest entries
(`d = 0` while the cap is not exceeded). The same holds at every head of the
step loop, and entering a step pushes its string before any element runs. -/
theorem transitions_record_entered_steps {σ ρ : Type} (e : FlowExecutor σ ρ) (fuel : Nat)
    (newID : String) (flow : Flow) (inputEvent : CdslInputEvent) (w : World σ ρ)
    (lock : Lock) (ctx0 : CdslContext) (w1 : World σ ρ) (tr : List Event)
    (hdsl : ∀ dslMeta d, e.DslInitHelper dslMeta = some d →
      ∀ m model, (d m model inputEvent).mem.ctx.Transitions = m.ctx.Transitions)
    (hacq : acquire e newID inputEvent w = .ready lock ctx0 w1 tr) :
    (∃ (c : CdslContext) (ids : List String) (d : Nat), (Execute e fuel newID flow inputEvent w).ctx = some c ∧
      enteredSteps (Execute e fuel newID flow inputEvent w).trace
        = ids.map (fun id => (flow.ID, id)) ∧
      c.Transitions = ((ids.map (fun id => flow.ID ++ "/" ++ id)).foldl
        CdslContext.PushTransition ctx0).Transitions ∧
      d ≤ ids.length ∧
      c.Transitions
        = (ctx0.Transitions ++ ids.map (fun id => flow.ID ++ "/" ++ id)).drop d ∧
      (ctx0.Transitions.length + ids.length ≤ MaxTransitionsHistory → d = 0)) ∧
    (∀ k hd, loopHead e newID flow inputEvent w k = some hd →
      ∃ ids : List String,
        enteredSteps hd.state.trace = ids.map (fun id => (flow.ID, id)) ∧
        hd.state.mem.ctx.Transitions = ((ids.map (fun id => flow.ID ++ "/" ++ id)).foldl
          CdslContext.PushTransition ctx0).Transitions) ∧
    (∀ (step : FlowStep) (s : LoopState),
      (enterStep flow step s).mem.ctx.Transitions
        = (s.mem.ctx.PushTransition (flow.ID ++ "/" ++ step.ID)).Transitions ∧
      enteredSteps (enterStep flow step s).trace
        = enteredSteps s.trace ++ [(flow.ID, step.ID)] ∧
      executedElements (enterStep flow step s).trace = executedElements s.trace) := by
  have htr0 := acquire_ready_entered e newID inputEvent w lock ctx0 w1 tr hacq
  have hsel0 := selectStep_transitions flow inputEvent lock ctx0
  refine ⟨?_, ?_, ?_⟩
  · unfold Execute
    rw [hacq]
    simp only
    rcases hsel : selectStep flow inputEvent lock ctx0 with ⟨m, err | first⟩
    · rw [hsel] at hsel0
      simp only at hsel0 ⊢
      refine ⟨m.ctx, [], 0, by simp [ensureReleased], ?_, by simpa using hsel0,
        Nat.le_refl _, by simpa using hsel0, fun _ => rfl⟩
      simp [ensureReleased, enteredSteps_append, enteredSteps, htr0]
    · rw [hsel] at hsel0
      simp only at hsel0 ⊢
      obtain ⟨ids, hent, htrans⟩ := stepLoop_transitions e flow inputEvent hdsl fuel first
        { mem := m, trace := tr }
      simp only [htr0, List.nil_append] at hent
      have hfold := foldl_pushTransition_congr (ids.map (fun id => flow.ID ++ "/" ++ id))
        m.ctx ctx0 hsel0
      obtain ⟨d, hd, hdrop, hzero⟩ :=
        foldl_pushTransition_drop (ids.map (fun id => flow.ID ++ "/" ++ id)) ctx0
      simp only [List.length_map] at hd hzero
      refine ⟨_, ids, d, finish_ctx e flow lock w1 _, ?_, ?_, hd, ?_, hzero⟩
      · rw [finish_entered]
        exact hent
      · rw [htrans]
        exact hfold
      · rw [htrans, ← hdrop]
        exact hfold
  · intro k hd hh
    unfold loopHead at hh
    rw [hacq] at hh
    simp only at hh
    rcases hsel : selectStep flow inputEvent lock ctx0 with ⟨m, err | first⟩
    · rw [hsel] at hh; simp at hh
    · rw [hsel] at hh hsel0
      simp only at hh hsel0
      cases hr : runIters e flow inputEvent k first { mem := m, trace := tr } with
      | none => rw [hr] at hh; simp at hh
      | some p =>
        obtain ⟨ns1, s1⟩ := p
        rw [hr] at hh
        simp only [Option.some.injEq] at hh
        rw [← hh]
        obtain ⟨ids, hent, htrans⟩ :=
          runIters_transitions e flow inputEvent hdsl k first ns1 _ s1 hr
        simp only [htr0, List.nil_append] at hent
        refine ⟨ids, hent, ?_⟩
        simp only [htrans]
        exact foldl_pushTransition_congr _ m.ctx ctx0 hsel0
  · intro step s
    refine ⟨rfl, ?_, ?_⟩
    · simp [enterStep, enteredSteps_append, enteredSteps]
    · simp [enterStep, executedElements_append, executedElements]

/-- C16 on the first call of `TestFlowExecutor_Execute`: the context is new,
its history empty, the reference elements leave the history alone, and the
final history is what the pushes for the entered steps make of it. -/
theorem transitions_record_entered_steps_witness :
    ∃ (lock : Lock) (ctx0 : CdslContext) (w1 : World TestLocks (GoMap CdslContext))
      (tr : List Event),
      acquire (NewFlowExecutor testDsls) "c1" {} emptyWorld = .ready lock ctx0 w1 tr ∧
      ctx0.Transitions = [] ∧
      ∃ (c : CdslContext) (ids : List String) (d : Nat),
        (Execute (NewFlowExecutor testDsls) 8 "c1" testFlow {} emptyWorld).ctx = some c ∧
        enteredSteps (Execute (NewFlowExecutor testDsls) 8 "c1" testFlow {} emptyWorld).trace
          = ids.map (fun id => (testFlow.ID, id)) ∧
        c.Transitions = ((ids.map (fun id => testFlow.ID ++ "/" ++ id)).foldl
          CdslContext.PushTransition ctx0).Transitions ∧
        d ≤ ids.length ∧
        c.Transitions
          = (ctx0.Transitions ++ ids.map (fun id => testFlow.ID ++ "/" ++ id)).drop d ∧
        (ctx0.Transitions.length + ids.length ≤ MaxTransitionsHistory → d = 0) :=
  ⟨_, _, _, _, rfl, rfl,
    (transitions_record_entered_steps (NewFlowExecutor testDsls) 8 "c1" testFlow {}
      emptyWorld _ _ _ _
      (fun dslMeta d h m model => (testDsls_keep dslMeta d h m model {}).2) rfl).1⟩

/-- C13 as stated fails for a flow with an error step: in
`unknownElementFlow "error"` the second element of `init` has no registered
factory, and `Execute` does not abort: the step `error` is entered next, its
elements are executed, and the call returns its output without error. -/
theorem unresolved_element_is_diverted :
    (Execute (NewFlowExecutor allDsls) 2 "c1" (unknownElementFlow "error") {}
        emptyWorld).outcome
      = .ret { ContextID := "c1", ContextState := "End", Action := ActionEnd,
               OutputValues := [("status", .str "error"),
                 ("greeting", .str "Hello, Test!")] } ∧
    enteredSteps (Execute (NewFlowExecutor allDsls) 2 "c1" (unknownElementFlow "error") {}
        emptyWorld).trace
      = [("u", "init"), ("u", "error")] ∧
    executedElements (Execute (NewFlowExecutor allDsls) 2 "c1" (unknownElementFlow "error") {}
        emptyWorld).trace
      = ["sayHello", "setVar", "endRoute"] :=
  ⟨rfl, rfl, rfl⟩

/-- C13 (amended): when `Execute` is at the head of the step loop about to
enter `step` and reaches, in the logic list or (the logic list having ended
without error) in the final list, an element `x` with no registered factory,
the elements before it having returned nil outputs and nil errors: the pass
through the elements fails with "Failed to resolve DSL <name>" right after
the `Execute` audit call for `x`, neither `x` nor a later element of the
list being executed. If the flow's error step is empty, `Execute` returns
that error, and its trace ends with that audit call and the release of the
lock: no further element, no further step. If the error step names a step of
the flow, the run continues from that step, which is entered next. -/
theorem unresolved_element_fails_or_diverts {σ ρ : Type} (e : FlowExecutor σ ρ)
    (newID : String) (flow : Flow) (inputEvent : CdslInputEvent) (w : World σ ρ) (k : Nat)
    (h : LoopHead σ ρ) (step : FlowStep) (pre post : List DslMetadata) (x : DslMetadata)
    (m1 : Mem) (tr1 : List Event)
    (hh : loopHead e newID flow inputEvent w k = some h)
    (hstep : h.nextStep = some step)
    (hres : e.DslInitHelper x = none)
    (hreach :
      (step.LogicElements = pre ++ x :: post ∧
        allReturnNil e.DslInitHelper inputEvent flow step pre
          (enterStep flow step h.state).mem (enterStep flow step h.state).trace
          = some (m1, tr1)) ∨
      (∃ g m0 tr0,
        obtainOutputs e.DslInitHelper inputEvent flow step step.LogicElements
          (enterStep flow step h.state).mem (enterStep flow step h.state).trace
          = (.ret g none, m0, tr0) ∧
        step.FinalElements = pre ++ x :: post ∧
        allReturnNil e.DslInitHelper inputEvent flow step pre m0 tr0 = some (m1, tr1))) :
    runElements e.DslInitHelper flow inputEvent step (enterStep flow step h.state)
        = .failed (.cdslError ("Failed to resolve DSL " ++ x.Name))
            { h.state with
              mem := m1, trace := tr1 ++ [Event.audit (.Execute flow.ID step.ID x.Name)] } ∧
      (flow.ErrorStep = "" → ∀ n : Nat,
        (Execute e (k + (n + 1)) newID flow inputEvent w).outcome
            = .err (.cdslError ("Failed to resolve DSL " ++ x.Name)) ∧
          (Execute e (k + (n + 1)) newID flow inputEvent w).trace
            = tr1 ++ [Event.audit (.Execute flow.ID step.ID x.Name)]
                ++ [Event.release h.lock]) ∧
      (∀ errorStep : FlowStep, flow.ErrorStep ≠ "" →
        flow.FetchStep flow.ErrorStep = some errorStep →
        (∀ n : Nat, Execute e (k + (n + 1)) newID flow inputEvent w
          = finish e flow h.lock h.world
              (stepLoop e flow inputEvent n (some errorStep)
                { h.state with
                  mem := m1,
                  trace := tr1 ++ [Event.audit (.Execute flow.ID step.ID x.Name)]
                    ++ [Event.audit (.Error flow.ID step.ID ""
                      (.cdslError ("Failed to resolve DSL " ++ x.Name)))] })) ∧
        (∀ n : Nat, ∃ ext,
          enteredSteps (Execute e (k + (n + 2)) newID flow inputEvent w).trace
            = enteredSteps h.state.trace
              ++ (flow.ID, step.ID) :: (flow.ID, errorStep.ID) :: ext)) := by
  have hrun : runElements e.DslInitHelper flow inputEvent step (enterStep flow step h.state)
      = .failed (.cdslError ("Failed to resolve DSL " ++ x.Name))
          { h.state with
            mem := m1, trace := tr1 ++ [Event.audit (.Execute flow.ID step.ID x.Name)] } := by
    unfold runElements
    rcases hreach with ⟨hlist, hpre⟩ | ⟨g, m0, tr0, hlogic, hlist, hpre⟩
    · rw [hlist, obtainOutputs_unresolved e.DslInitHelper inputEvent flow step pre post x _ _
        m1 tr1 hpre hres]
      simp [enterStep]
    · rw [hlogic]
      simp only
      rw [hlist, obtainOutputs_unresolved e.DslInitHelper inputEvent flow step pre post x _ _
        m1 tr1 hpre hres]
      simp [enterStep]
  have hit := iterate_of_failed e flow inputEvent step h.state _ _ hrun
  refine ⟨hrun, ?_, ?_⟩
  · intro hempty n
    rw [execute_at_step e newID flow inputEvent w k n h step hh hstep, hit]
    simp [divert, hempty, finish, ensureReleased]
  · intro errorStep hne hfetch
    have hnext : iterate e flow inputEvent step h.state
        = .next (some errorStep)
            { h.state with
              mem := m1,
              trace := tr1 ++ [Event.audit (.Execute flow.ID step.ID x.Name)]
                ++ [Event.audit (.Error flow.ID step.ID ""
                  (.cdslError ("Failed to resolve DSL " ++ x.Name)))] } := by
      rw [hit]
      simp [divert, hne, hfetch]
    have hexec : ∀ n : Nat, Execute e (k + (n + 1)) newID flow inputEvent w
        = finish e flow h.lock h.world
            (stepLoop e flow inputEvent n (some errorStep)
              { h.state with
                mem := m1,
                trace := tr1 ++ [Event.audit (.Execute flow.ID step.ID x.Name)]
                  ++ [Event.audit (.Error flow.ID step.ID ""
                    (.cdslError ("Failed to resolve DSL " ++ x.Name)))] }) := by
      intro n
      rw [execute_at_step e newID flow inputEvent w k n h step hh hstep, hnext]
    have hent := iterate_entered e flow inputEvent step h.state
    rw [hnext] at hent
    simp only [Iter.state] at hent
    refine ⟨hexec, ?_⟩
    intro n
    rw [hexec (n + 1), finish_entered]
    obtain ⟨ext, hext⟩ := stepLoop_entered_first e flow inputEvent n errorStep
      { h.state with
        mem := m1,
        trace := tr1 ++ [Event.audit (.Execute flow.ID step.ID x.Name)]
          ++ [Event.audit (.Error flow.ID step.ID ""
            (.cdslError ("Failed to resolve DSL " ++ x.Name)))] }
    refine ⟨ext, ?_⟩
    rw [hext, hent]
    simp

/-- C13 (amended) on `unknownElementFlow ""`, which has no error step: the
second element of `init` has no registered factory and `Execute` returns the
resolution error. -/
theorem unresolved_element_fails_or_diverts_witness :
    (Execute (NewFlowExecutor allDsls) 1 "c1" (unknownElementFlow "") {} emptyWorld).outcome
      = .err (.cdslError "Failed to resolve DSL noSuchDsl") :=
  ((unresolved_element_fails_or_diverts (NewFlowExecutor allDsls) "c1" (unknownElementFlow "")
    {} emptyWorld 0 _ _ [{ Name := "sayHello", Model := .mapModel [("name", .str "Test")] }]
    [{ Name := "endRoute", Model := .mapModel [] }] { Name := "noSuchDsl", Model := .null }
    _ _ rfl rfl rfl (Or.inl ⟨rfl, rfl⟩)).2.1 rfl 0).1

/-- C20 (amended): when `Execute` is at the head of the step loop about to
enter `step` and both element lists of the step complete without error,
ending in state `s2`: the pass continues the trace of the elements with
events `ext` in which exactly the tasks of the post-step list of `s2` are
run, in list order (the order of the `AddPostStepTask` calls), no step being
entered and no element executed among them; the pass ends with an empty
post-step list, and the state it ends in is the state of the next head of
the loop, from which the next step is entered. -/
theorem post_step_tasks_run_after_elements {σ ρ : Type} (e : FlowExecutor σ ρ)
    (newID : String) (flow : Flow) (inputEvent : CdslInputEvent) (w : World σ ρ) (k : Nat)
    (h : LoopHead σ ρ) (step : FlowStep) (g f : Option CdslOutputEvent) (s2 : LoopState)
    (hh : loopHead e newID flow inputEvent w k = some h)
    (hstep : h.nextStep = some step)
    (hrun : runElements e.DslInitHelper flow inputEvent step (enterStep flow step h.state)
      = .outputs g f s2) :
    (∃ ext, (iterate e flow inputEvent step h.state).state.trace = s2.trace ++ ext ∧
      tasksRun ext = s2.mem.runtime.GetPostStepTasks ∧
      enteredSteps ext = [] ∧ executedElements ext = []) ∧
    (iterate e flow inputEvent step h.state).state.mem.runtime.GetPostStepTasks = [] ∧
    (∀ h1 : LoopHead σ ρ, loopHead e newID flow inputEvent w (k + 1) = some h1 →
      h1.state = (iterate e flow inputEvent step h.state).state) := by
  have hit := iterate_of_outputs e flow inputEvent step h.state g f s2 hrun
  refine ⟨?_, ?_, ?_⟩
  · obtain ⟨ext, hext, htasks, hent, hexe⟩ := runPostStepTasks_runs e.RunTask flow step
      s2.mem.runtime.GetPostStepTasks s2.trace
    refine ⟨ext, ?_, htasks, hent, hexe⟩
    rw [hit, applyResult_trace]
    exact hext
  · rw [hit, applyResult_postStepTasks]
    rfl
  · intro h1 hh1
    exact (loopHead_succ e newID flow inputEvent w k h h1 step hh hstep hh1).1

/-- C20 (amended) on `twoTasksFlow`: the elements of `init` register the
tasks 1 and 2 and complete without error, so the pass runs the tasks 1 and 2
in that order and leaves the list empty. -/
theorem post_step_tasks_run_after_elements_witness :
    ∃ (h : LoopHead TestLocks (GoMap CdslContext)) (step : FlowStep)
      (g f : Option CdslOutputEvent) (s2 : LoopState),
      loopHead (NewFlowExecutor taskDsls) "c1" twoTasksFlow {} emptyWorld 0 = some h ∧
      h.nextStep = some step ∧
      runElements (NewFlowExecutor taskDsls).DslInitHelper twoTasksFlow {} step
        (enterStep twoTasksFlow step h.state) = .outputs g f s2 ∧
      s2.mem.runtime.GetPostStepTasks = [1, 2] ∧
      (∃ ext, (iterate (NewFlowExecutor taskDsls) twoTasksFlow {} step h.state).state.trace
          = s2.trace ++ ext ∧
        tasksRun ext = s2.mem.runtime.GetPostStepTasks ∧
        enteredSteps ext = [] ∧ executedElements ext = []) ∧
      (iterate (NewFlowExecutor taskDsls) twoTasksFlow {} step
        h.state).state.mem.runtime.GetPostStepTasks = [] ∧
      (∀ h1 : LoopHead TestLocks (GoMap CdslContext),
        loopHead (NewFlowExecutor taskDsls) "c1" twoTasksFlow {} emptyWorld (0 + 1) = some h1 →
        h1.state = (iterate (NewFlowExecutor taskDsls) twoTasksFlow {} step h.state).state) :=
  ⟨_, _, _, _, _, rfl, rfl, rfl, rfl,
    post_step_tasks_run_after_elements (NewFlowExecutor taskDsls) "c1" twoTasksFlow {}
      emptyWorld 0 _ _ _ _ _ rfl rfl rfl⟩

/-- C20 as stated fails when an element of the step returns an error after a
task was registered. Without an error step `Execute` returns the error and
the task is never run. With an error step the call succeeds, but the error
step begins with the task still on the post-step list and not yet run: it is
run only in the pass through the error step. -/
theorem post_step_task_skipped_on_error :
    ((Execute (NewFlowExecutor taskDsls) 2 "c1" (taskThenErrorFlow "") {} emptyWorld).outcome
        = .err (.typesCdslError "Simulated error") ∧
      executedElements (Execute (NewFlowExecutor taskDsls) 2 "c1" (taskThenErrorFlow "") {}
        emptyWorld).trace = ["registerOne", "errorDsl"] ∧
      tasksRun (Execute (NewFlowExecutor taskDsls) 2 "c1" (taskThenErrorFlow "") {}
        emptyWorld).trace = []) ∧
    ((Execute (NewFlowExecutor taskDsls) 2 "c1" (taskThenErrorFlow "error") {}
        emptyWorld).outcome
        = .ret { ContextID := "c1", ContextState := "End", Action := ActionEnd } ∧
      tasksRun (Execute (NewFlowExecutor taskDsls) 2 "c1" (taskThenErrorFlow "error") {}
        emptyWorld).trace = [1] ∧
      ∃ h : LoopHead TestLocks (GoMap CdslContext),
        loopHead (NewFlowExecutor taskDsls) "c1" (taskThenErrorFlow "error") {} emptyWorld 1
          = some h ∧
        h.nextStep.map (fun s => s.ID) = some "error" ∧
        enteredSteps h.state.trace = [("t", "init")] ∧
        h.state.mem.runtime.GetPostStepTasks = [1] ∧
        tasksRun h.state.trace = []) :=
  ⟨⟨rfl, rfl, rfl⟩, rfl, rfl, _, rfl, rfl, rfl, rfl, rfl⟩

/-- C21: in every call of `Execute`: when it returns an output, the step
loop has ended, `SaveContext` and `Release` have succeeded, and the trace is
the trace of the loop end (in which no post-commit task was run), the save,
the release of the lock, and then the run of the tasks of the runtime's
post-commit list, in list order (the order of the `AddPostCommitTask`
calls); when it does not return an output (`SaveContext` or `Release`
failed, or the call failed earlier), no post-commit task was run. -/
theorem post_commit_tasks_after_release {σ ρ : Type} (e : FlowExecutor σ ρ) (fuel : Nat)
    (newID : String) (flow : Flow) (inputEvent : CdslInputEvent) (w : World σ ρ) :
    (∀ out, (Execute e fuel newID flow inputEvent w).outcome = .ret out →
      ∃ k hd r1 l1 post, loopHead e newID flow inputEvent w k = some hd ∧
        hd.nextStep = none ∧
        e.ContextRepository.SaveContext hd.world.repo hd.state.mem.runtime.GetTransactionID
          hd.state.mem.ctx = (none, r1) ∧
        e.LockProvider.Release hd.world.locks hd.lock = (none, l1) ∧
        (Execute e fuel newID flow inputEvent w).trace
          = hd.state.trace
            ++ [Event.saveContext hd.state.mem.runtime.GetTransactionID hd.state.mem.ctx,
                Event.release hd.lock]
            ++ post ∧
        postCommitRuns hd.state.trace = [] ∧
        postCommitRuns post = hd.state.mem.runtime.GetPostCommitTasks ∧
        tasksRun post = hd.state.mem.runtime.GetPostCommitTasks) ∧
    ((∀ out, (Execute e fuel newID flow inputEvent w).outcome ≠ .ret out) →
      postCommitRuns (Execute e fuel newID flow inputEvent w).trace = []) := by
  have hall : postCommitRuns (Execute e fuel newID flow inputEvent w).trace = [] ∨
      ∃ out, (Execute e fuel newID flow inputEvent w).outcome = .ret out := by
    have hacq := acquire_postCommitRuns e newID inputEvent w
    unfold Execute
    cases ha : acquire e newID inputEvent w with
    | fail lock err w1 tr =>
      rw [ha] at hacq
      left
      cases lock <;> simp [ensureReleased, postCommitRuns_append, postCommitRuns, hacq]
    | panic v w1 tr =>
      rw [ha] at hacq
      left
      exact hacq
    | ready lock ctx w1 tr =>
      rw [ha] at hacq
      simp only at hacq ⊢
      rcases hsel : selectStep flow inputEvent lock ctx with ⟨m, err | first⟩
      · left
        simp [ensureReleased, postCommitRuns_append, postCommitRuns, hacq]
      · simp only
        have hloop := stepLoop_postCommitRuns e flow inputEvent fuel first
          { mem := m, trace := tr }
        simp only [hacq] at hloop
        cases hx : stepLoop e flow inputEvent fuel first { mem := m, trace := tr } with
        | done s =>
          rw [hx] at hloop
          simp only [LoopExit.state] at hloop
          simp only [finish, commit]
          rcases e.ContextRepository.SaveContext w1.repo s.mem.runtime.GetTransactionID
            s.mem.ctx with ⟨_ | err, r1⟩
          · rcases e.LockProvider.Release w1.locks lock with ⟨_ | err, l1⟩
            · right
              exact ⟨_, rfl⟩
            · left
              simp [ensureReleased, postCommitRuns_append, postCommitRuns, hloop]
          · left
            simp [ensureReleased, postCommitRuns_append, postCommitRuns, hloop]
        | fail err s =>
          rw [hx] at hloop
          simp only [LoopExit.state] at hloop
          left
          simp [finish, ensureReleased, postCommitRuns_append, postCommitRuns, hloop]
        | panic v s =>
          rw [hx] at hloop
          left
          exact hloop
        | outOfFuel s =>
          rw [hx] at hloop
          left
          exact hloop
  constructor
  · intro out hret
    obtain ⟨k, hd, r1, l1, _, hhead, hend, hsave, hrel, hexec⟩ :=
      execute_ret_loopHead e fuel newID flow inputEvent w out hret
    have hpre : postCommitRuns hd.state.trace = [] := by
      unfold loopHead at hhead
      have hacq := acquire_postCommitRuns e newID inputEvent w
      cases ha : acquire e newID inputEvent w with
      | fail lock err w1 tr => rw [ha] at hhead; simp at hhead
      | panic v w1 tr => rw [ha] at hhead; simp at hhead
      | ready lock ctx w1 tr =>
        rw [ha] at hhead hacq
        simp only at hhead hacq
        rcases hsel : selectStep flow inputEvent lock ctx with ⟨m, err | first⟩
        · rw [hsel] at hhead; simp at hhead
        · rw [hsel] at hhead
          simp only at hhead
          cases hr : runIters e flow inputEvent k first { mem := m, trace := tr } with
          | none => rw [hr] at hhead; simp at hhead
          | some p =>
            obtain ⟨ns1, s1⟩ := p
            rw [hr] at hhead
            simp only [Option.some.injEq] at hhead
            rw [← hhead] at hend ⊢
            simp only at hend ⊢
            rw [hend] at hr
            have hsl := stepLoop_runIters e flow inputEvent k 0 first none _ s1 hr
            have hpc := stepLoop_postCommitRuns e flow inputEvent (k + 0) first
              { mem := m, trace := tr }
            rw [hsl] at hpc
            simpa [stepLoop, LoopExit.state, hacq] using hpc
    obtain ⟨post, hpost, hpc, hrun⟩ := runPostCommitTasks_runs flow
      hd.state.mem.runtime.GetPostCommitTasks
      (hd.state.trace
        ++ [Event.saveContext hd.state.mem.runtime.GetTransactionID hd.state.mem.ctx]
        ++ [Event.release hd.lock])
    refine ⟨k, hd, r1, l1, post, hhead, hend, hsave, hrel, ?_, hpre, hpc, hrun⟩
    rw [hexec]
    simp only
    rw [hpost]
    simp [List.append_assoc]
  · intro hnot
    rcases hall with h | ⟨out, h⟩
    · exact h
    · exact absurd h (hnot out)

/-- C21 on `commitTasksFlow`: the call returns an output, and the post-commit
tasks 3 and 4 are run, in that order, after the save and the release. -/
theorem post_commit_tasks_after_release_witness :
    (∃ k hd r1 l1 post,
      loopHead (NewFlowExecutor commitTaskDsls) "c1" commitTasksFlow {} emptyWorld k = some hd ∧
      hd.nextStep = none ∧
      (NewFlowExecutor commitTaskDsls).ContextRepository.SaveContext hd.world.repo
        hd.state.mem.runtime.GetTransactionID hd.state.mem.ctx = (none, r1) ∧
      (NewFlowExecutor commitTaskDsls).LockProvider.Release hd.world.locks hd.lock
        = (none, l1) ∧
      (Execute (NewFlowExecutor commitTaskDsls) 2 "c1" commitTasksFlow {} emptyWorld).trace
        = hd.state.trace
          ++ [Event.saveContext hd.state.mem.runtime.GetTransactionID hd.state.mem.ctx,
              Event.release hd.lock]
          ++ post ∧
      postCommitRuns hd.state.trace = [] ∧
      postCommitRuns post = hd.state.mem.runtime.GetPostCommitTasks ∧
      tasksRun post = hd.state.mem.runtime.GetPostCommitTasks) ∧
    postCommitRuns
        (Execute (NewFlowExecutor commitTaskDsls) 2 "c1" commitTasksFlow {} emptyWorld).trace
      = [3, 4] ∧
    tasksRun (Execute (NewFlowExecutor commitTaskDsls) 2 "c1" commitTasksFlow {} emptyWorld).trace
      = [1, 3, 4] :=
  ⟨(post_commit_tasks_after_release (NewFlowExecutor commitTaskDsls) 2 "c1" commitTasksFlow {}
    emptyWorld).1 { ContextID := "c1", ContextState := "End", Action := ActionEnd } rfl,
    rfl, rfl⟩

/-- C22: whatever the tasks do when they are run (complete, return an error,
panic), `Execute` ends as it ends with the executor `e`, in particular as it
ends when every task completes normally: same output or error, same lock and
repository state, same context; the same tasks are run in the same order, and
the traces differ at most in `Error` calls on the auditor. -/
theorem task_failures_do_not_change_the_result {σ ρ : Type} (e : FlowExecutor σ ρ)
    (runTask : TaskId → TaskResult) (fuel : Nat) (newID : String) (flow : Flow)
    (inputEvent : CdslInputEvent) (w : World σ ρ) :
    (Execute { e with RunTask := runTask } fuel newID flow inputEvent w).outcome
        = (Execute e fuel newID flow inputEvent w).outcome ∧
      (Execute { e with RunTask := runTask } fuel newID flow inputEvent w).world
        = (Execute e fuel newID flow inputEvent w).world ∧
      (Execute { e with RunTask := runTask } fuel newID flow inputEvent w).ctx
        = (Execute e fuel newID flow inputEvent w).ctx ∧
      tasksRun (Execute { e with RunTask := runTask } fuel newID flow inputEvent w).trace
        = tasksRun (Execute e fuel newID flow inputEvent w).trace ∧
      quietTrace (Execute { e with RunTask := runTask } fuel newID flow inputEvent w).trace
        = quietTrace (Execute e fuel newID flow inputEvent w).trace := by
  have hmain :
      (Execute { e with RunTask := runTask } fuel newID flow inputEvent w).outcome
          = (Execute e fuel newID flow inputEvent w).outcome ∧
        (Execute { e with RunTask := runTask } fuel newID flow inputEvent w).world
          = (Execute e fuel newID flow inputEvent w).world ∧
        (Execute { e with RunTask := runTask } fuel newID flow inputEvent w).ctx
          = (Execute e fuel newID flow inputEvent w).ctx ∧
        quietTrace (Execute { e with RunTask := runTask } fuel newID flow inputEvent w).trace
          = quietTrace (Execute e fuel newID flow inputEvent w).trace := by
    unfold Execute
    have hacq : acquire { e with RunTask := runTask } newID inputEvent w
        = acquire e newID inputEvent w := rfl
    rw [hacq]
    cases acquire e newID inputEvent w with
    | fail lock err w1 tr => cases lock <;> exact ⟨rfl, rfl, rfl, rfl⟩
    | panic v w1 tr => exact ⟨rfl, rfl, rfl, rfl⟩
    | ready lock ctx w1 tr =>
      simp only
      rcases selectStep flow inputEvent lock ctx with ⟨m, err | first⟩
      · exact ⟨rfl, rfl, rfl, rfl⟩
      · simp only
        exact finish_quiet e runTask flow lock w1 _ _
          (stepLoop_quiet e runTask flow inputEvent fuel first _ _ rfl)
  obtain ⟨h1, h2, h3, h4⟩ := hmain
  refine ⟨h1, h2, h3, ?_, h4⟩
  rw [← tasksRun_quietTrace, h4, tasksRun_quietTrace]

/-- C22 on `commitTasksFlow` with tasks that all panic: the call returns the
output it returns with tasks that complete, and the tasks 1, 3 and 4 are all
run. -/
theorem task_failures_do_not_change_the_result_witness :
    (Execute { NewFlowExecutor commitTaskDsls with RunTask := everyTaskPanics } 2 "c1"
        commitTasksFlow {} emptyWorld).outcome
      = .ret { ContextID := "c1", ContextState := "End", Action := ActionEnd } ∧
    tasksRun (Execute { NewFlowExecutor commitTaskDsls with RunTask := everyTaskPanics } 2 "c1"
        commitTasksFlow {} emptyWorld).trace
      = [1, 3, 4] :=
  ⟨(task_failures_do_not_change_the_result (NewFlowExecutor commitTaskDsls) everyTaskPanics 2
      "c1" commitTasksFlow {} emptyWorld).1.trans rfl,
    (task_failures_do_not_change_the_result (NewFlowExecutor commitTaskDsls) everyTaskPanics 2
      "c1" commitTasksFlow {} emptyWorld).2.2.2.1.trans rfl⟩

/-- The post-step half of the audit of task panics, which holds on the
code: when `Execute` is at the head of the step loop about to
enter `step`, both element lists of the step complete without error, and a
task `t` of the post-step list panics with value `v` when it is run: the
trace of the call holds, right after the run of `t`, the `Error` call on the
auditor for that panic. -/
theorem post_step_panic_is_audited {σ ρ : Type} (e : FlowExecutor σ ρ)
    (newID : String) (flow : Flow) (inputEvent : CdslInputEvent) (w : World σ ρ) (k : Nat)
    (h : LoopHead σ ρ) (step : FlowStep) (g f : Option CdslOutputEvent) (s2 : LoopState)
    (pre post : List TaskId) (t : TaskId) (v : String)
    (hh : loopHead e newID flow inputEvent w k = some h)
    (hstep : h.nextStep = some step)
    (hrun : runElements e.DslInitHelper flow inputEvent step (enterStep flow step h.state)
      = .outputs g f s2)
    (htasks : s2.mem.runtime.GetPostStepTasks = pre ++ t :: post)
    (hpanic : e.RunTask t = .panic v) (n : Nat) :
    [Event.audit (.ExecutePostStep flow.ID step.ID t), Event.runTask t,
        Event.audit (.Error flow.ID step.ID "" (.errorsNew ("panic in post step task: " ++ v)))]
      <:+: (Execute e (k + (n + 1)) newID flow inputEvent w).trace := by
  have hit := iterate_of_outputs e flow inputEvent step h.state g f s2 hrun
  have hseg := runPostStepTasks_panic_audited e.RunTask flow step pre post t v s2.trace hpanic
  rw [← htasks] at hseg
  have htr : (iterate e flow inputEvent step h.state).state.trace
      = runPostStepTasks e.RunTask flow step s2.mem.runtime.GetPostStepTasks s2.trace := by
    rw [hit, applyResult_trace]
    rfl
  rw [← htr] at hseg
  rw [execute_at_step e newID flow inputEvent w k n h step hh hstep]
  refine hseg.trans (List.IsPrefix.isInfix ?_)
  refine List.IsPrefix.trans ?_ (finish_grows e flow h.lock h.world _)
  cases iterate e flow inputEvent step h.state with
  | next ns s1 => exact stepLoop_grows e flow inputEvent n ns s1
  | fail err s1 => exact List.prefix_refl _
  | panic v1 s1 => exact List.prefix_refl _

/-- On `twoTasksFlow` with tasks that all panic: the panic of the post-step
task 1 is audited right after its run. -/
theorem post_step_panic_is_audited_witness :
    [Event.audit (.ExecutePostStep "t" "init" 1), Event.runTask 1,
        Event.audit (.Error "t" "init" "" (.errorsNew "panic in post step task: boom"))]
      <:+: (Execute { NewFlowExecutor taskDsls with RunTask := everyTaskPanics } 2 "c1"
        twoTasksFlow {} emptyWorld).trace :=
  post_step_panic_is_audited { NewFlowExecutor taskDsls with RunTask := everyTaskPanics } "c1"
    twoTasksFlow {} emptyWorld 0 _ _ _ _ _ [] [2] 1 "boom" rfl rfl rfl rfl rfl 1

/-- C23 fails on the code for post-commit tasks: the recover block of the
post-commit loop makes no call on the auditor. In `commitOnlyFlow` with tasks
that all panic, the post-commit task 3 is run after the release, panics, and
the call returns its output with no `Error` call on the auditor at all; in
`twoTasksFlow`, the panics of the two post-step tasks are each audited. -/
theorem post_commit_panic_is_not_audited :
    (Execute { NewFlowExecutor commitTaskDsls with RunTask := everyTaskPanics } 2 "c1"
        commitOnlyFlow {} emptyWorld).outcome
      = .ret { ContextID := "c1", ContextState := "End", Action := ActionEnd } ∧
    postCommitRuns (Execute { NewFlowExecutor commitTaskDsls with RunTask := everyTaskPanics } 2
        "c1" commitOnlyFlow {} emptyWorld).trace = [3] ∧
    everyTaskPanics 3 = .panic "boom" ∧
    (Execute { NewFlowExecutor commitTaskDsls with RunTask := everyTaskPanics } 2 "c1"
        commitOnlyFlow {} emptyWorld).trace.filter Event.isErrorAudit = [] ∧
    (Execute { NewFlowExecutor taskDsls with RunTask := everyTaskPanics } 2 "c1"
        twoTasksFlow {} emptyWorld).trace.filter Event.isErrorAudit
      = [Event.audit (.Error "t" "init" "" (.errorsNew "panic in post step task: boom")),
         Event.audit (.Error "t" "init" "" (.errorsNew "panic in post step task: boom"))] :=
  ⟨rfl, rfl, rfl, rfl, rfl⟩

/-- C24 fails on the code: nothing guards a context in state `End` inside an
execution. In `leavesEndFlow` the first element of `init` sets the state to
`End` and the second one sets it to `Alive`, the state the call reports and
saves. In `endThenAwaitFlow` the first element sets the state to `End` and
the executor, applying the `Await` action of the second, sets it to `Await`. -/
theorem state_can_leave_end :
    (∃ (h : LoopHead TestLocks (GoMap CdslContext)) (step : FlowStep),
      loopHead (NewFlowExecutor pauseDsls) "c1" leavesEndFlow {} emptyWorld 0 = some h ∧
      h.nextStep = some step ∧
      (obtainOutputs (NewFlowExecutor pauseDsls).DslInitHelper {} leavesEndFlow step
        (step.LogicElements.take 1) (enterStep leavesEndFlow step h.state).mem
        (enterStep leavesEndFlow step h.state).trace).2.1.ctx.State = StateEnd ∧
      (obtainOutputs (NewFlowExecutor pauseDsls).DslInitHelper {} leavesEndFlow step
        step.LogicElements (enterStep leavesEndFlow step h.state).mem
        (enterStep leavesEndFlow step h.state).trace).2.1.ctx.State = StateAlive) ∧
    (Execute (NewFlowExecutor pauseDsls) 2 "c1" leavesEndFlow {} emptyWorld).outcome
      = .ret { ContextID := "c1", ContextState := "Alive" } ∧
    ((Execute (NewFlowExecutor pauseDsls) 2 "c1" leavesEndFlow {} emptyWorld).ctx.map
      (fun c => c.State)) = some StateAlive ∧
    (∃ (h : LoopHead TestLocks (GoMap CdslContext)) (step : FlowStep),
      loopHead (NewFlowExecutor pauseDsls) "c1" endThenAwaitFlow {} emptyWorld 0 = some h ∧
      h.nextStep = some step ∧
      (obtainOutputs (NewFlowExecutor pauseDsls).DslInitHelper {} endThenAwaitFlow step
        step.LogicElements (enterStep endThenAwaitFlow step h.state).mem
        (enterStep endThenAwaitFlow step h.state).trace).2.1.ctx.State = StateEnd) ∧
    (Execute (NewFlowExecutor pauseDsls) 2 "c1" endThenAwaitFlow {} emptyWorld).outcome
      = .ret { ContextID := "c1", ContextState := "Await", Action := ActionAwait,
               NextRoute := "wait" } :=
  ⟨⟨_, _, rfl, rfl, rfl, rfl⟩, rfl, rfl, ⟨_, _, rfl, rfl, rfl⟩, rfl⟩

/-- C26 (amended): `ValidateFlow` returns nil if and only if the flow id is
not empty, the default step is not empty and is a step of the flow, the error
step is empty or a step of the flow, every step has a non-empty id equal to
the key it is stored under, and every logic and final element has a non-empty
name that resolves through the factory map, with a nil `Validate` result when
the resolved DSL implements `Validate`; and an error it returns is a
validation error. -/
theorem validateFlow_nil_iff (v : RegistryValidator) (flow : Flow) :
    (v.ValidateFlow flow = none ↔
      flow.ID ≠ "" ∧ flow.DefaultStep ≠ "" ∧
      (flow.FetchStep flow.DefaultStep).isSome = true ∧
      (flow.ErrorStep = "" ∨ (flow.FetchStep flow.ErrorStep).isSome = true) ∧
      ∀ kv ∈ flow.Steps, kv.2.ID ≠ "" ∧ kv.2.ID = kv.1 ∧
        ∀ el ∈ kv.2.LogicElements ++ kv.2.FinalElements,
          el.Name ≠ "" ∧ (v.dslInitHelper.Resolve el).isSome = true ∧
            (GoMap.get? v.validating el.Name = none ∨
              GoMap.get? v.validating el.Name = some none)) ∧
    (∀ err, v.ValidateFlow flow = some err → ∃ message cause, err = .validation message cause) := by
  constructor
  · unfold RegistryValidator.ValidateFlow
    by_cases hid : flow.ID = ""
    · simp [hid]
    · by_cases hdef : flow.DefaultStep = ""
      · simp [hid, hdef]
      · cases hfd : flow.FetchStep flow.DefaultStep with
        | none => simp [hid, hdef]
        | some d =>
          by_cases herr : flow.ErrorStep ≠ "" ∧ (flow.FetchStep flow.ErrorStep).isNone = true
          · rw [if_neg hid, if_neg hdef, if_neg (by simp), if_pos herr]
            simp only [false_iff, reduceCtorEq]
            intro hall
            rcases hall.2.2.2.1 with h | h
            · exact herr.1 h
            · rw [Option.isNone_iff_eq_none] at herr
              rw [herr.2] at h
              simp at h
          · rw [if_neg hid, if_neg hdef, if_neg (by simp), if_neg herr]
            rw [validateSteps_eq_none_iff]
            have herr1 : flow.ErrorStep = "" ∨ (flow.FetchStep flow.ErrorStep).isSome = true := by
              by_cases he : flow.ErrorStep = ""
              · exact Or.inl he
              · right
                cases hfe : flow.FetchStep flow.ErrorStep with
                | none => exact absurd ⟨he, by simp [hfe]⟩ herr
                | some s => rfl
            constructor
            · intro hall
              refine ⟨hid, hdef, rfl, herr1, ?_⟩
              intro kv hkv
              obtain ⟨h1, h2, h3⟩ := (validateStep_eq_none_iff v flow kv.1 kv.2).mp (hall kv hkv)
              exact ⟨h1, h2, fun el hel =>
                (validateDslElement_eq_none_iff v el).mp (h3 el hel)⟩
            · intro hall kv hkv
              obtain ⟨h1, h2, h3⟩ := hall.2.2.2.2 kv hkv
              exact (validateStep_eq_none_iff v flow kv.1 kv.2).mpr
                ⟨h1, h2, fun el hel => (validateDslElement_eq_none_iff v el).mpr (h3 el hel)⟩
  · intro err h
    unfold RegistryValidator.ValidateFlow at h
    split at h
    · simp only [Option.some.injEq] at h; exact ⟨_, _, h.symm⟩
    · split at h
      · simp only [Option.some.injEq] at h; exact ⟨_, _, h.symm⟩
      · split at h
        · simp only [Option.some.injEq] at h; exact ⟨_, _, h.symm⟩
        · split at h
          · simp only [Option.some.injEq] at h; exact ⟨_, _, h.symm⟩
          · exact validateSteps_is_validation v flow _ err h

/-- C26 (amended) on `errorDiversionFlow`: it passes the validator with the
registrations of `allDsls`, so it meets every condition. -/
theorem validateFlow_nil_iff_witness :
    errorDiversionFlow.ID ≠ "" ∧ errorDiversionFlow.DefaultStep ≠ "" ∧
      (errorDiversionFlow.FetchStep errorDiversionFlow.DefaultStep).isSome = true ∧
      (errorDiversionFlow.ErrorStep = "" ∨ (errorDiversionFlow.FetchStep errorDiversionFlow.ErrorStep).isSome = true) ∧
      ∀ kv ∈ errorDiversionFlow.Steps, kv.2.ID ≠ "" ∧ kv.2.ID = kv.1 ∧
        ∀ el ∈ kv.2.LogicElements ++ kv.2.FinalElements,
          el.Name ≠ "" ∧ (allDsls.Resolve el).isSome = true ∧
            (GoMap.get? ([] : GoMap (Option GoError)) el.Name = none ∨
              GoMap.get? ([] : GoMap (Option GoError)) el.Name = some none) :=
  (validateFlow_nil_iff { dslInitHelper := allDsls } errorDiversionFlow).1.mp rfl

/-- C26 as stated fails for a step stored under the empty key: in
`emptyRouteFlow` every step's id equals its key and every other condition of
the claim holds, and `ValidateFlow` returns an error. -/
theorem validateFlow_rejects_empty_step_id :
    (emptyRouteFlow.ID ≠ "" ∧ emptyRouteFlow.DefaultStep ≠ "" ∧
      (emptyRouteFlow.FetchStep emptyRouteFlow.DefaultStep).isSome = true ∧
      emptyRouteFlow.ErrorStep = "" ∧
      ∀ kv ∈ emptyRouteFlow.Steps, kv.2.ID = kv.1 ∧
        ∀ el ∈ kv.2.LogicElements ++ kv.2.FinalElements,
          el.Name ≠ "" ∧ (pauseDsls.Resolve el).isSome = true) ∧
    RegistryValidator.ValidateFlow { dslInitHelper := pauseDsls } emptyRouteFlow
      = some (.validation "Step in flow p must have an ID" none) := by
  refine ⟨⟨by decide, by decide, rfl, rfl, ?_⟩, rfl⟩
  intro kv hkv
  simp only [emptyRouteFlow, List.mem_cons, List.mem_singleton, List.not_mem_nil, or_false] at hkv
  rcases hkv with rfl | rfl
  · refine ⟨rfl, ?_⟩
    intro el hel
    simp only [List.append_nil, List.mem_singleton] at hel
    subst hel
    exact ⟨by decide, rfl⟩
  · exact ⟨rfl, by simp⟩

/-- C27 fails on the code: `LoadDocument` never calls the validator. With the
in-memory registry it returns nil for every document; for `invalidDocument`,
whose flow `bad` names a default step that is not a step of the flow and
holds an element without a registered DSL, it returns nil, the flow is
retrievable from the registry afterwards, and `ValidateFlow` rejects that
flow. -/
theorem loadDocument_does_not_validate :
    (∀ (dslInitHelper : DslInitialisationHelper) (r : InMemoryFlows)
        (doc : DocumentDefinition),
      ((inMemoryLoader dslInitHelper).LoadDocument r doc).1 = none) ∧
    ((inMemoryLoader allDsls).LoadDocument [] invalidDocument).1 = none ∧
    (∃ flow,
      InMemoryFlowRegistry.GetFlow ((inMemoryLoader allDsls).LoadDocument [] invalidDocument).2
        "bad" = .ok (some flow) ∧
      flow.DefaultStep = "missing" ∧ flow.FetchStep "missing" = none ∧
      RegistryValidator.ValidateFlow { dslInitHelper := allDsls } flow
        = some (.validation "Flow bad default step missing does not exist" none) ∧
      RegistryValidator.validateSteps { dslInitHelper := allDsls } flow flow.Steps
        = some (.validation "Invalid logic element noSuchDsl in step init of flow bad"
            (some (.validation "DSL noSuchDsl could not be resolved" none)))) := by
  refine ⟨?_, rfl, ⟨_, rfl, rfl, rfl, rfl, rfl⟩⟩
  intro dslInitHelper r doc
  simp [RegistryLoader.LoadDocument, loadFlows_inMemory]

/-- C28 (amended): after `LoadDocument` into the in-memory registry of a
document whose flows carry distinct ids, each flow definition (its steps
stored under distinct keys) is registered under its id with the same default
and error step; each step definition stored under the key `stepID` gives a
step stored under `stepID` with `ID = stepID`, whose logic (final) elements
are the definition's `Elements` (`Finally`) one by one, in the same order,
each with the definition's name and the model `buildModel` builds; and that
model holds every attribute of the definition with its value, unless a
nested element of the same key, or a non-empty content for the key
`content`, overwrites it. -/
theorem loadDocument_registers_flows (dslInitHelper : DslInitialisationHelper)
    (r : InMemoryFlows) (doc : DocumentDefinition) (key : String) (flowDef : FlowDefinition)
    (hflows : (doc.Flows.map (fun kv => kv.2.ID)).Nodup)
    (hmem : (key, flowDef) ∈ doc.Flows)
    (hsteps : (flowDef.Steps.map Prod.fst).Nodup) :
    ((inMemoryLoader dslInitHelper).LoadDocument r doc).1 = none ∧
    (∃ flow,
      InMemoryFlowRegistry.GetFlow ((inMemoryLoader dslInitHelper).LoadDocument r doc).2
        flowDef.ID = .ok (some flow) ∧
      flow.ID = flowDef.ID ∧ flow.DefaultStep = flowDef.DefaultStep ∧
      flow.ErrorStep = flowDef.ErrorStep ∧
      ∀ stepID stepDef, (stepID, stepDef) ∈ flowDef.Steps →
        ∃ step, flow.FetchStep stepID = some step ∧ step.ID = stepID ∧
          step.LogicElements = stepDef.Elements.map
            (fun d => { Name := d.Name, Model := RegistryLoader.buildModel d }) ∧
          step.FinalElements = stepDef.Finally.map
            (fun d => { Name := d.Name, Model := RegistryLoader.buildModel d })) ∧
    (∀ (elemDef : ElementDefinition) (k v : String),
      (elemDef.Attributes.map Prod.fst).Nodup → (k, v) ∈ elemDef.Attributes →
      k ∉ elemDef.Elements.map Prod.fst → (k = "content" → elemDef.Content = "") →
      ∃ props, RegistryLoader.buildModel elemDef = .mapModel props ∧
        MapModel.Get props k = .str v) := by
  refine ⟨?_, ?_, ?_⟩
  · simp [RegistryLoader.LoadDocument, loadFlows_inMemory]
  · refine ⟨RegistryLoader.buildFlow flowDef, ?_, ?_⟩
    · simp only [RegistryLoader.LoadDocument, loadFlows_inMemory, InMemoryFlowRegistry]
      have := GoMap.get?_foldl_put_of_mem (fun kv : String × FlowDefinition => kv.2.ID)
        (fun kv => RegistryLoader.buildFlow kv.2) doc.Flows r hflows (key, flowDef) hmem
      simp only at this
      rw [this]
    · rw [buildFlow_eq]
      refine ⟨rfl, rfl, rfl, ?_⟩
      intro stepID stepDef hstep
      refine ⟨RegistryLoader.buildStep stepID stepDef, ?_, rfl, ?_, ?_⟩
      · simp only [Flow.FetchStep]
        exact GoMap.get?_foldl_put_of_mem (fun kv : String × StepDefinition => kv.1)
          (fun kv => RegistryLoader.buildStep kv.1 kv.2) flowDef.Steps [] hsteps
          (stepID, stepDef) hstep
      · simp [RegistryLoader.buildStep, buildElements_eq, NewFlowStep]
      · simp [RegistryLoader.buildStep, buildElements_eq, NewFlowStep]
  · intro elemDef k v hnd hkv hel hcontent
    exact buildModel_attribute elemDef k v hnd hkv hel hcontent

/-- C28 (amended) on `helloDocument`: the flow `hello` is registered under
its id, with its steps and their elements in order. -/
theorem loadDocument_registers_flows_witness :
    ∃ flow,
      InMemoryFlowRegistry.GetFlow ((inMemoryLoader allDsls).LoadDocument [] helloDocument).2
        "hello" = .ok (some flow) ∧
      flow.ID = "hello" ∧ flow.DefaultStep = "init" ∧ flow.ErrorStep = "" ∧
      ∀ stepID stepDef,
        (stepID, stepDef) ∈ (
          [("init", { ID := "init", Elements := [
              { Name := "sayHello", Attributes := [("name", "Test")] },
              { Name := "routeTo", Attributes := [("target", "end")] }] }),
            ("end", {
              ID := "end",
              Elements := [{ Name := "endRoute" }],
              Finally := [{ Name := "setState", Attributes := [("val", "End")] }] })]
          : GoMap StepDefinition) →
        ∃ step, flow.FetchStep stepID = some step ∧ step.ID = stepID ∧
          step.LogicElements = stepDef.Elements.map
            (fun d => { Name := d.Name, Model := RegistryLoader.buildModel d }) ∧
          step.FinalElements = stepDef.Finally.map
            (fun d => { Name := d.Name, Model := RegistryLoader.buildModel d }) :=
  (loadDocument_registers_flows allDsls [] helloDocument "hello" _ (by decide)
    (List.mem_singleton.mpr rfl) (by decide)).2.1

/-- C28 as stated fails in two ways. Of two flow definitions with the same
id only the one loaded last is registered under it; and an attribute named
`content` is overwritten in the model by a non-empty content. -/
theorem loadDocument_overwrites :
    (∃ flow,
      InMemoryFlowRegistry.GetFlow ((inMemoryLoader allDsls).LoadDocument [] sameIdDocument).2
        "f" = .ok (some flow) ∧
      flow.DefaultStep = "second") ∧
    RegistryLoader.buildModel
        { Name := "note", Attributes := [("content", "a")], Content := "b" }
      = .mapModel [("content", .str "b")] :=
  ⟨⟨_, rfl, rfl⟩, rfl⟩

/-- C29 fails on the code: an element whose tag name begins with `step` or
`finally` is skipped. In the step text below, of the form the claim names,
`parseStepElements` gives the elements `endRoute` (not `stepInfo`,
`endRoute`) and the final elements `setState` (not `finallyLog`,
`setState`); on a step text without such names it gives the elements and the
final elements in document order. -/
theorem parseStepElements_skips_step_and_finally_names :
    (parseStepElements
        "<step id=\"s\"><stepInfo/><endRoute/><finally><finallyLog/><setState val=\"End\" /></finally></step>"
        {}).map
        (fun step => (step.Elements.map (fun e => e.Name), step.Finally.map (fun e => e.Name)))
      = .ok (["endRoute"], ["setState"]) ∧
    (parseStepElements
        "<step id=\"s\"><sayHello name=\"Test\" /><routeTo target=\"end\" /><finally><setState val=\"End\" /></finally></step>"
        {}).map
        (fun step => (step.Elements.map (fun e => e.Name), step.Finally.map (fun e => e.Name)))
      = .ok (["sayHello", "routeTo"], ["setState"]) :=
  ⟨rfl, rfl⟩

/-- C30 fails on the code. For a tag that ends with `/>` right after the
last attribute, the model maps that attribute to its value followed by a
double quote; for a value that holds a blank, the model maps the attribute to
the text before the blank less its last character. For the same attributes
without a blank in the values, in a tag that ends with ` />` or with `>`, the
model maps each name to its value. -/
theorem attribute_values_are_not_verbatim :
    (extractElements "<setVar name=\"x\" val=\"1\"/>").map
        (fun els => els.map (fun e => (e.Name, RegistryLoader.buildModel e)))
      = .ok [("setVar", .mapModel [("name", .str "x"), ("val", .str "1\"")])] ∧
    (extractElements "<sayHello name=\"John Smith\" />").map
        (fun els => els.map (fun e => (e.Name, RegistryLoader.buildModel e)))
      = .ok [("sayHello", .mapModel [("name", .str "Joh")])] ∧
    (extractElements "<setVar name=\"x\" val=\"1\" />").map
        (fun els => els.map (fun e => (e.Name, RegistryLoader.buildModel e)))
      = .ok [("setVar", .mapModel [("name", .str "x"), ("val", .str "1")])] ∧
    (extractElements "<setVar name=\"x\" val=\"1\">").map
        (fun els => els.map (fun e => (e.Name, RegistryLoader.buildModel e)))
      = .ok [("setVar", .mapModel [("name", .str "x"), ("val", .str "1")])] :=
  ⟨rfl, rfl, rfl, rfl⟩

/-- C25 (amended): for every element model `src` that `encoding/json` can
marshal, whose objects lie below the next free address: the model
`intersectModel` hands to the element holds the round-tripped value of `src`
(the value `obtainOutputs` passes in the embedding), with the same string
attributes when `src` is a `*MapModel`; none of its objects is an object of
`src`, so an assignment made through any of them leaves `src` as it was; and
after such an assignment a second `intersectModel` of the definition's model
gives the same value again. -/
theorem intersectModel_copy_is_separate (next : Nat) (src : Obj)
    (hfresh : ∀ a ∈ src.addrs, a < next)
    (hmarshal : src.value.marshals = true) :
    (intersectModelAt next src).2.value = intersectModel src.value ∧
    (∀ (props : List (String × Value)) (key : String), src.value = .mapModel props →
      modelAttribute (intersectModelAt next src).2.value key
        = modelAttribute src.value key) ∧
    (∀ a ∈ (intersectModelAt next src).2.addrs, a ∉ src.addrs) ∧
    (∀ a ∈ (intersectModelAt next src).2.addrs, ∀ (key : String) (v : Obj),
      Obj.store a key v src = src) ∧
    (∀ a ∈ (intersectModelAt next src).2.addrs, ∀ (key : String) (v : Obj) (next2 : Nat),
      (intersectModelAt next2 (Obj.store a key v src)).2.value
        = (intersectModelAt next src).2.value) := by
  have hval : ∀ n : Nat, (intersectModelAt n src).2.value = intersectModel src.value := by
    intro n
    cases src with
    | null => rfl
    | str s => rfl
    | map a kvs =>
      have h1 : intersectModelAt n (.map a kvs)
          = Value.allocate n (Obj.map a kvs).value.roundTrip := by
        simp only [intersectModelAt, hmarshal, if_true]
      rw [h1, allocate_value]
      simp only [Obj.value] at hmarshal ⊢
      simp only [intersectModel, hmarshal, if_true]
    | mapModel a props =>
      have h1 : intersectModelAt n (.mapModel a props)
          = Value.allocate n (Obj.mapModel a props).value.roundTrip := by
        simp only [intersectModelAt, hmarshal, if_true]
      rw [h1, allocate_value]
      simp only [Obj.value] at hmarshal ⊢
      simp only [intersectModel, hmarshal, if_true]
    | unsupported a t => simp [Obj.value, Value.marshals] at hmarshal
  have haddr : ∀ a ∈ (intersectModelAt next src).2.addrs, a ∉ src.addrs := by
    intro a ha hsrc
    have hlt := hfresh a hsrc
    cases src with
    | null => simp [Obj.addrs] at hsrc
    | str s => simp [Obj.addrs] at hsrc
    | map b kvs =>
      simp only [intersectModelAt, hmarshal, if_true] at ha
      have := (allocate_addrs _ next).2 a ha
      omega
    | mapModel b props =>
      simp only [intersectModelAt, hmarshal, if_true] at ha
      have := (allocate_addrs _ next).2 a ha
      omega
    | unsupported b t => simp [Obj.value, Value.marshals] at hmarshal
  have hstore : ∀ a ∈ (intersectModelAt next src).2.addrs, ∀ (key : String) (v : Obj),
      Obj.store a key v src = src :=
    fun a ha key v => store_of_not_mem a key v src (haddr a ha)
  refine ⟨hval next, ?_, haddr, hstore, ?_⟩
  · intro props key hprops
    rw [hval next, hprops]
    have hm : Value.marshals (.mapModel props) = true := by rw [← hprops]; exact hmarshal
    simp only [intersectModel, hm, if_true]
    exact modelAttribute_roundTrip_mapModel props key
  · intro a ha key v next2
    rw [hstore a ha key v, hval next2, hval next]

/-- C25 (amended) on the model of the element `setState val=End` stored at
address 0, with 1 the next free address: the copy is a new object, and
assigning `val` through it leaves the definition's model as it was. -/
theorem intersectModel_copy_is_separate_witness :
    (intersectModelAt 1 (.mapModel 0 [("val", .str "End")])).2
        = .map 1 [("Properties", .map 2 [("val", .str "End")])] ∧
      Obj.store 2 "val" (.str "Alive") (.mapModel 0 [("val", .str "End")])
        = .mapModel 0 [("val", .str "End")] :=
  ⟨rfl, (intersectModel_copy_is_separate 1 (.mapModel 0 [("val", .str "End")])
    (by simp [Obj.addrs, Obj.addrsAll]) rfl).2.2.2.1 2 (by simp [intersectModelAt, Obj.value,
      Obj.valueAll, Value.marshals, Value.marshalsAll, Value.roundTrip, Value.roundTripAll,
      Value.allocate, Value.allocateAll, Obj.addrs, Obj.addrsAll]) "val" (.str "Alive")⟩

/-- C25 as stated fails for a model that `encoding/json` cannot marshal:
`intersectModel` falls back to the source, so the element is handed the
definition's own object; an assignment through it changes the definition's
model, and a second execution is handed the changed value. -/
theorem intersectModel_fallback_shares_the_model :
    modelWithCallback.value.marshals = false ∧
    intersectModelAt 2 modelWithCallback = (2, modelWithCallback) ∧
    (Obj.store 0 "val" (.str "y") modelWithCallback).value
      = .map [("val", .str "y"), ("hook", .unsupported "func")] ∧
    (intersectModelAt 2 (Obj.store 0 "val" (.str "y") modelWithCallback)).2.value
      = .map [("val", .str "y"), ("hook", .unsupported "func")] ∧
    intersectModel modelWithCallback.value = modelWithCallback.value :=
  ⟨rfl, rfl, rfl, rfl, rfl⟩

/-- C34 (amended): `NewFlowExecutor` returns an executor with 3 lock
retries, a lock duration of 30 seconds and a maximal retry duration of 1
second (both in nanoseconds, as `time.Duration` counts), and the identifier
`<anonymous>`, with the angle brackets. -/
theorem newFlowExecutor_defaults (dslInitHelper : DslInitialisationHelper) :
    (NewFlowExecutor dslInitHelper).LockRetries = 3 ∧
    (NewFlowExecutor dslInitHelper).LockDuration = 30 * 1000000000 ∧
    (NewFlowExecutor dslInitHelper).LockRetryMaxDuration = 1 * 1000000000 ∧
    (NewFlowExecutor dslInitHelper).MyIdentifier = "<anonymous>" :=
  ⟨rfl, rfl, rfl, rfl⟩

/-- C34 as stated fails: the identifier of a new executor is not
`anonymous`, and the owner it passes to `Obtain` is `<anonymous>`. -/
theorem newFlowExecutor_identifier_is_not_anonymous :
    (NewFlowExecutor testDsls).MyIdentifier ≠ "anonymous" ∧
    (Execute (NewFlowExecutor testDsls) 8 "c1" testFlow {} emptyWorld).trace.head?
      = some (Event.obtain "<anonymous>" "context/c1"
          (some (NewLock "context/c1" "context/c1" "<anonymous>" 30000000000 0))) :=
  ⟨by decide, rfl⟩

/-- C34 (amended) on the executor of the tests. -/
theorem newFlowExecutor_defaults_witness :
    (NewFlowExecutor testDsls).MyIdentifier = "<anonymous>" :=
  (newFlowExecutor_defaults testDsls).2.2.2

/-- C40: for a `*MapModel` whose properties are strings, `intersectModel`
gives a plain map with the one key `Properties`, holding a map with the same
entries; for nil it gives nil; and for a plain map of strings it gives a map
with the same entries. -/
theorem intersectModel_of_string_models (entries : List (String × Value))
    (hstr : ∀ kv ∈ entries, ∃ s, kv.2 = .str s) :
    intersectModel (.mapModel entries) = .map [("Properties", .map entries)] ∧
    intersectModel .null = .null ∧
    intersectModel (.map entries) = .map entries := by
  have hm : Value.marshalsAll entries = true := by
    induction entries with
    | nil => rfl
    | cons kv rest ih =>
      obtain ⟨k, v⟩ := kv
      obtain ⟨s, hs⟩ := hstr (k, v) (List.mem_cons_self _ _)
      simp only at hs
      subst hs
      simp only [Value.marshalsAll, Value.marshals, Bool.true_and]
      exact ih (fun kv hkv => hstr kv (List.mem_cons_of_mem _ hkv))
  have hr : Value.roundTripAll entries = entries := by
    induction entries with
    | nil => rfl
    | cons kv rest ih =>
      obtain ⟨k, v⟩ := kv
      obtain ⟨s, hs⟩ := hstr (k, v) (List.mem_cons_self _ _)
      simp only at hs
      subst hs
      simp only [Value.roundTripAll, Value.roundTrip]
      rw [ih (fun kv hkv => hstr kv (List.mem_cons_of_mem _ hkv))]
      simp only [Value.marshalsAll, Value.marshals, Bool.true_and] at hm
      exact hm
  refine ⟨?_, rfl, ?_⟩
  · simp [intersectModel, Value.marshals, hm, Value.roundTrip, hr]
  · simp [intersectModel, Value.marshals, hm, Value.roundTrip, hr]

/-- C40 on the model of the element `setVar name=testVar val=testValue`. -/
theorem intersectModel_of_string_models_witness :
    intersectModel (.mapModel [("name", .str "testVar"), ("val", .str "testValue")])
      = .map [("Properties", .map [("name", .str "testVar"), ("val", .str "testValue")])] :=
  (intersectModel_of_string_models [("name", .str "testVar"), ("val", .str "testValue")]
    (by
      intro kv hkv
      simp only [List.mem_cons, List.mem_singleton, List.not_mem_nil, or_false] at hkv
      rcases hkv with rfl | rfl
      · exact ⟨_, rfl⟩
      · exact ⟨_, rfl⟩)).1

/-- C37 fails on the code: for a context id the in-memory repository does not
hold, `GetContext` returns a nil context and a nil error, and `Execute`
reads the state of the nil context. Whatever the flow, the call on the
context id `nope` in a fresh world panics with a nil dereference after the
`Obtain` and the `GetContext`, returns no error, and leaves the lock on
the context in the provider, not released. -/
theorem execute_on_missing_context_panics (fuel : Nat) (newID : String) (flow : Flow) :
    (Execute (NewFlowExecutor testDsls) fuel newID flow { ContextID := "nope" }
        emptyWorld).outcome = .panic nilDereference ∧
    (Execute (NewFlowExecutor testDsls) fuel newID flow { ContextID := "nope" }
        emptyWorld).outcome.returned = false ∧
    (Execute (NewFlowExecutor testDsls) fuel newID flow { ContextID := "nope" }
        emptyWorld).trace
      = [Event.obtain "<anonymous>" "context/nope"
          (some (NewLock "context/nope" "context/nope" "<anonymous>" 30000000000 0)),
         Event.getContext "context/nope" "nope"] ∧
    GoMap.get? (Execute (NewFlowExecutor testDsls) fuel newID flow { ContextID := "nope" }
        emptyWorld).world.locks.locks "context/nope"
      = some (NewLock "context/nope" "context/nope" "<anonymous>" 30000000000 0) :=
  ⟨rfl, rfl, rfl, rfl⟩

/-- C38: when `Execute` is at the head of the step loop about to enter
`step`, an element of the step returns the error `err`, and the flow's error
step is not empty but names no step of the flow: the error is audited, no
further step is entered, the context is saved and the lock released, and
(both succeeding) `Execute` returns an output event, built from the output
event of the earlier passes, and not the error. -/
theorem dangling_error_step_swallows_the_error {σ ρ : Type} (e : FlowExecutor σ ρ)
    (newID : String) (flow : Flow) (inputEvent : CdslInputEvent) (w : World σ ρ) (k : Nat)
    (h : LoopHead σ ρ) (step : FlowStep) (err : GoError) (s1 : LoopState) (r1 : ρ) (l1 : σ)
    (hh : loopHead e newID flow inputEvent w k = some h)
    (hstep : h.nextStep = some step)
    (hrun : runElements e.DslInitHelper flow inputEvent step (enterStep flow step h.state)
      = .failed err s1)
    (hne : flow.ErrorStep ≠ "") (hfetch : flow.FetchStep flow.ErrorStep = none)
    (hsave : e.ContextRepository.SaveContext h.world.repo s1.mem.runtime.GetTransactionID
      s1.mem.ctx = (none, r1))
    (hrel : e.LockProvider.Release h.world.locks h.lock = (none, l1)) (n : Nat) :
    (Execute e (k + (n + 1)) newID flow inputEvent w).outcome
        = .ret (buildOutput s1.outputEvent
            { s1.mem with runtime := s1.mem.runtime.ClearPostCommitTasks }) ∧
      (Execute e (k + (n + 1)) newID flow inputEvent w).trace
        = runPostCommitTasks flow s1.mem.runtime.GetPostCommitTasks
            (s1.trace ++ [Event.audit (.Error flow.ID step.ID "" err)]
              ++ [Event.saveContext s1.mem.runtime.GetTransactionID s1.mem.ctx]
              ++ [Event.release h.lock]) ∧
      enteredSteps (Execute e (k + (n + 1)) newID flow inputEvent w).trace
        = enteredSteps h.state.trace ++ [(flow.ID, step.ID)] ∧
      (Execute e (k + (n + 1)) newID flow inputEvent w).ctx = some s1.mem.ctx := by
  have hit := iterate_of_failed e flow inputEvent step h.state err s1 hrun
  have hnext : iterate e flow inputEvent step h.state
      = .next none { s1 with trace := s1.trace ++ [Event.audit (.Error flow.ID step.ID "" err)] } := by
    rw [hit]
    simp [divert, hne, hfetch]
  have hent := iterate_entered e flow inputEvent step h.state
  rw [hnext] at hent
  simp only [Iter.state] at hent
  have hexec : Execute e (k + (n + 1)) newID flow inputEvent w
      = commit e flow h.lock h.world
          { s1 with trace := s1.trace ++ [Event.audit (.Error flow.ID step.ID "" err)] } := by
    rw [execute_at_step e newID flow inputEvent w k n h step hh hstep, hnext]
    cases n <;> rfl
  have htrace : (commit e flow h.lock h.world
        { s1 with trace := s1.trace ++ [Event.audit (.Error flow.ID step.ID "" err)] }).trace
      = runPostCommitTasks flow s1.mem.runtime.GetPostCommitTasks
          (s1.trace ++ [Event.audit (.Error flow.ID step.ID "" err)]
            ++ [Event.saveContext s1.mem.runtime.GetTransactionID s1.mem.ctx]
            ++ [Event.release h.lock]) := by
    simp [commit, hsave, hrel, ensureReleased]
  obtain ⟨hout, _, hctx⟩ := commit_success e flow h.lock h.world
    { s1 with trace := s1.trace ++ [Event.audit (.Error flow.ID step.ID "" err)] } r1 l1
    hsave hrel
  rw [hexec]
  refine ⟨hout, htrace, ?_, hctx⟩
  rw [commit_entered]
  exact hent

/-- C38 on `danglingErrorStepFlow`: the element of `init` fails, the error
step `nowhere` does not exist, and the call returns an output event without
an error, the state still `Undefined`. -/
theorem dangling_error_step_swallows_the_error_witness :
    (Execute (NewFlowExecutor allDsls) 1 "c1" danglingErrorStepFlow {} emptyWorld).outcome
        = .ret { ContextID := "c1", ContextState := "Undefined",
                 OutputValues := [("seen", .str "yes")] } ∧
      enteredSteps
          (Execute (NewFlowExecutor allDsls) 1 "c1" danglingErrorStepFlow {} emptyWorld).trace
        = [("d", "init")] :=
  ⟨(dangling_error_step_swallows_the_error (NewFlowExecutor allDsls) "c1"
      danglingErrorStepFlow {} emptyWorld 0 _ _ (.typesCdslError "Simulated error") _ _ _
      rfl rfl rfl (by decide) rfl rfl rfl 0).1.trans rfl,
    (dangling_error_step_swallows_the_error (NewFlowExecutor allDsls) "c1"
      danglingErrorStepFlow {} emptyWorld 0 _ _ (.typesCdslError "Simulated error") _ _ _
      rfl rfl rfl (by decide) rfl rfl rfl 0).2.2.1.trans rfl⟩

/-- C36 (amended): for a model that carries the non-empty attributes
`name = n` and `val = v` (as a `*MapModel` or in the map form the executor
delivers) and a context with a runtime attached, `SetVar` returns no output
and no error and leaves the variable `n` with the value `v`, each taken
without a trailing double quote; so `GetVar(n) = v` when neither ends in
one. -/
theorem setVar_sets_the_variable (m : Mem) (model : Value) (ev : CdslInputEvent)
    (n v : String)
    (hname : modelAttribute model "name" = n) (hval : modelAttribute model "val" = v)
    (hn : n ≠ "") (hv : v ≠ "") (hruntime : m.ctx.runtime = true) :
    (SetVar m model ev).result = .ret none none ∧
    (SetVar m model ev).mem.ctx.GetVar (stripTrailingQuote n) = stripTrailingQuote v ∧
    (stripTrailingQuote n = n → stripTrailingQuote v = v →
      (SetVar m model ev).mem.ctx.GetVar n = v) := by
  have hmain : (SetVar m model ev).result = .ret none none ∧
      (SetVar m model ev).mem.ctx.GetVar (stripTrailingQuote n) = stripTrailingQuote v := by
    unfold SetVar
    simp only [hname, hval, hn, hv, if_false]
    simp only [CdslContext.PutVar, hruntime, Bool.true_eq_false, if_false, CdslContext.GetVar]
    refine ⟨trivial, ?_⟩
    simp only [GoMap.get?_put_self, Option.getD_some]
  refine ⟨hmain.1, hmain.2, ?_⟩
  intro h1 h2
  have := hmain.2
  rw [h1, h2] at this
  exact this

/-- C36 (amended) on the attributes `name = testVar`, `val = testValue`, in
both forms of the model, on a new context with a runtime attached. -/
theorem setVar_sets_the_variable_witness :
    (SetVar { ctx := NewCdslContext.SetRuntime, runtime := NewCdslRuntime }
        (.mapModel [("name", .str "testVar"), ("val", .str "testValue")]) {}).mem.ctx.GetVar
        "testVar" = "testValue" ∧
    (SetVar { ctx := NewCdslContext.SetRuntime, runtime := NewCdslRuntime }
        (intersectModel (.mapModel [("name", .str "testVar"), ("val", .str "testValue")]))
        {}).mem.ctx.GetVar "testVar" = "testValue" :=
  ⟨(setVar_sets_the_variable { ctx := NewCdslContext.SetRuntime, runtime := NewCdslRuntime }
      (.mapModel [("name", .str "testVar"), ("val", .str "testValue")]) {} "testVar"
      "testValue" rfl rfl (by decide) (by decide) rfl).2.2 rfl rfl,
    (setVar_sets_the_variable { ctx := NewCdslContext.SetRuntime, runtime := NewCdslRuntime }
      (intersectModel (.mapModel [("name", .str "testVar"), ("val", .str "testValue")])) {}
      "testVar" "testValue" rfl rfl (by decide) (by decide) rfl).2.2 rfl rfl⟩

/-- C36 as stated fails for a value that ends in a double quote: `SetVar`
with `name = k` and the value `say "hi"` leaves `GetVar(k)` at `say "hi`,
without the closing quote. -/
theorem setVar_drops_a_trailing_quote :
    (SetVar { ctx := NewCdslContext.SetRuntime, runtime := NewCdslRuntime }
        (.mapModel [("name", .str "k"), ("val", .str "say \"hi\"")]) {}).mem.ctx.GetVar "k"
      = "say \"hi" ∧
    (SetVar { ctx := NewCdslContext.SetRuntime, runtime := NewCdslRuntime }
        (.mapModel [("name", .str "k"), ("val", .str "say \"hi\"")]) {}).result
      = .ret none none :=
  ⟨rfl, rfl⟩

/-- C35 fails on the code: `extractStepXml` looks for the first
`<step id="init">` of the whole document, so in a document with two flows
that each declare a step `init`, flow `b` is loaded with the elements of flow
`a`: its step `init` holds `sayHello name=A`, not the `endRoute` declared
inside it. -/
theorem parseDocument_takes_the_first_step_of_that_id :
    extractStepXml twoInitDocument "init" = "<step id=\"init\"><sayHello name=\"A\" /></step>" ∧
    (parseDocument twoInitDocument twoInitDecoded).map
        (fun doc => doc.Flows.map (fun kv => (kv.1, kv.2.Steps.map (fun ks =>
          (ks.1, ks.2.Elements.map (fun e => (e.Name, RegistryLoader.buildModel e)))))))
      = .ok [("a", [("init", [("sayHello", .mapModel [("name", .str "A")])])]),
             ("b", [("init", [("sayHello", .mapModel [("name", .str "A")])])])] :=
  ⟨rfl, rfl⟩

/-- C31 fails on the code: the scan of `extractElements` makes one element of
every opening tag and reads attributes only. On a step whose element `note`
has text content, the model of `note` has no key `content`, whatever elements
the step held before the scan; on a step whose element `collect` has a nested
tag `field`, the step has the two elements `collect` and `field`, and the
model of `collect` has no key `field`. -/
theorem nested_tags_and_text_are_not_attached :
    (∀ step : StepDefinition,
      (parseStepElements "<step id=\"s\"><note level=\"1\">hello</note></step>" step).map
          (fun step => step.Elements.map (fun e => (e.Name, RegistryLoader.buildModel e)))
        = .ok [("note", .mapModel [("level", .str "1")])]) ∧
    (extractElements "<collect><field name=\"x\" /></collect>").map
        (fun els => els.map (fun e => (e.Name, RegistryLoader.buildModel e)))
      = .ok [("collect", .mapModel []), ("field", .mapModel [("name", .str "x")])] :=
  ⟨fun _ => rfl, rfl⟩

/-- C33 (amended): for every customerAge `a` and transactionValue `v` that
are decimal integers and every non-empty countryCode `c` that does not lose a
trailing double quote, `RiskAssessment` run with these attributes on a
context with a runtime attached returns no output and no error, sets the
variable `riskLevel` to `high` if `c` is one of AF, IR, KP, SY or `v > 10000`,
otherwise to `medium` if `v > 5000` or `a < 25`, otherwise to `low`, and sets
`riskFactors` to `age=<a>,value=<v>,country=<c>`. -/
theorem riskAssessment_sets_level_and_factors (m : Mem) (model : Value) (ev : CdslInputEvent)
    (a v c : String)
    (hage : modelAttribute model "customerAge" = a)
    (hvalue : modelAttribute model "transactionValue" = v)
    (hcountry : modelAttribute model "countryCode" = c)
    (ha : isDecimalInteger a = true) (hv : isDecimalInteger v = true)
    (hc : c ≠ "") (hquote : stripTrailingQuote c = c) (hruntime : m.ctx.runtime = true) :
    (RiskAssessment m model ev).result = .ret none none ∧
    (RiskAssessment m model ev).mem.ctx.GetVar "riskLevel"
      = specRiskLevel (decimalValue a) (decimalValue v) c ∧
    (RiskAssessment m model ev).mem.ctx.GetVar "riskFactors"
      = "age=" ++ a ++ ",value=" ++ v ++ ",country=" ++ c := by
  have hlevel : (if (GoMap.get? highRiskCountries c).getD false = true then "high"
      else if strconvAtoi v > 10000 then "high"
      else if strconvAtoi v > 5000 ∨ strconvAtoi a < 25 then "medium"
      else "low") = specRiskLevel (decimalValue a) (decimalValue v) c := by
    rw [strconvAtoi_of_decimal a ha, strconvAtoi_of_decimal v hv]
    have e63 : (2 : Int) ^ 63 = 9223372036854775808 := by norm_num
    rw [e63]
    generalize decimalValue a = A
    generalize decimalValue v = V
    have hmap : ((GoMap.get? highRiskCountries c).getD false = true)
        ↔ (c = "AF" ∨ c = "IR" ∨ c = "KP" ∨ c = "SY") := by
      simp only [highRiskCountries, GoMap.get?]
      by_cases h1 : c = "AF"
      · simp [h1]
      · by_cases h2 : c = "IR"
        · simp [h2]
        · by_cases h3 : c = "KP"
          · simp [h3]
          · by_cases h4 : c = "SY"
            · simp [h4]
            · have e1 : ¬ "AF" = c := fun e => h1 e.symm
              have e2 : ¬ "IR" = c := fun e => h2 e.symm
              have e3 : ¬ "KP" = c := fun e => h3 e.symm
              have e4 : ¬ "SY" = c := fun e => h4 e.symm
              simp [h1, h2, h3, h4, e1, e2, e3, e4]
    unfold specRiskLevel
    by_cases hhigh : c = "AF" ∨ c = "IR" ∨ c = "KP" ∨ c = "SY"
    · have h1 : c = "AF" ∨ c = "IR" ∨ c = "KP" ∨ c = "SY" ∨ V > 10000 := by tauto
      rw [if_pos (hmap.2 hhigh), if_pos h1]
    · rw [if_neg (fun h => hhigh (hmap.1 h))]
      by_cases hV : V > 10000
      · have h1 : c = "AF" ∨ c = "IR" ∨ c = "KP" ∨ c = "SY" ∨ V > 10000 := by tauto
        have h2 : max (-9223372036854775808) (min V (9223372036854775808 - 1)) > 10000 := by
          rw [max_def, min_def]
          split_ifs <;> omega
        rw [if_pos h1, if_pos h2]
      · have h1 : ¬ (c = "AF" ∨ c = "IR" ∨ c = "KP" ∨ c = "SY" ∨ V > 10000) := by tauto
        have h2 : ¬ max (-9223372036854775808) (min V (9223372036854775808 - 1)) > 10000 := by
          rw [max_def, min_def]
          split_ifs <;> omega
        have h3 : (max (-9223372036854775808) (min V (9223372036854775808 - 1)) > 5000 ∨
            max (-9223372036854775808) (min A (9223372036854775808 - 1)) < 25)
            ↔ (V > 5000 ∨ A < 25) := by
          rw [max_def, min_def, max_def, min_def]
          split_ifs <;> omega
        rw [if_neg h1, if_neg h2]
        by_cases h4 : V > 5000 ∨ A < 25
        · rw [if_pos (h3.2 h4), if_pos h4]
        · rw [if_neg (fun h => h4 (h3.1 h)), if_neg h4]
  have ha0 := decimal_ne_empty a ha
  have hv0 := decimal_ne_empty v hv
  have haq := stripTrailingQuote_of_decimal a ha
  have hvq := stripTrailingQuote_of_decimal v hv
  unfold RiskAssessment
  simp only [hage, hvalue, hcountry, haq, hvq, hquote, ha0, hv0, hc, if_false, hlevel]
  simp only [CdslContext.PutVar, hruntime, Bool.true_eq_false, if_false, CdslContext.GetVar]
  refine ⟨trivial, ?_, ?_⟩
  · rw [GoMap.get?_put_of_ne _ _ _ _ (by decide), GoMap.get?_put_self]
    rfl
  · rw [GoMap.get?_put_self]
    rfl

/-- C33 (amended) on the attributes of the high-risk test, 22, 15000 and IR:
the level is `high` and the factors are `age=22,value=15000,country=IR`. -/
theorem riskAssessment_sets_level_and_factors_witness :
    (RiskAssessment { ctx := NewCdslContext.SetRuntime, runtime := NewCdslRuntime }
        highRiskModel {}).mem.ctx.GetVar "riskLevel" = "high" ∧
    (RiskAssessment { ctx := NewCdslContext.SetRuntime, runtime := NewCdslRuntime }
        highRiskModel {}).mem.ctx.GetVar "riskFactors" = "age=22,value=15000,country=IR" :=
  ⟨(riskAssessment_sets_level_and_factors
      { ctx := NewCdslContext.SetRuntime, runtime := NewCdslRuntime } highRiskModel {}
      "22" "15000" "IR" rfl rfl rfl rfl rfl (by decide) rfl rfl).2.1.trans (by
        simp [specRiskLevel]),
    (riskAssessment_sets_level_and_factors
      { ctx := NewCdslContext.SetRuntime, runtime := NewCdslRuntime } highRiskModel {}
      "22" "15000" "IR" rfl rfl rfl rfl rfl (by decide) rfl rfl).2.2⟩

/-- C33 as stated fails for a countryCode that ends in a double quote: with
age 30, value 100 and the country code `IR"`, which is none of AF, IR, KP and
SY, `RiskAssessment` sets `riskLevel` to `high`, not `low`, and `riskFactors`
to `age=30,value=100,country=IR`, without the quote. -/
theorem riskAssessment_drops_a_trailing_quote :
    (RiskAssessment { ctx := NewCdslContext.SetRuntime, runtime := NewCdslRuntime }
        (.mapModel [("customerAge", .str "30"), ("transactionValue", .str "100"),
          ("countryCode", .str "IR\"")]) {}).mem.ctx.GetVar "riskLevel" = "high" ∧
    specRiskLevel 30 100 "IR\"" = "low" ∧
    (RiskAssessment { ctx := NewCdslContext.SetRuntime, runtime := NewCdslRuntime }
        (.mapModel [("customerAge", .str "30"), ("transactionValue", .str "100"),
          ("countryCode", .str "IR\"")]) {}).mem.ctx.GetVar "riskFactors"
      = "age=30,value=100,country=IR" :=
  ⟨by decide, by decide, by decide⟩

/-- C32 (amended): for all non-empty `N`, `K`, `V` that do not lose a
trailing double quote, with `K` not `greeting`, and a non-empty new context
id: `Execute` of the hello flow with the DSLs of the test, an empty input
event and new collaborators returns, given fuel for two passes, an output
event and no error, with a non-empty contextId (the new id), contextState
`End`, `outputValues[greeting] = Hello, N!` and `outputValues[K] = V`. -/
theorem hello_flow_output (N K V newID : String) (fuel : Nat)
    (hN : N ≠ "") (hK : K ≠ "") (hV : V ≠ "")
    (hNq : stripTrailingQuote N = N) (hKq : stripTrailingQuote K = K)
    (hVq : stripTrailingQuote V = V) (hKg : K ≠ "greeting") (hid : newID ≠ "") :
    ∃ out, (Execute (NewFlowExecutor testDsls) (fuel + 2) newID (helloFlow N K V) {}
        emptyWorld).outcome = .ret out ∧
      out.ContextID ≠ "" ∧ out.ContextID = newID ∧ out.ContextState = "End" ∧
      GoMap.get? out.OutputValues "greeting" = some (.str ("Hello, " ++ N ++ "!")) ∧
      GoMap.get? out.OutputValues K = some (.str V) := by
  have hinit : (helloFlow N K V).FetchStep "init" = some _ := rfl
  obtain ⟨s1, step1, hit1, hstep1, hr1, hid1, hout1, hvars1⟩ :=
    hello_init N K V
      { mem := { ctx := ({ NewCdslContext with ID := newID, CurrentStep := "init" }).SetRuntime,
                 runtime := NewCdslRuntime.SetTransactionID ("context/" ++ newID) },
        trace := [Event.obtain "<anonymous>" ("context/" ++ newID)
            (some (NewLock ("context/" ++ newID) ("context/" ++ newID) "<anonymous>"
              30000000000 0)),
           Event.saveContext ("context/" ++ newID) { NewCdslContext with ID := newID },
           Event.getContext ("context/" ++ newID) newID] }
      _ hinit hN hK hV hNq hKq hVq rfl
  obtain ⟨s2, hit2, hid2, hstate2, hout2, hvars2⟩ := hello_end N K V s1 step1 hstep1
  have hsel : selectStep (helloFlow N K V) {}
      (NewLock ("context/" ++ newID) ("context/" ++ newID) "<anonymous>" 30000000000 0)
      { NewCdslContext with ID := newID }
      = ({ ctx := ({ NewCdslContext with ID := newID, CurrentStep := "init" }).SetRuntime,
           runtime := NewCdslRuntime.SetTransactionID ("context/" ++ newID) },
         .ok ((helloFlow N K V).FetchStep "init")) := rfl
  unfold Execute
  rw [hello_acquire]
  simp only [hsel, hinit, stepLoop, hit1, hit2, finish]
  simp only [commit, NewFlowExecutor,
    CdslContextRepositoryUnitTestSupport, LockProviderUnitTestSupport, ensureReleased]
  have hctx : s2.mem.ctx.ID = newID := by rw [hid2, hid1]; rfl
  have hvars : s2.mem.ctx.Vars
      = GoMap.put (GoMap.put [] "greeting" ("Hello, " ++ N ++ "!")) K V := by
    rw [hvars2, hvars1]
    rfl
  refine ⟨_, rfl, ?_, ?_, ?_, ?_, ?_⟩
  · simp only [buildOutput, hctx]
    exact hid
  · simp only [buildOutput, hctx]
  · simp only [buildOutput, hstate2]
    rfl
  · simp only [buildOutput]
    apply copyVars_get_of_var
    rw [hvars, GoMap.get?_put_of_ne _ _ _ _ (fun e => hKg e.symm), GoMap.get?_put_self]
  · simp only [buildOutput]
    apply copyVars_get_of_var
    rw [hvars, GoMap.get?_put_self]

/-- C32 (amended) at the values of the specification: `N = Go`, `K = myVar`,
`V = myVal`, with the new context id `c1`. -/
theorem hello_flow_output_witness :
    ∃ out, (Execute (NewFlowExecutor testDsls) 2 "c1" (helloFlow "Go" "myVar" "myVal") {}
        emptyWorld).outcome = .ret out ∧
      out.ContextID ≠ "" ∧ out.ContextID = "c1" ∧ out.ContextState = "End" ∧
      GoMap.get? out.OutputValues "greeting" = some (.str "Hello, Go!") ∧
      GoMap.get? out.OutputValues "myVar" = some (.str "myVal") :=
  hello_flow_output "Go" "myVar" "myVal" "c1" 0 (by decide) (by decide) (by decide) rfl rfl rfl
    (by decide) (by decide)

/-- C32 as stated fails for the empty name: with `N` empty the greeting of
the hello flow is `Hello, World!`, not `Hello, !`. -/
theorem hello_flow_greets_the_world :
    ∃ out, (Execute (NewFlowExecutor testDsls) 2 "c1" (helloFlow "" "myVar" "myVal") {}
        emptyWorld).outcome = .ret out ∧
      GoMap.get? out.OutputValues "greeting" = some (.str "Hello, World!") ∧
      "Hello, World!" ≠ "Hello, " ++ "" ++ "!" :=
  ⟨_, rfl, rfl, by decide⟩

/-- C39: for every successful `Execute`, with the entered steps taken at the
heads of the step loop: the action and nextRoute of the returned flow output
event are those of the result `r` of an entered step when no step entered
after it had a result (whatever those later steps were: the routed-to step,
the error step); they are empty when no entered step had a result; and, for
elements whose outputs carry an action (the contract of the specification:
Route, Await, End or Reject), an empty action is returned only when no
entered step had a result. -/
theorem output_action_is_of_last_result {σ ρ : Type} (e : FlowExecutor σ ρ) (fuel : Nat)
    (newID : String) (flow : Flow) (inputEvent : CdslInputEvent) (w : World σ ρ)
    (out : CdslFlowOutputEvent)
    (hret : (Execute e fuel newID flow inputEvent w).outcome = .ret out) :
    (∀ (k : Nat) (hd : LoopHead σ ρ) (step : FlowStep) (r : CdslOutputEvent),
      loopHead e newID flow inputEvent w k = some hd → hd.nextStep = some step →
      passResult e flow inputEvent step hd.state = some r →
      (∀ (j : Nat) (hd1 : LoopHead σ ρ) (step1 : FlowStep), k < j →
        loopHead e newID flow inputEvent w j = some hd1 → hd1.nextStep = some step1 →
        passResult e flow inputEvent step1 hd1.state = none) →
      out.Action = r.Action ∧ out.NextRoute = r.NextRoute) ∧
    ((∀ (k : Nat) (hd : LoopHead σ ρ) (step : FlowStep),
        loopHead e newID flow inputEvent w k = some hd → hd.nextStep = some step →
        passResult e flow inputEvent step hd.state = none) →
      out.Action = "" ∧ out.NextRoute = "") ∧
    ((∀ (k : Nat) (hd : LoopHead σ ρ) (step : FlowStep) (r : CdslOutputEvent),
        loopHead e newID flow inputEvent w k = some hd → hd.nextStep = some step →
        passResult e flow inputEvent step hd.state = some r → r.Action ≠ "") →
      out.Action = "" →
      ∀ (k : Nat) (hd : LoopHead σ ρ) (step : FlowStep),
        loopHead e newID flow inputEvent w k = some hd → hd.nextStep = some step →
        passResult e flow inputEvent step hd.state = none) := by
  obtain ⟨n, hdn, r1, l1, _, hhead, hend, _, _, hexec⟩ :=
    execute_ret_loopHead e fuel newID flow inputEvent w out hret
  rw [hexec] at hret
  simp only [Outcome.ret.injEq] at hret
  have hact : out.Action = (hdn.state.outputEvent.getD NewCdslFlowOutputEvent).Action := by
    rw [← hret]
    rfl
  have hroute : out.NextRoute
      = (hdn.state.outputEvent.getD NewCdslFlowOutputEvent).NextRoute := by
    rw [← hret]
    rfl
  have hlast := loopHead_lt_last e newID flow inputEvent w n hdn hhead hend
  have hshape := loopHead_outputEvent e newID flow inputEvent w n hdn hhead
  refine ⟨?_, ?_, ?_⟩
  · intro k hd step r hk hstep hres hlater
    have hkn := hlast k hd step hk hstep
    rcases hshape with ⟨_, hall⟩ | ⟨k1, h1, step1, r1, hk1n, hhk1, hstep1, hres1, hlater1, hev⟩
    · rw [hall k hd step hkn hk hstep] at hres
      simp at hres
    · have hkk : k1 = k := by
        by_contra hne
        by_cases hlt : k1 < k
        · rw [hlater1 k hd step hlt hkn hk hstep] at hres
          simp at hres
        · rw [hlater k1 h1 step1 (by omega) hhk1 hstep1] at hres1
          simp at hres1
      subst hkk
      rw [hk] at hhk1
      simp only [Option.some.injEq] at hhk1
      subst hhk1
      rw [hstep] at hstep1
      simp only [Option.some.injEq] at hstep1
      subst hstep1
      rw [hres] at hres1
      simp only [Option.some.injEq] at hres1
      subst hres1
      rw [hact, hroute, hev]
      exact ⟨rfl, rfl⟩
  · intro hnone
    rcases hshape with ⟨hev, _⟩ | ⟨k1, h1, step1, r1, hk1n, hhk1, hstep1, hres1, _, _⟩
    · rw [hact, hroute, hev]
      exact ⟨rfl, rfl⟩
    · rw [hnone k1 h1 step1 hhk1 hstep1] at hres1
      simp at hres1
  · intro hcontract hempty k hd step hk hstep
    rcases hshape with ⟨_, hall⟩ | ⟨k1, h1, step1, r1, hk1n, hhk1, hstep1, hres1, _, hev⟩
    · exact hall k hd step (hlast k hd step hk hstep) hk hstep
    · have hne := hcontract k1 h1 step1 r1 hhk1 hstep1 hres1
      rw [hact, hev] at hempty
      exact absurd hempty hne

/-- C39 on a flow whose step `init` routes to `second`, a step without a
result: the returned event carries the action `Route` and the next route
`second` of the result of `init`. -/
theorem output_action_is_of_last_result_witness :
    (Execute (NewFlowExecutor testDsls) 8 "c1" routeThenQuietFlow {} emptyWorld).outcome
      = .ret { ContextID := "c1", ContextState := "Undefined", Action := ActionRoute,
               NextRoute := "second", OutputValues := [("x", .str "y")] } ∧
    (∃ hd step, loopHead (NewFlowExecutor testDsls) "c1" routeThenQuietFlow {} emptyWorld 0
        = some hd ∧ hd.nextStep = some step ∧
      passResult (NewFlowExecutor testDsls) routeThenQuietFlow {} step hd.state
        = some { Action := ActionRoute, NextRoute := "second" }) ∧
    (∀ (k : Nat) (hd : LoopHead TestLocks (GoMap CdslContext)) (step : FlowStep)
        (r : CdslOutputEvent),
      loopHead (NewFlowExecutor testDsls) "c1" routeThenQuietFlow {} emptyWorld k = some hd →
      hd.nextStep = some step →
      passResult (NewFlowExecutor testDsls) routeThenQuietFlow {} step hd.state = some r →
      (∀ (j : Nat) (hd1 : LoopHead TestLocks (GoMap CdslContext)) (step1 : FlowStep), k < j →
        loopHead (NewFlowExecutor testDsls) "c1" routeThenQuietFlow {} emptyWorld j = some hd1 →
        hd1.nextStep = some step1 →
        passResult (NewFlowExecutor testDsls) routeThenQuietFlow {} step1 hd1.state = none) →
      ActionRoute = r.Action ∧ "second" = r.NextRoute) :=
  ⟨rfl, ⟨_, _, rfl, rfl, rfl⟩,
    (output_action_is_of_last_result (NewFlowExecutor testDsls) 8 "c1" routeThenQuietFlow {}
      emptyWorld
      { ContextID := "c1", ContextState := "Undefined", Action := ActionRoute,
        NextRoute := "second", OutputValues := [("x", .str "y")] } rfl).1⟩

end Cdsl
